import Mathlib

/-!
# Pipeline coordinator of the GPU <-> vFPGA micro-benchmarks

Shallow embedding of `experiments/1_microbenchmarks/sw/two_sided/src/main.cpp`
and `experiments/1_microbenchmarks/sw/one_sided/src/main.cpp`.

The device side (HIP runtime, Coyote thread, clock) is an environment `World`
of call-indexed answers: the `k`-th call of an API function returns the `k`-th
entry of the corresponding sequence.  The program is a state transformer over
`State`, which holds the program variables, the number of answers consumed so
far, and the sequence `trace` of API calls made, in program order.  Spin loops
take a bound on the number of their iterations.  Loop counters and sizes are
natural numbers.
-/

namespace Ropeerto

/-! ## External interface -/

/-- Status returned by the HIP runtime: success, the "not ready" answer of a
status query, or any other error code. -/
inductive hipError_t where
  | hipSuccess
  | hipErrorNotReady
  | hipErrorOther (code : Nat)
  deriving DecidableEq, Repr

/-- Operation categories of a Coyote thread. -/
inductive CoyoteOper where
  | LOCAL_READ
  | LOCAL_WRITE
  | LOCAL_TRANSFER
  deriving DecidableEq, Repr

/-- Control registers of the one-sided benchmark vFPGA. -/
inductive BenchmarkRegisters where
  | CTRL_REG
  | VADDR_REG
  | LEN_REG
  | PID_REG
  | N_REPS_REG
  | N_BEATS_REG
  deriving DecidableEq, Repr

/-- Value written to `CTRL_REG`: 0x1 starts a read, 0x2 starts a write. -/
inductive BenchmarkOperation where
  | START_RD
  | START_WR
  deriving DecidableEq, Repr

/-- Numeric value of a `BenchmarkOperation`. -/
def BenchmarkOperation.toNat : BenchmarkOperation → Nat
  | .START_RD => 1
  | .START_WR => 2

/-- One call made by the program to the device side, with the answer it got. -/
inductive Event where
  | clearCompleted
  | hipDeviceSynchronize
  | hipMemcpy
  | sleep_for
  | perf_start
  | perf_stop
  | now (t : Nat)
  | hipMemcpyAsyncD2H (stream : Nat) (status : hipError_t)
  | hipMemcpyAsyncH2D (stream : Nat) (status : hipError_t)
  | hipStreamQuery (stream : Nat) (status : hipError_t)
  | invoke (oper : CoyoteOper) (i : Nat)
  | checkCompleted (oper : CoyoteOper) (reading : Nat)
  | setCSR (reg : BenchmarkRegisters) (val : Nat)
  | add_new
  deriving DecidableEq, Repr

/-- The environment: the answer of the `k`-th call of each API function. -/
structure World where
  /-- status of the `k`-th `hipStreamQuery` -/
  hipStreamQuery : Nat → hipError_t
  /-- value of the `k`-th `checkCompleted` -/
  checkCompleted : Nat → Nat
  /-- status of the `k`-th `hipMemcpyAsync` -/
  hipMemcpyAsync : Nat → hipError_t
  /-- status of the `k`-th `hipDeviceSynchronize` -/
  hipDeviceSynchronize : Nat → hipError_t
  /-- nanoseconds shown by the clock at its `k`-th reading -/
  now : Nat → Nat
  /-- samples (power W, utilization %) gathered by the sampling thread during
  its `k`-th activation -/
  sampled : Nat → List (ℚ × ℚ)
  /-- value of the `k`-th `rand()` -/
  rand : Nat → Nat
  /-- element `i` of the destination buffer copied back after the `k`-th run -/
  gpu_dst : Nat → Nat → Int

/-! ## Performance monitor and metrics (two-sided benchmark) -/

/-- Fields of `class PerfMonitor`. -/
structure PerfMonitor where
  running : Bool
  samples : List (ℚ × ℚ)
  deriving DecidableEq, Repr

/-- Sum of a sequence of values, as the accumulation loops compute it. -/
def vector_sum (vec : List ℚ) : ℚ :=
  vec.foldl (fun sum val => sum + val) 0

/-- `PerfMonitor::avg_power` -/
def PerfMonitor.avg_power (m : PerfMonitor) : ℚ :=
  let sum := vector_sum (m.samples.map Prod.fst)
  if m.samples.isEmpty then 0 else sum / m.samples.length

/-- `PerfMonitor::avg_util` -/
def PerfMonitor.avg_util (m : PerfMonitor) : ℚ :=
  let sum := vector_sum (m.samples.map Prod.snd)
  if m.samples.isEmpty then 0 else sum / m.samples.length

/-- Fields of `class PerfMetrics`. -/
structure PerfMetrics where
  latencies : List ℚ
  gpu_powers : List ℚ
  gpu_utils : List ℚ
  deriving DecidableEq, Repr

/-- `PerfMetrics::add_new` -/
def PerfMetrics.add_new (p : PerfMetrics) (latency gpu_power gpu_util : ℚ) : PerfMetrics :=
  { latencies := p.latencies ++ [latency],
    gpu_powers := p.gpu_powers ++ [gpu_power],
    gpu_utils := p.gpu_utils ++ [gpu_util] }

/-! ## Program state -/

/-- Variables of `run_bench` together with the bookkeeping of the environment. -/
structure State where
  /-- API calls made so far, oldest first -/
  trace : List Event
  nQuery : Nat
  nCheck : Nat
  nMemcpy : Nat
  nSync : Nat
  nClock : Nat
  nStart : Nat
  nRand : Nat
  nRun : Nat
  stream_completed : List Bool
  gpu_to_cpu_done : Bool
  completed_coyote : Nat
  ret_val : hipError_t
  begin_time : Nat
  warm_up : Bool
  perf_monitor : PerfMonitor
  perf_metrics : PerfMetrics
  /-- result of the one-sided `run_bench` -/
  times : List ℚ
  deriving DecidableEq, Repr

/-- State of a process that has made no call yet. -/
def State.init : State :=
  { trace := [], nQuery := 0, nCheck := 0, nMemcpy := 0, nSync := 0, nClock := 0,
    nStart := 0, nRand := 0, nRun := 0, stream_completed := [], gpu_to_cpu_done := false,
    completed_coyote := 0, ret_val := .hipSuccess, begin_time := 0, warm_up := false,
    perf_monitor := { running := false, samples := [] },
    perf_metrics := { latencies := [], gpu_powers := [], gpu_utils := [] },
    times := [] }

/-- Record one API call. -/
def State.emit (s : State) (e : Event) : State :=
  { s with trace := s.trace ++ [e] }

/-! ## Two-sided benchmark: `run_bench` of `two_sided/src/main.cpp` -/

namespace TwoSided

/-- `PerfMonitor::start` -/
def perf_monitor_start (s : State) : State :=
  { s with
    perf_monitor := { running := true, samples := [] },
    trace := s.trace ++ [Event.perf_start] }

/-- `PerfMonitor::stop`: clears the flag and joins the sampling thread, whose
samples are in `samples` from then on. -/
def perf_monitor_stop (w : World) (s : State) : State :=
  if s.perf_monitor.running then
    { s with
      perf_monitor :=
        { running := false, samples := s.perf_monitor.samples ++ w.sampled s.nStart },
      nStart := s.nStart + 1,
      trace := s.trace ++ [Event.perf_stop] }
  else
    { s with trace := s.trace ++ [Event.perf_stop] }

/-- `hipDeviceSynchronize()` whose status is only printed (`HIP_CHECK`). -/
def deviceSynchronizeChecked (s : State) : State :=
  { s with nSync := s.nSync + 1, trace := s.trace ++ [Event.hipDeviceSynchronize] }

/-- `ret_val = hipDeviceSynchronize();` -/
def deviceSynchronize (w : World) (s : State) : State :=
  { s with
    ret_val := w.hipDeviceSynchronize s.nSync,
    nSync := s.nSync + 1,
    trace := s.trace ++ [Event.hipDeviceSynchronize] }

/-- The lambda `prep_fn`, called before every iteration. -/
def prep_fn (transfers : Nat) (gpu_perf_monitoring : Bool) (s : State) : State :=
  let s := s.emit Event.clearCompleted
  let s := deviceSynchronizeChecked s
  let s := { s with
    stream_completed :=
      (List.range transfers).foldl (fun sc i => sc.set i false) s.stream_completed }
  if gpu_perf_monitoring then s.emit Event.sleep_for else s

/-- `ret_val = hipMemcpyAsync(cpu_src.first, gpu_src, size, hipMemcpyDeviceToHost,
hip_streams_d2h[i]);` -/
def memcpyD2H (w : World) (s : State) (i : Nat) : State :=
  { s with
    ret_val := w.hipMemcpyAsync s.nMemcpy,
    nMemcpy := s.nMemcpy + 1,
    trace := s.trace ++ [Event.hipMemcpyAsyncD2H i (w.hipMemcpyAsync s.nMemcpy)] }

/-- `ret_val = hipMemcpyAsync(gpu_dst, cpu_dst.first, size, hipMemcpyHostToDevice,
hip_streams_h2d[i]);` -/
def memcpyH2D (w : World) (s : State) (i : Nat) : State :=
  { s with
    ret_val := w.hipMemcpyAsync s.nMemcpy,
    nMemcpy := s.nMemcpy + 1,
    trace := s.trace ++ [Event.hipMemcpyAsyncH2D i (w.hipMemcpyAsync s.nMemcpy)] }

/-- The loop `for (int i = 0; i < transfers; i++)` issuing the device-to-host copies. -/
def issueD2H (w : World) (transfers : Nat) (s : State) : State :=
  (List.range transfers).foldl (memcpyD2H w) s

/-- Body of the `for` loop inside `while (!gpu_to_cpu_done)`, at index `i`. -/
def pollStep (w : World) (s : State) (i : Nat) : State :=
  let status := w.hipStreamQuery s.nQuery
  let s := { s with
    nQuery := s.nQuery + 1,
    trace := s.trace ++ [Event.hipStreamQuery i status] }
  if status ≠ hipError_t.hipSuccess then
    { s with gpu_to_cpu_done := false }
  else if !(s.stream_completed.getD i false) then
    { s with
      trace := s.trace ++ [Event.invoke CoyoteOper.LOCAL_TRANSFER i],
      stream_completed := s.stream_completed.set i true }
  else
    s

/-- Body of `while (!gpu_to_cpu_done)`: one pass over all streams. -/
def pollPass (w : World) (transfers : Nat) (s : State) : State :=
  (List.range transfers).foldl (pollStep w) { s with gpu_to_cpu_done := true }

/-- The loop `while (!gpu_to_cpu_done)`, cut after `fuel` passes.  It has exited in
the state returned iff `gpu_to_cpu_done` holds there. -/
def pollLoop (w : World) (transfers : Nat) : Nat → State → State
  | 0, s => s
  | fuel + 1, s =>
    if s.gpu_to_cpu_done then s else pollLoop w transfers fuel (pollPass w transfers s)

/-- Body of `while (completed_coyote < transfers)`. -/
def h2dBody (w : World) (s : State) : State :=
  let old_completed_coyote := s.completed_coyote
  let reading := w.checkCompleted s.nCheck
  let s := { s with
    completed_coyote := reading,
    nCheck := s.nCheck + 1,
    trace := s.trace ++ [Event.checkCompleted CoyoteOper.LOCAL_TRANSFER reading] }
  (List.range' old_completed_coyote (reading - old_completed_coyote)).foldl (memcpyH2D w) s

/-- The loop `while (completed_coyote < transfers)`, cut after `fuel` iterations.  It
has exited in the state returned iff `completed_coyote < transfers` fails there. -/
def h2dLoop (w : World) (transfers : Nat) : Nat → State → State
  | 0, s => s
  | fuel + 1, s =>
    if s.completed_coyote < transfers then h2dLoop w transfers fuel (h2dBody w s) else s

/-- The loop `for (int i = 0; i < transfers; i++) coyote_thread.invoke(LOCAL_TRANSFER, ...)`
of the P2P case. -/
def invokeAll (transfers : Nat) (s : State) : State :=
  (List.range transfers).foldl (fun s i => s.emit (Event.invoke CoyoteOper.LOCAL_TRANSFER i)) s

/-- The loop `while (coyote_thread.checkCompleted(oper) != target) {}`, cut after `fuel`
readings; `none` when it has not exited by then. -/
def waitCompleted (w : World) (oper : CoyoteOper) (target : Nat) : Nat → State → Option State
  | 0, _ => none
  | fuel + 1, s =>
    let reading := w.checkCompleted s.nCheck
    let s := { s with
      nCheck := s.nCheck + 1,
      trace := s.trace ++ [Event.checkCompleted oper reading] }
    if reading ≠ target then waitCompleted w oper target fuel s else some s

/-- Non-P2P case of `bench_fn`, up to and including the loop `while (!gpu_to_cpu_done)`. -/
def stagedFirstPhase (w : World) (transfers fuel : Nat) (s : State) : State :=
  let s := issueD2H w transfers s
  pollLoop w transfers fuel { s with gpu_to_cpu_done := false }

/-- Non-P2P case of `bench_fn`, the loop `while (completed_coyote < transfers)`. -/
def stagedSecondPhase (w : World) (transfers fuel : Nat) (s : State) : State :=
  h2dLoop w transfers fuel { s with completed_coyote := 0 }

/-- Non-P2P case of `bench_fn`; `none` when a loop has not exited within `fuel`
iterations. -/
def stagedBranch (w : World) (transfers fuel : Nat) (s : State) : Option State :=
  let s := stagedFirstPhase w transfers fuel s
  if s.gpu_to_cpu_done then
    let s := stagedSecondPhase w transfers fuel s
    if s.completed_coyote < transfers then none
    else some (deviceSynchronize w s)
  else none

/-- P2P case of `bench_fn`; its `hipDeviceSynchronize` status goes to a local variable
that is not read. -/
def p2pBranch (w : World) (transfers fuel : Nat) (s : State) : Option State :=
  let s := invokeAll transfers s
  (waitCompleted w CoyoteOper.LOCAL_TRANSFER transfers fuel s).map deviceSynchronizeChecked

/-- Start of `bench_fn`: start the monitor if asked to, take `begin_time`. -/
def benchBegin (w : World) (gpu_perf_monitoring : Bool) (s : State) : State :=
  let s := if gpu_perf_monitoring then perf_monitor_start s else s
  { s with
    begin_time := w.now s.nClock,
    nClock := s.nClock + 1,
    trace := s.trace ++ [Event.now (w.now s.nClock)] }

/-- End of `bench_fn`: stop the monitor if asked to, take `end_time`, store the metrics
unless warming up. -/
def benchEnd (w : World) (gpu_perf_monitoring : Bool) (s : State) : State :=
  let s := if gpu_perf_monitoring then perf_monitor_stop w s else s
  let end_time := w.now s.nClock
  let s := { s with nClock := s.nClock + 1, trace := s.trace ++ [Event.now end_time] }
  let elapsed_time : ℚ := ((end_time : Int) - (s.begin_time : Int) : Int)
  if !s.warm_up then
    { s with
      perf_metrics :=
        s.perf_metrics.add_new elapsed_time s.perf_monitor.avg_power s.perf_monitor.avg_util,
      trace := s.trace ++ [Event.add_new] }
  else s

/-- The lambda `bench_fn`: one iteration of the benchmark. -/
def bench_fn (w : World) (transfers : Nat) (mode gpu_perf_monitoring : Bool) (fuel : Nat)
    (s : State) : Option State :=
  let s := benchBegin w gpu_perf_monitoring s
  let r := if !mode then stagedBranch w transfers fuel s else p2pBranch w transfers fuel s
  r.map (benchEnd w gpu_perf_monitoring)

/-- One iteration: `prep_fn(); bench_fn();` -/
def iteration (w : World) (transfers : Nat) (mode gpu_perf_monitoring : Bool) (fuel : Nat)
    (s : State) : Option State :=
  bench_fn w transfers mode gpu_perf_monitoring fuel (prep_fn transfers gpu_perf_monitoring s)

/-- The loop `for (j = 0; j < n; j++) { prep_fn(); bench_fn(); }`. -/
def iterations (w : World) (transfers : Nat) (mode gpu_perf_monitoring : Bool) (fuel : Nat) :
    Nat → State → Option State
  | 0, s => some s
  | n + 1, s =>
    (iteration w transfers mode gpu_perf_monitoring fuel s).bind
      (iterations w transfers mode gpu_perf_monitoring fuel n)

/-- The inputs `inputs[i] = rand() % 1024 - 512` drawn by a run starting in `s`. -/
def inputs (w : World) (s : State) (i : Nat) : Int :=
  ((w.rand (s.nRand + i) % 1024 : Nat) : Int) - 512

/-- The validation loop at the end of `run_bench`: is there an index with
`(inputs[i] + 1) != results[i]`? -/
def wrongResult (w : World) (size : Nat) (s0 s : State) : Bool :=
  (List.range (size / 4)).any (fun i => decide (inputs w s0 i + 1 ≠ w.gpu_dst s.nRun i))

/-- `run_bench`: 50 warm-up iterations, `n_runs` measured ones, then validation.
`none`: a loop has not exited within `fuel` iterations; `error`: the exception thrown. -/
def run_bench (w : World) (size transfers n_runs : Nat) (mode gpu_perf_monitoring : Bool)
    (fuel : Nat) (s0 : State) : Option (Except String State) :=
  let s := { s0 with
    perf_metrics := { latencies := [], gpu_powers := [], gpu_utils := [] },
    nRand := s0.nRand + size / 4,
    trace := s0.trace ++ [Event.hipMemcpy, Event.hipMemcpy],
    stream_completed := List.replicate transfers false }
  let s := { s with warm_up := true }
  (iterations w transfers mode gpu_perf_monitoring fuel 50 s).bind fun s =>
  let s := { s with warm_up := false }
  (iterations w transfers mode gpu_perf_monitoring fuel n_runs s).bind fun s =>
  let s := s.emit Event.hipMemcpy
  if wrongResult w size s0 s then some (Except.error "Wrong result!")
  else some (Except.ok { s with nRun := s.nRun + 1 })

end TwoSided

/-! ## One-sided benchmark: `run_bench` of `one_sided/src/main.cpp` -/

namespace OneSided

/-- `#define N_THROUGHPUT_REPS 16` -/
def N_THROUGHPUT_REPS : Nat := 16

/-- The completion counter polled by `benchmark_run` for `oper`. -/
def polledOper : BenchmarkOperation → CoyoteOper
  | .START_RD => CoyoteOper.LOCAL_READ
  | .START_WR => CoyoteOper.LOCAL_WRITE

/-- `uint64_t n_beats = transfers * ((size + 64 - 1) / 64);` with `unsigned int`
operands. -/
def n_beats (transfers size : Nat) : Nat :=
  (transfers * (((size + 64 - 1) % 2 ^ 32) / 64)) % 2 ^ 32

/-- The completion count `benchmark_run` waits for: the literal `1` of
`while (coyote_thread.checkCompleted(...) != 1) {}`. -/
def awaitedCount : Nat := 1

/-- The lambda `benchmark_run`: a single iteration of `transfers` reads or writes.
Returns the state and the elapsed nanoseconds; `none` when the polling loop has not
exited within `fuel` readings. -/
def benchmark_run (w : World) (size mem ctid transfers : Nat) (oper : BenchmarkOperation)
    (fuel : Nat) (s : State) : Option (State × ℚ) :=
  let s := s.emit Event.clearCompleted
  let s := s.emit (Event.setCSR BenchmarkRegisters.VADDR_REG mem)
  let s := s.emit (Event.setCSR BenchmarkRegisters.LEN_REG size)
  let s := s.emit (Event.setCSR BenchmarkRegisters.PID_REG ctid)
  let s := s.emit (Event.setCSR BenchmarkRegisters.N_REPS_REG transfers)
  let s := s.emit (Event.setCSR BenchmarkRegisters.N_BEATS_REG (n_beats transfers size))
  let start_time := w.now s.nClock
  let s := { s with nClock := s.nClock + 1, trace := s.trace ++ [Event.now start_time] }
  let s := s.emit (Event.setCSR BenchmarkRegisters.CTRL_REG oper.toNat)
  (TwoSided.waitCompleted w (polledOper oper) awaitedCount fuel s).map fun s =>
    let end_time := w.now s.nClock
    let s := { s with nClock := s.nClock + 1, trace := s.trace ++ [Event.now end_time] }
    (s, (((end_time : Int) - (start_time : Int) : Int) : ℚ))

/-- The warm-up loop `for (int j = 0; j < 50; j++) { benchmark_run(); }`, as a loop of
`n` iterations. -/
def warmUp (w : World) (size mem ctid transfers : Nat) (oper : BenchmarkOperation)
    (fuel : Nat) : Nat → State → Option State
  | 0, s => some s
  | n + 1, s =>
    (benchmark_run w size mem ctid transfers oper fuel s).bind fun r =>
      warmUp w size mem ctid transfers oper fuel n r.1

/-- The measured loop `for (int j = 0; j < n_runs; j++) { double t = benchmark_run();
times.push_back(t); }`. -/
def measured (w : World) (size mem ctid transfers : Nat) (oper : BenchmarkOperation)
    (fuel : Nat) : Nat → State → Option State
  | 0, s => some s
  | n + 1, s =>
    (benchmark_run w size mem ctid transfers oper fuel s).bind fun r =>
      measured w size mem ctid transfers oper fuel n { r.1 with times := r.1.times ++ [r.2] }

/-- `run_bench`: 50 warm-up iterations, then `n_runs` measured ones; the result is the
field `times` of the final state. -/
def run_bench (w : World) (size mem ctid transfers n_runs : Nat) (oper : BenchmarkOperation)
    (fuel : Nat) (s0 : State) : Option State :=
  (warmUp w size mem ctid transfers oper fuel 50 s0).bind fun s =>
    measured w size mem ctid transfers oper fuel n_runs { s with times := [] }

end OneSided

/-! ## Notions used to state the properties -/

namespace TwoSided

/-- The events a run has added to the trace between the states `s` and `t`. -/
def eventsSince (s t : State) : List Event :=
  t.trace.drop s.trace.length

/-- The indices of the `LOCAL_TRANSFER` invokes of a trace, in the order of the calls. -/
def invokedIndices (tr : List Event) : List Nat :=
  tr.filterMap fun e =>
    match e with
    | Event.invoke CoyoteOper.LOCAL_TRANSFER i => some i
    | _ => none

/-- In a trace segment, every `LOCAL_TRANSFER` invoke is for an index below `transfers`
and directly follows a successful status query of the stream with that index. -/
def InvokeGuarded (transfers : Nat) (seg : List Event) : Prop :=
  ∀ pre post i, seg = pre ++ Event.invoke CoyoteOper.LOCAL_TRANSFER i :: post →
    i < transfers ∧ ∃ pre', pre = pre' ++ [Event.hipStreamQuery i hipError_t.hipSuccess]

/-- The events a state has added to the trace `t0` satisfy `P`. -/
def Extends (t0 : List Event) (P : List Event → Prop) (s : State) : Prop :=
  ∃ seg, s.trace = t0 ++ seg ∧ P seg

/-- The events added by the loop issuing the device-to-host copies from state `s`. -/
def d2hEvents (w : World) (transfers : Nat) (s : State) : List Event :=
  (List.range transfers).map fun i =>
    Event.hipMemcpyAsyncD2H i (w.hipMemcpyAsync (s.nMemcpy + i))

end TwoSided

namespace TwoSided

/-- Bookkeeping invariant of the staging poll: relative to the trace `t0`, the indices
invoked so far are pairwise distinct and are those whose flag is set. -/
def PollInv (transfers : Nat) (t0 : List Event) (s : State) : Prop :=
  ∃ seg, s.trace = t0 ++ seg ∧ s.stream_completed.length = transfers ∧
    (invokedIndices seg).Nodup ∧
    ∀ i, i ∈ invokedIndices seg ↔ (i < transfers ∧ s.stream_completed[i]? = some true)

/-- Loop invariant of `while (!gpu_to_cpu_done)`. -/
def PollLoopInv (transfers : Nat) (t0 : List Event) (s : State) : Prop :=
  PollInv transfers t0 s ∧
    (s.gpu_to_cpu_done = true → ∀ j : Nat, j < transfers → s.stream_completed[j]? = some true)

/-- The events of `prep_fn`. -/
def prepEvents (gpu_perf_monitoring : Bool) : List Event :=
  [Event.clearCompleted, Event.hipDeviceSynchronize] ++
    (if gpu_perf_monitoring then [Event.sleep_for] else [])

/-- The events of the start of `bench_fn` from state `s`. -/
def beginEvents (w : World) (gpu_perf_monitoring : Bool) (s : State) : List Event :=
  (if gpu_perf_monitoring then [Event.perf_start] else []) ++ [Event.now (w.now s.nClock)]

end TwoSided

namespace TwoSided

/-- The stream indices of the host-to-device copies of a trace, in the order of the calls. -/
def h2dIndices (tr : List Event) : List Nat :=
  tr.filterMap fun e =>
    match e with
    | Event.hipMemcpyAsyncH2D i _ => some i
    | _ => none

/-- In a trace segment, every host-to-device copy on stream `i` comes after a reading of
the `LOCAL_TRANSFER` completion counter that is at least `i + 1`. -/
def CopyAfterReading (seg : List Event) : Prop :=
  ∀ pre post i status, seg = pre ++ Event.hipMemcpyAsyncH2D i status :: post →
    ∃ reading, Event.checkCompleted CoyoteOper.LOCAL_TRANSFER reading ∈ pre ∧ i + 1 ≤ reading

/-- Invariant of `while (completed_coyote < transfers)` relative to the trace `t0`: the
copies issued so far are those for the indices below `completed_coyote`, in increasing
order, each after a large enough reading. -/
def H2dInv (t0 : List Event) (s : State) : Prop :=
  ∃ seg, s.trace = t0 ++ seg ∧ h2dIndices seg = List.range s.completed_coyote ∧
    CopyAfterReading seg

end TwoSided

namespace TwoSided

/-- The events of a polling loop that takes `n` readings of the counter of `oper`
from state `s`. -/
def pollEvents (w : World) (oper : CoyoteOper) (s : State) (n : Nat) : List Event :=
  (List.range n).map fun j => Event.checkCompleted oper (w.checkCompleted (s.nCheck + j))

/-- The events of the loop invoking `transfers` operations. -/
def invokeEvents (transfers : Nat) : List Event :=
  (List.range transfers).map fun i => Event.invoke CoyoteOper.LOCAL_TRANSFER i

end TwoSided

namespace TwoSided

/-- Calls that start an operation: an asynchronous copy, a Coyote invoke, or the write of
`CTRL_REG`. -/
def isIssue : Event → Bool
  | Event.hipMemcpyAsyncD2H _ _ => true
  | Event.hipMemcpyAsyncH2D _ _ => true
  | Event.invoke _ _ => true
  | Event.setCSR BenchmarkRegisters.CTRL_REG _ => true
  | _ => false

/-- Calls that read a completion status. -/
def isPoll : Event → Bool
  | Event.hipStreamQuery _ _ => true
  | Event.checkCompleted _ _ => true
  | _ => false

/-- The state `t` is reached from `s` by issuing operations and polling only: the clock,
the monitor, the metrics and the warm-up flag are untouched, and every call added to the
trace is an issue or a poll. -/
structure Runs (s t : State) : Prop where
  nClock : t.nClock = s.nClock
  nStart : t.nStart = s.nStart
  nRand : t.nRand = s.nRand
  nRun : t.nRun = s.nRun
  nSync : t.nSync = s.nSync
  warm_up : t.warm_up = s.warm_up
  begin_time : t.begin_time = s.begin_time
  perf_monitor : t.perf_monitor = s.perf_monitor
  perf_metrics : t.perf_metrics = s.perf_metrics
  times : t.times = s.times
  length : t.stream_completed.length = s.stream_completed.length
  events : ∃ seg, t.trace = s.trace ++ seg ∧ ∀ e ∈ seg, isIssue e = true ∨ isPoll e = true

end TwoSided

namespace TwoSided

/-- A device on which every status query succeeds, every call returns success, the
completion counter always reads `n`, the clock advances by 10 ns per reading and the
destination holds `dst` everywhere. -/
def readyWorld (n : Nat) (dst : Int) : World :=
  { hipStreamQuery := fun _ => hipError_t.hipSuccess,
    checkCompleted := fun _ => n,
    hipMemcpyAsync := fun _ => hipError_t.hipSuccess,
    hipDeviceSynchronize := fun _ => hipError_t.hipSuccess,
    now := fun k => 10 * k,
    sampled := fun _ => [],
    rand := fun _ => 0,
    gpu_dst := fun _ _ => dst }

/-- The state at the start of a run with `transfers` streams. -/
def startState (transfers : Nat) : State :=
  { State.init with stream_completed := List.replicate transfers false }

end TwoSided

namespace TwoSided

/-- The events of the end of `bench_fn`: monitor stop if asked for, `end_time`, and the
storing of the metrics outside warm-up. -/
def endEvents (gpu_perf_monitoring : Bool) (end_time : Nat) (warm_up : Bool) : List Event :=
  (if gpu_perf_monitoring then [Event.perf_stop] else []) ++ [Event.now end_time] ++
    (if warm_up then [] else [Event.add_new])

/-- Relative to the trace `t0`, a host-to-device copy has been issued for every index
below `completed_coyote`. -/
def CopiedBelow (t0 : List Event) (s : State) : Prop :=
  ∃ seg, s.trace = t0 ++ seg ∧
    ∀ i, i < s.completed_coyote → ∃ status, Event.hipMemcpyAsyncH2D i status ∈ seg

/-- The events of one `bench_fn` around the operations and polls `body` of its branch. -/
def benchEvents (w : World) (g : Bool) (s : State) (body : List Event) : List Event :=
  beginEvents w g s ++ body ++ [Event.hipDeviceSynchronize] ++
    endEvents g (w.now (s.nClock + 1)) s.warm_up

/-- The elapsed time measured by the iteration that starts in state `s`. -/
def elapsedFrom (w : World) (s : State) : ℚ :=
  (((w.now (s.nClock + 1) : Int) - (w.now s.nClock : Int) : Int) : ℚ)

end TwoSided

namespace TwoSided

/-- The events of one iteration `prep_fn(); bench_fn();` that starts in state `s`, around
the operations and polls `body` of its branch. -/
def iterationEvents (w : World) (g : Bool) (s : State) (body : List Event) : List Event :=
  prepEvents g ++ benchEvents w g s body

/-- The shape of the events of one iteration: `clearCompleted` comes first and only once. -/
def ClearedFirst (seg : List Event) : Prop :=
  ∃ rest, seg = Event.clearCompleted :: rest ∧ Event.clearCompleted ∉ rest

/-- Elapsed nanoseconds between the clock readings number `c` and `c + 1`. -/
def elapsedAt (w : World) (c : Nat) : ℚ :=
  (((w.now (c + 1) : Int) - (w.now c : Int) : Int) : ℚ)

/-- The elapsed times of `n` successive iterations, the first of which takes the clock
readings number `c` and `c + 1`. -/
def elapsedTimes (w : World) (c n : Nat) : List ℚ :=
  (List.range n).map fun j => elapsedAt w (c + 2 * j)

end TwoSided

namespace OneSided

/-- The events of `benchmark_run` before its polling loop, from state `s`. -/
def setupEvents (w : World) (size mem ctid transfers : Nat) (oper : BenchmarkOperation)
    (s : State) : List Event :=
  [Event.clearCompleted,
    Event.setCSR BenchmarkRegisters.VADDR_REG mem,
    Event.setCSR BenchmarkRegisters.LEN_REG size,
    Event.setCSR BenchmarkRegisters.PID_REG ctid,
    Event.setCSR BenchmarkRegisters.N_REPS_REG transfers,
    Event.setCSR BenchmarkRegisters.N_BEATS_REG (n_beats transfers size),
    Event.now (w.now s.nClock),
    Event.setCSR BenchmarkRegisters.CTRL_REG oper.toNat]

/-- The events of a `benchmark_run` from state `s` whose polling loop takes `n` readings. -/
def runEvents (w : World) (size mem ctid transfers : Nat) (oper : BenchmarkOperation)
    (s : State) (n : Nat) : List Event :=
  setupEvents w size mem ctid transfers oper s ++
    TwoSided.pollEvents w (polledOper oper) s n ++ [Event.now (w.now (s.nClock + 1))]

/-- The state after a `benchmark_run` from state `s` whose polling loop takes `n` readings. -/
def runState (w : World) (size mem ctid transfers : Nat) (oper : BenchmarkOperation)
    (s : State) (n : Nat) : State :=
  { s with
    nCheck := s.nCheck + n,
    nClock := s.nClock + 2,
    trace := s.trace ++ runEvents w size mem ctid transfers oper s n }

/-- The polling loops of the one-sided benchmark end within `fuel` readings, wherever in
the sequence of readings they start. -/
def Live (w : World) (fuel : Nat) : Prop :=
  ∀ c, ∃ k, k < fuel ∧ w.checkCompleted (c + k) = awaitedCount

end OneSided

namespace TwoSided

/-- The loops of the staged branch end within `fuel` iterations, wherever in the sequences
of answers they start: some pass over the streams finds all of them complete, and some
reading of the counter reaches `transfers`. -/
def LiveStaged (w : World) (transfers fuel : Nat) : Prop :=
  (∀ c, ∃ p, p < fuel ∧
    ∀ i, i < transfers → w.hipStreamQuery (c + p * transfers + i) = hipError_t.hipSuccess) ∧
  (∀ c, ∃ k, k < fuel ∧ transfers ≤ w.checkCompleted (c + k))

/-- The polling loop of the P2P branch ends within `fuel` readings, wherever in the
sequence of readings it starts. -/
def LiveP2P (w : World) (transfers fuel : Nat) : Prop :=
  ∀ c, ∃ k, k < fuel ∧ w.checkCompleted (c + k) = transfers

/-- The loops of the branch selected by `mode` end within `fuel` iterations. -/
def Live (w : World) (transfers : Nat) (mode : Bool) (fuel : Nat) : Prop :=
  (mode = false → LiveStaged w transfers fuel) ∧ (mode = true → LiveP2P w transfers fuel)

end TwoSided

namespace TwoSided

/-- The world `w'` answers like `w` up to the rewriting `er` of the recorded calls: the
same statuses count as success, the counter, the barrier and the clock answer alike. -/
structure Mirrors (er : Event → Event) (w w' : World) : Prop where
  query_success : ∀ k, w'.hipStreamQuery k = hipError_t.hipSuccess ↔
    w.hipStreamQuery k = hipError_t.hipSuccess
  query_event : ∀ i k, Event.hipStreamQuery i (w'.hipStreamQuery k) =
    er (Event.hipStreamQuery i (w.hipStreamQuery k))
  d2h_event : ∀ i k, Event.hipMemcpyAsyncD2H i (w'.hipMemcpyAsync k) =
    er (Event.hipMemcpyAsyncD2H i (w.hipMemcpyAsync k))
  h2d_event : ∀ i k, Event.hipMemcpyAsyncH2D i (w'.hipMemcpyAsync k) =
    er (Event.hipMemcpyAsyncH2D i (w.hipMemcpyAsync k))
  invoke_event : ∀ o i, er (Event.invoke o i) = Event.invoke o i
  check_event : ∀ o r, er (Event.checkCompleted o r) = Event.checkCompleted o r
  sync_event : er Event.hipDeviceSynchronize = Event.hipDeviceSynchronize
  checkCompleted : w'.checkCompleted = w.checkCompleted
  hipDeviceSynchronize : w'.hipDeviceSynchronize = w.hipDeviceSynchronize

/-- The state `b` is the state `a` with the calls added since the trace `t0` rewritten by
`er`; the last stored status `ret_val` may differ. -/
def Sim (er : Event → Event) (t0 : List Event) (a b : State) : Prop :=
  ∃ seg, a.trace = t0 ++ seg ∧
    b = { a with trace := t0 ++ seg.map er, ret_val := b.ret_val }

/-- A status read the way the staging poll reads it: success or not. -/
def asNotReady (status : hipError_t) : hipError_t :=
  if status = hipError_t.hipSuccess then hipError_t.hipSuccess else hipError_t.hipErrorNotReady

/-- The world `w` in which every status query that does not succeed answers "not ready". -/
def errorsAsNotReady (w : World) : World :=
  { w with hipStreamQuery := fun k => asNotReady (w.hipStreamQuery k) }

/-- Forget which non-success status a status query returned. -/
def eraseQueryError : Event → Event
  | Event.hipStreamQuery i status => Event.hipStreamQuery i (asNotReady status)
  | e => e

/-- The world `w` in which every asynchronous copy is issued successfully. -/
def copiesSucceed (w : World) : World :=
  { w with hipMemcpyAsync := fun _ => hipError_t.hipSuccess }

/-- Forget the status an asynchronous copy returned when it was issued. -/
def eraseCopyStatus : Event → Event
  | Event.hipMemcpyAsyncD2H i _ => Event.hipMemcpyAsyncD2H i hipError_t.hipSuccess
  | Event.hipMemcpyAsyncH2D i _ => Event.hipMemcpyAsyncH2D i hipError_t.hipSuccess
  | e => e

/-- A device whose first status query fails with error 719 and which is ready afterwards. -/
def faultyQueryWorld : World :=
  { readyWorld 1 0 with
    hipStreamQuery := fun k => if k = 0 then hipError_t.hipErrorOther 719
      else hipError_t.hipSuccess }

/-- A device on which every asynchronous copy fails at issue with error 1. -/
def failingCopyWorld : World :=
  { readyWorld 1 0 with hipMemcpyAsync := fun _ => hipError_t.hipErrorOther 1 }

end TwoSided

/-- The object `PerfMonitor` with the state of its member `sampling_thread`: `joinable`
tells whether the `std::thread` has an associated thread. -/
structure MonitorObject where
  running : Bool
  joinable : Bool
  samples : List (ℚ × ℚ)
  deriving DecidableEq, Repr

/-- The constructor `PerfMonitor(gpu_id)`. -/
def MonitorObject.create : MonitorObject :=
  { running := false, joinable := false, samples := [] }

/-- `PerfMonitor::start`: sets the flag, clears the samples and move-assigns a new thread to
`sampling_thread`; assigning to a `std::thread` that is joinable calls `std::terminate`,
which is the result `none`. -/
def MonitorObject.start (m : MonitorObject) : Option MonitorObject :=
  let m := { m with running := true }
  let m := { m with samples := [] }
  if m.joinable then none else some { m with joinable := true }

/-- `PerfMonitor::stop`: clears the flag and joins the thread if there is one; `sampled`
are the samples the thread has appended by the time it is joined. -/
def MonitorObject.stop (sampled : List (ℚ × ℚ)) (m : MonitorObject) : MonitorObject :=
  let m := { m with running := false }
  if m.joinable then { m with joinable := false, samples := m.samples ++ sampled } else m

/-- The destructor `~PerfMonitor`: `stop()` (then the library shutdown). -/
def MonitorObject.destroy (sampled : List (ℚ × ℚ)) (m : MonitorObject) : MonitorObject :=
  m.stop sampled

/-- The fields of the object that `avg_power` and `avg_util` read. -/
def MonitorObject.toPerfMonitor (m : MonitorObject) : PerfMonitor :=
  { running := m.running, samples := m.samples }

/-- The loop of `main` computing `avg_throughput` from the measured times (nanoseconds) of
one size: `avg_throughput += ((double) n_transfers * (double) curr_size) /
(1024.0 * 1024.0 * 1024.0 * t * 1e-9)` for every `t`, then the division by the number of
times; read over the rationals. -/
def avg_throughput (n_transfers curr_size : Nat) (measured_times : List ℚ) : ℚ :=
  let sum := measured_times.foldl
    (fun acc t => acc + ((n_transfers : ℚ) * (curr_size : ℚ)) /
      (1024 * 1024 * 1024 * t * (1 / 10 ^ 9))) 0
  sum / (measured_times.length : ℚ)

namespace TwoSided

/-- How often the sampler is started in a trace. -/
def startCount (tr : List Event) : Nat := tr.count Event.perf_start

/-- How often the sampler is stopped in a trace. -/
def stopCount (tr : List Event) : Nat := tr.count Event.perf_stop

end TwoSided

namespace Sweep

/-- `curr_size *= 2` on an `unsigned int`. -/
def double32 (curr_size : Nat) : Nat :=
  (curr_size * 2) % 2 ^ 32

/-- The sizes visited by the benchmark sweep of `main`,
`while (curr_size <= max_size) { ...; curr_size *= 2; }`, from the current size, cut after
`fuel` iterations; `none` when the loop has not ended by then. -/
def sweep (max_size : Nat) : Nat → Nat → Option (List Nat)
  | 0, curr_size => if curr_size ≤ max_size then none else some []
  | fuel + 1, curr_size =>
    if curr_size ≤ max_size then
      (sweep max_size fuel (double32 curr_size)).map (fun rest => curr_size :: rest)
    else some []

/-- The sizes `min_size * 2^k` that do not exceed `max_size`, in increasing order. -/
def doublings (min_size max_size : Nat) : List Nat :=
  if min_size ≤ max_size then
    (List.range (Nat.log 2 (max_size / min_size) + 1)).map fun k => min_size * 2 ^ k
  else []

end Sweep

namespace ArgsParser

/-- The assignment `argv[j] = argv[j + 1]`; reading past the array is not reached by
`args_pop_front` and leaves the array as it is. -/
def shiftAt {α : Type} (argv : List α) (j : Nat) : List α :=
  match argv[j + 1]? with
  | some a => argv.set j a
  | none => argv

/-- The inner loop `for (int j = 1; j < argc - 1; j++) argv[j] = argv[j + 1];`. -/
def shiftLeft {α : Type} (argc : Int) (argv : List α) : List α :=
  (List.range' 1 (argc - 2).toNat).foldl shiftAt argv

/-- `args_pop_front(argc, argv, amount)`: the new `argc` and the new content of `argv`. -/
def args_pop_front {α : Type} (argc : Int) (argv : List α) (amount : Int) : Int × List α :=
  (List.range amount.toNat).foldl
    (fun (p : Int × List α) _ => (p.1 - 1, shiftLeft p.1 p.2)) (argc, argv)

end ArgsParser

namespace ImageRegistration

/-- The five Coyote-mode `compute_mi` of the image registration programs, by source file. -/
inductive Variant where
  | hal
  | registration_step
  | mutual_information
  | p2p_registration_step
  | reg_prog_registration_step
  deriving DecidableEq, Repr

/-- One call of `coyote_thread.checkCompleted(oper)`. -/
def readCounter (w : World) (oper : CoyoteOper) (s : State) : State :=
  { s with
    nCheck := s.nCheck + 1,
    trace := s.trace ++ [Event.checkCompleted oper (w.checkCompleted s.nCheck)] }

/-- One reading of the clock. -/
def readClock (w : World) (s : State) : State :=
  { s with nClock := s.nClock + 1, trace := s.trace ++ [Event.now (w.now s.nClock)] }

/-- The loop `while (coyote_thread.checkCompleted(oper) <= baseline) {}`, cut after `fuel`
readings; `none` when it has not exited by then. -/
def waitAbove (w : World) (oper : CoyoteOper) (baseline : Nat) : Nat → State → Option State
  | 0, _ => none
  | fuel + 1, s =>
    let reading := w.checkCompleted s.nCheck
    let s := { s with
      nCheck := s.nCheck + 1,
      trace := s.trace ++ [Event.checkCompleted oper reading] }
    if reading ≤ baseline then waitAbove w oper baseline fuel s else some s

/-- The calls all five `compute_mi` share up to the third `LOCAL_READ` invoke: the
baseline readings `local_write_count` and `local_read_count`, then the invokes with
`dest` 0, 1 and 2.  An invoke is recorded with the `dest` of its scatter-gather entry. -/
def readBaselineAndInvokeReads (w : World) (s : State) : State :=
  let s := readCounter w CoyoteOper.LOCAL_WRITE s
  let s := readCounter w CoyoteOper.LOCAL_READ s
  let s := s.emit (Event.invoke CoyoteOper.LOCAL_READ 0)
  let s := s.emit (Event.invoke CoyoteOper.LOCAL_READ 1)
  s.emit (Event.invoke CoyoteOper.LOCAL_READ 2)

/-- `coyote_thread.setCSR(0x1, 0)`: the write of 0x1 to control register 0, recorded as a
write of `CTRL_REG`. -/
def startKernel (s : State) : State :=
  s.emit (Event.setCSR BenchmarkRegisters.CTRL_REG 1)

/-- `HardwareAbstractionLayer::compute_mi` (Coyote mode). -/
def compute_mi_hal (w : World) (fuel : Nat) (s : State) : Option State :=
  let s := readClock w s
  let local_write_count := w.checkCompleted s.nCheck
  let s := readBaselineAndInvokeReads w s
  let s := readClock w s
  let s := startKernel s
  let s := readClock w s
  let s := s.emit (Event.invoke CoyoteOper.LOCAL_WRITE 0)
  (waitAbove w CoyoteOper.LOCAL_WRITE local_write_count fuel s).map (readClock w)

/-- `compute_mi` of `registration_step.cpp` (Coyote mode). -/
def compute_mi_registration_step (w : World) (fuel : Nat) (s : State) : Option State :=
  let local_write_count := w.checkCompleted s.nCheck
  let s := readBaselineAndInvokeReads w s
  let s := startKernel s
  let s := s.emit (Event.invoke CoyoteOper.LOCAL_WRITE 0)
  waitAbove w CoyoteOper.LOCAL_WRITE local_write_count fuel s

/-- `compute_mi` of `mutual_information.cpp` (Coyote mode); it reads the counters twice
more, to print them. -/
def compute_mi_mutual_information (w : World) (fuel : Nat) (s : State) : Option State :=
  let local_write_count := w.checkCompleted s.nCheck
  let s := readBaselineAndInvokeReads w s
  let s := readCounter w CoyoteOper.LOCAL_READ s
  let s := startKernel s
  let s := s.emit (Event.invoke CoyoteOper.LOCAL_WRITE 0)
  let s := readCounter w CoyoteOper.LOCAL_WRITE s
  waitAbove w CoyoteOper.LOCAL_WRITE local_write_count fuel s

/-- `compute_mi` of `p2p_registration_step.cpp`; it times the polling loop. -/
def compute_mi_p2p_registration_step (w : World) (fuel : Nat) (s : State) : Option State :=
  let local_write_count := w.checkCompleted s.nCheck
  let s := readBaselineAndInvokeReads w s
  let s := startKernel s
  let s := s.emit (Event.invoke CoyoteOper.LOCAL_WRITE 0)
  let s := readClock w s
  (waitAbove w CoyoteOper.LOCAL_WRITE local_write_count fuel s).map (readClock w)

/-- `compute_mi` of `reg_prog_registration_step.cpp`; the control register is written by
the GPU kernel `launch_basic_test`, followed by `hipDeviceSynchronize`, and the counter is
read once more after the loop, to print it. -/
def compute_mi_reg_prog_registration_step (w : World) (fuel : Nat) (s : State) :
    Option State :=
  let local_write_count := w.checkCompleted s.nCheck
  let s := readBaselineAndInvokeReads w s
  let s := startKernel s
  let s := TwoSided.deviceSynchronizeChecked s
  let s := s.emit (Event.invoke CoyoteOper.LOCAL_WRITE 0)
  (waitAbove w CoyoteOper.LOCAL_WRITE local_write_count fuel s).map
    (readCounter w CoyoteOper.LOCAL_WRITE)

/-- The Coyote-mode `compute_mi` of the source file `v`. -/
def compute_mi : Variant → World → Nat → State → Option State
  | Variant.hal => compute_mi_hal
  | Variant.registration_step => compute_mi_registration_step
  | Variant.mutual_information => compute_mi_mutual_information
  | Variant.p2p_registration_step => compute_mi_p2p_registration_step
  | Variant.reg_prog_registration_step => compute_mi_reg_prog_registration_step

/-- The operations a `compute_mi` issues, in order. -/
def issuedOperations : List Event :=
  [Event.invoke CoyoteOper.LOCAL_READ 0,
    Event.invoke CoyoteOper.LOCAL_READ 1,
    Event.invoke CoyoteOper.LOCAL_READ 2,
    Event.setCSR BenchmarkRegisters.CTRL_REG 1,
    Event.invoke CoyoteOper.LOCAL_WRITE 0]

/-- The shape of the events of one `compute_mi`: the baseline reading of the `LOCAL_WRITE`
counter with no operation or poll before it, then the calls `ops` among which the issued
operations are exactly `issuedOperations`, then the readings `waits` of the polling loop
that do not exceed the baseline, its final `reading` above the baseline, and calls `post`
that issue nothing. -/
def MiShape (seg : List Event) : Prop :=
  ∃ pre ops waits post baseline reading,
    seg = pre ++ [Event.checkCompleted CoyoteOper.LOCAL_WRITE baseline] ++ ops ++ waits ++
      [Event.checkCompleted CoyoteOper.LOCAL_WRITE reading] ++ post ∧
    (∀ e ∈ pre, TwoSided.isIssue e = false ∧ TwoSided.isPoll e = false) ∧
    ops.filter TwoSided.isIssue = issuedOperations ∧
    (∀ e ∈ waits, ∃ r, e = Event.checkCompleted CoyoteOper.LOCAL_WRITE r ∧ r ≤ baseline) ∧
    baseline < reading ∧
    (∀ e ∈ post, TwoSided.isIssue e = false)

/-- A device whose completion counter goes up by one every third reading. -/
def slowWorld : World :=
  { hipStreamQuery := fun _ => hipError_t.hipSuccess,
    checkCompleted := fun k => k / 3,
    hipMemcpyAsync := fun _ => hipError_t.hipSuccess,
    hipDeviceSynchronize := fun _ => hipError_t.hipSuccess,
    now := fun k => 10 * k,
    sampled := fun _ => [],
    rand := fun _ => 0,
    gpu_dst := fun _ _ => 0 }

end ImageRegistration

namespace Scatter

/-- `const int NUM_GPUS = 4;` -/
def NUM_GPUS : Nat := 4

/-- One call made by `bench_fn` of the scatter client, with the answer it got. A copy is
recorded with the GPU selected when it is issued, the index of its destination in
`dest_buffers` (the copy goes to the start of that buffer), the byte offset of its source
in `mem` and its byte count. -/
inductive Call where
  | invoke (i : Nat)
  | checkCompleted (reading : Nat)
  | hipSetDevice (gpu : Nat) (status : hipError_t)
  | hipMemcpyAsync (selected dest src count : Nat) (status : hipError_t)
  | hipDeviceSynchronize (selected : Nat) (status : hipError_t)
  deriving DecidableEq, Repr

/-- Answers of the device side, by number of the call. -/
structure Device where
  checkCompleted : Nat → Nat
  hipSetDevice : Nat → hipError_t
  hipMemcpyAsync : Nat → hipError_t
  hipDeviceSynchronize : Nat → hipError_t

/-- Ways in which `bench_fn` does not return: a `std::runtime_error`, an `int` computation
that leaves the range of `int`, or a polling loop that is still waiting when cut. -/
inductive Fault where
  | runtime_error (what : String)
  | signed_overflow
  | still_waiting
  deriving DecidableEq, Repr

/-- The calls made so far, the number of calls of each kind, and the GPU selected by the last
successful `hipSetDevice`. -/
structure State where
  trace : List Call
  nCheck : Nat
  nSet : Nat
  nCopy : Nat
  nSync : Nat
  device : Nat
  deriving DecidableEq, Repr

/-- State before any call, GPU 0 selected. -/
def State.init : State :=
  { trace := [], nCheck := 0, nSet := 0, nCopy := 0, nSync := 0, device := 0 }

/-- The statement `if (hipSetDevice(gpu)) { throw std::runtime_error("Couldn't select GPU!"); }`. -/
def selectGpu (d : Device) (gpu : Nat) (s : State) : Except Fault State :=
  let status := d.hipSetDevice s.nSet
  let s := { s with
    nSet := s.nSet + 1,
    trace := s.trace ++ [Call.hipSetDevice gpu status],
    device := if status = hipError_t.hipSuccess then gpu else s.device }
  if status = hipError_t.hipSuccess then Except.ok s
  else Except.error (Fault.runtime_error "Couldn't select GPU!")

/-- The loop `for (int i = 0; i < transfers; i++) coyote_thread.invoke(coyote_operation, sg);`
with `transfers` an `unsigned int`: for `transfers >= 2^31` the counter `i` leaves the range
of `int`. -/
def invokeAll (transfers : Nat) (s : State) : Except Fault State :=
  if transfers < 2 ^ 31 then
    Except.ok ((List.range transfers).foldl
      (fun s i => { s with trace := s.trace ++ [Call.invoke i] }) s)
  else Except.error Fault.signed_overflow

/-- The loop `while (coyote_thread.checkCompleted(LOCAL_WRITE) != transfers) {}`, cut after
`fuel` readings. -/
def waitAll (d : Device) (transfers : Nat) : Nat → State → Except Fault State
  | 0, _ => Except.error Fault.still_waiting
  | fuel + 1, s =>
    let reading := d.checkCompleted s.nCheck
    let s := { s with
      nCheck := s.nCheck + 1,
      trace := s.trace ++ [Call.checkCompleted reading] }
    if reading ≠ transfers then waitAll d transfers fuel s else Except.ok s

/-- Body of the scatter loop for the `int` counter `i`: select GPU `i % NUM_GPUS`, then
`hipMemcpyAsync(dest_buffers[i % NUM_GPUS], &mem[i * 8192], 8192, hipMemcpyHostToDevice)`;
the product `i * 8192` is an `int`. -/
def scatterStep (d : Device) (s : State) (i : Nat) : Except Fault State :=
  match selectGpu d (i % NUM_GPUS) s with
  | Except.error e => Except.error e
  | Except.ok s =>
    if i * 8192 < 2 ^ 31 then
      let status := d.hipMemcpyAsync s.nCopy
      let s := { s with
        nCopy := s.nCopy + 1,
        trace := s.trace ++
          [Call.hipMemcpyAsync s.device (i % NUM_GPUS) (i * 8192) 8192 status] }
      if status = hipError_t.hipSuccess then Except.ok s
      else Except.error (Fault.runtime_error "Couldn't copy memory to GPU!")
    else Except.error Fault.signed_overflow

/-- The loop `for (int i = 0; i < sg.len / 8192; i++)`. -/
def scatter (d : Device) (len : Nat) (s : State) : Except Fault State :=
  (List.range (len / 8192)).foldlM (scatterStep d) s

/-- Body of the last loop: select GPU `i`, then `hipDeviceSynchronize()`. -/
def syncStep (d : Device) (s : State) (i : Nat) : Except Fault State :=
  match selectGpu d i s with
  | Except.error e => Except.error e
  | Except.ok s =>
    let status := d.hipDeviceSynchronize s.nSync
    let s := { s with
      nSync := s.nSync + 1,
      trace := s.trace ++ [Call.hipDeviceSynchronize s.device status] }
    if status = hipError_t.hipSuccess then Except.ok s
    else Except.error (Fault.runtime_error "Couldn't synchronize stream!")

/-- The loop `for (int i = 0; i < NUM_GPUS; i++)`. -/
def syncAll (d : Device) (s : State) : Except Fault State :=
  (List.range NUM_GPUS).foldlM (syncStep d) s

/-- The lambda `bench_fn` of `run_bench`, for a transfer of `len` bytes (`sg.len`). -/
def bench_fn (d : Device) (transfers len fuel : Nat) (s : State) : Except Fault State :=
  match invokeAll transfers s with
  | Except.error e => Except.error e
  | Except.ok s =>
    match waitAll d transfers fuel s with
    | Except.error e => Except.error e
    | Except.ok s =>
      match scatter d len s with
      | Except.error e => Except.error e
      | Except.ok s => syncAll d s

/-- Calls of the scatter loop for counter `i`, when both succeed. -/
def scatterCalls (i : Nat) : List Call :=
  [Call.hipSetDevice (i % NUM_GPUS) hipError_t.hipSuccess,
    Call.hipMemcpyAsync (i % NUM_GPUS) (i % NUM_GPUS) (8192 * i) 8192 hipError_t.hipSuccess]

/-- Calls of the synchronisation loop for GPU `i`, when both succeed. -/
def syncCalls (i : Nat) : List Call :=
  [Call.hipSetDevice i hipError_t.hipSuccess,
    Call.hipDeviceSynchronize i hipError_t.hipSuccess]

/-- The readings of the first `k` polls made from state `s`. -/
def readings (d : Device) (s : State) (k : Nat) : List Call :=
  (List.range k).map fun j => Call.checkCompleted (d.checkCompleted (s.nCheck + j))

/-- Whether byte `b` of `mem` lies in the source of a copy recorded in `calls`. -/
def copiedFrom (calls : List Call) (b : Nat) : Bool :=
  calls.any fun c =>
    match c with
    | Call.hipMemcpyAsync _ _ src count _ => decide (src ≤ b ∧ b < src + count)
    | _ => false

/-- A device that answers every call with success and whose completion counter shows the
number of the reading. -/
def countingDevice : Device :=
  { checkCompleted := fun k => k,
    hipSetDevice := fun _ => hipError_t.hipSuccess,
    hipMemcpyAsync := fun _ => hipError_t.hipSuccess,
    hipDeviceSynchronize := fun _ => hipError_t.hipSuccess }

end Scatter

namespace P2PImageRegistration

/-- The element `argv[i]` of an argument vector with `argc = argv.length`: `none` for
`i >= argc`, where `argv[argc]` is the null pointer and later elements do not exist. -/
def arg (argv : List String) (i : Nat) : Option String :=
  argv[i]?

/-- What `main` of `p2p_image_registration.cpp` has after its argument parsing: each option
with its value, `none` when the value comes from an element `argv[i]` with `i >= argc`, and the
indices of `argv` that were read, in order. -/
structure Options where
  depth : Option Int
  rangeX : Option Int
  rangeY : Option Int
  rangeAngZ : Option ℚ
  runs : Option Int
  gpu_id : Option Int
  reads : List Nat

/-- The argument parsing of `main` (Coyote mode), lines `if (argc < 5) ... return 1;` to
`int gpu_id = ...`, with `atoi` and `atof` of the C library as parameters; `none` when `main`
prints the usage message and returns 1. -/
def parseArgs (atoi : String → Int) (atof : String → ℚ) (argv : List String) :
    Option Options :=
  let argc := argv.length
  if argc < 5 then none
  else
    some {
      depth := if argc ≥ 5 then (arg argv 5).map atoi else some 246,
      rangeX := if argc ≥ 6 then (arg argv 6).map atoi else some 256,
      rangeY := if argc ≥ 7 then (arg argv 7).map atoi else some 256,
      rangeAngZ := if argc ≥ 8 then (arg argv 8).map atof else some 1,
      runs := if argc ≥ 9 then (arg argv 9).map atoi else some 1,
      gpu_id := if argc ≥ 10 then (arg argv 10).map atoi else some 0,
      reads := [1, 2, 3, 4] ++ (if argc ≥ 5 then [5] else []) ++
        (if argc ≥ 6 then [6] else []) ++ (if argc ≥ 7 then [7] else []) ++
        (if argc ≥ 8 then [8] else []) ++ (if argc ≥ 9 then [9] else []) ++
        (if argc ≥ 10 then [10] else []) }

/-- A stand-in for `atoi`: the decimal value of the string, 0 when it is not a number. -/
def decimal (s : String) : Int :=
  s.toInt?.getD 0

/-- The optional-argument parsing of the sibling `p2p_registration_step.cpp`:
`int depth = 246; if (argc >= 11) { depth = std::atoi(argv[10]); ... }`. -/
def siblingDepth (atoi : String → Int) (argv : List String) : Option Int :=
  if argv.length ≥ 11 then (arg argv 10).map atoi else some 246

end P2PImageRegistration

/-- The constructor `PerfMetrics() {}`: three empty vectors. -/
def PerfMetrics.empty : PerfMetrics :=
  { latencies := [], gpu_powers := [], gpu_utils := [] }

/-- `PerfMetrics::vector_average`, read over the rationals. -/
def PerfMetrics.vector_average (vec : List ℚ) : ℚ :=
  let sum := vector_sum vec
  if vec.isEmpty then 0 else sum / vec.length

/-- `PerfMetrics::get_all`; the error is the thrown `std::runtime_error`. -/
def PerfMetrics.get_all (p : PerfMetrics) (kind : String) : Except String (List ℚ) :=
  if kind = "latency" then Except.ok p.latencies
  else if kind = "gpu_power" then Except.ok p.gpu_powers
  else if kind = "gpu_util" then Except.ok p.gpu_utils
  else Except.error ("Unknown kind of performance metric requested: " ++ kind)

/-- `PerfMetrics::get_average`; the error is the thrown `std::runtime_error`. -/
def PerfMetrics.get_average (p : PerfMetrics) (kind : String) : Except String ℚ :=
  if kind = "latency" then Except.ok (PerfMetrics.vector_average p.latencies)
  else if kind = "gpu_power" then Except.ok (PerfMetrics.vector_average p.gpu_powers)
  else if kind = "gpu_util" then Except.ok (PerfMetrics.vector_average p.gpu_utils)
  else Except.error ("Unknown kind of performance metric requested: " ++ kind)

/-- The metrics object after a sequence of `add_new(latency, gpu_power, gpu_util)` calls on a
new object. -/
def PerfMetrics.after (calls : List (ℚ × ℚ × ℚ)) : PerfMetrics :=
  calls.foldl (fun p c => p.add_new c.1 c.2.1 c.2.2) PerfMetrics.empty

/-- Arithmetic mean of a sequence, 0 for the empty sequence. -/
def meanOrZero (vec : List ℚ) : ℚ :=
  if vec = [] then 0 else vec.sum / (vec.length : ℚ)

namespace TwoSided

/-- The readings of the `LOCAL_TRANSFER` completion counter in a trace, in the order of the
calls. -/
def transferReadings (tr : List Event) : List Nat :=
  tr.filterMap fun e =>
    match e with
    | Event.checkCompleted CoyoteOper.LOCAL_TRANSFER reading => some reading
    | _ => none

/-- Invariant of `while (completed_coyote < transfers)` relative to the trace `t0`: a stream
index has been used for a host-to-device copy if and only if it is below one of the readings
taken, and every index below `completed_coyote` has been used. -/
def IndexInv (t0 : List Event) (s : State) : Prop :=
  ∃ seg, s.trace = t0 ++ seg ∧
    (∀ i, i ∈ h2dIndices seg ↔ ∃ r ∈ transferReadings seg, i < r) ∧
    ∀ i, i < s.completed_coyote → i ∈ h2dIndices seg

/-- A device whose completion counter always shows `n`. -/
def stuckCounter (n : Nat) : World :=
  { hipStreamQuery := fun _ => hipError_t.hipSuccess,
    checkCompleted := fun _ => n,
    hipMemcpyAsync := fun _ => hipError_t.hipSuccess,
    hipDeviceSynchronize := fun _ => hipError_t.hipSuccess,
    now := fun k => 10 * k,
    sampled := fun _ => [],
    rand := fun _ => 0,
    gpu_dst := fun _ _ => 0 }

end TwoSided

namespace OneSided

/-- The values written to `N_BEATS_REG` in a trace, in the order of the calls. -/
def beatsWritten (tr : List Event) : List Nat :=
  tr.filterMap fun e =>
    match e with
    | Event.setCSR BenchmarkRegisters.N_BEATS_REG val => some val
    | _ => none

end OneSided

namespace ImageFiles

/-- Ways in which a call does not return: `exit(code)`, or an `int` expression whose value
leaves the range of `int`. -/
inductive Stop where
  | exit (code : Nat)
  | int_overflow
  deriving DecidableEq, Repr

/-- The voxel index `i * size * depth + j * depth + k`. -/
def voxelIndex (size depth i j k : Nat) : Nat :=
  i * size * depth + j * depth + k

/-- The `int` expression `i * size * depth + j * depth + k` as the loops evaluate it: its
value when that is an `int`. In the loops `k < depth`, so no intermediate product or sum
exceeds the value, and the expression leaves the range of `int` exactly when its value
does. -/
def voxelIndexInt (size depth i j k : Nat) : Except Stop Nat :=
  if voxelIndex size depth i j k < 2 ^ 31 then Except.ok (voxelIndex size depth i j k)
  else Except.error Stop.int_overflow

/-- The pixel index `i * size + j` of a slice. -/
def pixelIndex (size i j : Nat) : Nat :=
  i * size + j

/-- Content of a PNG file as `stbi_load` returns it: width, height, number of channels and
the pixels, row by row. -/
structure Image where
  w : Nat
  h : Nat
  n : Nat
  data : List Nat
  deriving DecidableEq, Repr

/-- The statement `volume[i * size * depth + j * depth + k] = data[i * size + j];`. -/
def insertPixel (size depth k : Nat) (data : List Nat) (i : Nat) (volume : Nat → Nat)
    (j : Nat) : Except Stop (Nat → Nat) :=
  match voxelIndexInt size depth i j k with
  | Except.error e => Except.error e
  | Except.ok idx => Except.ok (Function.update volume idx (data.getD (pixelIndex size i j) 0))

/-- The loop over `j` of `read_volume_from_folder`. -/
def insertRow (size depth k : Nat) (data : List Nat) (volume : Nat → Nat) (i : Nat) :
    Except Stop (Nat → Nat) :=
  (List.range size).foldlM (insertPixel size depth k data i) volume

/-- The loop over `i` of `read_volume_from_folder`. -/
def insertSlice (size depth k : Nat) (data : List Nat) (volume : Nat → Nat) :
    Except Stop (Nat → Nat) :=
  (List.range size).foldlM (insertRow size depth k data) volume

/-- Body of the loop over `k` of `read_volume_from_folder`: load `IMk.png`, the `k`-th file
of the folder, leave with `exit(1)` when it is missing or has the wrong dimensions, copy it
into the volume otherwise. -/
def readStep (size depth : Nat) (folder : List Image) (volume : Nat → Nat) (k : Nat) :
    Except Stop (Nat → Nat) :=
  match folder[k]? with
  | none => Except.error (Stop.exit 1)
  | some img =>
    if img.w ≠ size ∨ img.h ≠ size ∨ img.n ≠ 1 then Except.error (Stop.exit 1)
    else insertSlice size depth k img.data volume

/-- `read_volume_from_folder`, with the memory at `volume` as a function of the index. -/
def read_volume_from_folder (volume : Nat → Nat) (size depth : Nat) (folder : List Image) :
    Except Stop (Nat → Nat) :=
  if size * size < 2 ^ 31 then (List.range depth).foldlM (readStep size depth folder) volume
  else Except.error Stop.int_overflow

/-- The statement `slice[i * size + j] = volume[i * size * depth + j * depth + k];`. -/
def extractPixel (size depth k : Nat) (volume : Nat → Nat) (i : Nat) (slice : Nat → Nat)
    (j : Nat) : Except Stop (Nat → Nat) :=
  match voxelIndexInt size depth i j k with
  | Except.error e => Except.error e
  | Except.ok idx => Except.ok (Function.update slice (pixelIndex size i j) (volume idx))

/-- The loop over `j` of `save_volume_into_folder`. -/
def extractRow (size depth k : Nat) (volume : Nat → Nat) (slice : Nat → Nat) (i : Nat) :
    Except Stop (Nat → Nat) :=
  (List.range size).foldlM (extractPixel size depth k volume i) slice

/-- The loop over `i` of `save_volume_into_folder`. -/
def extractSlice (size depth k : Nat) (volume : Nat → Nat) (slice : Nat → Nat) :
    Except Stop (Nat → Nat) :=
  (List.range size).foldlM (extractRow size depth k volume) slice

/-- The file `stbi_write_png(filename, size, size, 1, slice, size)` writes. -/
def writtenImage (size : Nat) (slice : Nat → Nat) : Image :=
  { w := size, h := size, n := 1, data := (List.range (size * size)).map slice }

/-- Body of the loop over `k` of `save_volume_into_folder`, on the buffer `slice` and the
files written so far. -/
def saveStep (size depth : Nat) (volume : Nat → Nat) (st : (Nat → Nat) × List Image)
    (k : Nat) : Except Stop ((Nat → Nat) × List Image) :=
  match extractSlice size depth k volume st.1 with
  | Except.error e => Except.error e
  | Except.ok slice => Except.ok (slice, st.2 ++ [writtenImage size slice])

/-- `save_volume_into_folder`: the files `IM0.png`, `IM1.png`, ... of the new folder;
`slice` is the content of the buffer `new uint8_t[size * size]`. -/
def save_volume_into_folder (volume : Nat → Nat) (size depth : Nat) (slice : Nat → Nat) :
    Except Stop (List Image) :=
  if size * size < 2 ^ 31 then
    match (List.range depth).foldlM (saveStep size depth volume) (slice, []) with
    | Except.error e => Except.error e
    | Except.ok st => Except.ok st.2
  else Except.error Stop.int_overflow

/-- The pixels of the `k`-th file of a folder, none when the file is missing. -/
def fileData (folder : List Image) (k : Nat) : List Nat :=
  ((folder[k]?).map Image.data).getD []

/-- The index pairs `(i, j)` of the two inner loops, in the order they are visited. -/
def pixels (size : Nat) : List (Nat × Nat) :=
  (List.range size).flatMap fun i => (List.range size).map fun j => (i, j)

end ImageFiles

namespace SoftwareMI

/-- The value read from an array of `uint8_t` at index `idx`. -/
def byteAt (input : Nat → Nat) (idx : Nat) : Nat :=
  input idx % 256

/-- The statement `j_h[a][b] += 1.0;`. -/
def bump (j_h : Nat → Nat → ℚ) (a b : Nat) : Nat → Nat → ℚ :=
  fun x y => if x = a ∧ y = b then j_h x y + 1 else j_h x y

/-- Body of the innermost histogram loop: the `int` index `i * DIMENSION * N + j * N + k`,
the two bytes read there, and the increment of their bin. -/
def countVoxel (input_ref input_flt : Nat → Nat) (DIMENSION N k i : Nat)
    (j_h : Nat → Nat → ℚ) (j : Nat) : Except ImageFiles.Stop (Nat → Nat → ℚ) :=
  match ImageFiles.voxelIndexInt DIMENSION N i j k with
  | Except.error e => Except.error e
  | Except.ok idx =>
    let a := byteAt input_ref idx
    let b := byteAt input_flt idx
    Except.ok (bump j_h a b)

/-- The histogram loop over `j`. -/
def countRow (input_ref input_flt : Nat → Nat) (DIMENSION N k : Nat)
    (j_h : Nat → Nat → ℚ) (i : Nat) : Except ImageFiles.Stop (Nat → Nat → ℚ) :=
  (List.range DIMENSION).foldlM (countVoxel input_ref input_flt DIMENSION N k i) j_h

/-- The histogram loop over `i`. -/
def countSlice (input_ref input_flt : Nat → Nat) (DIMENSION N : Nat)
    (j_h : Nat → Nat → ℚ) (k : Nat) : Except ImageFiles.Stop (Nat → Nat → ℚ) :=
  (List.range DIMENSION).foldlM (countRow input_ref input_flt DIMENSION N k) j_h

/-- The joint histogram `j_h` after the loop over `k`, from the table of zeros. -/
def jointHistogram (input_ref input_flt : Nat → Nat) (DIMENSION N : Nat) :
    Except ImageFiles.Stop (Nat → Nat → ℚ) :=
  (List.range N).foldlM (countSlice input_ref input_flt DIMENSION N) (fun _ _ => 0)

/-- The loops `j_h[i][j] /= norm` over the `bins` rows and columns of the table. -/
def normalize (bins : Nat) (norm : ℚ) (j_h : Nat → Nat → ℚ) : Nat → Nat → ℚ :=
  fun i j => if i < bins ∧ j < bins then j_h i j / norm else j_h i j

/-- A loop `for (j) acc += f(j)` over `bins` entries, from 0. -/
def accumulate (bins : Nat) (f : Nat → ℚ) : ℚ :=
  (List.range bins).foldl (fun acc j => acc + f j) 0

/-- The entropy loops of `software_mi` in `mutual_information.cpp`, with the test of the
`if` as a parameter: `H -= p * log2(p)` for every kept entry. -/
def entropyMinus (log2 : ℚ → ℚ) (keep : ℚ → Bool) (values : List ℚ) : ℚ :=
  values.foldl (fun H p => if keep p then H - p * log2 p else H) 0

/-- The entropy loops of `software_mi` in `registration_step.cpp`, with the test of the `if`
as a parameter: `e += v * log2(v)` for every kept entry, then `e *= -1`. -/
def entropyPlus (log2 : ℚ → ℚ) (keep : ℚ → Bool) (values : List ℚ) : ℚ :=
  values.foldl (fun e v => if keep v then e + v * log2 v else e) 0 * (-1)

/-- The entries `f(i, j)` in the order of the loops `for (i) for (j)` over `bins` rows and
columns. -/
def entries (bins : Nat) (f : Nat → Nat → ℚ) : List ℚ :=
  (List.range bins).flatMap fun i => (List.range bins).map fun j => f i j

/-- `software_mi` of `mutual_information.cpp` with the tests of its `if`s as parameters;
`log2` stands for `std::log2`, and the arithmetic is read over the rationals. -/
def software_mi_with (keepJoint keepMarginal : ℚ → Bool) (log2 : ℚ → ℚ)
    (bins DIMENSION n_couples : Nat) (input_ref input_flt : Nat → Nat) :
    Except ImageFiles.Stop ℚ :=
  let padding := 0
  let N := n_couples + padding
  match jointHistogram input_ref input_flt DIMENSION N with
  | Except.error e => Except.error e
  | Except.ok j_h =>
    let norm : ℚ := (N : ℚ) * DIMENSION * DIMENSION
    let j_h := normalize bins norm j_h
    let Hxy := entropyMinus log2 keepJoint (entries bins fun i j => j_h i j)
    let px := fun i => accumulate bins fun j => j_h i j
    let py := fun j => accumulate bins fun i => j_h i j
    let Hx := entropyMinus log2 keepMarginal ((List.range bins).map px)
    let Hy := entropyMinus log2 keepMarginal ((List.range bins).map py)
    Except.ok (Hx + Hy - Hxy)

/-- `software_mi` of `mutual_information.cpp`: every test is `> 1e-15`. -/
def software_mi (log2 : ℚ → ℚ) (bins DIMENSION n_couples : Nat)
    (input_ref input_flt : Nat → Nat) : Except ImageFiles.Stop ℚ :=
  software_mi_with (fun p => decide (p > 1 / 10 ^ 15)) (fun p => decide (p > 1 / 10 ^ 15))
    log2 bins DIMENSION n_couples input_ref input_flt

/-- `software_mi` of `registration_step.cpp` with the tests of its `if`s as parameters; the
divisor `N_COUPLES_TOTAL * DIMENSION * DIMENSION` is an `int`. -/
def software_mi_registration_step_with (keepJoint keepMarginal : ℚ → Bool) (log2 : ℚ → ℚ)
    (bins DIMENSION n_couples : Nat) (input_ref input_flt : Nat → Nat) :
    Except ImageFiles.Stop ℚ :=
  let N_COUPLES_TOTAL := n_couples
  match jointHistogram input_ref input_flt DIMENSION N_COUPLES_TOTAL with
  | Except.error e => Except.error e
  | Except.ok j_h =>
    if N_COUPLES_TOTAL * DIMENSION * DIMENSION < 2 ^ 31 then
      let norm : ℚ := ((N_COUPLES_TOTAL * DIMENSION * DIMENSION : Nat) : ℚ)
      let j_h := normalize bins norm j_h
      let entropy := entropyPlus log2 keepJoint (entries bins fun i j => j_h j i)
      let href := fun i => accumulate bins fun j => j_h i j
      let hflt := fun i => accumulate bins fun j => j_h j i
      let eref := entropyPlus log2 keepMarginal ((List.range bins).map href)
      let eflt := entropyPlus log2 keepMarginal ((List.range bins).map hflt)
      Except.ok (eref + eflt - entropy)
    else Except.error ImageFiles.Stop.int_overflow

/-- `software_mi` of `registration_step.cpp`: the joint test is `> 0.000000000000001`, the
marginal tests are `> 0.000000000001`. -/
def software_mi_registration_step (log2 : ℚ → ℚ) (bins DIMENSION n_couples : Nat)
    (input_ref input_flt : Nat → Nat) : Except ImageFiles.Stop ℚ :=
  software_mi_registration_step_with (fun v => decide (v > 1 / 10 ^ 15))
    (fun v => decide (v > 1 / 10 ^ 12)) log2 bins DIMENSION n_couples input_ref input_flt

/-- The test "is not zero", to compare the cut-offs with. -/
def nonzero (p : ℚ) : Bool :=
  decide (p ≠ 0)

/-- The voxel indices in the order the histogram loops visit them. -/
def visited (DIMENSION N : Nat) : List Nat :=
  (List.range N).flatMap fun k => (List.range DIMENSION).flatMap fun i =>
    (List.range DIMENSION).map fun j => ImageFiles.voxelIndex DIMENSION N i j k

/-- How many of the voxels in `voxels` hold the byte pair `(a, b)`. -/
def pairCount (input_ref input_flt : Nat → Nat) (voxels : List Nat) (a b : Nat) : Nat :=
  voxels.countP fun x => decide (byteAt input_ref x = a ∧ byteAt input_flt x = b)

end SoftwareMI

namespace P2PImageRegistration

/-- The vector `execution_times` of `main` after the loop over the runs: it is created as
`std::vector<double> execution_times(runs, 0.0)` and every run does
`execution_times.push_back(execution_time)`; `measured i` is the time run `i` returned. -/
def execution_times (runs : Nat) (measured : Nat → ℚ) : List ℚ :=
  (List.range runs).foldl (fun times i => times ++ [measured i]) (List.replicate runs 0)

/-- `average_execution_time`: `std::accumulate(execution_times.begin(),
execution_times.end(), 0.0) / runs`, read over the rationals. -/
def average_execution_time (runs : Nat) (measured : Nat → ℚ) : ℚ :=
  vector_sum (execution_times runs measured) / (runs : ℚ)

end P2PImageRegistration

namespace TwoSided

/-- The calls of one iteration `prep_fn(); bench_fn();`: the preparation, the start of the
sampler if monitoring is on, the reading of `begin_time`, the operations and polls of the
branch, the barrier, the stop of the sampler if monitoring is on, the reading of `end_time`,
and the storing of the metrics outside warm-up. -/
def IterationCalls (g warm : Bool) (seg : List Event) : Prop :=
  ∃ begin_time end_time body,
    seg = prepEvents g ++ (if g then [Event.perf_start] else []) ++ [Event.now begin_time] ++
      body ++ [Event.hipDeviceSynchronize] ++ (if g then [Event.perf_stop] else []) ++
      [Event.now end_time] ++ (if warm then [] else [Event.add_new]) ∧
    ∀ e ∈ body, isIssue e = true ∨ isPoll e = true

/-- The monitor after the `stop()` that joined the sampling thread number `c`: not running,
holding the samples of that thread. -/
def joinedMonitor (w : World) (c : Nat) : PerfMonitor :=
  { running := false, samples := w.sampled c }

end TwoSided

namespace Scatter

/-- What a returned `bench_fn` has done between the states `s` and `t`: `transfers` invokes;
readings of the completion counter that differ from `transfers`, ended by one reading equal
to `transfers`; for every `i < len / 8192` the selection of GPU `i % 4` followed by the copy
of the 8192 bytes of `mem` from offset `8192 * i` to the start of `dest_buffers[i % 4]`; the
selection and synchronisation of GPUs 0 to 3; `2 * (len / 8192)` calls in the scatter loop;
and a byte of `mem` is the source of a copy if and only if its offset is below
`8192 * (len / 8192)`. -/
def Scattered (d : Device) (transfers len : Nat) (s t : State) : Prop :=
  ∃ k, t.trace = s.trace ++ ((List.range transfers).map Call.invoke ++ readings d s k ++
        [Call.checkCompleted transfers] ++ (List.range (len / 8192)).flatMap scatterCalls ++
        (List.range NUM_GPUS).flatMap syncCalls) ∧
    (∀ j, j < k → d.checkCompleted (s.nCheck + j) ≠ transfers) ∧
    ((List.range (len / 8192)).flatMap scatterCalls).length = 2 * (len / 8192) ∧
    ∀ b, copiedFrom (t.trace.drop s.trace.length) b = true ↔ b < 8192 * (len / 8192)

end Scatter

namespace SoftwareMI

/-- The entropy `-Σ p * log2(p)` over the entries of `values` that are not zero. -/
def entropy (log2 : ℚ → ℚ) (values : List ℚ) : ℚ :=
  -((values.filter fun p => decide (p ≠ 0)).map fun p => p * log2 p).sum

/-- The joint probabilities `count(a, b) / total` of the `bins` by `bins` byte pairs, row by
row. -/
def jointProbabilities (bins : Nat) (count : Nat → Nat → Nat) (total : Nat) : List ℚ :=
  entries bins fun a b => (count a b : ℚ) / (total : ℚ)

/-- The joint probabilities column by column. -/
def jointProbabilitiesByColumn (bins : Nat) (count : Nat → Nat → Nat) (total : Nat) : List ℚ :=
  entries bins fun b a => (count a b : ℚ) / (total : ℚ)

/-- The probabilities of the reference bytes: row sums of the counts over `total`. -/
def rowProbabilities (bins : Nat) (count : Nat → Nat → Nat) (total : Nat) : List ℚ :=
  (List.range bins).map fun a => ((∑ b in Finset.range bins, count a b : Nat) : ℚ) / (total : ℚ)

/-- The probabilities of the floating bytes: column sums of the counts over `total`. -/
def columnProbabilities (bins : Nat) (count : Nat → Nat → Nat) (total : Nat) : List ℚ :=
  (List.range bins).map fun b => ((∑ a in Finset.range bins, count a b : Nat) : ℚ) / (total : ℚ)

end SoftwareMI

/-! ## Lemmas and theorems -/

/-- An invariant kept by every step of a left fold is kept by the fold. -/
theorem foldl_invariant {σ ι : Type} (I : σ → Prop) (f : σ → ι → σ) (l : List ι)
    (hstep : ∀ s i, i ∈ l → I s → I (f s i)) (s : σ) (hs : I s) : I (l.foldl f s) := by
  induction l generalizing s with
  | nil => simpa using hs
  | cons a l ih =>
    simp only [List.foldl_cons]
    exact ih (fun s i hi => hstep s i (List.mem_cons_of_mem _ hi)) _
      (hstep s a (List.mem_cons_self _ _) hs)

/-- Where an element `x` can sit in a list extended by one element `e`. -/
theorem snoc_eq_split {α : Type} {tr pre post : List α} {e x : α}
    (h : tr ++ [e] = pre ++ x :: post) :
    (post = [] ∧ e = x ∧ tr = pre) ∨ (∃ post', post = post' ++ [e] ∧ tr = pre ++ x :: post') := by
  rcases List.eq_nil_or_concat post with hp | ⟨post', b, hp⟩
  · subst hp
    left
    have h' : tr ++ [e] = pre ++ [x] := by simpa using h
    have := List.append_inj' h' rfl
    exact ⟨rfl, by simpa using this.2, this.1⟩
  · right
    subst hp
    have h' : tr ++ [e] = (pre ++ x :: post') ++ [b] := by simpa using h
    have := List.append_inj' h' rfl
    refine ⟨post', ?_, this.1⟩
    have hb : e = b := by simpa using this.2
    simp [hb]

namespace TwoSided

theorem InvokeGuarded.nil (transfers : Nat) : InvokeGuarded transfers [] := by
  intro pre post i h
  simp at h

theorem InvokeGuarded.snoc {transfers : Nat} {seg : List Event} (h : InvokeGuarded transfers seg)
    (e : Event) (he : ∀ i, e ≠ Event.invoke CoyoteOper.LOCAL_TRANSFER i) :
    InvokeGuarded transfers (seg ++ [e]) := by
  intro pre post i hsplit
  rcases snoc_eq_split hsplit with ⟨_, hx, _⟩ | ⟨post', _, hseg⟩
  · exact absurd hx (he i)
  · exact h pre post' i hseg

theorem InvokeGuarded.snoc_invoke {transfers : Nat} {seg : List Event}
    (h : InvokeGuarded transfers seg) (i : Nat) (hi : i < transfers) :
    InvokeGuarded transfers
      (seg ++ [Event.hipStreamQuery i hipError_t.hipSuccess] ++
        [Event.invoke CoyoteOper.LOCAL_TRANSFER i]) := by
  intro pre post j hsplit
  rcases snoc_eq_split hsplit with ⟨_, hx, hpre⟩ | ⟨post', _, hseg⟩
  · have hij : i = j := by simpa using hx
    subst hij
    exact ⟨hi, seg, hpre.symm⟩
  · exact (h.snoc _ (by intro k; simp)) pre post' j hseg

theorem pollStep_guarded (w : World) (transfers : Nat) (t0 : List Event) (s : State) (i : Nat)
    (hi : i < transfers) (hs : Extends t0 (InvokeGuarded transfers) s) :
    Extends t0 (InvokeGuarded transfers) (pollStep w s i) := by
  obtain ⟨seg, htr, hseg⟩ := hs
  unfold pollStep
  by_cases hst : w.hipStreamQuery s.nQuery = hipError_t.hipSuccess
  · by_cases hc : s.stream_completed[i]?.getD false = false
    · refine ⟨_, ?_, hseg.snoc_invoke i hi⟩
      simp [hst, hc, htr]
    · refine ⟨seg ++ [Event.hipStreamQuery i hipError_t.hipSuccess], ?_,
        hseg.snoc _ (by intro k; simp)⟩
      simp [hst, hc, htr]
  · refine ⟨seg ++ [Event.hipStreamQuery i (w.hipStreamQuery s.nQuery)], ?_,
      hseg.snoc _ (by intro k; simp)⟩
    simp [hst, htr]

theorem pollPass_guarded (w : World) (transfers : Nat) (t0 : List Event) (s : State)
    (hs : Extends t0 (InvokeGuarded transfers) s) :
    Extends t0 (InvokeGuarded transfers) (pollPass w transfers s) := by
  unfold pollPass
  apply foldl_invariant (Extends t0 (InvokeGuarded transfers))
  · intro s i hi hs
    exact pollStep_guarded w transfers t0 s i (List.mem_range.1 hi) hs
  · exact hs

theorem pollLoop_guarded (w : World) (transfers fuel : Nat) (t0 : List Event) (s : State)
    (hs : Extends t0 (InvokeGuarded transfers) s) :
    Extends t0 (InvokeGuarded transfers) (pollLoop w transfers fuel s) := by
  induction fuel generalizing s with
  | zero => simpa [pollLoop] using hs
  | succ n ih =>
    unfold pollLoop
    split
    · exact hs
    · exact ih _ (pollPass_guarded w transfers t0 s hs)


theorem issueD2H_spec (w : World) (transfers : Nat) (s : State) :
    (issueD2H w transfers s).trace = s.trace ++ d2hEvents w transfers s ∧
    (issueD2H w transfers s).nMemcpy = s.nMemcpy + transfers := by
  induction transfers with
  | zero => simp [issueD2H, d2hEvents]
  | succ n ih =>
    have hstep : issueD2H w (n + 1) s = memcpyD2H w (issueD2H w n s) n := by
      simp [issueD2H, List.range_succ, List.foldl_append]
    rw [hstep]
    obtain ⟨h1, h2⟩ := ih
    constructor
    · simp [memcpyD2H, h1, h2, d2hEvents, List.range_succ]
    · simp [memcpyD2H, h2]; omega

/-- C1. In the staged branch, up to any cut of the staging poll: every `LOCAL_TRANSFER`
invoke for an index `i` directly follows a status query of stream `i` that returned
`hipSuccess`, and comes after the device-to-host copy issued on stream `i`. -/
theorem stagedFirstPhase_invoke_after_stream_success (w : World) (transfers fuel : Nat) (s : State)
    (pre post : List Event) (i : Nat)
    (h : (stagedFirstPhase w transfers fuel s).trace =
      s.trace ++ (pre ++ Event.invoke CoyoteOper.LOCAL_TRANSFER i :: post)) :
    (∃ pre', pre = pre' ++ [Event.hipStreamQuery i hipError_t.hipSuccess]) ∧
    (∃ pre₁ pre₂ status, pre = pre₁ ++ Event.hipMemcpyAsyncD2H i status :: pre₂) := by
  have hext : Extends (s.trace ++ d2hEvents w transfers s) (InvokeGuarded transfers)
      (stagedFirstPhase w transfers fuel s) := by
    unfold stagedFirstPhase
    apply pollLoop_guarded
    exact ⟨[], by simp [(issueD2H_spec w transfers s).1], InvokeGuarded.nil _⟩
  obtain ⟨seg, htr, hseg⟩ := hext
  rw [htr, List.append_assoc] at h
  have h' := List.append_cancel_left h
  rcases List.append_eq_append_iff.1 h' with ⟨a', ha, hb⟩ | ⟨c', ha, hb⟩
  · obtain ⟨hi, pre', hpre'⟩ := hseg a' post i hb
    refine ⟨⟨d2hEvents w transfers s ++ pre', by simp [ha, hpre']⟩, ?_⟩
    have hmem : Event.hipMemcpyAsyncD2H i (w.hipMemcpyAsync (s.nMemcpy + i)) ∈
        d2hEvents w transfers s := by
      simp only [d2hEvents, List.mem_map, List.mem_range]
      exact ⟨i, hi, rfl⟩
    obtain ⟨l₁, l₂, hl⟩ := List.append_of_mem hmem
    exact ⟨l₁, l₂ ++ a', w.hipMemcpyAsync (s.nMemcpy + i), by simp [ha, hl]⟩
  · exfalso
    cases c' with
    | nil =>
      simp only [List.nil_append] at hb
      obtain ⟨_, pre', hp⟩ := hseg [] post i hb.symm
      simp at hp
    | cons x c'' =>
      simp only [List.cons_append, List.cons.injEq] at hb
      have hmem : Event.invoke CoyoteOper.LOCAL_TRANSFER i ∈ d2hEvents w transfers s := by
        rw [ha, ← hb.1]; simp
      simp [d2hEvents] at hmem

end TwoSided

namespace TwoSided

theorem invokedIndices_append (a b : List Event) :
    invokedIndices (a ++ b) = invokedIndices a ++ invokedIndices b := by
  simp [invokedIndices, List.filterMap_append]

theorem invokedIndices_query (i : Nat) (st : hipError_t) :
    invokedIndices [Event.hipStreamQuery i st] = [] := rfl

theorem invokedIndices_invoke (i : Nat) :
    invokedIndices [Event.invoke CoyoteOper.LOCAL_TRANSFER i] = [i] := rfl

theorem pollStep_not_ready (w : World) (s : State) (i : Nat)
    (hst : w.hipStreamQuery s.nQuery ≠ hipError_t.hipSuccess) :
    pollStep w s i =
      { s with
        nQuery := s.nQuery + 1,
        trace := s.trace ++ [Event.hipStreamQuery i (w.hipStreamQuery s.nQuery)],
        gpu_to_cpu_done := false } := by
  simp only [pollStep, ne_eq, hst, not_false_eq_true, if_true]

theorem pollStep_fresh (w : World) (s : State) (i : Nat)
    (hst : w.hipStreamQuery s.nQuery = hipError_t.hipSuccess)
    (hc : s.stream_completed.getD i false = false) :
    pollStep w s i =
      { s with
        nQuery := s.nQuery + 1,
        trace := s.trace ++ [Event.hipStreamQuery i hipError_t.hipSuccess] ++
          [Event.invoke CoyoteOper.LOCAL_TRANSFER i],
        stream_completed := s.stream_completed.set i true } := by
  simp only [pollStep, ne_eq, hst, not_true_eq_false, if_false, hc, Bool.not_false, if_true]

theorem pollStep_seen (w : World) (s : State) (i : Nat)
    (hst : w.hipStreamQuery s.nQuery = hipError_t.hipSuccess)
    (hc : s.stream_completed.getD i false = true) :
    pollStep w s i =
      { s with
        nQuery := s.nQuery + 1,
        trace := s.trace ++ [Event.hipStreamQuery i hipError_t.hipSuccess] } := by
  simp only [pollStep, ne_eq, hst, not_true_eq_false, if_false, hc, Bool.not_true,
    Bool.false_eq_true]

theorem pollStep_inv (w : World) (transfers : Nat) (t0 : List Event) (s : State) (i : Nat)
    (hi : i < transfers) (hs : PollInv transfers t0 s) :
    PollInv transfers t0 (pollStep w s i) ∧
    ((pollStep w s i).gpu_to_cpu_done = true →
      s.gpu_to_cpu_done = true ∧ (pollStep w s i).stream_completed[i]? = some true) ∧
    (∀ j : Nat, s.stream_completed[j]? = some true →
      (pollStep w s i).stream_completed[j]? = some true) := by
  obtain ⟨seg, htr, hlen, hnd, hmem⟩ := hs
  have hilt : i < s.stream_completed.length := by omega
  by_cases hst : w.hipStreamQuery s.nQuery = hipError_t.hipSuccess
  · by_cases hc : s.stream_completed.getD i false = false
    · have hni : i ∉ invokedIndices seg := by
        intro hin
        have := ((hmem i).1 hin).2
        simp [List.getD_eq_getElem?_getD, this] at hc
      rw [pollStep_fresh w s i hst hc]
      refine ⟨⟨seg ++ [Event.hipStreamQuery i hipError_t.hipSuccess] ++
          [Event.invoke CoyoteOper.LOCAL_TRANSFER i], ?_, ?_, ?_, ?_⟩, ?_, ?_⟩
      · simp [htr]
      · simp [hlen]
      · rw [invokedIndices_append, invokedIndices_append, invokedIndices_query,
          invokedIndices_invoke, List.append_nil]
        exact List.Nodup.append hnd (by simp) (by simpa using hni)
      · intro j
        rw [invokedIndices_append, invokedIndices_append, invokedIndices_query,
          invokedIndices_invoke, List.append_nil]
        simp only [List.mem_append, List.mem_singleton, hmem j]
        by_cases hji : j = i
        · subst hji
          simp [hi, hilt]
        · simp [hji, List.getElem?_set_ne (Ne.symm hji)]
      · intro h
        exact ⟨h, by simp [hilt]⟩
      · intro j hj
        by_cases hji : j = i
        · subst hji; simp [hilt]
        · simpa [List.getElem?_set_ne (Ne.symm hji)] using hj
    · have hc' : s.stream_completed.getD i false = true := by simpa using hc
      have hci : s.stream_completed[i]? = some true := by
        rw [List.getD_eq_getElem?_getD, List.getElem?_eq_getElem hilt] at hc'
        rw [List.getElem?_eq_getElem hilt]
        simpa using hc'
      rw [pollStep_seen w s i hst hc']
      refine ⟨⟨seg ++ [Event.hipStreamQuery i hipError_t.hipSuccess], ?_, ?_, ?_, ?_⟩, ?_, ?_⟩
      · simp [htr]
      · simp [hlen]
      · simpa [invokedIndices_append, invokedIndices_query] using hnd
      · intro j
        simpa [invokedIndices_append, invokedIndices_query] using hmem j
      · intro h
        exact ⟨h, hci⟩
      · intro j hj
        exact hj
  · rw [pollStep_not_ready w s i hst]
    refine ⟨⟨seg ++ [Event.hipStreamQuery i (w.hipStreamQuery s.nQuery)], ?_, ?_, ?_, ?_⟩, ?_, ?_⟩
    · simp [htr]
    · simp [hlen]
    · simpa [invokedIndices_append, invokedIndices_query] using hnd
    · intro j
      simpa [invokedIndices_append, invokedIndices_query] using hmem j
    · intro h
      simp at h
    · intro j hj
      exact hj

theorem pollPrefix_inv (w : World) (transfers : Nat) (t0 : List Event) (s : State)
    (hs : PollInv transfers t0 s) (n : Nat) (hn : n ≤ transfers) :
    PollInv transfers t0 ((List.range n).foldl (pollStep w) s) ∧
    (((List.range n).foldl (pollStep w) s).gpu_to_cpu_done = true →
      s.gpu_to_cpu_done = true ∧
      ∀ j : Nat, j < n → ((List.range n).foldl (pollStep w) s).stream_completed[j]? = some true) ∧
    (∀ j : Nat, s.stream_completed[j]? = some true →
      ((List.range n).foldl (pollStep w) s).stream_completed[j]? = some true) := by
  induction n with
  | zero =>
    refine ⟨by simpa using hs, ?_, ?_⟩
    · intro h
      exact ⟨by simpa using h, fun j hj => absurd hj (Nat.not_lt_zero j)⟩
    · intro j hj
      simpa using hj
  | succ n ih =>
    obtain ⟨ih1, ih2, ih3⟩ := ih (by omega)
    rw [List.range_succ, List.foldl_append]
    simp only [List.foldl_cons, List.foldl_nil]
    obtain ⟨h1, h2, h3⟩ := pollStep_inv w transfers t0 _ n (by omega) ih1
    refine ⟨h1, ?_, ?_⟩
    · intro hdone
      obtain ⟨hprev, hn'⟩ := h2 hdone
      obtain ⟨hs0, hall⟩ := ih2 hprev
      refine ⟨hs0, ?_⟩
      intro j hj
      by_cases hjn : j = n
      · subst hjn; exact hn'
      · exact h3 j (hall j (by omega))
    · intro j hj
      exact h3 j (ih3 j hj)

theorem pollPass_inv (w : World) (transfers : Nat) (t0 : List Event) (s : State)
    (hs : PollInv transfers t0 s) : PollLoopInv transfers t0 (pollPass w transfers s) := by
  have hs' : PollInv transfers t0 { s with gpu_to_cpu_done := true } := hs
  obtain ⟨h1, h2, _⟩ := pollPrefix_inv w transfers t0 _ hs' transfers (le_refl _)
  exact ⟨h1, fun hdone => (h2 hdone).2⟩

theorem pollLoop_inv (w : World) (transfers fuel : Nat) (t0 : List Event) (s : State)
    (hs : PollLoopInv transfers t0 s) : PollLoopInv transfers t0 (pollLoop w transfers fuel s) := by
  induction fuel generalizing s with
  | zero => simpa [pollLoop] using hs
  | succ n ih =>
    unfold pollLoop
    split
    · exact hs
    · exact ih _ (pollPass_inv w transfers t0 s hs.1)

theorem resetFlags_getElem? (n : Nat) (sc : List Bool) (j : Nat) :
    ((List.range n).foldl (fun sc i => sc.set i false) sc)[j]? =
      if j < n then (if j < sc.length then some false else none) else sc[j]? := by
  induction n with
  | zero => simp
  | succ n ih =>
    rw [List.range_succ, List.foldl_append]
    simp only [List.foldl_cons, List.foldl_nil]
    have hlen : ((List.range n).foldl (fun sc i => sc.set i false) sc).length = sc.length := by
      apply foldl_invariant (fun l : List Bool => l.length = sc.length)
      · intro l i _ hl
        simpa using hl
      · rfl
    by_cases hjn : j = n
    · subst hjn
      by_cases hl : j < sc.length
      · simp [hl, hlen]
      · simp [hl, hlen]
        omega
    · rw [List.getElem?_set_ne (Ne.symm hjn), ih]
      by_cases h1 : j < n
      · simp [h1, Nat.lt_succ_of_lt h1]
      · have : ¬ j < n + 1 := by omega
        simp [h1, this]

theorem prep_fn_stream_completed (transfers : Nat) (gpu_perf_monitoring : Bool) (s : State)
    (hlen : s.stream_completed.length = transfers) :
    (prep_fn transfers gpu_perf_monitoring s).stream_completed =
      List.replicate transfers false := by
  have h : (prep_fn transfers gpu_perf_monitoring s).stream_completed =
      (List.range transfers).foldl (fun sc i => sc.set i false) s.stream_completed := by
    unfold prep_fn
    cases gpu_perf_monitoring <;> simp [State.emit, deviceSynchronizeChecked]
  rw [h]
  apply List.ext_getElem?
  intro j
  rw [resetFlags_getElem?]
  by_cases hj : j < transfers
  · simp [hj, hlen, List.getElem?_replicate]
  · have : s.stream_completed.length ≤ j := by omega
    simp [hj, List.getElem?_replicate, List.getElem?_eq_none this]

theorem prep_fn_trace (transfers : Nat) (gpu_perf_monitoring : Bool) (s : State) :
    (prep_fn transfers gpu_perf_monitoring s).trace =
      s.trace ++ prepEvents gpu_perf_monitoring := by
  cases gpu_perf_monitoring <;>
    simp [prep_fn, prepEvents, State.emit, deviceSynchronizeChecked]

theorem benchBegin_trace (w : World) (gpu_perf_monitoring : Bool) (s : State) :
    (benchBegin w gpu_perf_monitoring s).trace =
      s.trace ++ beginEvents w gpu_perf_monitoring s := by
  cases gpu_perf_monitoring <;> simp [benchBegin, beginEvents, perf_monitor_start]

theorem benchBegin_stream_completed (w : World) (gpu_perf_monitoring : Bool) (s : State) :
    (benchBegin w gpu_perf_monitoring s).stream_completed = s.stream_completed := by
  cases gpu_perf_monitoring <;> simp [benchBegin, perf_monitor_start]

theorem issueD2H_stream_completed (w : World) (transfers : Nat) (s : State) :
    (issueD2H w transfers s).stream_completed = s.stream_completed := by
  unfold issueD2H
  apply foldl_invariant (fun t : State => t.stream_completed = s.stream_completed)
  · intro t i _ ht
    simpa [memcpyD2H] using ht
  · rfl

theorem invokedIndices_prepEvents (g : Bool) : invokedIndices (prepEvents g) = [] := by
  cases g <;> rfl

theorem invokedIndices_beginEvents (w : World) (g : Bool) (s : State) :
    invokedIndices (beginEvents w g s) = [] := by
  cases g <;> rfl

theorem invokedIndices_d2hEvents (w : World) (transfers : Nat) (s : State) :
    invokedIndices (d2hEvents w transfers s) = [] := by
  simp [invokedIndices, d2hEvents, List.filterMap_map]

/-- C2. When the staging poll of an iteration exits, the `LOCAL_TRANSFER` invokes of the
iteration are a rearrangement of the indices `0 .. transfers - 1` (each index once, none
missing), every `stream_completed[i]` is set, and `prep_fn` had reset every flag. -/
theorem stagedFirstPhase_invokes_each_index_once (w : World) (transfers fuel : Nat) (gpu_perf_monitoring : Bool)
    (s : State) (hlen : s.stream_completed.length = transfers)
    (hexit : (stagedFirstPhase w transfers fuel
      (benchBegin w gpu_perf_monitoring (prep_fn transfers gpu_perf_monitoring s))).gpu_to_cpu_done
        = true) :
    (prep_fn transfers gpu_perf_monitoring s).stream_completed = List.replicate transfers false ∧
    (invokedIndices (eventsSince s (stagedFirstPhase w transfers fuel
      (benchBegin w gpu_perf_monitoring (prep_fn transfers gpu_perf_monitoring s))))).Perm
        (List.range transfers) ∧
    (invokedIndices (eventsSince s (stagedFirstPhase w transfers fuel
      (benchBegin w gpu_perf_monitoring (prep_fn transfers gpu_perf_monitoring s))))).length
        = transfers ∧
    (stagedFirstPhase w transfers fuel
      (benchBegin w gpu_perf_monitoring (prep_fn transfers gpu_perf_monitoring s))).stream_completed
        = List.replicate transfers true := by
  have hprep := prep_fn_stream_completed transfers gpu_perf_monitoring s hlen
  set s0 := prep_fn transfers gpu_perf_monitoring s with hs0
  set s1 := benchBegin w gpu_perf_monitoring s0 with hs1
  have hsc1 : s1.stream_completed = List.replicate transfers false := by
    rw [hs1, benchBegin_stream_completed, hprep]
  have hinit : PollLoopInv transfers (issueD2H w transfers s1).trace
      { issueD2H w transfers s1 with gpu_to_cpu_done := false } := by
    refine ⟨⟨[], by simp, ?_, by simp [invokedIndices], ?_⟩, ?_⟩
    · simp [issueD2H_stream_completed, hsc1]
    · intro i
      simp [invokedIndices, issueD2H_stream_completed, hsc1, List.getElem?_replicate]
    · intro h
      simp at h
  have hfin := pollLoop_inv w transfers fuel _ _ hinit
  obtain ⟨⟨seg, htr, hlen2, hnd, hmem⟩, hall⟩ := hfin
  have hall' := hall hexit
  have htrace : (stagedFirstPhase w transfers fuel s1).trace =
      s.trace ++ (prepEvents gpu_perf_monitoring ++ beginEvents w gpu_perf_monitoring s0 ++
        d2hEvents w transfers s1 ++ seg) := by
    show (pollLoop w transfers fuel _).trace = _
    rw [htr, (issueD2H_spec w transfers s1).1, hs1, benchBegin_trace, hs0, prep_fn_trace]
    simp
  have hev : invokedIndices (eventsSince s (stagedFirstPhase w transfers fuel s1)) =
      invokedIndices seg := by
    unfold eventsSince
    rw [htrace, List.drop_left]
    simp [invokedIndices_append, invokedIndices_prepEvents, invokedIndices_beginEvents,
      invokedIndices_d2hEvents]
  have hperm : (invokedIndices seg).Perm (List.range transfers) := by
    apply (List.perm_ext_iff_of_nodup hnd (List.nodup_range transfers)).2
    intro i
    rw [hmem i, List.mem_range]
    constructor
    · exact fun h => h.1
    · exact fun h => ⟨h, hall' i h⟩
  refine ⟨hprep, ?_, ?_, ?_⟩
  · rw [hev]; exact hperm
  · rw [hev, hperm.length_eq, List.length_range]
  · show (pollLoop w transfers fuel _).stream_completed = _
    apply List.ext_getElem?
    intro j
    by_cases hj : j < transfers
    · rw [hall' j hj]
      simp [List.getElem?_replicate, hj]
    · have : (pollLoop w transfers fuel
          { issueD2H w transfers s1 with gpu_to_cpu_done := false }).stream_completed.length ≤ j := by
        omega
      rw [List.getElem?_eq_none this]
      simp [List.getElem?_replicate, hj]

end TwoSided

namespace TwoSided

theorem h2dIndices_append (a b : List Event) :
    h2dIndices (a ++ b) = h2dIndices a ++ h2dIndices b := by
  simp [h2dIndices, List.filterMap_append]

theorem CopyAfterReading.append {a b : List Event} (ha : CopyAfterReading a)
    (hb : ∀ pre post i status, b = pre ++ Event.hipMemcpyAsyncH2D i status :: post →
      ∃ reading, Event.checkCompleted CoyoteOper.LOCAL_TRANSFER reading ∈ a ++ pre ∧
        i + 1 ≤ reading) :
    CopyAfterReading (a ++ b) := by
  intro pre post i status h
  rcases List.append_eq_append_iff.1 h with ⟨a', hpre, hb'⟩ | ⟨c', ha', hcb⟩
  · obtain ⟨v, hv, hle⟩ := hb a' post i status hb'
    exact ⟨v, by rw [hpre]; exact hv, hle⟩
  · cases c' with
    | nil =>
      simp only [List.nil_append] at hcb
      simp only [List.append_nil] at ha'
      obtain ⟨v, hv, hle⟩ := hb [] post i status hcb.symm
      exact ⟨v, by simpa [ha'] using hv, hle⟩
    | cons x c'' =>
      simp only [List.cons_append, List.cons.injEq] at hcb
      obtain ⟨hx, _⟩ := hcb
      subst hx
      exact ha pre c'' i status ha'

/-- What a run of host-to-device copies over the indices `l` does to the state. -/
theorem foldl_memcpyH2D_spec (w : World) (l : List Nat) (s : State) :
    ∃ seg, (l.foldl (memcpyH2D w) s).trace = s.trace ++ seg ∧
      h2dIndices seg = l ∧
      (∀ e ∈ seg, ∃ i status, e = Event.hipMemcpyAsyncH2D i status ∧ i ∈ l) ∧
      (l.foldl (memcpyH2D w) s).nCheck = s.nCheck ∧
      (l.foldl (memcpyH2D w) s).completed_coyote = s.completed_coyote := by
  induction l generalizing s with
  | nil => exact ⟨[], by simp, rfl, by simp, rfl, rfl⟩
  | cons a l ih =>
    obtain ⟨seg, h1, h2, h3, h4, h5⟩ := ih (memcpyH2D w s a)
    refine ⟨Event.hipMemcpyAsyncH2D a (w.hipMemcpyAsync s.nMemcpy) :: seg, ?_, ?_, ?_, ?_, ?_⟩
    · rw [List.foldl_cons, h1]
      simp [memcpyH2D]
    · simp [h2dIndices] at h2 ⊢
      exact h2
    · intro e he
      rcases List.mem_cons.1 he with rfl | he
      · exact ⟨a, _, rfl, List.mem_cons_self _ _⟩
      · obtain ⟨i, st, hi, hmem⟩ := h3 e he
        exact ⟨i, st, hi, List.mem_cons_of_mem _ hmem⟩
    · rw [List.foldl_cons, h4]
      simp [memcpyH2D]
    · rw [List.foldl_cons, h5]
      simp [memcpyH2D]

/-- What one iteration of `while (completed_coyote < transfers)` does to the state. -/
theorem h2dBody_spec (w : World) (s : State) :
    ∃ seg, (h2dBody w s).trace = s.trace ++
        Event.checkCompleted CoyoteOper.LOCAL_TRANSFER (w.checkCompleted s.nCheck) :: seg ∧
      h2dIndices seg =
        List.range' s.completed_coyote (w.checkCompleted s.nCheck - s.completed_coyote) ∧
      (∀ e ∈ seg, ∃ i status, e = Event.hipMemcpyAsyncH2D i status ∧
        i ∈ List.range' s.completed_coyote (w.checkCompleted s.nCheck - s.completed_coyote)) ∧
      (h2dBody w s).nCheck = s.nCheck + 1 ∧
      (h2dBody w s).completed_coyote = w.checkCompleted s.nCheck := by
  obtain ⟨seg, h1, h2, h3, h4, h5⟩ := foldl_memcpyH2D_spec w
    (List.range' s.completed_coyote (w.checkCompleted s.nCheck - s.completed_coyote))
    { s with
      completed_coyote := w.checkCompleted s.nCheck,
      nCheck := s.nCheck + 1,
      trace := s.trace ++
        [Event.checkCompleted CoyoteOper.LOCAL_TRANSFER (w.checkCompleted s.nCheck)] }
  refine ⟨seg, ?_, h2, h3, h4, h5⟩
  unfold h2dBody
  rw [h1]
  simp

theorem h2dBody_nCheck (w : World) (s : State) : (h2dBody w s).nCheck = s.nCheck + 1 := by
  obtain ⟨_, _, _, _, h4, _⟩ := h2dBody_spec w s
  exact h4

theorem h2dBody_completed_coyote (w : World) (s : State) :
    (h2dBody w s).completed_coyote = w.checkCompleted s.nCheck := by
  obtain ⟨_, _, _, _, _, h5⟩ := h2dBody_spec w s
  exact h5

theorem range_append_range' (c v : Nat) (h : c ≤ v) :
    List.range c ++ List.range' c (v - c) = List.range v := by
  rw [List.range_eq_range', List.range_eq_range']
  have := List.range'_append_1 0 c (v - c)
  simp only [Nat.zero_add] at this
  rw [this]
  congr 1
  omega

theorem h2dBody_inv (w : World) (t0 : List Event) (s : State) (hs : H2dInv t0 s)
    (hmono : s.completed_coyote ≤ w.checkCompleted s.nCheck) :
    H2dInv t0 (h2dBody w s) := by
  obtain ⟨seg, htr, hidx, hguard⟩ := hs
  obtain ⟨seg', h1, h2, h3, _, hcc⟩ := h2dBody_spec w s
  refine ⟨seg ++ (Event.checkCompleted CoyoteOper.LOCAL_TRANSFER (w.checkCompleted s.nCheck)
      :: seg'), ?_, ?_, ?_⟩
  · rw [h1, htr]
    simp
  · rw [hcc, h2dIndices_append, hidx]
    have : h2dIndices (Event.checkCompleted CoyoteOper.LOCAL_TRANSFER
        (w.checkCompleted s.nCheck) :: seg') = h2dIndices seg' := by
      simp [h2dIndices]
    rw [this, h2]
    exact range_append_range' _ _ hmono
  · apply hguard.append
    intro pre post i status hsplit
    refine ⟨w.checkCompleted s.nCheck, ?_, ?_⟩
    · cases pre with
      | nil => simp at hsplit
      | cons x pre' =>
        simp only [List.cons_append, List.cons.injEq] at hsplit
        simp [← hsplit.1]
    · have hmem : Event.hipMemcpyAsyncH2D i status ∈ seg' := by
        cases pre with
        | nil => simp at hsplit
        | cons x pre' =>
          simp only [List.cons_append, List.cons.injEq] at hsplit
          rw [hsplit.2]; simp
      obtain ⟨i', st', he, hi'⟩ := h3 _ hmem
      simp only [Event.hipMemcpyAsyncH2D.injEq] at he
      rw [he.1]
      have := List.mem_range'_1.1 hi'
      omega

theorem h2dLoop_exit (w : World) (transfers fuel : Nat) (s : State)
    (h : ¬ s.completed_coyote < transfers) : h2dLoop w transfers fuel s = s := by
  cases fuel with
  | zero => rfl
  | succ n => simp [h2dLoop, h]

theorem h2dLoop_unroll (w : World) (transfers : Nat) (k fuel : Nat) (s : State)
    (h : ∀ j, j < k → ((h2dBody w)^[j] s).completed_coyote < transfers) :
    h2dLoop w transfers (k + fuel) s = h2dLoop w transfers fuel ((h2dBody w)^[k] s) := by
  induction k generalizing s with
  | zero => simp
  | succ k ih =>
    have h0 : s.completed_coyote < transfers := by simpa using h 0 (by omega)
    have hk : k + 1 + fuel = (k + fuel) + 1 := by omega
    rw [hk, h2dLoop, if_pos h0, Function.iterate_succ_apply]
    apply ih
    intro j hj
    have := h (j + 1) (by omega)
    rwa [Function.iterate_succ_apply] at this

theorem h2dLoop_eq_iterate (w : World) (transfers fuel : Nat) (s : State) :
    ∃ n, n ≤ fuel ∧ h2dLoop w transfers fuel s = (h2dBody w)^[n] s := by
  induction fuel generalizing s with
  | zero => exact ⟨0, le_refl _, rfl⟩
  | succ fuel ih =>
    by_cases h : s.completed_coyote < transfers
    · obtain ⟨n, hn, heq⟩ := ih (h2dBody w s)
      refine ⟨n + 1, by omega, ?_⟩
      rw [h2dLoop, if_pos h, heq, Function.iterate_succ_apply]
    · exact ⟨0, by omega, by rw [h2dLoop_exit w transfers _ s h]; rfl⟩

theorem h2dIter_nCheck (w : World) (k : Nat) (s : State) :
    ((h2dBody w)^[k] s).nCheck = s.nCheck + k := by
  induction k with
  | zero => rfl
  | succ k ih => rw [Function.iterate_succ_apply', h2dBody_nCheck, ih]; omega

theorem h2dIter_completed_coyote (w : World) (k : Nat) (s : State) :
    ((h2dBody w)^[k + 1] s).completed_coyote = w.checkCompleted (s.nCheck + k) := by
  rw [Function.iterate_succ_apply', h2dBody_completed_coyote, h2dIter_nCheck]

theorem h2dIter_inv (w : World) (s : State) (hzero : s.completed_coyote = 0)
    (hmono : ∀ j, w.checkCompleted (s.nCheck + j) ≤ w.checkCompleted (s.nCheck + (j + 1)))
    (k : Nat) : H2dInv s.trace ((h2dBody w)^[k] s) := by
  induction k with
  | zero =>
    refine ⟨[], by simp, ?_, ?_⟩
    · simp [hzero, h2dIndices]
    · intro pre post i status h
      simp at h
  | succ k ih =>
    rw [Function.iterate_succ_apply']
    apply h2dBody_inv w s.trace _ ih
    rw [h2dIter_nCheck]
    cases k with
    | zero => simp [hzero]
    | succ k => rw [h2dIter_completed_coyote]; exact hmono k

theorem eventsSince_of_trace {s t : State} {seg : List Event} (h : t.trace = s.trace ++ seg) :
    eventsSince s t = seg := by
  simp [eventsSince, h]

/-- C3 (amended). With non-decreasing readings of the `LOCAL_TRANSFER` counter that never
exceed `transfers`: at any cut of the second staged loop the host-to-device copies issued
are those for the indices below `completed_coyote`, in increasing order and each once, each
after a reading of at least its index plus one; the loop ends with one copy for each index
below `transfers`; for `transfers >= 1` it exits exactly at the first reading equal to
`transfers`, and for `transfers = 0` it exits without taking a reading. -/
theorem stagedSecondPhase_copies_in_order (w : World) (transfers : Nat) (s : State)
    (hmono : ∀ j, w.checkCompleted (s.nCheck + j) ≤ w.checkCompleted (s.nCheck + (j + 1)))
    (hbound : ∀ j, w.checkCompleted (s.nCheck + j) ≤ transfers)
    (k : Nat) (hk : w.checkCompleted (s.nCheck + k) = transfers)
    (hfirst : ∀ j, j < k → w.checkCompleted (s.nCheck + j) ≠ transfers)
    (fuel : Nat) (hfuel : k < fuel) :
    (∀ cut,
      h2dIndices (eventsSince s (stagedSecondPhase w transfers cut s)) =
        List.range (stagedSecondPhase w transfers cut s).completed_coyote ∧
      CopyAfterReading (eventsSince s (stagedSecondPhase w transfers cut s))) ∧
    (stagedSecondPhase w transfers fuel s).completed_coyote = transfers ∧
    h2dIndices (eventsSince s (stagedSecondPhase w transfers fuel s)) = List.range transfers ∧
    (0 < transfers → (stagedSecondPhase w transfers fuel s).nCheck = s.nCheck + k + 1) ∧
    (transfers = 0 → (stagedSecondPhase w transfers fuel s).nCheck = s.nCheck ∧
      eventsSince s (stagedSecondPhase w transfers fuel s) = []) := by
  have hsafe : ∀ cut,
      h2dIndices (eventsSince s (stagedSecondPhase w transfers cut s)) =
        List.range (stagedSecondPhase w transfers cut s).completed_coyote ∧
      CopyAfterReading (eventsSince s (stagedSecondPhase w transfers cut s)) := by
    intro cut
    obtain ⟨n, _, heq⟩ := h2dLoop_eq_iterate w transfers cut { s with completed_coyote := 0 }
    obtain ⟨seg, htr, hidx, hg⟩ := h2dIter_inv w { s with completed_coyote := 0 } rfl hmono n
    unfold stagedSecondPhase
    rw [heq]
    have hev := eventsSince_of_trace (s := s) htr
    rw [hev]
    exact ⟨hidx, hg⟩
  have hexit : (stagedSecondPhase w transfers fuel s).completed_coyote = transfers ∧
      (0 < transfers → (stagedSecondPhase w transfers fuel s).nCheck = s.nCheck + k + 1) ∧
      (transfers = 0 → (stagedSecondPhase w transfers fuel s).nCheck = s.nCheck ∧
        eventsSince s (stagedSecondPhase w transfers fuel s) = []) := by
    by_cases hpos : 0 < transfers
    · have hrun : ∀ j, j < k + 1 →
          ((h2dBody w)^[j] { s with completed_coyote := 0 }).completed_coyote < transfers := by
        intro j hj
        cases j with
        | zero => simpa using hpos
        | succ j =>
          rw [h2dIter_completed_coyote]
          exact lt_of_le_of_ne (hbound j) (hfirst j (by omega))
      have hfu : fuel = (k + 1) + (fuel - (k + 1)) := by omega
      have hres : stagedSecondPhase w transfers fuel s =
          (h2dBody w)^[k + 1] { s with completed_coyote := 0 } := by
        unfold stagedSecondPhase
        rw [hfu, h2dLoop_unroll w transfers (k + 1) _ _ hrun]
        apply h2dLoop_exit
        rw [h2dIter_completed_coyote]
        simp [hk]
      refine ⟨?_, ?_, ?_⟩
      · rw [hres, h2dIter_completed_coyote]; exact hk
      · intro _
        rw [hres, h2dIter_nCheck]
        rfl
      · intro h0; omega
    · have h0 : transfers = 0 := by omega
      have hres : stagedSecondPhase w transfers fuel s = { s with completed_coyote := 0 } := by
        unfold stagedSecondPhase
        apply h2dLoop_exit
        simp [h0]
      refine ⟨?_, ?_, ?_⟩
      · rw [hres, h0]
      · intro h; omega
      · intro _
        rw [hres]
        exact ⟨rfl, by simp [eventsSince]⟩
  refine ⟨hsafe, hexit.1, ?_, hexit.2.1, hexit.2.2⟩
  rw [(hsafe fuel).1, hexit.1]

end TwoSided

namespace TwoSided

theorem waitCompleted_exits (w : World) (oper : CoyoteOper) (target : Nat) (k : Nat) :
    ∀ (fuel : Nat) (s : State), k < fuel → w.checkCompleted (s.nCheck + k) = target →
      (∀ j, j < k → w.checkCompleted (s.nCheck + j) ≠ target) →
      waitCompleted w oper target fuel s =
        some { s with
          nCheck := s.nCheck + (k + 1),
          trace := s.trace ++ pollEvents w oper s (k + 1) } := by
  induction k with
  | zero =>
    intro fuel s hf hk _
    cases fuel with
    | zero => omega
    | succ fuel =>
      have hk' : w.checkCompleted s.nCheck = target := by simpa using hk
      simp [waitCompleted, hk', pollEvents, List.range_succ]
  | succ k ih =>
    intro fuel s hf hk hfirst
    cases fuel with
    | zero => omega
    | succ fuel =>
      have h0 : w.checkCompleted s.nCheck ≠ target := by simpa using hfirst 0 (by omega)
      rw [waitCompleted]
      simp only [ne_eq, h0, not_false_eq_true, if_true]
      rw [ih fuel _ (by omega)]
      · simp only [pollEvents, List.range_succ_eq_map (k + 1), List.map_cons, List.map_map]
        congr 1
        · have : s.nCheck + 1 + (k + 1) = s.nCheck + (k + 1 + 1) := by omega
          simp [this, Function.comp_def, Nat.add_assoc, Nat.add_comm 1]
      · simpa [Nat.add_assoc, Nat.add_comm 1] using hk
      · intro j hj
        have := hfirst (j + 1) (by omega)
        simpa [Nat.add_assoc, Nat.add_comm 1] using this

theorem waitCompleted_spins (w : World) (oper : CoyoteOper) (target : Nat) :
    ∀ (fuel : Nat) (s : State), (∀ j, j < fuel → w.checkCompleted (s.nCheck + j) ≠ target) →
      waitCompleted w oper target fuel s = none := by
  intro fuel
  induction fuel with
  | zero => intro s _; rfl
  | succ fuel ih =>
    intro s h
    have h0 : w.checkCompleted s.nCheck ≠ target := by simpa using h 0 (by omega)
    rw [waitCompleted]
    simp only [ne_eq, h0, not_false_eq_true, if_true]
    apply ih
    intro j hj
    have := h (j + 1) (by omega)
    simpa [Nat.add_assoc, Nat.add_comm 1] using this

theorem invokeAll_spec (transfers : Nat) (s : State) :
    invokeAll transfers s = { s with trace := s.trace ++ invokeEvents transfers } := by
  induction transfers with
  | zero => simp [invokeAll, invokeEvents]
  | succ n ih =>
    have hstep : invokeAll (n + 1) s =
        (invokeAll n s).emit (Event.invoke CoyoteOper.LOCAL_TRANSFER n) := by
      simp [invokeAll, List.range_succ, List.foldl_append]
    rw [hstep, ih]
    simp [State.emit, invokeEvents, List.range_succ]

theorem p2pBranch_exits (w : World) (transfers fuel : Nat) (s : State) (k : Nat)
    (hfuel : k < fuel) (hk : w.checkCompleted (s.nCheck + k) = transfers)
    (hfirst : ∀ j, j < k → w.checkCompleted (s.nCheck + j) ≠ transfers) :
    p2pBranch w transfers fuel s =
      some { s with
        nCheck := s.nCheck + (k + 1),
        nSync := s.nSync + 1,
        trace := s.trace ++ (invokeEvents transfers ++
          pollEvents w CoyoteOper.LOCAL_TRANSFER s (k + 1) ++ [Event.hipDeviceSynchronize]) } := by
  unfold p2pBranch
  simp only [invokeAll_spec]
  have h := waitCompleted_exits w CoyoteOper.LOCAL_TRANSFER transfers k fuel
    { s with trace := s.trace ++ invokeEvents transfers } hfuel hk hfirst
  rw [h]
  simp [deviceSynchronizeChecked, pollEvents]

/-- C4. The P2P branch invokes `transfers` operations, then polls, and leaves the polling
loop exactly at the first reading equal to `transfers`; it issues no staging copy; while
no reading equals `transfers` it keeps polling. -/
theorem p2pBranch_invokes_then_polls (w : World) (transfers fuel : Nat) (s : State) :
    (∀ k, k < fuel → w.checkCompleted (s.nCheck + k) = transfers →
      (∀ j, j < k → w.checkCompleted (s.nCheck + j) ≠ transfers) →
      ∃ t, p2pBranch w transfers fuel s = some t ∧
        eventsSince s t = invokeEvents transfers ++
          pollEvents w CoyoteOper.LOCAL_TRANSFER s (k + 1) ++ [Event.hipDeviceSynchronize] ∧
        (∀ i status, Event.hipMemcpyAsyncD2H i status ∉ eventsSince s t ∧
          Event.hipMemcpyAsyncH2D i status ∉ eventsSince s t)) ∧
    ((∀ j, j < fuel → w.checkCompleted (s.nCheck + j) ≠ transfers) →
      p2pBranch w transfers fuel s = none) := by
  constructor
  · intro k hfuel hk hfirst
    refine ⟨_, p2pBranch_exits w transfers fuel s k hfuel hk hfirst, ?_, ?_⟩
    · exact eventsSince_of_trace rfl
    · intro i status
      rw [eventsSince_of_trace (s := s) rfl]
      simp [invokeEvents, pollEvents]
  · intro h
    unfold p2pBranch
    simp only [invokeAll_spec]
    have h' := waitCompleted_spins w CoyoteOper.LOCAL_TRANSFER transfers fuel
      { s with trace := s.trace ++ invokeEvents transfers } h
    rw [h']
    rfl

end TwoSided

namespace TwoSided

theorem Runs.refl (s : State) : Runs s s :=
  ⟨rfl, rfl, rfl, rfl, rfl, rfl, rfl, rfl, rfl, rfl, rfl, [], by simp, by simp⟩

theorem Runs.trans {s t u : State} (h1 : Runs s t) (h2 : Runs t u) : Runs s u := by
  obtain ⟨seg1, ht1, hs1⟩ := h1.events
  obtain ⟨seg2, ht2, hs2⟩ := h2.events
  refine ⟨h2.nClock.trans h1.nClock, h2.nStart.trans h1.nStart, h2.nRand.trans h1.nRand,
    h2.nRun.trans h1.nRun, h2.nSync.trans h1.nSync, h2.warm_up.trans h1.warm_up,
    h2.begin_time.trans h1.begin_time, h2.perf_monitor.trans h1.perf_monitor,
    h2.perf_metrics.trans h1.perf_metrics, h2.times.trans h1.times,
    h2.length.trans h1.length, seg1 ++ seg2, by simp [ht2, ht1], ?_⟩
  intro e he
  rcases List.mem_append.1 he with h | h
  · exact hs1 e h
  · exact hs2 e h

theorem Runs.foldl {ι : Type} (f : State → ι → State) (hf : ∀ s i, Runs s (f s i))
    (l : List ι) (s : State) : Runs s (l.foldl f s) :=
  foldl_invariant (Runs s) f l (fun t i _ ht => ht.trans (hf t i)) s (Runs.refl s)

theorem memcpyD2H_runs (w : World) (s : State) (i : Nat) : Runs s (memcpyD2H w s i) :=
  ⟨rfl, rfl, rfl, rfl, rfl, rfl, rfl, rfl, rfl, rfl, rfl, _, rfl, by simp [isIssue]⟩

theorem memcpyH2D_runs (w : World) (s : State) (i : Nat) : Runs s (memcpyH2D w s i) :=
  ⟨rfl, rfl, rfl, rfl, rfl, rfl, rfl, rfl, rfl, rfl, rfl, _, rfl, by simp [isIssue]⟩

theorem pollStep_runs (w : World) (s : State) (i : Nat) : Runs s (pollStep w s i) := by
  by_cases hst : w.hipStreamQuery s.nQuery = hipError_t.hipSuccess
  · by_cases hc : s.stream_completed.getD i false = false
    · rw [pollStep_fresh w s i hst hc]
      exact ⟨rfl, rfl, rfl, rfl, rfl, rfl, rfl, rfl, rfl, rfl, by simp, _,
        List.append_assoc _ _ _, by simp [isIssue, isPoll]⟩
    · rw [pollStep_seen w s i hst (by simpa using hc)]
      exact ⟨rfl, rfl, rfl, rfl, rfl, rfl, rfl, rfl, rfl, rfl, rfl, _, rfl, by simp [isPoll]⟩
  · rw [pollStep_not_ready w s i hst]
    exact ⟨rfl, rfl, rfl, rfl, rfl, rfl, rfl, rfl, rfl, rfl, rfl, _, rfl, by simp [isPoll]⟩

theorem issueD2H_runs (w : World) (transfers : Nat) (s : State) :
    Runs s (issueD2H w transfers s) :=
  Runs.foldl _ (memcpyD2H_runs w) _ s

theorem pollPass_runs (w : World) (transfers : Nat) (s : State) :
    Runs s (pollPass w transfers s) := by
  have h0 : Runs s { s with gpu_to_cpu_done := true } :=
    ⟨rfl, rfl, rfl, rfl, rfl, rfl, rfl, rfl, rfl, rfl, rfl, [], by simp, by simp⟩
  exact h0.trans (Runs.foldl _ (pollStep_runs w) _ _)

theorem pollLoop_runs (w : World) (transfers fuel : Nat) (s : State) :
    Runs s (pollLoop w transfers fuel s) := by
  induction fuel generalizing s with
  | zero => exact Runs.refl s
  | succ n ih =>
    unfold pollLoop
    split
    · exact Runs.refl s
    · exact (pollPass_runs w transfers s).trans (ih _)

theorem h2dBody_runs (w : World) (s : State) : Runs s (h2dBody w s) := by
  have h0 : Runs s { s with
      completed_coyote := w.checkCompleted s.nCheck,
      nCheck := s.nCheck + 1,
      trace := s.trace ++
        [Event.checkCompleted CoyoteOper.LOCAL_TRANSFER (w.checkCompleted s.nCheck)] } :=
    ⟨rfl, rfl, rfl, rfl, rfl, rfl, rfl, rfl, rfl, rfl, rfl, _, rfl, by simp [isPoll]⟩
  exact h0.trans (Runs.foldl _ (memcpyH2D_runs w) _ _)

theorem h2dLoop_runs (w : World) (transfers fuel : Nat) (s : State) :
    Runs s (h2dLoop w transfers fuel s) := by
  induction fuel generalizing s with
  | zero => exact Runs.refl s
  | succ n ih =>
    unfold h2dLoop
    split
    · exact (h2dBody_runs w s).trans (ih _)
    · exact Runs.refl s

theorem emit_invoke_runs (s : State) (i : Nat) :
    Runs s (s.emit (Event.invoke CoyoteOper.LOCAL_TRANSFER i)) :=
  ⟨rfl, rfl, rfl, rfl, rfl, rfl, rfl, rfl, rfl, rfl, rfl,
    [Event.invoke CoyoteOper.LOCAL_TRANSFER i], rfl, by simp [isIssue]⟩

theorem invokeAll_runs (transfers : Nat) (s : State) : Runs s (invokeAll transfers s) :=
  Runs.foldl _ emit_invoke_runs _ s

theorem waitCompleted_runs (w : World) (oper : CoyoteOper) (target fuel : Nat) (s t : State)
    (h : waitCompleted w oper target fuel s = some t) : Runs s t := by
  induction fuel generalizing s with
  | zero => simp [waitCompleted] at h
  | succ n ih =>
    have h0 : Runs s { s with
        nCheck := s.nCheck + 1,
        trace := s.trace ++ [Event.checkCompleted oper (w.checkCompleted s.nCheck)] } :=
      ⟨rfl, rfl, rfl, rfl, rfl, rfl, rfl, rfl, rfl, rfl, rfl, _, rfl, by simp [isPoll]⟩
    rw [waitCompleted] at h
    by_cases hr : w.checkCompleted s.nCheck = target
    · simp only [ne_eq, hr, not_true_eq_false, if_false, Option.some.injEq] at h
      rw [← h]
      simpa [hr] using h0
    · simp only [ne_eq, hr, not_false_eq_true, if_true] at h
      exact h0.trans (ih _ h)

end TwoSided

namespace TwoSided

theorem stagedFirstPhase_invoke_after_stream_success_witness :
    (stagedFirstPhase (readyWorld 1 0) 1 1 (startState 1)).trace =
        (startState 1).trace ++
          ([Event.hipMemcpyAsyncD2H 0 hipError_t.hipSuccess,
              Event.hipStreamQuery 0 hipError_t.hipSuccess] ++
            Event.invoke CoyoteOper.LOCAL_TRANSFER 0 :: []) ∧
      ((∃ pre', [Event.hipMemcpyAsyncD2H 0 hipError_t.hipSuccess,
            Event.hipStreamQuery 0 hipError_t.hipSuccess] =
          pre' ++ [Event.hipStreamQuery 0 hipError_t.hipSuccess]) ∧
        (∃ pre₁ pre₂ status, [Event.hipMemcpyAsyncD2H 0 hipError_t.hipSuccess,
            Event.hipStreamQuery 0 hipError_t.hipSuccess] =
          pre₁ ++ Event.hipMemcpyAsyncD2H 0 status :: pre₂)) :=
  ⟨by decide, stagedFirstPhase_invoke_after_stream_success (readyWorld 1 0) 1 1 (startState 1)
    _ [] 0 (by decide)⟩

theorem stagedFirstPhase_invokes_each_index_once_witness :
    (invokedIndices (eventsSince (startState 2) (stagedFirstPhase (readyWorld 2 0) 2 1
      (benchBegin (readyWorld 2 0) false (prep_fn 2 false (startState 2)))))).Perm
        (List.range 2) :=
  (stagedFirstPhase_invokes_each_index_once (readyWorld 2 0) 2 1 false (startState 2)
    (by decide) (by decide)).2.1

theorem stagedSecondPhase_copies_in_order_witness :
    h2dIndices (eventsSince (startState 2)
      (stagedSecondPhase (readyWorld 2 0) 2 1 (startState 2))) = List.range 2 :=
  (stagedSecondPhase_copies_in_order (readyWorld 2 0) 2 (startState 2)
    (fun _ => le_refl _) (fun _ => le_refl _) 0 rfl (fun j hj => absurd hj (Nat.not_lt_zero j))
    1 (by decide)).2.2.1

/-- C3, counterexample. With `transfers = 0` and readings that are all 0 (non-decreasing,
never above `transfers`), the loop has exited and no reading was taken: the trace is
unchanged, so the exit is not at a reading equal to `transfers`. -/
theorem stagedSecondPhase_zero_transfers_no_reading :
    (∀ j, (readyWorld 0 0).checkCompleted j ≤ (readyWorld 0 0).checkCompleted (j + 1)) ∧
    (∀ j, (readyWorld 0 0).checkCompleted j ≤ 0) ∧
    (readyWorld 0 0).checkCompleted 0 = 0 ∧
    ¬ ((stagedSecondPhase (readyWorld 0 0) 0 1 (startState 0)).completed_coyote < 0) ∧
    (stagedSecondPhase (readyWorld 0 0) 0 1 (startState 0)).nCheck = (startState 0).nCheck ∧
    eventsSince (startState 0) (stagedSecondPhase (readyWorld 0 0) 0 1 (startState 0)) = [] :=
  ⟨fun _ => le_refl _, fun _ => le_refl _, rfl, by decide, by decide, by decide⟩

theorem p2pBranch_invokes_then_polls_witness :
    ∃ t, p2pBranch (readyWorld 2 0) 2 1 (startState 2) = some t ∧
      eventsSince (startState 2) t = invokeEvents 2 ++
        pollEvents (readyWorld 2 0) CoyoteOper.LOCAL_TRANSFER (startState 2) (0 + 1) ++
          [Event.hipDeviceSynchronize] ∧
      (∀ i status, Event.hipMemcpyAsyncD2H i status ∉ eventsSince (startState 2) t ∧
        Event.hipMemcpyAsyncH2D i status ∉ eventsSince (startState 2) t) :=
  (p2pBranch_invokes_then_polls (readyWorld 2 0) 2 1 (startState 2)).1 0 (by decide) rfl
    (fun j hj => absurd hj (Nat.not_lt_zero j))

end TwoSided

namespace TwoSided

theorem mem_of_h2dIndices {seg : List Event} {i : Nat} (h : i ∈ h2dIndices seg) :
    ∃ status, Event.hipMemcpyAsyncH2D i status ∈ seg := by
  simp only [h2dIndices, List.mem_filterMap] at h
  obtain ⟨e, he, hi⟩ := h
  cases e <;> simp at hi
  case hipMemcpyAsyncH2D j st =>
    subst hi
    exact ⟨st, he⟩

theorem h2dBody_copiedBelow (w : World) (t0 : List Event) (s : State)
    (hs : CopiedBelow t0 s) : CopiedBelow t0 (h2dBody w s) := by
  obtain ⟨seg, htr, hcov⟩ := hs
  obtain ⟨seg', h1, h2, _, _, hcc⟩ := h2dBody_spec w s
  refine ⟨seg ++ (Event.checkCompleted CoyoteOper.LOCAL_TRANSFER (w.checkCompleted s.nCheck)
      :: seg'), by rw [h1, htr]; simp, ?_⟩
  intro i hi
  rw [hcc] at hi
  by_cases hlt : i < s.completed_coyote
  · obtain ⟨st, hst⟩ := hcov i hlt
    exact ⟨st, List.mem_append_left _ hst⟩
  · have hmem : i ∈ h2dIndices seg' := by
      rw [h2, List.mem_range'_1]
      omega
    obtain ⟨st, hst⟩ := mem_of_h2dIndices hmem
    exact ⟨st, List.mem_append_right _ (List.mem_cons_of_mem _ hst)⟩

theorem h2dLoop_copiedBelow (w : World) (transfers fuel : Nat) (t0 : List Event) (s : State)
    (hs : CopiedBelow t0 s) : CopiedBelow t0 (h2dLoop w transfers fuel s) := by
  induction fuel generalizing s with
  | zero => exact hs
  | succ n ih =>
    unfold h2dLoop
    split
    · exact ih _ (h2dBody_copiedBelow w t0 s hs)
    · exact hs

/-- What a staged branch that ran to its end has done. -/
theorem stagedBranch_effect (w : World) (transfers fuel : Nat) (s t : State)
    (h : stagedBranch w transfers fuel s = some t) :
    ∃ u, Runs s u ∧ t = deviceSynchronize w u ∧
      ∀ i, i < transfers → ∃ status, Event.hipMemcpyAsyncH2D i status ∈ eventsSince s u := by
  unfold stagedBranch at h
  simp only at h
  split at h
  · split at h
    · exact absurd h (by simp)
    · rename_i hdone hexit
      simp only [Option.some.injEq] at h
      refine ⟨_, ?_, h.symm, ?_⟩
      · have h1 : Runs s (stagedFirstPhase w transfers fuel s) :=
          (issueD2H_runs w transfers s).trans
            ((show Runs (issueD2H w transfers s)
                { issueD2H w transfers s with gpu_to_cpu_done := false } from
              ⟨rfl, rfl, rfl, rfl, rfl, rfl, rfl, rfl, rfl, rfl, rfl, [], by simp, by simp⟩).trans
              (pollLoop_runs w transfers fuel _))
        have h2 : Runs (stagedFirstPhase w transfers fuel s)
            (stagedSecondPhase w transfers fuel (stagedFirstPhase w transfers fuel s)) :=
          (show Runs (stagedFirstPhase w transfers fuel s)
              { stagedFirstPhase w transfers fuel s with completed_coyote := 0 } from
            ⟨rfl, rfl, rfl, rfl, rfl, rfl, rfl, rfl, rfl, rfl, rfl, [], by simp, by simp⟩).trans
            (h2dLoop_runs w transfers fuel _)
        exact h1.trans h2
      · intro i hi
        have hinit : CopiedBelow (stagedFirstPhase w transfers fuel s).trace
            { stagedFirstPhase w transfers fuel s with completed_coyote := 0 } :=
          ⟨[], by simp, fun j hj => absurd hj (Nat.not_lt_zero j)⟩
        obtain ⟨seg, htr, hcov⟩ := h2dLoop_copiedBelow w transfers fuel _ _ hinit
        obtain ⟨seg1, htr1, _⟩ := (show Runs s (stagedFirstPhase w transfers fuel s) from
          (issueD2H_runs w transfers s).trans
            ((show Runs (issueD2H w transfers s)
                { issueD2H w transfers s with gpu_to_cpu_done := false } from
              ⟨rfl, rfl, rfl, rfl, rfl, rfl, rfl, rfl, rfl, rfl, rfl, [], by simp, by simp⟩).trans
              (pollLoop_runs w transfers fuel _))).events
        have hge : i < (stagedSecondPhase w transfers fuel
            (stagedFirstPhase w transfers fuel s)).completed_coyote := by omega
        obtain ⟨st, hst⟩ := hcov i hge
        refine ⟨st, ?_⟩
        have htot : (stagedSecondPhase w transfers fuel
            (stagedFirstPhase w transfers fuel s)).trace = s.trace ++ (seg1 ++ seg) := by
          show (h2dLoop w transfers fuel _).trace = _
          rw [htr, htr1, List.append_assoc]
        rw [eventsSince_of_trace htot]
        exact List.mem_append_right _ hst
  · exact absurd h (by simp)

/-- A polling loop that has exited took its last reading at the awaited value, and no
earlier reading had that value. -/
theorem waitCompleted_some (w : World) (oper : CoyoteOper) (target fuel : Nat) (s t : State)
    (h : waitCompleted w oper target fuel s = some t) :
    ∃ k, k < fuel ∧ w.checkCompleted (s.nCheck + k) = target ∧
      (∀ j, j < k → w.checkCompleted (s.nCheck + j) ≠ target) ∧
      t = { s with
        nCheck := s.nCheck + (k + 1),
        trace := s.trace ++ pollEvents w oper s (k + 1) } := by
  by_cases hex : ∃ k, k < fuel ∧ w.checkCompleted (s.nCheck + k) = target
  · have hspec := Nat.find_spec hex
    have hmin : ∀ j, j < Nat.find hex → w.checkCompleted (s.nCheck + j) ≠ target := by
      intro j hj hcontra
      exact Nat.find_min hex hj ⟨by omega, hcontra⟩
    have := waitCompleted_exits w oper target (Nat.find hex) fuel s hspec.1 hspec.2 hmin
    rw [this] at h
    exact ⟨Nat.find hex, hspec.1, hspec.2, hmin, (Option.some.inj h).symm⟩
  · have hnone := waitCompleted_spins w oper target fuel s
      (fun j hj hcontra => hex ⟨j, hj, hcontra⟩)
    rw [hnone] at h
    exact absurd h (by simp)

theorem pollEvents_succ (w : World) (oper : CoyoteOper) (s : State) (k : Nat) :
    pollEvents w oper s (k + 1) =
      pollEvents w oper s k ++ [Event.checkCompleted oper (w.checkCompleted (s.nCheck + k))] := by
  simp [pollEvents, List.range_succ]

/-- What a P2P branch that ran to its end has done. -/
theorem p2pBranch_effect (w : World) (transfers fuel : Nat) (s t : State)
    (h : p2pBranch w transfers fuel s = some t) :
    ∃ u, Runs s u ∧ t = deviceSynchronizeChecked u ∧
      ∃ body, eventsSince s u =
        body ++ [Event.checkCompleted CoyoteOper.LOCAL_TRANSFER transfers] := by
  unfold p2pBranch at h
  simp only [Option.map_eq_some'] at h
  obtain ⟨u, hu, ht⟩ := h
  refine ⟨u, (invokeAll_runs transfers s).trans (waitCompleted_runs w _ _ _ _ _ hu), ht.symm, ?_⟩
  obtain ⟨k, _, hk, _, hueq⟩ := waitCompleted_some w _ _ _ _ _ hu
  have hnc : (invokeAll transfers s).nCheck = s.nCheck := by rw [invokeAll_spec]
  refine ⟨invokeEvents transfers ++ pollEvents w CoyoteOper.LOCAL_TRANSFER (invokeAll transfers s) k, ?_⟩
  have htr : u.trace = s.trace ++ (invokeEvents transfers ++
      pollEvents w CoyoteOper.LOCAL_TRANSFER (invokeAll transfers s) k ++
        [Event.checkCompleted CoyoteOper.LOCAL_TRANSFER transfers]) := by
    rw [hueq]
    simp only [pollEvents_succ, hk]
    rw [invokeAll_spec]
    simp
  exact eventsSince_of_trace htr

theorem benchEnd_spec (w : World) (g : Bool) (u : State) :
    (benchEnd w g u).trace = u.trace ++ endEvents g (w.now u.nClock) u.warm_up ∧
    (benchEnd w g u).nClock = u.nClock + 1 ∧
    (benchEnd w g u).warm_up = u.warm_up ∧
    (benchEnd w g u).nRand = u.nRand ∧
    (benchEnd w g u).nRun = u.nRun ∧
    (benchEnd w g u).stream_completed = u.stream_completed ∧
    (benchEnd w g u).perf_metrics.latencies =
      (if u.warm_up then u.perf_metrics.latencies
        else u.perf_metrics.latencies ++
          [(((w.now u.nClock : Int) - (u.begin_time : Int) : Int) : ℚ)]) := by
  cases g <;> cases hw : u.warm_up <;>
    by_cases hr : u.perf_monitor.running <;>
    simp [benchEnd, endEvents, perf_monitor_stop, hw, hr, PerfMetrics.add_new]

theorem benchBegin_spec (w : World) (g : Bool) (s : State) :
    (benchBegin w g s).nClock = s.nClock + 1 ∧
    (benchBegin w g s).begin_time = w.now s.nClock ∧
    (benchBegin w g s).warm_up = s.warm_up ∧
    (benchBegin w g s).nRand = s.nRand ∧
    (benchBegin w g s).nRun = s.nRun ∧
    (benchBegin w g s).perf_metrics = s.perf_metrics := by
  cases g <;> simp [benchBegin, perf_monitor_start]

/-- What a `bench_fn` that ran to its end has done. -/
theorem bench_fn_effect (w : World) (transfers : Nat) (mode g : Bool) (fuel : Nat)
    (s t : State) (h : bench_fn w transfers mode g fuel s = some t) :
    ∃ body, t.trace = s.trace ++ benchEvents w g s body ∧
      (∀ e ∈ body, isIssue e = true ∨ isPoll e = true) ∧
      (mode = false → ∀ i, i < transfers → ∃ status, Event.hipMemcpyAsyncH2D i status ∈ body) ∧
      (mode = true → ∃ body', body =
        body' ++ [Event.checkCompleted CoyoteOper.LOCAL_TRANSFER transfers]) ∧
      t.nClock = s.nClock + 2 ∧ t.warm_up = s.warm_up ∧ t.nRand = s.nRand ∧ t.nRun = s.nRun ∧
      t.stream_completed.length = s.stream_completed.length ∧
      t.perf_metrics.latencies =
        (if s.warm_up then s.perf_metrics.latencies
          else s.perf_metrics.latencies ++ [elapsedFrom w s]) := by
  obtain ⟨hb1, hb2, hb3, hb4, hb5, hb6⟩ := benchBegin_spec w g s
  have hbt := benchBegin_trace w g s
  have hbl := benchBegin_stream_completed w g s
  unfold bench_fn at h
  simp only [Option.map_eq_some'] at h
  obtain ⟨v, hv, ht⟩ := h
  -- `v` is the state after the branch, `u` the state before its barrier
  have key : ∃ u, Runs (benchBegin w g s) u ∧ v.trace = u.trace ++ [Event.hipDeviceSynchronize] ∧
      v.nClock = u.nClock ∧ v.warm_up = u.warm_up ∧ v.nRand = u.nRand ∧ v.nRun = u.nRun ∧
      v.stream_completed = u.stream_completed ∧ v.perf_metrics = u.perf_metrics ∧
      v.begin_time = u.begin_time ∧
      (mode = false → ∀ i, i < transfers →
        ∃ status, Event.hipMemcpyAsyncH2D i status ∈ eventsSince (benchBegin w g s) u) ∧
      (mode = true → ∃ body', eventsSince (benchBegin w g s) u =
        body' ++ [Event.checkCompleted CoyoteOper.LOCAL_TRANSFER transfers]) := by
    cases mode with
    | false =>
      simp only [Bool.not_false, if_true] at hv
      obtain ⟨u, hr, hveq, hcov⟩ := stagedBranch_effect w transfers fuel _ _ hv
      refine ⟨u, hr, ?_, ?_, ?_, ?_, ?_, ?_, ?_, ?_, fun _ => hcov, fun hm => by simp at hm⟩ <;>
        simp [hveq, deviceSynchronize]
    | true =>
      simp only [Bool.not_true, Bool.false_eq_true, if_false] at hv
      obtain ⟨u, hr, hveq, hlast⟩ := p2pBranch_effect w transfers fuel _ _ hv
      refine ⟨u, hr, ?_, ?_, ?_, ?_, ?_, ?_, ?_, ?_, fun hm => by simp at hm, fun _ => hlast⟩ <;>
        simp [hveq, deviceSynchronizeChecked]
  obtain ⟨u, hr, hvt, hvc, hvw, hvr, hvn, hvs, hvp, hvb, hstaged, hp2p⟩ := key
  obtain ⟨body, hut, hbody⟩ := hr.events
  obtain ⟨he1, he2, he3, he4, he5, he6, he7⟩ := benchEnd_spec w g v
  have hev : eventsSince (benchBegin w g s) u = body := eventsSince_of_trace hut
  refine ⟨body, ?_, hbody, ?_, ?_, ?_, ?_, ?_, ?_, ?_, ?_⟩
  · rw [← ht, he1, hvt, hut, hbt, hvc, hr.nClock, hb1, hvw, hr.warm_up, hb3]
    simp [benchEvents]
  · intro hm i hi
    rw [← hev]
    exact hstaged hm i hi
  · intro hm
    rw [← hev]
    exact hp2p hm
  · rw [← ht, he2, hvc, hr.nClock, hb1]
  · rw [← ht, he3, hvw, hr.warm_up, hb3]
  · rw [← ht, he4, hvr, hr.nRand, hb4]
  · rw [← ht, he5, hvn, hr.nRun, hb5]
  · rw [← ht, he6, hvs, hr.length, hbl]
  · rw [← ht, he7, hvw, hr.warm_up, hb3, hvp, hr.perf_metrics, hb6, hvc, hr.nClock, hb1, hvb,
      hr.begin_time, hb2]
    rfl

end TwoSided

namespace TwoSided

theorem prep_fn_spec (transfers : Nat) (g : Bool) (s : State) :
    (prep_fn transfers g s).nClock = s.nClock ∧
    (prep_fn transfers g s).warm_up = s.warm_up ∧
    (prep_fn transfers g s).nRand = s.nRand ∧
    (prep_fn transfers g s).nRun = s.nRun ∧
    (prep_fn transfers g s).perf_metrics = s.perf_metrics ∧
    (prep_fn transfers g s).stream_completed.length = s.stream_completed.length := by
  have hlen : ((List.range transfers).foldl (fun sc i => sc.set i false)
      s.stream_completed).length = s.stream_completed.length := by
    apply foldl_invariant (fun l : List Bool => l.length = s.stream_completed.length)
    · intro l i _ hl
      simpa using hl
    · rfl
  cases g <;> simp [prep_fn, State.emit, deviceSynchronizeChecked, hlen]

/-- What an iteration that ran to its end has done. -/
theorem iteration_effect (w : World) (transfers : Nat) (mode g : Bool) (fuel : Nat)
    (s t : State) (h : iteration w transfers mode g fuel s = some t) :
    ∃ body, t.trace = s.trace ++ iterationEvents w g s body ∧
      (∀ e ∈ body, isIssue e = true ∨ isPoll e = true) ∧
      (mode = false → ∀ i, i < transfers → ∃ status, Event.hipMemcpyAsyncH2D i status ∈ body) ∧
      (mode = true → ∃ body', body =
        body' ++ [Event.checkCompleted CoyoteOper.LOCAL_TRANSFER transfers]) ∧
      t.nClock = s.nClock + 2 ∧ t.warm_up = s.warm_up ∧ t.nRand = s.nRand ∧ t.nRun = s.nRun ∧
      t.stream_completed.length = s.stream_completed.length ∧
      t.perf_metrics.latencies =
        (if s.warm_up then s.perf_metrics.latencies
          else s.perf_metrics.latencies ++ [elapsedFrom w s]) := by
  obtain ⟨hp1, hp2, hp3, hp4, hp5, hp6⟩ := prep_fn_spec transfers g s
  obtain ⟨body, h1, h2, h3, h4, h5, h6, h7, h8, h9, h10⟩ :=
    bench_fn_effect w transfers mode g fuel _ t h
  refine ⟨body, ?_, h2, h3, h4, ?_, ?_, ?_, ?_, ?_, ?_⟩
  · rw [h1, prep_fn_trace]
    simp [iterationEvents, benchEvents, beginEvents, hp1, hp2, List.append_assoc]
  · rw [h5, hp1]
  · rw [h6, hp2]
  · rw [h7, hp3]
  · rw [h8, hp4]
  · rw [h9, hp6]
  · rw [h10, hp2, hp5]
    simp [elapsedFrom, hp1]

theorem iterationEvents_clearedFirst (w : World) (g : Bool) (s : State) (body : List Event)
    (hbody : ∀ e ∈ body, isIssue e = true ∨ isPoll e = true) :
    ClearedFirst (iterationEvents w g s body) := by
  have hnb : Event.clearCompleted ∉ body := by
    intro hmem
    rcases hbody _ hmem with h | h <;> simp [isIssue, isPoll] at h
  refine ⟨_, rfl, ?_⟩
  cases g <;> cases s.warm_up <;> simp [benchEvents, beginEvents, endEvents, hnb]

theorem elapsedTimes_succ (w : World) (c n : Nat) :
    elapsedTimes w c (n + 1) = elapsedAt w c :: elapsedTimes w (c + 2) n := by
  simp only [elapsedTimes, List.range_succ_eq_map, List.map_cons, List.map_map]
  congr 1
  apply List.map_congr_left
  intro j _
  simp only [Function.comp_apply]
  congr 1
  omega

/-- What a loop of `n` iterations that ran to its end has done. -/
theorem iterations_effect (w : World) (transfers : Nat) (mode g : Bool) (fuel : Nat) (n : Nat) :
    ∀ (s t : State), iterations w transfers mode g fuel n s = some t →
      ∃ segs : List (List Event), segs.length = n ∧ t.trace = s.trace ++ segs.flatten ∧
        (∀ seg ∈ segs, ClearedFirst seg) ∧
        t.nClock = s.nClock + 2 * n ∧ t.warm_up = s.warm_up ∧ t.nRand = s.nRand ∧
        t.nRun = s.nRun ∧ t.stream_completed.length = s.stream_completed.length ∧
        t.perf_metrics.latencies =
          (if s.warm_up then s.perf_metrics.latencies
            else s.perf_metrics.latencies ++ elapsedTimes w s.nClock n) := by
  induction n with
  | zero =>
    intro s t h
    simp only [iterations, Option.some.injEq] at h
    subst h
    exact ⟨[], rfl, by simp, by simp, rfl, rfl, rfl, rfl, rfl, by simp [elapsedTimes]⟩
  | succ n ih =>
    intro s t h
    simp only [iterations, Option.bind_eq_some] at h
    obtain ⟨u, hu, ht⟩ := h
    obtain ⟨body, h1, h2, _, _, h5, h6, h7, h8, h9, h10⟩ :=
      iteration_effect w transfers mode g fuel s u hu
    obtain ⟨segs, k1, k2, k3, k4, k5, k6, k7, k8, k9⟩ := ih u t ht
    refine ⟨iterationEvents w g s body :: segs, by simp [k1], ?_, ?_, ?_, ?_, ?_, ?_, ?_, ?_⟩
    · rw [k2, h1]; simp
    · intro seg hseg
      rcases List.mem_cons.1 hseg with rfl | hseg
      · exact iterationEvents_clearedFirst w g s body h2
      · exact k3 seg hseg
    · rw [k4, h5]; omega
    · rw [k5, h6]
    · rw [k6, h7]
    · rw [k7, h8]
    · rw [k8, h9]
    · rw [k9, h6, h10, h5]
      cases s.warm_up
      · simp [elapsedTimes_succ, elapsedFrom, elapsedAt]
      · simp

end TwoSided

namespace OneSided

theorem benchmark_run_exits (w : World) (size mem ctid transfers : Nat)
    (oper : BenchmarkOperation) (fuel : Nat) (s : State) (k : Nat) (hfuel : k < fuel)
    (hk : w.checkCompleted (s.nCheck + k) = awaitedCount)
    (hfirst : ∀ j, j < k → w.checkCompleted (s.nCheck + j) ≠ awaitedCount) :
    benchmark_run w size mem ctid transfers oper fuel s =
      some (runState w size mem ctid transfers oper s (k + 1), TwoSided.elapsedAt w s.nClock) := by
  unfold benchmark_run
  simp only [State.emit]
  have h := TwoSided.waitCompleted_exits w (polledOper oper) awaitedCount k fuel
    { s with
      nClock := s.nClock + 1,
      trace := s.trace ++ setupEvents w size mem ctid transfers oper s } hfuel hk hfirst
  have hst : ({ s with
      nClock := s.nClock + 1,
      trace := s.trace ++ setupEvents w size mem ctid transfers oper s } : State) = _ := rfl
  simp only [setupEvents] at h
  simp only [List.append_assoc, List.singleton_append, List.cons_append, List.nil_append]
  simp only [List.append_assoc, List.singleton_append, List.cons_append, List.nil_append] at h
  rw [h]
  simp [runState, runEvents, setupEvents, TwoSided.elapsedAt, TwoSided.pollEvents]

theorem benchmark_run_some (w : World) (size mem ctid transfers : Nat)
    (oper : BenchmarkOperation) (fuel : Nat) (s : State) (r : State × ℚ)
    (h : benchmark_run w size mem ctid transfers oper fuel s = some r) :
    ∃ k, k < fuel ∧ w.checkCompleted (s.nCheck + k) = awaitedCount ∧
      (∀ j, j < k → w.checkCompleted (s.nCheck + j) ≠ awaitedCount) ∧
      r = (runState w size mem ctid transfers oper s (k + 1), TwoSided.elapsedAt w s.nClock) := by
  by_cases hex : ∃ k, k < fuel ∧ w.checkCompleted (s.nCheck + k) = awaitedCount
  · have hspec := Nat.find_spec hex
    have hmin : ∀ j, j < Nat.find hex → w.checkCompleted (s.nCheck + j) ≠ awaitedCount := by
      intro j hj hcontra
      exact Nat.find_min hex hj ⟨by omega, hcontra⟩
    rw [benchmark_run_exits w size mem ctid transfers oper fuel s _ hspec.1 hspec.2 hmin] at h
    exact ⟨Nat.find hex, hspec.1, hspec.2, hmin, (Option.some.inj h).symm⟩
  · exfalso
    have hsp : ∀ st : State, st.nCheck = s.nCheck →
        TwoSided.waitCompleted w (polledOper oper) awaitedCount fuel st = none := by
      intro st hst
      apply TwoSided.waitCompleted_spins
      intro j hj hcontra
      rw [hst] at hcontra
      exact hex ⟨j, hj, hcontra⟩
    unfold benchmark_run at h
    simp only [State.emit, Option.map_eq_some'] at h
    obtain ⟨u, hu, _⟩ := h
    have hnone := hu.symm.trans (hsp _ rfl)
    exact absurd hnone (by simp)

theorem runEvents_clearedFirst (w : World) (size mem ctid transfers : Nat)
    (oper : BenchmarkOperation) (s : State) (n : Nat) :
    TwoSided.ClearedFirst (runEvents w size mem ctid transfers oper s n) := by
  refine ⟨_, rfl, ?_⟩
  simp [TwoSided.pollEvents]

theorem benchmark_run_total (w : World) (size mem ctid transfers : Nat)
    (oper : BenchmarkOperation) (fuel : Nat) (hlive : Live w fuel) (s : State) :
    ∃ k, benchmark_run w size mem ctid transfers oper fuel s =
      some (runState w size mem ctid transfers oper s (k + 1), TwoSided.elapsedAt w s.nClock) := by
  have hex := hlive s.nCheck
  have hspec := Nat.find_spec hex
  have hmin : ∀ j, j < Nat.find hex → w.checkCompleted (s.nCheck + j) ≠ awaitedCount := by
    intro j hj hcontra
    exact Nat.find_min hex hj ⟨by omega, hcontra⟩
  exact ⟨_, benchmark_run_exits w size mem ctid transfers oper fuel s _ hspec.1 hspec.2 hmin⟩

/-- What a warm-up loop of `n` iterations that ran to its end has done. -/
theorem warmUp_effect (w : World) (size mem ctid transfers : Nat) (oper : BenchmarkOperation)
    (fuel : Nat) (n : Nat) :
    ∀ (s t : State), warmUp w size mem ctid transfers oper fuel n s = some t →
      ∃ segs : List (List Event), segs.length = n ∧ t.trace = s.trace ++ segs.flatten ∧
        (∀ seg ∈ segs, TwoSided.ClearedFirst seg) ∧
        t.nClock = s.nClock + 2 * n ∧ t.times = s.times := by
  induction n with
  | zero =>
    intro s t h
    simp only [warmUp, Option.some.injEq] at h
    subst h
    exact ⟨[], rfl, by simp, by simp, rfl, rfl⟩
  | succ n ih =>
    intro s t h
    simp only [warmUp, Option.bind_eq_some] at h
    obtain ⟨r, hr, ht⟩ := h
    obtain ⟨k, _, _, _, hreq⟩ := benchmark_run_some w size mem ctid transfers oper fuel s r hr
    obtain ⟨segs, k1, k2, k3, k4, k5⟩ := ih r.1 t ht
    subst hreq
    refine ⟨runEvents w size mem ctid transfers oper s (k + 1) :: segs, by simp [k1], ?_, ?_,
      ?_, ?_⟩
    · rw [k2]; simp [runState]
    · intro seg hseg
      rcases List.mem_cons.1 hseg with rfl | hseg
      · exact runEvents_clearedFirst w size mem ctid transfers oper s (k + 1)
      · exact k3 seg hseg
    · rw [k4]; simp [runState]; omega
    · rw [k5]; rfl

/-- What a measured loop of `n` iterations that ran to its end has done. -/
theorem measured_effect (w : World) (size mem ctid transfers : Nat) (oper : BenchmarkOperation)
    (fuel : Nat) (n : Nat) :
    ∀ (s t : State), measured w size mem ctid transfers oper fuel n s = some t →
      ∃ segs : List (List Event), segs.length = n ∧ t.trace = s.trace ++ segs.flatten ∧
        (∀ seg ∈ segs, TwoSided.ClearedFirst seg) ∧
        t.nClock = s.nClock + 2 * n ∧
        t.times = s.times ++ TwoSided.elapsedTimes w s.nClock n := by
  induction n with
  | zero =>
    intro s t h
    simp only [measured, Option.some.injEq] at h
    subst h
    exact ⟨[], rfl, by simp, by simp, rfl, by simp [TwoSided.elapsedTimes]⟩
  | succ n ih =>
    intro s t h
    simp only [measured, Option.bind_eq_some] at h
    obtain ⟨r, hr, ht⟩ := h
    obtain ⟨k, _, _, _, hreq⟩ := benchmark_run_some w size mem ctid transfers oper fuel s r hr
    obtain ⟨segs, k1, k2, k3, k4, k5⟩ := ih _ t ht
    subst hreq
    refine ⟨runEvents w size mem ctid transfers oper s (k + 1) :: segs, by simp [k1], ?_, ?_,
      ?_, ?_⟩
    · rw [k2]; simp [runState]
    · intro seg hseg
      rcases List.mem_cons.1 hseg with rfl | hseg
      · exact runEvents_clearedFirst w size mem ctid transfers oper s (k + 1)
      · exact k3 seg hseg
    · rw [k4]; simp [runState]; omega
    · rw [k5]
      simp [runState, TwoSided.elapsedTimes_succ]

theorem warmUp_total (w : World) (size mem ctid transfers : Nat) (oper : BenchmarkOperation)
    (fuel : Nat) (hlive : Live w fuel) (n : Nat) :
    ∀ s : State, ∃ t, warmUp w size mem ctid transfers oper fuel n s = some t := by
  induction n with
  | zero => intro s; exact ⟨s, rfl⟩
  | succ n ih =>
    intro s
    obtain ⟨k, hk⟩ := benchmark_run_total w size mem ctid transfers oper fuel hlive s
    obtain ⟨t, ht⟩ := ih (runState w size mem ctid transfers oper s (k + 1))
    exact ⟨t, by simp [warmUp, hk, ht]⟩

theorem measured_total (w : World) (size mem ctid transfers : Nat) (oper : BenchmarkOperation)
    (fuel : Nat) (hlive : Live w fuel) (n : Nat) :
    ∀ s : State, ∃ t, measured w size mem ctid transfers oper fuel n s = some t := by
  induction n with
  | zero => intro s; exact ⟨s, rfl⟩
  | succ n ih =>
    intro s
    obtain ⟨k, hk⟩ := benchmark_run_total w size mem ctid transfers oper fuel hlive s
    obtain ⟨t, ht⟩ := ih { runState w size mem ctid transfers oper s (k + 1) with
      times := (runState w size mem ctid transfers oper s (k + 1)).times ++
        [TwoSided.elapsedAt w s.nClock] }
    exact ⟨t, by simp [measured, hk, ht]⟩

end OneSided

namespace TwoSided

theorem pollStep_nQuery (w : World) (s : State) (i : Nat) :
    (pollStep w s i).nQuery = s.nQuery + 1 := by
  by_cases hst : w.hipStreamQuery s.nQuery = hipError_t.hipSuccess
  · by_cases hc : s.stream_completed.getD i false = false
    · rw [pollStep_fresh w s i hst hc]
    · rw [pollStep_seen w s i hst (by simpa using hc)]
  · rw [pollStep_not_ready w s i hst]

theorem pollStep_done_of_success (w : World) (s : State) (i : Nat)
    (hst : w.hipStreamQuery s.nQuery = hipError_t.hipSuccess) :
    (pollStep w s i).gpu_to_cpu_done = s.gpu_to_cpu_done := by
  by_cases hc : s.stream_completed.getD i false = false
  · rw [pollStep_fresh w s i hst hc]
  · rw [pollStep_seen w s i hst (by simpa using hc)]

theorem pollPrefix_nQuery (w : World) (s : State) (n : Nat) :
    ((List.range n).foldl (pollStep w) s).nQuery = s.nQuery + n := by
  induction n with
  | zero => rfl
  | succ n ih =>
    rw [List.range_succ, List.foldl_append]
    simp only [List.foldl_cons, List.foldl_nil]
    rw [pollStep_nQuery, ih]
    omega

theorem pollPrefix_done (w : World) (s : State) (n : Nat)
    (h : ∀ i, i < n → w.hipStreamQuery (s.nQuery + i) = hipError_t.hipSuccess) :
    ((List.range n).foldl (pollStep w) s).gpu_to_cpu_done = s.gpu_to_cpu_done := by
  induction n with
  | zero => rfl
  | succ n ih =>
    rw [List.range_succ, List.foldl_append]
    simp only [List.foldl_cons, List.foldl_nil]
    rw [pollStep_done_of_success, ih (fun i hi => h i (by omega))]
    rw [pollPrefix_nQuery]
    exact h n (by omega)

theorem pollLoop_of_done (w : World) (transfers fuel : Nat) (s : State)
    (h : s.gpu_to_cpu_done = true) : pollLoop w transfers fuel s = s := by
  cases fuel with
  | zero => rfl
  | succ n => simp [pollLoop, h]

theorem pollLoop_exits (w : World) (transfers : Nat) (p : Nat) :
    ∀ (fuel : Nat) (s : State), p < fuel →
      (∀ i, i < transfers →
        w.hipStreamQuery (s.nQuery + p * transfers + i) = hipError_t.hipSuccess) →
      (pollLoop w transfers fuel s).gpu_to_cpu_done = true := by
  induction p with
  | zero =>
    intro fuel s hf h
    cases fuel with
    | zero => omega
    | succ f =>
      by_cases hd : s.gpu_to_cpu_done = true
      · rw [pollLoop_of_done w transfers _ s hd]; exact hd
      · have hpass : (pollPass w transfers s).gpu_to_cpu_done = true := by
          unfold pollPass
          rw [pollPrefix_done]
          intro i hi
          simpa using h i hi
        rw [pollLoop, if_neg hd, pollLoop_of_done w transfers _ _ hpass]
        exact hpass
  | succ p ih =>
    intro fuel s hf h
    cases fuel with
    | zero => omega
    | succ f =>
      by_cases hd : s.gpu_to_cpu_done = true
      · rw [pollLoop_of_done w transfers _ s hd]; exact hd
      · rw [pollLoop, if_neg hd]
        apply ih f _ (by omega)
        intro i hi
        have hq : (pollPass w transfers s).nQuery = s.nQuery + transfers := by
          unfold pollPass
          rw [pollPrefix_nQuery]
        rw [hq]
        have := h i hi
        rw [Nat.succ_mul] at this
        have he : s.nQuery + transfers + p * transfers + i =
            s.nQuery + (p * transfers + transfers) + i := by omega
        rw [he]
        exact this

theorem h2dLoop_exits (w : World) (transfers : Nat) (k : Nat) :
    ∀ (fuel : Nat) (s : State), k < fuel → transfers ≤ w.checkCompleted (s.nCheck + k) →
      ¬ ((h2dLoop w transfers fuel s).completed_coyote < transfers) := by
  induction k with
  | zero =>
    intro fuel s hf h
    cases fuel with
    | zero => omega
    | succ f =>
      by_cases hd : s.completed_coyote < transfers
      · have hb : ¬ (h2dBody w s).completed_coyote < transfers := by
          rw [h2dBody_completed_coyote]
          simpa using h
        rw [h2dLoop, if_pos hd, h2dLoop_exit w transfers _ _ hb]
        exact hb
      · rw [h2dLoop_exit w transfers _ s hd]; exact hd
  | succ k ih =>
    intro fuel s hf h
    cases fuel with
    | zero => omega
    | succ f =>
      by_cases hd : s.completed_coyote < transfers
      · rw [h2dLoop, if_pos hd]
        apply ih f _ (by omega)
        rw [h2dBody_nCheck]
        have he : s.nCheck + 1 + k = s.nCheck + (k + 1) := by omega
        rw [he]
        exact h
      · rw [h2dLoop_exit w transfers _ s hd]; exact hd

theorem stagedBranch_total (w : World) (transfers fuel : Nat)
    (hlive : LiveStaged w transfers fuel) (s : State) :
    ∃ t, stagedBranch w transfers fuel s = some t := by
  have h1 : (stagedFirstPhase w transfers fuel s).gpu_to_cpu_done = true := by
    unfold stagedFirstPhase
    obtain ⟨p, hp, hq⟩ := hlive.1
      ({ issueD2H w transfers s with gpu_to_cpu_done := false } : State).nQuery
    exact pollLoop_exits w transfers p fuel _ hp hq
  have h2 : ¬ ((stagedSecondPhase w transfers fuel
      (stagedFirstPhase w transfers fuel s)).completed_coyote < transfers) := by
    unfold stagedSecondPhase
    obtain ⟨k, hk, hr⟩ := hlive.2
      ({ stagedFirstPhase w transfers fuel s with completed_coyote := 0 } : State).nCheck
    exact h2dLoop_exits w transfers k fuel _ hk hr
  exact ⟨deviceSynchronize w (stagedSecondPhase w transfers fuel
    (stagedFirstPhase w transfers fuel s)), by simp [stagedBranch, h1, h2]⟩

theorem p2pBranch_total (w : World) (transfers fuel : Nat)
    (hlive : LiveP2P w transfers fuel) (s : State) :
    ∃ t, p2pBranch w transfers fuel s = some t := by
  have hex := hlive s.nCheck
  have hspec := Nat.find_spec hex
  have hmin : ∀ j, j < Nat.find hex → w.checkCompleted (s.nCheck + j) ≠ transfers := by
    intro j hj hcontra
    exact Nat.find_min hex hj ⟨by omega, hcontra⟩
  exact ⟨_, p2pBranch_exits w transfers fuel s _ hspec.1 hspec.2 hmin⟩

theorem iteration_total (w : World) (transfers : Nat) (mode g : Bool) (fuel : Nat)
    (hlive : Live w transfers mode fuel) (s : State) :
    ∃ t, iteration w transfers mode g fuel s = some t := by
  unfold iteration bench_fn
  cases mode with
  | false =>
    obtain ⟨t, ht⟩ := stagedBranch_total w transfers fuel (hlive.1 rfl)
      (benchBegin w g (prep_fn transfers g s))
    exact ⟨benchEnd w g t, by simp [ht]⟩
  | true =>
    obtain ⟨t, ht⟩ := p2pBranch_total w transfers fuel (hlive.2 rfl)
      (benchBegin w g (prep_fn transfers g s))
    exact ⟨benchEnd w g t, by simp [ht]⟩

theorem iterations_total (w : World) (transfers : Nat) (mode g : Bool) (fuel : Nat)
    (hlive : Live w transfers mode fuel) (n : Nat) :
    ∀ s : State, ∃ t, iterations w transfers mode g fuel n s = some t := by
  induction n with
  | zero => intro s; exact ⟨s, rfl⟩
  | succ n ih =>
    intro s
    obtain ⟨u, hu⟩ := iteration_total w transfers mode g fuel hlive s
    obtain ⟨t, ht⟩ := ih u
    exact ⟨t, by simp [iterations, hu, ht]⟩

end TwoSided

theorem TwoSided.wrongResult_nRun (w : World) (size : Nat) (s0 s s' : State)
    (h : s.nRun = s'.nRun) :
    TwoSided.wrongResult w size s0 s = TwoSided.wrongResult w size s0 s' := by
  simp [TwoSided.wrongResult, h]

/-- What a two-sided `run_bench` that returned has done. -/
theorem TwoSided.run_bench_effect (w : World) (size transfers n_runs : Nat) (mode g : Bool)
    (fuel : Nat) (s0 t : State)
    (h : TwoSided.run_bench w size transfers n_runs mode g fuel s0 = some (Except.ok t)) :
    t.perf_metrics.latencies = TwoSided.elapsedTimes w (s0.nClock + 2 * 50) n_runs ∧
    ∃ warm meas : List (List Event), warm.length = 50 ∧ meas.length = n_runs ∧
      TwoSided.eventsSince s0 t = [Event.hipMemcpy, Event.hipMemcpy] ++ warm.flatten ++
        meas.flatten ++ [Event.hipMemcpy] ∧
      ∀ seg ∈ warm ++ meas, TwoSided.ClearedFirst seg := by
  unfold TwoSided.run_bench at h
  simp only [Option.bind_eq_some] at h
  obtain ⟨s1, h1, s2, h2, h3⟩ := h
  obtain ⟨warm, a1, a2, a3, a4, a5, _, _, _, a9⟩ :=
    TwoSided.iterations_effect w transfers mode g fuel 50 _ _ h1
  obtain ⟨meas, b1, b2, b3, b4, _, _, _, _, b9⟩ :=
    TwoSided.iterations_effect w transfers mode g fuel n_runs _ _ h2
  split at h3
  · simp at h3
  · simp only [Option.some.injEq, Except.ok.injEq] at h3
    subst h3
    simp only [if_true] at a9
    simp only [Bool.false_eq_true, if_false, a9, List.nil_append, a4] at b9
    refine ⟨b9, warm, meas, a1, b1, ?_, ?_⟩
    · apply TwoSided.eventsSince_of_trace
      simp [State.emit, b2, a2]
    · intro seg hseg
      rcases List.mem_append.1 hseg with hm | hm
      · exact a3 seg hm
      · exact b3 seg hm

/-- A two-sided `run_bench` whose loops end and whose results pass the validation
returns. -/
theorem TwoSided.run_bench_total (w : World) (size transfers n_runs : Nat) (mode g : Bool)
    (fuel : Nat) (s0 : State) (hlive : TwoSided.Live w transfers mode fuel)
    (hvalid : TwoSided.wrongResult w size s0 s0 = false) :
    ∃ t, TwoSided.run_bench w size transfers n_runs mode g fuel s0 = some (Except.ok t) := by
  unfold TwoSided.run_bench
  obtain ⟨s1, h1⟩ := TwoSided.iterations_total w transfers mode g fuel hlive 50
    { s0 with
      perf_metrics := { latencies := [], gpu_powers := [], gpu_utils := [] },
      nRand := s0.nRand + size / 4,
      trace := s0.trace ++ [Event.hipMemcpy, Event.hipMemcpy],
      stream_completed := List.replicate transfers false,
      warm_up := true }
  obtain ⟨s2, h2⟩ := TwoSided.iterations_total w transfers mode g fuel hlive n_runs
    { s1 with warm_up := false }
  obtain ⟨_, _, _, _, _, _, _, a7, _, _⟩ :=
    TwoSided.iterations_effect w transfers mode g fuel 50 _ _ h1
  obtain ⟨_, _, _, _, _, _, _, b7, _, _⟩ :=
    TwoSided.iterations_effect w transfers mode g fuel n_runs _ _ h2
  have hn : (s2.emit Event.hipMemcpy).nRun = s0.nRun := by
    simp only [State.emit]
    rw [b7]
    simpa using a7
  have hv : TwoSided.wrongResult w size s0 (s2.emit Event.hipMemcpy) = false := by
    rw [TwoSided.wrongResult_nRun w size s0 _ s0 hn]; exact hvalid
  refine ⟨{ s2.emit Event.hipMemcpy with nRun := (s2.emit Event.hipMemcpy).nRun + 1 }, ?_⟩
  simp only [Option.bind_eq_some]
  refine ⟨s1, h1, s2, h2, ?_⟩
  simp [hv]

/-- What a one-sided `run_bench` that returned has done. -/
theorem OneSided.run_bench_times (w : World) (size mem ctid transfers n_runs : Nat)
    (oper : BenchmarkOperation) (fuel : Nat) (s0 t : State)
    (h : OneSided.run_bench w size mem ctid transfers n_runs oper fuel s0 = some t) :
    t.times = TwoSided.elapsedTimes w (s0.nClock + 2 * 50) n_runs ∧
    ∃ warm meas : List (List Event), warm.length = 50 ∧ meas.length = n_runs ∧
      TwoSided.eventsSince s0 t = warm.flatten ++ meas.flatten ∧
      ∀ seg ∈ warm ++ meas, TwoSided.ClearedFirst seg := by
  unfold OneSided.run_bench at h
  simp only [Option.bind_eq_some] at h
  obtain ⟨s1, h1, h2⟩ := h
  obtain ⟨warm, a1, a2, a3, a4, _⟩ :=
    OneSided.warmUp_effect w size mem ctid transfers oper fuel 50 _ _ h1
  obtain ⟨meas, b1, b2, b3, _, b5⟩ :=
    OneSided.measured_effect w size mem ctid transfers oper fuel n_runs _ _ h2
  refine ⟨by simpa [a4] using b5, warm, meas, a1, b1, ?_, ?_⟩
  · apply TwoSided.eventsSince_of_trace
    simp [b2, a2]
  · intro seg hseg
    rcases List.mem_append.1 hseg with hm | hm
    · exact a3 seg hm
    · exact b3 seg hm

theorem OneSided.run_bench_returns (w : World) (size mem ctid transfers n_runs : Nat)
    (oper : BenchmarkOperation) (fuel : Nat) (s0 : State) (hlive : OneSided.Live w fuel) :
    ∃ t, OneSided.run_bench w size mem ctid transfers n_runs oper fuel s0 = some t := by
  unfold OneSided.run_bench
  obtain ⟨s1, h1⟩ := OneSided.warmUp_total w size mem ctid transfers oper fuel hlive 50 s0
  obtain ⟨s2, h2⟩ := OneSided.measured_total w size mem ctid transfers oper fuel hlive n_runs
    { s1 with times := [] }
  exact ⟨s2, by simp [h1, h2]⟩

/-- C5. In every iteration of the loops of the two-sided and of the one-sided `run_bench`
(warm-up and measured alike) `clearCompleted` is the first call of the iteration and is not
called again in it: it precedes every invoke, every staging copy and the `CTRL_REG` write
of that iteration. -/
theorem clearCompleted_once_at_iteration_start (w : World) :
    (∀ (transfers : Nat) (mode g : Bool) (fuel n : Nat) (s t : State),
      TwoSided.iterations w transfers mode g fuel n s = some t →
      ∃ segs : List (List Event), segs.length = n ∧ t.trace = s.trace ++ segs.flatten ∧
        ∀ seg ∈ segs, ∃ rest, seg = Event.clearCompleted :: rest ∧
          Event.clearCompleted ∉ rest) ∧
    (∀ (size mem ctid transfers : Nat) (oper : BenchmarkOperation) (fuel n : Nat) (s t : State),
      OneSided.warmUp w size mem ctid transfers oper fuel n s = some t →
      ∃ segs : List (List Event), segs.length = n ∧ t.trace = s.trace ++ segs.flatten ∧
        ∀ seg ∈ segs, ∃ rest, seg = Event.clearCompleted :: rest ∧
          Event.clearCompleted ∉ rest) ∧
    (∀ (size mem ctid transfers : Nat) (oper : BenchmarkOperation) (fuel n : Nat) (s t : State),
      OneSided.measured w size mem ctid transfers oper fuel n s = some t →
      ∃ segs : List (List Event), segs.length = n ∧ t.trace = s.trace ++ segs.flatten ∧
        ∀ seg ∈ segs, ∃ rest, seg = Event.clearCompleted :: rest ∧
          Event.clearCompleted ∉ rest) := by
  refine ⟨?_, ?_, ?_⟩
  · intro transfers mode g fuel n s t h
    obtain ⟨segs, h1, h2, h3, _⟩ := TwoSided.iterations_effect w transfers mode g fuel n s t h
    exact ⟨segs, h1, h2, h3⟩
  · intro size mem ctid transfers oper fuel n s t h
    obtain ⟨segs, h1, h2, h3, _⟩ :=
      OneSided.warmUp_effect w size mem ctid transfers oper fuel n s t h
    exact ⟨segs, h1, h2, h3⟩
  · intro size mem ctid transfers oper fuel n s t h
    obtain ⟨segs, h1, h2, h3, _⟩ :=
      OneSided.measured_effect w size mem ctid transfers oper fuel n s t h
    exact ⟨segs, h1, h2, h3⟩

theorem TwoSided.readyWorld_live (n : Nat) (dst : Int) (mode : Bool) :
    TwoSided.Live (TwoSided.readyWorld n dst) n mode 1 :=
  ⟨fun _ => ⟨fun _ => ⟨0, Nat.one_pos, fun _ _ => rfl⟩, fun _ => ⟨0, Nat.one_pos, le_refl _⟩⟩,
    fun _ _ => ⟨0, Nat.one_pos, rfl⟩⟩

theorem clearCompleted_once_at_iteration_start_witness :
    ∃ t, TwoSided.iterations (TwoSided.readyWorld 2 0) 2 false false 1 3
        (TwoSided.startState 2) = some t ∧
      ∃ segs : List (List Event), segs.length = 3 ∧
        t.trace = (TwoSided.startState 2).trace ++ segs.flatten ∧
        ∀ seg ∈ segs, ∃ rest, seg = Event.clearCompleted :: rest ∧
          Event.clearCompleted ∉ rest := by
  obtain ⟨t, ht⟩ := TwoSided.iterations_total (TwoSided.readyWorld 2 0) 2 false false 1
    (TwoSided.readyWorld_live 2 0 false) 3 (TwoSided.startState 2)
  exact ⟨t, ht, (clearCompleted_once_at_iteration_start (TwoSided.readyWorld 2 0)).1
    2 false false 1 3 _ t ht⟩

/-- C10. In a `bench_fn` that ran to its end, in either topology, the events are: the
start (monitor start, `begin_time`), the operations and polls of the branch, the barrier
`hipDeviceSynchronize`, then the end (monitor stop, `end_time`, storing of the metrics).
No operation is issued outside the branch part, so the barrier follows the last issued
operation and precedes the reading of `end_time`; in the staged topology a host-to-device
copy for every index below `transfers` precedes the barrier, in the direct one the last
call before the barrier is a counter reading equal to `transfers`. -/
theorem bench_fn_barrier_before_end_time (w : World) (transfers : Nat) (mode g : Bool)
    (fuel : Nat) (s t : State) (h : TwoSided.bench_fn w transfers mode g fuel s = some t) :
    ∃ body, t.trace = s.trace ++ (TwoSided.beginEvents w g s ++ body ++
        [Event.hipDeviceSynchronize] ++ TwoSided.endEvents g (w.now (s.nClock + 1)) s.warm_up) ∧
      (∀ e ∈ TwoSided.beginEvents w g s, TwoSided.isIssue e = false) ∧
      (∀ e ∈ TwoSided.endEvents g (w.now (s.nClock + 1)) s.warm_up,
        TwoSided.isIssue e = false) ∧
      Event.now (w.now (s.nClock + 1)) ∈
        TwoSided.endEvents g (w.now (s.nClock + 1)) s.warm_up ∧
      (mode = false →
        ∀ i, i < transfers → ∃ status, Event.hipMemcpyAsyncH2D i status ∈ body) ∧
      (mode = true → ∃ body', body =
        body' ++ [Event.checkCompleted CoyoteOper.LOCAL_TRANSFER transfers]) := by
  obtain ⟨body, h1, _, h3, h4, _⟩ := TwoSided.bench_fn_effect w transfers mode g fuel s t h
  refine ⟨body, h1, ?_, ?_, ?_, h3, h4⟩
  · intro e he
    cases g <;> simp [TwoSided.beginEvents] at he <;>
      rcases he with rfl | rfl <;> rfl
  · intro e he
    cases g <;> cases hw : s.warm_up <;> simp [TwoSided.endEvents, hw] at he <;>
      rcases he with rfl | rfl | rfl <;> rfl
  · cases g <;> simp [TwoSided.endEvents]

theorem bench_fn_barrier_before_end_time_witness :
    ∃ t, TwoSided.bench_fn (TwoSided.readyWorld 2 0) 2 false true 1 (TwoSided.startState 2) =
        some t ∧
      ∃ body, t.trace = (TwoSided.startState 2).trace ++
          (TwoSided.beginEvents (TwoSided.readyWorld 2 0) true (TwoSided.startState 2) ++ body ++
            [Event.hipDeviceSynchronize] ++ TwoSided.endEvents true 10 false) ∧
        (∀ i, i < 2 → ∃ status, Event.hipMemcpyAsyncH2D i status ∈ body) := by
  obtain ⟨t, ht⟩ : ∃ t, TwoSided.bench_fn (TwoSided.readyWorld 2 0) 2 false true 1
      (TwoSided.startState 2) = some t := Option.isSome_iff_exists.1 (by decide)
  obtain ⟨body, h1, _, _, _, h5, _⟩ := bench_fn_barrier_before_end_time
    (TwoSided.readyWorld 2 0) 2 false true 1 (TwoSided.startState 2) t ht
  exact ⟨t, ht, body, h1, h5 rfl⟩

/-- C8. The two-sided and the one-sided `run_bench` run 50 warm-up iterations and then
`n_runs` measured ones; what they return holds exactly the `n_runs` elapsed times of the
measured iterations, in iteration order (the iteration number `50 + j` takes the clock
readings number `100 + 2 j` and `100 + 2 j + 1` of the run), and nothing from the warm-up.
When the polling loops end (and, two-sided, the results pass the validation) the function
does return. -/
theorem run_bench_returns_n_runs_times (w : World) (n_runs : Nat) :
    (∀ (size transfers : Nat) (mode g : Bool) (fuel : Nat) (s0 : State),
      (∀ t, TwoSided.run_bench w size transfers n_runs mode g fuel s0 = some (Except.ok t) →
        t.perf_metrics.latencies = TwoSided.elapsedTimes w (s0.nClock + 2 * 50) n_runs ∧
        t.perf_metrics.latencies.length = n_runs ∧
        ∃ warm meas : List (List Event), warm.length = 50 ∧ meas.length = n_runs ∧
          TwoSided.eventsSince s0 t = [Event.hipMemcpy, Event.hipMemcpy] ++ warm.flatten ++
            meas.flatten ++ [Event.hipMemcpy] ∧
          ∀ seg ∈ warm ++ meas, ∃ rest, seg = Event.clearCompleted :: rest ∧
            Event.clearCompleted ∉ rest) ∧
      (TwoSided.Live w transfers mode fuel → TwoSided.wrongResult w size s0 s0 = false →
        ∃ t, TwoSided.run_bench w size transfers n_runs mode g fuel s0 = some (Except.ok t))) ∧
    (∀ (size mem ctid transfers : Nat) (oper : BenchmarkOperation) (fuel : Nat) (s0 : State),
      (∀ t, OneSided.run_bench w size mem ctid transfers n_runs oper fuel s0 = some t →
        t.times = TwoSided.elapsedTimes w (s0.nClock + 2 * 50) n_runs ∧
        t.times.length = n_runs ∧
        ∃ warm meas : List (List Event), warm.length = 50 ∧ meas.length = n_runs ∧
          TwoSided.eventsSince s0 t = warm.flatten ++ meas.flatten ∧
          ∀ seg ∈ warm ++ meas, ∃ rest, seg = Event.clearCompleted :: rest ∧
            Event.clearCompleted ∉ rest) ∧
      (OneSided.Live w fuel →
        ∃ t, OneSided.run_bench w size mem ctid transfers n_runs oper fuel s0 = some t)) := by
  constructor
  · intro size transfers mode g fuel s0
    constructor
    · intro t h
      obtain ⟨h1, h2⟩ := TwoSided.run_bench_effect w size transfers n_runs mode g fuel s0 t h
      exact ⟨h1, by simp [h1, TwoSided.elapsedTimes], h2⟩
    · intro hlive hvalid
      exact TwoSided.run_bench_total w size transfers n_runs mode g fuel s0 hlive hvalid
  · intro size mem ctid transfers oper fuel s0
    constructor
    · intro t h
      obtain ⟨h1, h2⟩ :=
        OneSided.run_bench_times w size mem ctid transfers n_runs oper fuel s0 t h
      exact ⟨h1, by simp [h1, TwoSided.elapsedTimes], h2⟩
    · intro hlive
      exact OneSided.run_bench_returns w size mem ctid transfers n_runs oper fuel s0 hlive

theorem run_bench_returns_n_runs_times_witness :
    (∃ t, TwoSided.run_bench (TwoSided.readyWorld 2 (-511)) 8 2 3 false false 1
        (TwoSided.startState 2) = some (Except.ok t)) ∧
    (∃ t, OneSided.run_bench (TwoSided.readyWorld 1 0) 256 0 0 OneSided.N_THROUGHPUT_REPS 3
        BenchmarkOperation.START_RD 1 State.init = some t) :=
  ⟨((run_bench_returns_n_runs_times (TwoSided.readyWorld 2 (-511)) 3).1 8 2 false false 1
      (TwoSided.startState 2)).2 (TwoSided.readyWorld_live 2 (-511) false) (by decide),
    ((run_bench_returns_n_runs_times (TwoSided.readyWorld 1 0) 3).2 256 0 0
      OneSided.N_THROUGHPUT_REPS BenchmarkOperation.START_RD 1 State.init).2
      (fun _ => ⟨0, Nat.one_pos, rfl⟩)⟩

/-- C9 (amended). Each iteration of the one-sided `benchmark_run`, whatever the number of
transfers (16 in `main`), stops its timer exactly at the first reading of the polled
completion counter that equals 1: the hardware signals one completion for the whole batch,
so the awaited count is 1 and not the number of transfers. While no reading equals 1 the
iteration keeps polling. -/
theorem benchmark_run_stops_at_first_reading_one (w : World) (size mem ctid transfers : Nat)
    (oper : BenchmarkOperation) (fuel : Nat) (s : State) :
    (∀ k, k < fuel → w.checkCompleted (s.nCheck + k) = 1 →
      (∀ j, j < k → w.checkCompleted (s.nCheck + j) ≠ 1) →
      ∃ t, OneSided.benchmark_run w size mem ctid transfers oper fuel s =
          some (t, TwoSided.elapsedAt w s.nClock) ∧
        TwoSided.eventsSince s t =
          OneSided.setupEvents w size mem ctid transfers oper s ++
            TwoSided.pollEvents w (OneSided.polledOper oper) s (k + 1) ++
              [Event.now (w.now (s.nClock + 1))]) ∧
    ((∀ j, j < fuel → w.checkCompleted (s.nCheck + j) ≠ 1) →
      OneSided.benchmark_run w size mem ctid transfers oper fuel s = none) := by
  constructor
  · intro k hfuel hk hfirst
    refine ⟨_, OneSided.benchmark_run_exits w size mem ctid transfers oper fuel s k hfuel hk
      hfirst, ?_⟩
    exact TwoSided.eventsSince_of_trace rfl
  · intro h
    cases hr : OneSided.benchmark_run w size mem ctid transfers oper fuel s with
    | none => rfl
    | some r =>
      obtain ⟨k, hk1, hk2, _⟩ :=
        OneSided.benchmark_run_some w size mem ctid transfers oper fuel s r hr
      exact absurd hk2 (h k hk1)

theorem benchmark_run_stops_at_first_reading_one_witness :
    ∃ t, OneSided.benchmark_run (TwoSided.readyWorld 1 0) 256 0 0 OneSided.N_THROUGHPUT_REPS
        BenchmarkOperation.START_RD 1 State.init =
          some (t, TwoSided.elapsedAt (TwoSided.readyWorld 1 0) State.init.nClock) ∧
      TwoSided.eventsSince State.init t =
        OneSided.setupEvents (TwoSided.readyWorld 1 0) 256 0 0 OneSided.N_THROUGHPUT_REPS
            BenchmarkOperation.START_RD State.init ++
          TwoSided.pollEvents (TwoSided.readyWorld 1 0) CoyoteOper.LOCAL_READ State.init (0 + 1) ++
            [Event.now ((TwoSided.readyWorld 1 0).now (State.init.nClock + 1))] :=
  (benchmark_run_stops_at_first_reading_one (TwoSided.readyWorld 1 0) 256 0 0
    OneSided.N_THROUGHPUT_REPS BenchmarkOperation.START_RD 1 State.init).1 0 Nat.one_pos rfl
    (fun j hj => absurd hj (Nat.not_lt_zero j))

/-- C9, counterexample. A read benchmark of 16 transfers whose counter reads 1 stops its
timer right after that reading, although 16 transfers were launched; and one whose counter
reads 16 at every poll has not stopped after 4 readings. -/
theorem benchmark_run_stops_at_one_not_at_sixteen :
    (OneSided.benchmark_run (TwoSided.readyWorld 1 0) 256 0 0 OneSided.N_THROUGHPUT_REPS
        BenchmarkOperation.START_RD 4 State.init).map (fun r => r.1.trace) =
      some [Event.clearCompleted,
        Event.setCSR BenchmarkRegisters.VADDR_REG 0,
        Event.setCSR BenchmarkRegisters.LEN_REG 256,
        Event.setCSR BenchmarkRegisters.PID_REG 0,
        Event.setCSR BenchmarkRegisters.N_REPS_REG 16,
        Event.setCSR BenchmarkRegisters.N_BEATS_REG 64,
        Event.now 0,
        Event.setCSR BenchmarkRegisters.CTRL_REG 1,
        Event.checkCompleted CoyoteOper.LOCAL_READ 1,
        Event.now 10] ∧
    OneSided.benchmark_run (TwoSided.readyWorld 16 0) 256 0 0 OneSided.N_THROUGHPUT_REPS
        BenchmarkOperation.START_RD 4 State.init = none := by
  constructor
  · decide
  · decide

namespace TwoSided

theorem Sim.start (er : Event → Event) (s : State) : Sim er s.trace s s :=
  ⟨[], by simp, by simp⟩

theorem foldl_sim {ι : Type} (R : State → State → Prop) (f g : State → ι → State)
    (h : ∀ a b i, R a b → R (f a i) (g b i)) (l : List ι) :
    ∀ a b, R a b → R (l.foldl f a) (l.foldl g b) := by
  induction l with
  | nil => intro a b hab; exact hab
  | cons x l ih => intro a b hab; exact ih _ _ (h a b x hab)

theorem pollStep_sim {er : Event → Event} {w w' : World} (hm : Mirrors er w w')
    (t0 : List Event) (a b : State) (i : Nat) (h : Sim er t0 a b) :
    Sim er t0 (pollStep w a i) (pollStep w' b i) := by
  obtain ⟨seg, ha, hb⟩ := h
  have hq : b.nQuery = a.nQuery := by rw [hb]
  have hsc : b.stream_completed = a.stream_completed := by rw [hb]
  by_cases hst : w.hipStreamQuery a.nQuery = hipError_t.hipSuccess
  · have hst' : w'.hipStreamQuery b.nQuery = hipError_t.hipSuccess := by
      rw [hq]; exact (hm.query_success _).2 hst
    have hev := hm.query_event i a.nQuery
    rw [hst, ← hq, hst'] at hev
    by_cases hc : a.stream_completed.getD i false = false
    · rw [pollStep_fresh w a i hst hc, pollStep_fresh w' b i hst' (by rw [hsc]; exact hc)]
      refine ⟨seg ++ [Event.hipStreamQuery i hipError_t.hipSuccess] ++
        [Event.invoke CoyoteOper.LOCAL_TRANSFER i], by simp [ha], ?_⟩
      rw [hb]
      simp [← hev, hm.invoke_event]
    · have hc' : a.stream_completed.getD i false = true := by simpa using hc
      rw [pollStep_seen w a i hst hc', pollStep_seen w' b i hst' (by rw [hsc]; exact hc')]
      refine ⟨seg ++ [Event.hipStreamQuery i hipError_t.hipSuccess], by simp [ha], ?_⟩
      rw [hb]
      simp [← hev]
  · have hst' : w'.hipStreamQuery b.nQuery ≠ hipError_t.hipSuccess := by
      rw [hq]; exact fun hs => hst ((hm.query_success _).1 hs)
    have hev := hm.query_event i a.nQuery
    rw [pollStep_not_ready w a i hst, pollStep_not_ready w' b i hst']
    refine ⟨seg ++ [Event.hipStreamQuery i (w.hipStreamQuery a.nQuery)], by simp [ha], ?_⟩
    rw [hb]
    simp [← hev]

theorem Sim.gpu_to_cpu_done {er : Event → Event} {t0 : List Event} {a b : State}
    (h : Sim er t0 a b) : b.gpu_to_cpu_done = a.gpu_to_cpu_done := by
  obtain ⟨_, _, hb⟩ := h
  rw [hb]

theorem Sim.completed_coyote {er : Event → Event} {t0 : List Event} {a b : State}
    (h : Sim er t0 a b) : b.completed_coyote = a.completed_coyote := by
  obtain ⟨_, _, hb⟩ := h
  rw [hb]

theorem Sim.nCheck {er : Event → Event} {t0 : List Event} {a b : State}
    (h : Sim er t0 a b) : b.nCheck = a.nCheck := by
  obtain ⟨_, _, hb⟩ := h
  rw [hb]

theorem Sim.set_done {er : Event → Event} {t0 : List Event} {a b : State}
    (h : Sim er t0 a b) (v : Bool) :
    Sim er t0 { a with gpu_to_cpu_done := v } { b with gpu_to_cpu_done := v } := by
  obtain ⟨seg, ha, hb⟩ := h
  refine ⟨seg, ha, ?_⟩
  rw [hb]

theorem Sim.set_completed {er : Event → Event} {t0 : List Event} {a b : State}
    (h : Sim er t0 a b) (v : Nat) :
    Sim er t0 { a with completed_coyote := v } { b with completed_coyote := v } := by
  obtain ⟨seg, ha, hb⟩ := h
  refine ⟨seg, ha, ?_⟩
  rw [hb]

theorem pollPass_sim {er : Event → Event} {w w' : World} (hm : Mirrors er w w')
    (transfers : Nat) (t0 : List Event) (a b : State) (h : Sim er t0 a b) :
    Sim er t0 (pollPass w transfers a) (pollPass w' transfers b) :=
  foldl_sim (Sim er t0) _ _ (fun a b i hab => pollStep_sim hm t0 a b i hab) _ _ _
    (h.set_done true)

theorem pollLoop_sim {er : Event → Event} {w w' : World} (hm : Mirrors er w w')
    (transfers fuel : Nat) (t0 : List Event) :
    ∀ a b, Sim er t0 a b →
      Sim er t0 (pollLoop w transfers fuel a) (pollLoop w' transfers fuel b) := by
  induction fuel with
  | zero => intro a b h; exact h
  | succ n ih =>
    intro a b h
    have hd := h.gpu_to_cpu_done
    by_cases hda : a.gpu_to_cpu_done = true
    · rw [pollLoop_of_done w transfers _ a hda,
        pollLoop_of_done w' transfers _ b (by rw [hd]; exact hda)]
      exact h
    · rw [pollLoop, if_neg hda, pollLoop, if_neg (by rw [hd]; exact hda)]
      exact ih _ _ (pollPass_sim hm transfers t0 a b h)

theorem memcpyD2H_sim {er : Event → Event} {w w' : World} (hm : Mirrors er w w')
    (t0 : List Event) (a b : State) (i : Nat) (h : Sim er t0 a b) :
    Sim er t0 (memcpyD2H w a i) (memcpyD2H w' b i) := by
  obtain ⟨seg, ha, hb⟩ := h
  have hn : b.nMemcpy = a.nMemcpy := by rw [hb]
  refine ⟨seg ++ [Event.hipMemcpyAsyncD2H i (w.hipMemcpyAsync a.nMemcpy)],
    by simp [memcpyD2H, ha], ?_⟩
  have hev := hm.d2h_event i a.nMemcpy
  unfold memcpyD2H
  rw [hb]
  simp [← hev]

theorem memcpyH2D_sim {er : Event → Event} {w w' : World} (hm : Mirrors er w w')
    (t0 : List Event) (a b : State) (i : Nat) (h : Sim er t0 a b) :
    Sim er t0 (memcpyH2D w a i) (memcpyH2D w' b i) := by
  obtain ⟨seg, ha, hb⟩ := h
  refine ⟨seg ++ [Event.hipMemcpyAsyncH2D i (w.hipMemcpyAsync a.nMemcpy)],
    by simp [memcpyH2D, ha], ?_⟩
  have hev := hm.h2d_event i a.nMemcpy
  unfold memcpyH2D
  rw [hb]
  simp [← hev]

theorem h2dBody_sim {er : Event → Event} {w w' : World} (hm : Mirrors er w w')
    (t0 : List Event) (a b : State) (h : Sim er t0 a b) :
    Sim er t0 (h2dBody w a) (h2dBody w' b) := by
  have hcc := h.completed_coyote
  have hnc := h.nCheck
  obtain ⟨seg, ha, hb⟩ := h
  unfold h2dBody
  simp only [hm.checkCompleted, hcc, hnc]
  apply foldl_sim (Sim er t0) _ _ (fun a b i hab => memcpyH2D_sim hm t0 a b i hab)
  refine ⟨seg ++ [Event.checkCompleted CoyoteOper.LOCAL_TRANSFER (w.checkCompleted a.nCheck)],
    by simp [ha], ?_⟩
  rw [hb]
  simp [hm.check_event]

theorem h2dLoop_sim {er : Event → Event} {w w' : World} (hm : Mirrors er w w')
    (transfers fuel : Nat) (t0 : List Event) :
    ∀ a b, Sim er t0 a b →
      Sim er t0 (h2dLoop w transfers fuel a) (h2dLoop w' transfers fuel b) := by
  induction fuel with
  | zero => intro a b h; exact h
  | succ n ih =>
    intro a b h
    have hc := h.completed_coyote
    by_cases hda : a.completed_coyote < transfers
    · rw [h2dLoop, if_pos hda, h2dLoop, if_pos (by rw [hc]; exact hda)]
      exact ih _ _ (h2dBody_sim hm t0 a b h)
    · rw [h2dLoop_exit w transfers _ a hda,
        h2dLoop_exit w' transfers _ b (by rw [hc]; exact hda)]
      exact h

theorem stagedFirstPhase_sim {er : Event → Event} {w w' : World} (hm : Mirrors er w w')
    (transfers fuel : Nat) (t0 : List Event) (a b : State) (h : Sim er t0 a b) :
    Sim er t0 (stagedFirstPhase w transfers fuel a) (stagedFirstPhase w' transfers fuel b) := by
  unfold stagedFirstPhase
  apply pollLoop_sim hm
  apply Sim.set_done
  exact foldl_sim (Sim er t0) _ _ (fun a b i hab => memcpyD2H_sim hm t0 a b i hab) _ _ _ h

theorem stagedSecondPhase_sim {er : Event → Event} {w w' : World} (hm : Mirrors er w w')
    (transfers fuel : Nat) (t0 : List Event) (a b : State) (h : Sim er t0 a b) :
    Sim er t0 (stagedSecondPhase w transfers fuel a)
      (stagedSecondPhase w' transfers fuel b) := by
  unfold stagedSecondPhase
  exact h2dLoop_sim hm transfers fuel t0 _ _ (h.set_completed 0)

theorem errorsAsNotReady_mirrors (w : World) :
    Mirrors eraseQueryError w (errorsAsNotReady w) where
  query_success := by
    intro k
    simp only [errorsAsNotReady, asNotReady]
    split <;> simp_all
  query_event := fun _ _ => rfl
  d2h_event := fun _ _ => rfl
  h2d_event := fun _ _ => rfl
  invoke_event := fun _ _ => rfl
  check_event := fun _ _ => rfl
  sync_event := rfl
  checkCompleted := rfl
  hipDeviceSynchronize := rfl

theorem copiesSucceed_mirrors (w : World) :
    Mirrors eraseCopyStatus w (copiesSucceed w) where
  query_success := fun _ => Iff.rfl
  query_event := fun _ _ => rfl
  d2h_event := fun _ _ => rfl
  h2d_event := fun _ _ => rfl
  invoke_event := fun _ _ => rfl
  check_event := fun _ _ => rfl
  sync_event := rfl
  checkCompleted := rfl
  hipDeviceSynchronize := rfl

theorem pollStep_ret_val (w : World) (s : State) (i : Nat) :
    (pollStep w s i).ret_val = s.ret_val := by
  by_cases hst : w.hipStreamQuery s.nQuery = hipError_t.hipSuccess
  · by_cases hc : s.stream_completed.getD i false = false
    · rw [pollStep_fresh w s i hst hc]
    · rw [pollStep_seen w s i hst (by simpa using hc)]
  · rw [pollStep_not_ready w s i hst]

theorem pollLoop_ret_val (w : World) (transfers fuel : Nat) (s : State) :
    (pollLoop w transfers fuel s).ret_val = s.ret_val := by
  induction fuel generalizing s with
  | zero => rfl
  | succ n ih =>
    unfold pollLoop
    split
    · rfl
    · rw [ih]
      unfold pollPass
      apply foldl_invariant (fun t : State => t.ret_val = s.ret_val)
      · intro t i _ ht
        rw [pollStep_ret_val]; exact ht
      · rfl

/-- C6 (amended). During the staging poll a status query that returns an engine error is
handled exactly like one that returns "not ready": the run is not aborted and no error is
raised; the pass only leaves `gpu_to_cpu_done` cleared, polling goes on and the invoke of
that channel is issued once a later query of it succeeds.  The poll with the statuses of
`w` ends in the state of the poll in which every non-success status is "not ready", apart
from the statuses recorded in the trace. -/
theorem stagedFirstPhase_error_handled_as_not_ready (w : World) (transfers fuel : Nat)
    (s : State) :
    stagedFirstPhase (errorsAsNotReady w) transfers fuel s =
      { stagedFirstPhase w transfers fuel s with
        trace := s.trace ++
          (eventsSince s (stagedFirstPhase w transfers fuel s)).map eraseQueryError } := by
  obtain ⟨seg, ha, hb⟩ := stagedFirstPhase_sim (errorsAsNotReady_mirrors w) transfers fuel
    s.trace s s (Sim.start _ s)
  have hr : (stagedFirstPhase (errorsAsNotReady w) transfers fuel s).ret_val =
      (stagedFirstPhase w transfers fuel s).ret_val := by
    unfold stagedFirstPhase
    rw [pollLoop_ret_val, pollLoop_ret_val]
    rfl
  rw [eventsSince_of_trace ha, hb, hr]

/-- C6, counterexample. Stream 0 first reports error 719: the poll records it, polls
again, invokes the transfer at the next (successful) query and exits; `bench_fn` completes
the iteration without any error. -/
theorem stagedFirstPhase_continues_after_error :
    (stagedFirstPhase faultyQueryWorld 1 2 (startState 1)).trace =
      [Event.hipMemcpyAsyncD2H 0 hipError_t.hipSuccess,
        Event.hipStreamQuery 0 (hipError_t.hipErrorOther 719),
        Event.hipStreamQuery 0 hipError_t.hipSuccess,
        Event.invoke CoyoteOper.LOCAL_TRANSFER 0] ∧
    (stagedFirstPhase faultyQueryWorld 1 2 (startState 1)).gpu_to_cpu_done = true ∧
    (bench_fn faultyQueryWorld 1 false false 2 (startState 1)).isSome = true := by
  refine ⟨by decide, by decide, by decide⟩

/-- C7 (amended). The status returned by the `hipMemcpyAsync` issue calls of the staged
path is stored in `ret_val` and never read: whatever the calls return, the staged branch
does what it does when every issue succeeds (same calls in the same order, same final
state), so a failed issue is neither retried nor reported. -/
theorem stagedBranch_ignores_copy_status (w : World) (transfers fuel : Nat) (s : State) :
    stagedBranch (copiesSucceed w) transfers fuel s =
      (stagedBranch w transfers fuel s).map fun t =>
        { t with trace := s.trace ++ (eventsSince s t).map eraseCopyStatus } := by
  have hm := copiesSucceed_mirrors w
  have h1 := stagedFirstPhase_sim hm transfers fuel s.trace s s (Sim.start _ s)
  have h2 := stagedSecondPhase_sim hm transfers fuel s.trace _ _ h1
  have hd := h1.gpu_to_cpu_done
  have hc := h2.completed_coyote
  unfold stagedBranch
  simp only [hd, hc]
  by_cases hdone : (stagedFirstPhase w transfers fuel s).gpu_to_cpu_done = true
  · by_cases hlt : (stagedSecondPhase w transfers fuel
        (stagedFirstPhase w transfers fuel s)).completed_coyote < transfers
    · simp [hdone, hlt]
    · obtain ⟨seg, ha, hb⟩ := h2
      simp only [hdone, hlt, if_true, if_false, Option.map_some', Option.some.injEq]
      have hev : eventsSince s (deviceSynchronize w (stagedSecondPhase w transfers fuel
          (stagedFirstPhase w transfers fuel s))) = seg ++ [Event.hipDeviceSynchronize] := by
        apply eventsSince_of_trace
        simp [deviceSynchronize, ha]
      rw [hev]
      unfold deviceSynchronize
      rw [hb]
      simp [copiesSucceed, eraseCopyStatus]
  · simp [hdone]

/-- C7, counterexample. Every issue call fails with error 1: each copy is issued once and
never again, the branch goes on to invoke, poll and synchronize, and `bench_fn` completes
the iteration without any error. -/
theorem stagedBranch_drops_failed_issue :
    (stagedBranch failingCopyWorld 1 1 (startState 1)).map (fun t => t.trace) =
      some [Event.hipMemcpyAsyncD2H 0 (hipError_t.hipErrorOther 1),
        Event.hipStreamQuery 0 hipError_t.hipSuccess,
        Event.invoke CoyoteOper.LOCAL_TRANSFER 0,
        Event.checkCompleted CoyoteOper.LOCAL_TRANSFER 1,
        Event.hipMemcpyAsyncH2D 0 (hipError_t.hipErrorOther 1),
        Event.hipDeviceSynchronize] ∧
    (bench_fn failingCopyWorld 1 false false 1 (startState 1)).isSome = true := by
  refine ⟨by decide, by decide⟩

end TwoSided

theorem vector_sum_eq_sum (vec : List ℚ) : vector_sum vec = vec.sum := by
  have h : ∀ (l : List ℚ) (a : ℚ), l.foldl (fun sum val => sum + val) a = a + l.sum := by
    intro l
    induction l with
    | nil => intro a; simp
    | cons x l ih => intro a; simp [ih, add_assoc]
  simp [vector_sum, h]

/-- C13. Over the rationals, `avg_power` is the arithmetic mean of the power components and
`avg_util` the arithmetic mean of the utilization components of the samples held, and both
are exactly 0 when no sample is held. -/
theorem avg_power_avg_util_are_means (m : PerfMonitor) :
    m.avg_power = (if m.samples = [] then 0
      else (m.samples.map Prod.fst).sum / (m.samples.length : ℚ)) ∧
    m.avg_util = (if m.samples = [] then 0
      else (m.samples.map Prod.snd).sum / (m.samples.length : ℚ)) ∧
    (m.samples = [] → m.avg_power = 0 ∧ m.avg_util = 0) := by
  have h1 : m.avg_power = (if m.samples = [] then 0
      else (m.samples.map Prod.fst).sum / (m.samples.length : ℚ)) := by
    simp only [PerfMonitor.avg_power, vector_sum_eq_sum, List.isEmpty_iff]
  have h2 : m.avg_util = (if m.samples = [] then 0
      else (m.samples.map Prod.snd).sum / (m.samples.length : ℚ)) := by
    simp only [PerfMonitor.avg_util, vector_sum_eq_sum, List.isEmpty_iff]
  refine ⟨h1, h2, ?_⟩
  intro he
  rw [h1, h2]
  simp [he]

/-- C14. `start()` on a monitor whose thread is not joinable (never started, or stopped)
sets `running`, empties the samples and launches one sampling loop, so no earlier sample is
left; `start()` on a monitor that is already started terminates the program
(move-assignment to a joinable `std::thread`, which `start()` does not guard against as
`stop()` does), so the code is not idempotent. -/
theorem MonitorObject.start_on_stopped_or_started (m : MonitorObject) :
    (m.joinable = false →
      m.start = some { running := true, joinable := true, samples := [] }) ∧
    (m.joinable = true → m.start = none) ∧
    (∀ m', m.start = some m' → m'.samples = [] ∧ m'.running = true ∧ m'.start = none) := by
  refine ⟨?_, ?_, ?_⟩
  · intro h
    simp [MonitorObject.start, h]
  · intro h
    simp [MonitorObject.start, h]
  · intro m' h
    by_cases hj : m.joinable = true
    · simp [MonitorObject.start, hj] at h
    · simp only [MonitorObject.start, hj, Bool.false_eq_true, if_false, Option.some.injEq] at h
      subst h
      simp [MonitorObject.start]

/-- C14, counterexample. A second `start()` on a freshly started monitor does not yield a
started monitor: it terminates the program. -/
theorem MonitorObject.start_twice_terminates :
    MonitorObject.create.start =
      some { running := true, joinable := true, samples := [] } ∧
    (MonitorObject.create.start.bind MonitorObject.start) = none := by
  constructor <;> decide

/-- C15. `stop()` on a monitor that was never started or is already stopped changes
nothing (`running` stays false, the samples are unchanged, nothing is joined), whatever the
sampler may hold; hence `stop(); stop()` leaves the state of a single `stop()`, also when
the second one is the destructor's. -/
theorem MonitorObject.stop_idempotent (m : MonitorObject) (sampled sampled' : List (ℚ × ℚ)) :
    (m.running = false → m.joinable = false → m.stop sampled = m) ∧
    (m.stop sampled).running = false ∧ (m.stop sampled).joinable = false ∧
    (m.stop sampled).stop sampled' = m.stop sampled ∧
    (m.stop sampled).destroy sampled' = m.stop sampled ∧
    MonitorObject.create.stop sampled = MonitorObject.create := by
  have hr : (m.stop sampled).running = false := by
    cases m with
    | mk r j l => cases j <;> simp [MonitorObject.stop]
  have hj : (m.stop sampled).joinable = false := by
    cases m with
    | mk r j l => cases j <;> simp [MonitorObject.stop]
  have hfix : ∀ x : MonitorObject, x.running = false → x.joinable = false →
      ∀ l, x.stop l = x := by
    intro x h1 h2 l
    cases x
    simp_all [MonitorObject.stop]
  exact ⟨fun h1 h2 => hfix m h1 h2 sampled, hr, hj, hfix _ hr hj sampled',
    hfix _ hr hj sampled', hfix _ rfl rfl sampled⟩

theorem MonitorObject.stop_idempotent_witness :
    (MonitorObject.create.stop [(1, 2)] = MonitorObject.create) :=
  (MonitorObject.stop_idempotent MonitorObject.create [(1, 2)] []).1 rfl rfl

theorem foldl_add_eq_sum_map (f : ℚ → ℚ) (l : List ℚ) (a : ℚ) :
    l.foldl (fun acc t => acc + f t) a = a + (l.map f).sum := by
  induction l generalizing a with
  | nil => simp
  | cons x l ih => simp [ih, add_assoc]

/-- C16. The average throughput reported for a size is the mean over the measured
iterations of `(transfers * size) / (2^30 * t * 10^-9)` (GiB/s), read over the rationals;
the reading is that of the program for the times it measures, a non-empty list of positive
numbers. -/
theorem avg_throughput_is_mean (n_transfers curr_size : Nat) (measured_times : List ℚ) :
    avg_throughput n_transfers curr_size measured_times =
      (1 / (measured_times.length : ℚ)) *
        (measured_times.map fun t =>
          ((n_transfers : ℚ) * (curr_size : ℚ)) / (2 ^ 30 * t * (1 / 10 ^ 9))).sum := by
  unfold avg_throughput
  simp only [foldl_add_eq_sum_map, zero_add]
  have h : (1024 : ℚ) * 1024 * 1024 = 2 ^ 30 := by norm_num
  simp only [h]
  rw [div_eq_mul_inv, mul_comm]
  simp only [one_div]

theorem TwoSided.wrongResult_iff (w : World) (size : Nat) (s0 s : State) :
    TwoSided.wrongResult w size s0 s = true ↔
      ∃ i, i < size / 4 ∧ TwoSided.inputs w s0 i + 1 ≠ w.gpu_dst s.nRun i := by
  simp [TwoSided.wrongResult, List.any_eq_true]

/-- The two outcomes of a two-sided `run_bench` whose loops have ended. -/
theorem TwoSided.run_bench_outcome (w : World) (size transfers n_runs : Nat) (mode g : Bool)
    (fuel : Nat) (s0 : State) (r : Except String State)
    (h : TwoSided.run_bench w size transfers n_runs mode g fuel s0 = some r) :
    (TwoSided.wrongResult w size s0 s0 = true ∧ r = Except.error "Wrong result!") ∨
    (TwoSided.wrongResult w size s0 s0 = false ∧ ∃ t, r = Except.ok t) := by
  unfold TwoSided.run_bench at h
  simp only [Option.bind_eq_some] at h
  obtain ⟨s1, h1, s2, h2, h3⟩ := h
  obtain ⟨_, _, _, _, _, _, _, a7, _, _⟩ :=
    TwoSided.iterations_effect w transfers mode g fuel 50 _ _ h1
  obtain ⟨_, _, _, _, _, _, _, b7, _, _⟩ :=
    TwoSided.iterations_effect w transfers mode g fuel n_runs _ _ h2
  have hn : (s2.emit Event.hipMemcpy).nRun = s0.nRun := by
    simp only [State.emit]
    rw [b7]
    simpa using a7
  have hv := TwoSided.wrongResult_nRun w size s0 (s2.emit Event.hipMemcpy) s0 hn
  rw [hv] at h3
  cases hw : TwoSided.wrongResult w size s0 s0 with
  | true =>
    left
    simp only [hw, if_true, Option.some.injEq] at h3
    exact ⟨rfl, h3.symm⟩
  | false =>
    right
    simp only [hw, Bool.false_eq_true, if_false, Option.some.injEq] at h3
    exact ⟨rfl, _, h3.symm⟩

/-- A two-sided `run_bench` whose loops end has an outcome. -/
theorem TwoSided.run_bench_has_outcome (w : World) (size transfers n_runs : Nat)
    (mode g : Bool) (fuel : Nat) (s0 : State) (hlive : TwoSided.Live w transfers mode fuel) :
    ∃ r, TwoSided.run_bench w size transfers n_runs mode g fuel s0 = some r := by
  unfold TwoSided.run_bench
  obtain ⟨s1, h1⟩ := TwoSided.iterations_total w transfers mode g fuel hlive 50
    { s0 with
      perf_metrics := { latencies := [], gpu_powers := [], gpu_utils := [] },
      nRand := s0.nRand + size / 4,
      trace := s0.trace ++ [Event.hipMemcpy, Event.hipMemcpy],
      stream_completed := List.replicate transfers false,
      warm_up := true }
  obtain ⟨s2, h2⟩ := TwoSided.iterations_total w transfers mode g fuel hlive n_runs
    { s1 with warm_up := false }
  by_cases hv : TwoSided.wrongResult w size s0 (s2.emit Event.hipMemcpy) = true
  · exact ⟨Except.error "Wrong result!", by simp [h1, h2, hv]⟩
  · exact ⟨Except.ok { s2.emit Event.hipMemcpy with nRun := (s2.emit Event.hipMemcpy).nRun + 1 },
      by simp [h1, h2, hv]⟩

/-- C17. A two-sided `run_bench` that gets to its validation loop throws "Wrong result!"
exactly when some index `i < size / 4` has `inputs[i] + 1 != results[i]`, `results` being the
destination buffer copied back after the last iteration; when all of them agree it returns
the collected metrics (one latency for each measured iteration).  It gets there whenever its
polling loops end. -/
theorem run_bench_throws_iff_mismatch (w : World) (size transfers n_runs : Nat)
    (mode g : Bool) (fuel : Nat) (s0 : State) :
    (∀ r, TwoSided.run_bench w size transfers n_runs mode g fuel s0 = some r →
      (r = Except.error "Wrong result!" ↔
        ∃ i, i < size / 4 ∧ TwoSided.inputs w s0 i + 1 ≠ w.gpu_dst s0.nRun i) ∧
      ((∀ i, i < size / 4 → TwoSided.inputs w s0 i + 1 = w.gpu_dst s0.nRun i) →
        ∃ t, r = Except.ok t ∧ t.perf_metrics.latencies.length = n_runs)) ∧
    (TwoSided.Live w transfers mode fuel →
      ∃ r, TwoSided.run_bench w size transfers n_runs mode g fuel s0 = some r) := by
  refine ⟨?_, TwoSided.run_bench_has_outcome w size transfers n_runs mode g fuel s0⟩
  intro r h
  have hiff := TwoSided.wrongResult_iff w size s0 s0
  rcases TwoSided.run_bench_outcome w size transfers n_runs mode g fuel s0 r h with
    ⟨hw, hr⟩ | ⟨hw, t, hr⟩
  · refine ⟨⟨fun _ => hiff.1 hw, fun _ => hr⟩, ?_⟩
    intro hall
    obtain ⟨i, hi, hne⟩ := hiff.1 hw
    exact absurd (hall i hi) hne
  · refine ⟨⟨fun he => ?_, fun hex => ?_⟩, fun _ => ?_⟩
    · rw [hr] at he
      exact absurd he (by simp)
    · have := hiff.2 hex
      rw [hw] at this
      exact absurd this (by simp)
    · subst hr
      obtain ⟨h1, _⟩ := TwoSided.run_bench_effect w size transfers n_runs mode g fuel s0 t h
      exact ⟨t, rfl, by simp [h1, TwoSided.elapsedTimes]⟩

theorem run_bench_throws_iff_mismatch_witness :
    ∃ r, TwoSided.run_bench (TwoSided.readyWorld 2 0) 8 2 1 false false 1
        (TwoSided.startState 2) = some r ∧
      (r = Except.error "Wrong result!" ↔
        ∃ i, i < 8 / 4 ∧ TwoSided.inputs (TwoSided.readyWorld 2 0) (TwoSided.startState 2) i + 1 ≠
          (TwoSided.readyWorld 2 0).gpu_dst (TwoSided.startState 2).nRun i) := by
  obtain ⟨r, hr⟩ := (run_bench_throws_iff_mismatch (TwoSided.readyWorld 2 0) 8 2 1 false false 1
    (TwoSided.startState 2)).2 (TwoSided.readyWorld_live 2 0 false)
  exact ⟨r, hr, ((run_bench_throws_iff_mismatch (TwoSided.readyWorld 2 0) 8 2 1 false false 1
    (TwoSided.startState 2)).1 r hr).1⟩

namespace TwoSided

theorem count_eq_zero_of_issue_or_poll (body : List Event) (e : Event)
    (he : isIssue e = false ∧ isPoll e = false)
    (hbody : ∀ x ∈ body, isIssue x = true ∨ isPoll x = true) : body.count e = 0 := by
  rw [List.count_eq_zero]
  intro hmem
  rcases hbody e hmem with h | h
  · rw [he.1] at h; exact absurd h (by simp)
  · rw [he.2] at h; exact absurd h (by simp)

theorem iterationEvents_startCount (w : World) (g : Bool) (s : State) (body : List Event)
    (hbody : ∀ x ∈ body, isIssue x = true ∨ isPoll x = true) :
    startCount (iterationEvents w g s body) = (if g then 1 else 0) ∧
    stopCount (iterationEvents w g s body) = (if g then 1 else 0) := by
  have h1 := count_eq_zero_of_issue_or_poll body Event.perf_start ⟨rfl, rfl⟩ hbody
  have h2 := count_eq_zero_of_issue_or_poll body Event.perf_stop ⟨rfl, rfl⟩ hbody
  cases g <;> cases hw : s.warm_up <;>
    simp [startCount, stopCount, iterationEvents, benchEvents, prepEvents, beginEvents,
      endEvents, hw, h1, h2, List.count_cons, List.count_append]

/-- In a loop of `n` iterations that ran to its end the sampler is started and stopped once
in every iteration when monitoring is on, and never when it is off, whatever the warm-up
flag. -/
theorem iterations_startCount (w : World) (transfers : Nat) (mode g : Bool) (fuel : Nat)
    (n : Nat) :
    ∀ (s t : State), iterations w transfers mode g fuel n s = some t →
      ∃ seg, t.trace = s.trace ++ seg ∧
        startCount seg = (if g then n else 0) ∧ stopCount seg = (if g then n else 0) := by
  induction n with
  | zero =>
    intro s t h
    simp only [iterations, Option.some.injEq] at h
    subst h
    exact ⟨[], by simp, by simp [startCount], by simp [stopCount]⟩
  | succ n ih =>
    intro s t h
    simp only [iterations, Option.bind_eq_some] at h
    obtain ⟨u, hu, ht⟩ := h
    obtain ⟨body, h1, h2, _⟩ := iteration_effect w transfers mode g fuel s u hu
    obtain ⟨seg, k1, k2, k3⟩ := ih u t ht
    obtain ⟨c1, c2⟩ := iterationEvents_startCount w g s body h2
    refine ⟨iterationEvents w g s body ++ seg, by rw [k1, h1]; simp, ?_, ?_⟩
    · simp only [startCount, List.count_append] at c1 k2 ⊢
      rw [c1, k2]
      cases g <;> simp
      omega
    · simp only [stopCount, List.count_append] at c2 k3 ⊢
      rw [c2, k3]
      cases g <;> simp
      omega

/-- In a two-sided `run_bench` that returned, the sampler was started and stopped
`50 + n_runs` times when monitoring is on, and never when it is off. -/
theorem run_bench_startCount (w : World) (size transfers n_runs : Nat) (mode g : Bool)
    (fuel : Nat) (s0 t : State)
    (h : run_bench w size transfers n_runs mode g fuel s0 = some (Except.ok t)) :
    startCount (eventsSince s0 t) = (if g then 50 + n_runs else 0) ∧
    stopCount (eventsSince s0 t) = (if g then 50 + n_runs else 0) := by
  unfold run_bench at h
  simp only [Option.bind_eq_some] at h
  obtain ⟨s1, h1, s2, h2, h3⟩ := h
  obtain ⟨seg1, a1, a2, a3⟩ := iterations_startCount w transfers mode g fuel 50 _ _ h1
  obtain ⟨seg2, b1, b2, b3⟩ := iterations_startCount w transfers mode g fuel n_runs _ _ h2
  split at h3
  · simp at h3
  · simp only [Option.some.injEq, Except.ok.injEq] at h3
    subst h3
    have htr : eventsSince s0 { s2.emit Event.hipMemcpy with
        nRun := (s2.emit Event.hipMemcpy).nRun + 1 } =
        [Event.hipMemcpy, Event.hipMemcpy] ++ seg1 ++ seg2 ++ [Event.hipMemcpy] := by
      apply eventsSince_of_trace
      simp [State.emit, b1, a1]
    rw [htr]
    simp only [startCount, stopCount, List.count_append] at a2 a3 b2 b3 ⊢
    rw [a2, a3, b2, b3]
    cases g <;> simp [List.count_cons]

/-- C20, counterexample. A monitored run with `n_runs = 2` starts and stops the sampler 52
times, once in each of its 50 warm-up and 2 measured iterations, not once for the measured
phase. -/
theorem sampler_started_in_warm_up_too :
    ∃ t, run_bench (readyWorld 1 (-511)) 4 1 2 true true 1 (startState 1) =
        some (Except.ok t) ∧
      startCount (eventsSince (startState 1) t) = 52 ∧
      stopCount (eventsSince (startState 1) t) = 52 := by
  obtain ⟨t, ht⟩ := run_bench_total (readyWorld 1 (-511)) 4 1 2 true true 1 (startState 1)
    (readyWorld_live 1 (-511) true) (by decide)
  obtain ⟨h1, h2⟩ := run_bench_startCount (readyWorld 1 (-511)) 4 1 2 true true 1
    (startState 1) t ht
  exact ⟨t, ht, by simpa using h1, by simpa using h2⟩

end TwoSided

namespace Sweep

theorem doublings_step (c m : Nat) (hc : 1 ≤ c) (hle : c ≤ m) :
    doublings c m = c :: doublings (c * 2) m := by
  unfold doublings
  rw [if_pos hle]
  by_cases h2 : c * 2 ≤ m
  · rw [if_pos h2]
    have hq : m / (c * 2) = m / c / 2 := by rw [Nat.div_div_eq_div_mul]
    have hge : 2 ≤ m / c := by
      rw [Nat.le_div_iff_mul_le (by omega)]
      omega
    have hlog : Nat.log 2 (m / c) = Nat.log 2 (m / (c * 2)) + 1 := by
      rw [hq, Nat.log_div_base]
      have : 1 ≤ Nat.log 2 (m / c) := by
        rw [← Nat.pow_le_iff_le_log (by norm_num) (by omega)]
        simpa using hge
      omega
    rw [hlog, List.range_succ_eq_map, List.map_cons, List.map_map]
    simp only [pow_zero, mul_one, List.cons.injEq, true_and]
    apply List.map_congr_left
    intro k _
    simp only [Function.comp_apply, pow_succ]
    ring
  · rw [if_neg h2]
    have hq : m / c = 1 := by
      apply Nat.div_eq_of_lt_le
      · omega
      · omega
    simp [hq, List.range_succ]

theorem double32_eq (c m : Nat) (hle : c ≤ m) (hm : m < 2 ^ 31) : double32 c = c * 2 := by
  unfold double32
  apply Nat.mod_eq_of_lt
  omega

theorem sweep_eq_doublings (m : Nat) (hm : m < 2 ^ 31) (fuel : Nat) :
    ∀ c, 1 ≤ c → m < c * 2 ^ fuel → sweep m fuel c = some (doublings c m) := by
  induction fuel with
  | zero =>
    intro c _ h
    have : ¬ c ≤ m := by simpa using h
    simp [sweep, doublings, this]
  | succ f ih =>
    intro c hc h
    by_cases hle : c ≤ m
    · rw [sweep, if_pos hle, double32_eq c m hle hm, ih (c * 2) (by omega)
        (by rw [pow_succ] at h; linarith), doublings_step c m hc hle]
      rfl
    · simp [sweep, doublings, hle]

theorem doublings_strictly_increasing (c m : Nat) (hc : 1 ≤ c) :
    (doublings c m).Pairwise (· < ·) := by
  unfold doublings
  split
  · rw [List.pairwise_map]
    apply List.Pairwise.imp _ (List.pairwise_lt_range _)
    intro a b hab
    apply Nat.mul_lt_mul_of_pos_left
    · exact Nat.pow_lt_pow_right (by norm_num) hab
    · omega
  · exact List.Pairwise.nil

theorem sweep_of_small (min_size max_size : Nat) (h1 : 1 ≤ min_size)
    (h2 : max_size < 2 ^ 31) : sweep max_size 32 min_size = some (doublings min_size max_size) := by
  apply sweep_eq_doublings max_size h2 32 min_size h1
  have : (2 : Nat) ^ 32 ≤ min_size * 2 ^ 32 := Nat.le_mul_of_pos_left _ (by omega)
  omega

theorem doublings_length (min_size max_size : Nat) (h : min_size ≤ max_size) :
    (doublings min_size max_size).length = Nat.log 2 (max_size / min_size) + 1 := by
  simp [doublings, h]

theorem sweep_stuck_at_zero (max_size : Nat) (fuel : Nat) : sweep max_size fuel 0 = none := by
  induction fuel with
  | zero => simp [sweep]
  | succ f ih => simp [sweep, double32, ih]

theorem sweep_stuck_at_full_range (fuel : Nat) :
    ∀ c, c < 2 ^ 32 → sweep (2 ^ 32 - 1) fuel c = none := by
  induction fuel with
  | zero =>
    intro c hc
    have hle : c ≤ 2 ^ 32 - 1 := by omega
    rw [sweep, if_pos hle]
  | succ f ih =>
    intro c hc
    have hle : c ≤ 2 ^ 32 - 1 := by omega
    rw [sweep, if_pos hle, ih (double32 c) (Nat.mod_lt _ (by norm_num))]
    rfl

theorem log_default_ratio : Nat.log 2 (64 * 1024 * 1024 / 256) = 18 := by
  have h : 64 * 1024 * 1024 / 256 = 2 ^ 18 := by norm_num
  rw [h, Nat.log_pow (by norm_num)]

theorem sweep_default_count :
    (sweep (64 * 1024 * 1024) 32 256).map List.length = some 19 := by
  rw [sweep_of_small 256 (64 * 1024 * 1024) (by norm_num) (by norm_num), Option.map_some',
    doublings_length 256 (64 * 1024 * 1024) (by norm_num), log_default_ratio]

/-- C11 (amended). For `1 <= min_size <= max_size` with `2 * max_size < 2^32` the doubling
sweep of `main` ends and produces exactly `floor(log2(max_size / min_size)) + 1` results,
the sizes `min_size * 2^k`, strictly increasing; for 256 and 64 MiB these are 19. -/
theorem sweep_result_count (min_size max_size : Nat) (h1 : 1 ≤ min_size)
    (h2 : min_size ≤ max_size) (h3 : 2 * max_size < 2 ^ 32) :
    (∃ sizes, sweep max_size 32 min_size = some sizes ∧
      sizes.length = Nat.log 2 (max_size / min_size) + 1 ∧
      sizes.Pairwise (· < ·) ∧
      sizes = (List.range (Nat.log 2 (max_size / min_size) + 1)).map
        (fun k => min_size * 2 ^ k)) ∧
    (sweep (64 * 1024 * 1024) 32 256).map List.length = some 19 := by
  constructor
  · refine ⟨_, sweep_of_small min_size max_size h1 (by omega),
      doublings_length min_size max_size h2,
      doublings_strictly_increasing min_size max_size h1, ?_⟩
    simp [doublings, h2]
  · exact sweep_default_count

theorem sweep_result_count_witness :
    ∃ sizes, sweep (2 * 1024 * 1024) 32 256 = some sizes ∧
      sizes.length = Nat.log 2 (2 * 1024 * 1024 / 256) + 1 ∧
      sizes.Pairwise (· < ·) ∧
      sizes = (List.range (Nat.log 2 (2 * 1024 * 1024 / 256) + 1)).map
        (fun k => 256 * 2 ^ k) :=
  (sweep_result_count 256 (2 * 1024 * 1024) (by norm_num) (by norm_num) (by norm_num)).1

/-- C11, counterexample. From 1 to 3 the sweep produces the two results 1 and 2, while
`ceil(log2(3 / 1)) + 1` is 3: the least `k` with `3 <= 1 * 2^k` is 2. -/
theorem sweep_count_is_not_ceil :
    sweep 3 32 1 = some [1, 2] ∧ 3 ≤ 1 * 2 ^ 2 ∧ ¬ 3 ≤ 1 * 2 ^ 1 ∧
      Nat.clog 2 (3 / 1) + 1 = 3 := by
  refine ⟨by decide, by decide, by decide, ?_⟩
  have : Nat.clog 2 3 = 2 := by
    rw [Nat.clog_of_two_le (by norm_num) (by norm_num)]
    norm_num
    rw [Nat.clog_of_two_le (by norm_num) (by norm_num)]
    norm_num
  simpa using this

/-- C12 (amended). For `min_size >= 1` and `max_size < 2^31` the sweep loop ends after at
most 32 iterations: the doubling does not wrap before the size exceeds `max_size`. -/
theorem sweep_terminates (min_size max_size : Nat) (h1 : 1 ≤ min_size)
    (h2 : max_size < 2 ^ 31) :
    ∃ sizes, sweep max_size 32 min_size = some sizes ∧ sizes.length ≤ 32 := by
  refine ⟨_, sweep_of_small min_size max_size h1 h2, ?_⟩
  by_cases hle : min_size ≤ max_size
  · rw [doublings_length _ _ hle]
    have hpos : max_size / min_size ≠ 0 := by
      have := Nat.div_pos hle (by omega)
      omega
    have hlt : max_size / min_size < 2 ^ 31 :=
      lt_of_le_of_lt (Nat.div_le_self _ _) h2
    have := Nat.log_lt_of_lt_pow hpos hlt
    omega
  · simp [doublings, hle]

theorem sweep_terminates_witness :
    ∃ sizes, sweep (2 * 1024 * 1024) 32 256 = some sizes ∧ sizes.length ≤ 32 :=
  sweep_terminates 256 (2 * 1024 * 1024) (by norm_num) (by norm_num)

/-- C12, counterexample. Two sweeps over 32-bit values that never end: from `min_size = 0`
the size stays 0, and up to `max_size = 2^32 - 1` every 32-bit size passes the test (the
doubling wraps to 0). -/
theorem sweep_never_ends :
    (∀ fuel, sweep 4096 fuel 0 = none) ∧ (∀ fuel, sweep (2 ^ 32 - 1) fuel 256 = none) :=
  ⟨fun fuel => sweep_stuck_at_zero 4096 fuel,
    fun fuel => sweep_stuck_at_full_range fuel 256 (by norm_num)⟩

end Sweep

namespace ArgsParser

theorem shiftAt_length {α : Type} (l : List α) (j : Nat) : (shiftAt l j).length = l.length := by
  unfold shiftAt
  split <;> simp

theorem shiftAt_of_some {α : Type} (l : List α) (j : Nat) (a : α) (h : l[j + 1]? = some a) :
    shiftAt l j = l.set j a := by
  simp [shiftAt, h]

theorem shift_prefix {α : Type} (l : List α) (m : Nat) (hm : m + 2 ≤ l.length ∨ m = 0) :
    ((List.range' 1 m).foldl shiftAt l).length = l.length ∧
    ∀ k : Nat, ((List.range' 1 m).foldl shiftAt l)[k]? =
      if 1 ≤ k ∧ k ≤ m then l[k + 1]? else l[k]? := by
  induction m with
  | zero =>
    refine ⟨rfl, ?_⟩
    intro k
    have : ¬ (1 ≤ k ∧ k ≤ 0) := by omega
    simp only [List.range'_zero, List.foldl_nil]
    rw [if_neg this]
  | succ m ih =>
    have hm' : m + 3 ≤ l.length := by omega
    obtain ⟨ihl, ihk⟩ := ih (Or.inl (by omega))
    rw [List.range'_concat, List.foldl_append]
    simp only [List.foldl_cons, List.foldl_nil, Nat.one_mul]
    refine ⟨by rw [shiftAt_length, ihl], ?_⟩
    intro k
    have hnext : ((List.range' 1 m).foldl shiftAt l)[1 + m + 1]? = l[1 + m + 1]? := by
      have : ¬ (1 ≤ 1 + m + 1 ∧ 1 + m + 1 ≤ m) := by omega
      rw [ihk, if_neg this]
    have hlt : 1 + m + 1 < l.length := by omega
    have hsome : l[1 + m + 1]? = some l[1 + m + 1] :=
      List.getElem?_eq_getElem hlt
    rw [shiftAt_of_some _ _ _ (hnext.trans hsome)]
    by_cases hk : k = 1 + m
    · subst hk
      have hlt : 1 + m < ((List.range' 1 m).foldl shiftAt l).length := by rw [ihl]; omega
      have : (1 ≤ 1 + m ∧ 1 + m ≤ m + 1) := by omega
      rw [if_pos this, List.getElem?_set_self hlt, hsome]
    · rw [List.getElem?_set_ne (Ne.symm hk), ihk]
      by_cases h1 : 1 ≤ k ∧ k ≤ m
      · have : 1 ≤ k ∧ k ≤ m + 1 := by omega
        rw [if_pos h1, if_pos this]
      · have : ¬ (1 ≤ k ∧ k ≤ m + 1) := by omega
        rw [if_neg h1, if_neg this]

theorem shiftLeft_spec {α : Type} (n : Nat) (l : List α) (hn : n ≤ l.length) :
    (shiftLeft (n : Int) l).length = l.length ∧
    ∀ k : Nat, (shiftLeft (n : Int) l)[k]? = if 1 ≤ k ∧ k + 1 < n then l[k + 1]? else l[k]? := by
  have hm : ((n : Int) - 2).toNat = n - 2 := by omega
  obtain ⟨h1, h2⟩ := shift_prefix l (n - 2) (by omega)
  unfold shiftLeft
  rw [hm]
  refine ⟨h1, ?_⟩
  intro k
  rw [h2]
  by_cases hk : 1 ≤ k ∧ k ≤ n - 2
  · have : 1 ≤ k ∧ k + 1 < n := by omega
    rw [if_pos hk, if_pos this]
  · have : ¬ (1 ≤ k ∧ k + 1 < n) := by omega
    rw [if_neg hk, if_neg this]

/-- After `i` rounds of the outer loop of `args_pop_front`. -/
theorem pop_rounds {α : Type} (n : Nat) (argv : List α) (hlen : argv.length = n) (i : Nat) (hi : i + 1 ≤ n) :
    ((List.range i).foldl
        (fun (p : Int × List α) _ => (p.1 - 1, shiftLeft p.1 p.2)) ((n : Int), argv)).1 =
      ((n - i : Nat) : Int) ∧
    ((List.range i).foldl
        (fun (p : Int × List α) _ => (p.1 - 1, shiftLeft p.1 p.2)) ((n : Int), argv)).2.length = n ∧
    ∀ k : Nat, k + i < n →
      ((List.range i).foldl
        (fun (p : Int × List α) _ => (p.1 - 1, shiftLeft p.1 p.2)) ((n : Int), argv)).2[k]? =
        if 1 ≤ k then argv[k + i]? else argv[k]? := by
  induction i with
  | zero =>
    refine ⟨by simp, by simpa using hlen, ?_⟩
    intro k _
    simp
  | succ i ih =>
    obtain ⟨ih1, ih2, ih3⟩ := ih (by omega)
    rw [List.range_succ, List.foldl_append]
    simp only [List.foldl_cons, List.foldl_nil]
    rw [ih1]
    obtain ⟨s1, s2⟩ := shiftLeft_spec (n - i) _ (by rw [ih2]; omega)
    refine ⟨by omega, by rw [s1, ih2], ?_⟩
    intro k hk
    rw [s2]
    by_cases h1 : 1 ≤ k
    · have : 1 ≤ k ∧ k + 1 < n - i := by omega
      rw [if_pos this, ih3 (k + 1) (by omega), if_pos (by omega), if_pos h1]
      congr 1
      omega
    · have : ¬ (1 ≤ k ∧ k + 1 < n - i) := by omega
      rw [if_neg this, ih3 k (by omega), if_neg h1, if_neg h1]

/-- C18. For an array `argv` of length `argc` and `0 <= amount <= argc - 1`,
`args_pop_front` leaves `argc - amount` in `argc`, keeps `argv[0]`, and moves every old
`argv[j + amount]` to `argv[j]` for `1 <= j < argc - amount`: the `amount` elements from
the second one on are removed and the rest keeps its order. -/
theorem args_pop_front_spec {α : Type} (argc : Int) (argv : List α) (amount : Int)
    (hlen : (argv.length : Int) = argc) (h0 : 0 ≤ amount) (h1 : amount ≤ argc - 1) :
    (args_pop_front argc argv amount).1 = argc - amount ∧
    (args_pop_front argc argv amount).2[0]? = argv[0]? ∧
    ∀ j : Nat, 1 ≤ j → (j : Int) < argc - amount →
      (args_pop_front argc argv amount).2[j]? = argv[j + amount.toNat]? := by
  obtain ⟨r1, _, r3⟩ := pop_rounds argv.length argv rfl amount.toNat (by omega)
  unfold args_pop_front
  rw [← hlen]
  refine ⟨by rw [r1]; omega, ?_, ?_⟩
  · rw [r3 0 (by omega)]
    simp
  · intro j hj1 hj2
    rw [r3 j (by omega), if_pos hj1]

theorem args_pop_front_spec_witness :
    (args_pop_front 5 ["prog", "-t", "WARP", "-s", "64"] 2).1 = 5 - 2 ∧
    (args_pop_front 5 ["prog", "-t", "WARP", "-s", "64"] 2).2[0]? =
      ["prog", "-t", "WARP", "-s", "64"][0]? ∧
    ∀ j : Nat, 1 ≤ j → (j : Int) < 5 - 2 →
      (args_pop_front 5 ["prog", "-t", "WARP", "-s", "64"] 2).2[j]? =
        ["prog", "-t", "WARP", "-s", "64"][j + (2 : Int).toNat]? :=
  args_pop_front_spec 5 ["prog", "-t", "WARP", "-s", "64"] 2 (by decide) (by decide) (by decide)

end ArgsParser

namespace ImageRegistration

theorem waitAbove_exits (w : World) (oper : CoyoteOper) (baseline : Nat) (k : Nat) :
    ∀ (fuel : Nat) (s : State), k < fuel → baseline < w.checkCompleted (s.nCheck + k) →
      (∀ j, j < k → w.checkCompleted (s.nCheck + j) ≤ baseline) →
      waitAbove w oper baseline fuel s =
        some { s with
          nCheck := s.nCheck + (k + 1),
          trace := s.trace ++ TwoSided.pollEvents w oper s (k + 1) } := by
  induction k with
  | zero =>
    intro fuel s hf hk _
    cases fuel with
    | zero => omega
    | succ fuel =>
      have hk' : ¬ w.checkCompleted s.nCheck ≤ baseline := by simpa using hk
      simp [waitAbove, hk', TwoSided.pollEvents, List.range_succ]
  | succ k ih =>
    intro fuel s hf hk hfirst
    cases fuel with
    | zero => omega
    | succ fuel =>
      have h0 : w.checkCompleted s.nCheck ≤ baseline := by simpa using hfirst 0 (by omega)
      rw [waitAbove]
      simp only [h0, if_true]
      rw [ih fuel _ (by omega)]
      · simp only [TwoSided.pollEvents, List.range_succ_eq_map (k + 1), List.map_cons,
          List.map_map]
        congr 1
        · have : s.nCheck + 1 + (k + 1) = s.nCheck + (k + 1 + 1) := by omega
          simp [this, Function.comp_def, Nat.add_assoc, Nat.add_comm 1]
      · simpa [Nat.add_assoc, Nat.add_comm 1] using hk
      · intro j hj
        have := hfirst (j + 1) (by omega)
        simpa [Nat.add_assoc, Nat.add_comm 1] using this

theorem waitAbove_spins (w : World) (oper : CoyoteOper) (baseline : Nat) :
    ∀ (fuel : Nat) (s : State), (∀ j, j < fuel → w.checkCompleted (s.nCheck + j) ≤ baseline) →
      waitAbove w oper baseline fuel s = none := by
  intro fuel
  induction fuel with
  | zero => intro s _; rfl
  | succ fuel ih =>
    intro s h
    have h0 : w.checkCompleted s.nCheck ≤ baseline := by simpa using h 0 (by omega)
    rw [waitAbove]
    simp only [h0, if_true]
    apply ih
    intro j hj
    have := h (j + 1) (by omega)
    simpa [Nat.add_assoc, Nat.add_comm 1] using this

theorem waitAbove_some (w : World) (oper : CoyoteOper) (baseline fuel : Nat) (s t : State)
    (h : waitAbove w oper baseline fuel s = some t) :
    ∃ k, k < fuel ∧ baseline < w.checkCompleted (s.nCheck + k) ∧
      (∀ j, j < k → w.checkCompleted (s.nCheck + j) ≤ baseline) ∧
      t = { s with
        nCheck := s.nCheck + (k + 1),
        trace := s.trace ++ TwoSided.pollEvents w oper s (k + 1) } := by
  by_cases hex : ∃ k, k < fuel ∧ baseline < w.checkCompleted (s.nCheck + k)
  · have hspec := Nat.find_spec hex
    have hmin : ∀ j, j < Nat.find hex → w.checkCompleted (s.nCheck + j) ≤ baseline := by
      intro j hj
      by_contra hcontra
      exact Nat.find_min hex hj ⟨by omega, by omega⟩
    have := waitAbove_exits w oper baseline (Nat.find hex) fuel s hspec.1 hspec.2 hmin
    rw [this] at h
    exact ⟨Nat.find hex, hspec.1, hspec.2, hmin, (Option.some.inj h).symm⟩
  · have hnone := waitAbove_spins w oper baseline fuel s
      (fun j hj => by
        by_contra hcontra
        exact hex ⟨j, hj, by omega⟩)
    rw [hnone] at h
    exact absurd h (by simp)

theorem pollEvents_waits (w : World) (oper : CoyoteOper) (s : State) (k baseline : Nat)
    (h : ∀ j, j < k → w.checkCompleted (s.nCheck + j) ≤ baseline) :
    ∀ e ∈ TwoSided.pollEvents w oper s k, ∃ r, e = Event.checkCompleted oper r ∧ r ≤ baseline := by
  intro e he
  simp only [TwoSided.pollEvents, List.mem_map, List.mem_range] at he
  obtain ⟨j, hj, rfl⟩ := he
  exact ⟨_, rfl, h j hj⟩

theorem compute_mi_registration_step_shape (w : World) (fuel : Nat) (s t : State)
    (h : compute_mi_registration_step w fuel s = some t) :
    MiShape (TwoSided.eventsSince s t) := by
  unfold compute_mi_registration_step at h
  obtain ⟨k, _, hk, hfirst, hueq⟩ := waitAbove_some w _ _ _ _ _ h
  subst hueq
  refine ⟨[], [Event.checkCompleted CoyoteOper.LOCAL_READ (w.checkCompleted (s.nCheck + 1))] ++
      issuedOperations, TwoSided.pollEvents w CoyoteOper.LOCAL_WRITE
        (readCounter w CoyoteOper.LOCAL_READ (readCounter w CoyoteOper.LOCAL_WRITE s)) k, [],
      w.checkCompleted s.nCheck, _, ?_, by simp, by simp [issuedOperations, TwoSided.isIssue],
      pollEvents_waits w _ _ k _ hfirst, hk, by simp⟩
  apply TwoSided.eventsSince_of_trace
  simp [readBaselineAndInvokeReads, startKernel, readCounter, State.emit,
    issuedOperations, TwoSided.pollEvents, List.range_succ]

theorem compute_mi_hal_shape (w : World) (fuel : Nat) (s t : State)
    (h : compute_mi_hal w fuel s = some t) : MiShape (TwoSided.eventsSince s t) := by
  unfold compute_mi_hal at h
  simp only [Option.map_eq_some'] at h
  obtain ⟨u, hu, ht⟩ := h
  obtain ⟨k, _, hk, hfirst, hueq⟩ := waitAbove_some w _ _ _ _ _ hu
  subst ht
  subst hueq
  refine ⟨[Event.now (w.now s.nClock)],
      [Event.checkCompleted CoyoteOper.LOCAL_READ (w.checkCompleted (s.nCheck + 1)),
        Event.invoke CoyoteOper.LOCAL_READ 0, Event.invoke CoyoteOper.LOCAL_READ 1,
        Event.invoke CoyoteOper.LOCAL_READ 2, Event.now (w.now (s.nClock + 1)),
        Event.setCSR BenchmarkRegisters.CTRL_REG 1, Event.now (w.now (s.nClock + 1 + 1)),
        Event.invoke CoyoteOper.LOCAL_WRITE 0], _, [Event.now (w.now (s.nClock + 1 + 1 + 1))],
      w.checkCompleted s.nCheck, _, ?_, by simp [TwoSided.isIssue, TwoSided.isPoll],
      by simp [issuedOperations, TwoSided.isIssue],
      pollEvents_waits w _ _ k _ hfirst, hk, by simp [TwoSided.isIssue]⟩
  apply TwoSided.eventsSince_of_trace
  simp [readBaselineAndInvokeReads, startKernel, readCounter, readClock, State.emit,
    TwoSided.pollEvents, List.range_succ]

theorem compute_mi_mutual_information_shape (w : World) (fuel : Nat) (s t : State)
    (h : compute_mi_mutual_information w fuel s = some t) :
    MiShape (TwoSided.eventsSince s t) := by
  unfold compute_mi_mutual_information at h
  obtain ⟨k, _, hk, hfirst, hueq⟩ := waitAbove_some w _ _ _ _ _ h
  subst hueq
  refine ⟨[],
      [Event.checkCompleted CoyoteOper.LOCAL_READ (w.checkCompleted (s.nCheck + 1)),
        Event.invoke CoyoteOper.LOCAL_READ 0, Event.invoke CoyoteOper.LOCAL_READ 1,
        Event.invoke CoyoteOper.LOCAL_READ 2,
        Event.checkCompleted CoyoteOper.LOCAL_READ (w.checkCompleted (s.nCheck + 1 + 1)),
        Event.setCSR BenchmarkRegisters.CTRL_REG 1,
        Event.invoke CoyoteOper.LOCAL_WRITE 0,
        Event.checkCompleted CoyoteOper.LOCAL_WRITE (w.checkCompleted (s.nCheck + 1 + 1 + 1))],
      _, [], w.checkCompleted s.nCheck, _, ?_, by simp,
      by simp [issuedOperations, TwoSided.isIssue],
      pollEvents_waits w _ _ k _ hfirst, hk, by simp⟩
  apply TwoSided.eventsSince_of_trace
  simp [readBaselineAndInvokeReads, startKernel, readCounter, State.emit,
    TwoSided.pollEvents, List.range_succ]

theorem compute_mi_p2p_registration_step_shape (w : World) (fuel : Nat) (s t : State)
    (h : compute_mi_p2p_registration_step w fuel s = some t) :
    MiShape (TwoSided.eventsSince s t) := by
  unfold compute_mi_p2p_registration_step at h
  simp only [Option.map_eq_some'] at h
  obtain ⟨u, hu, ht⟩ := h
  obtain ⟨k, _, hk, hfirst, hueq⟩ := waitAbove_some w _ _ _ _ _ hu
  subst ht
  subst hueq
  refine ⟨[],
      [Event.checkCompleted CoyoteOper.LOCAL_READ (w.checkCompleted (s.nCheck + 1)),
        Event.invoke CoyoteOper.LOCAL_READ 0, Event.invoke CoyoteOper.LOCAL_READ 1,
        Event.invoke CoyoteOper.LOCAL_READ 2,
        Event.setCSR BenchmarkRegisters.CTRL_REG 1,
        Event.invoke CoyoteOper.LOCAL_WRITE 0, Event.now (w.now s.nClock)],
      _, [Event.now (w.now (s.nClock + 1))], w.checkCompleted s.nCheck, _, ?_, by simp,
      by simp [issuedOperations, TwoSided.isIssue],
      pollEvents_waits w _ _ k _ hfirst, hk, by simp [TwoSided.isIssue]⟩
  apply TwoSided.eventsSince_of_trace
  simp [readBaselineAndInvokeReads, startKernel, readCounter, readClock, State.emit,
    TwoSided.pollEvents, List.range_succ]

theorem compute_mi_reg_prog_registration_step_shape (w : World) (fuel : Nat) (s t : State)
    (h : compute_mi_reg_prog_registration_step w fuel s = some t) :
    MiShape (TwoSided.eventsSince s t) := by
  unfold compute_mi_reg_prog_registration_step at h
  simp only [Option.map_eq_some'] at h
  obtain ⟨u, hu, ht⟩ := h
  obtain ⟨k, _, hk, hfirst, hueq⟩ := waitAbove_some w _ _ _ _ _ hu
  subst ht
  subst hueq
  refine ⟨[],
      [Event.checkCompleted CoyoteOper.LOCAL_READ (w.checkCompleted (s.nCheck + 1)),
        Event.invoke CoyoteOper.LOCAL_READ 0, Event.invoke CoyoteOper.LOCAL_READ 1,
        Event.invoke CoyoteOper.LOCAL_READ 2,
        Event.setCSR BenchmarkRegisters.CTRL_REG 1, Event.hipDeviceSynchronize,
        Event.invoke CoyoteOper.LOCAL_WRITE 0],
      _, [Event.checkCompleted CoyoteOper.LOCAL_WRITE
        (w.checkCompleted (s.nCheck + 1 + 1 + (k + 1)))],
      w.checkCompleted s.nCheck, _, ?_, by simp,
      by simp [issuedOperations, TwoSided.isIssue],
      pollEvents_waits w _ _ k _ hfirst, hk, by simp [TwoSided.isIssue]⟩
  apply TwoSided.eventsSince_of_trace
  simp [readBaselineAndInvokeReads, startKernel, readCounter, State.emit,
    TwoSided.deviceSynchronizeChecked, TwoSided.pollEvents, List.range_succ]

theorem waitAbove_returns (w : World) (oper : CoyoteOper) (baseline : Nat) (s : State)
    (hex : ∃ k, baseline < w.checkCompleted (s.nCheck + k)) :
    ∃ fuel t, waitAbove w oper baseline fuel s = some t := by
  have hspec := Nat.find_spec hex
  have hmin : ∀ j, j < Nat.find hex → w.checkCompleted (s.nCheck + j) ≤ baseline := by
    intro j hj
    by_contra hcontra
    exact Nat.find_min hex hj (by omega)
  exact ⟨Nat.find hex + 1, _,
    waitAbove_exits w oper baseline (Nat.find hex) _ s (Nat.lt_succ_self _) hspec hmin⟩

/-- Every `compute_mi` returns once the counter, read from the fifth reading of the call on,
exceeds the baseline. -/
theorem compute_mi_returns (v : Variant) (w : World) (s : State)
    (hex : ∃ k, w.checkCompleted s.nCheck < w.checkCompleted (s.nCheck + 4 + k)) :
    ∃ fuel t, compute_mi v w fuel s = some t := by
  obtain ⟨k, hk⟩ := hex
  cases v with
  | hal =>
    obtain ⟨fuel, t, ht⟩ := waitAbove_returns w CoyoteOper.LOCAL_WRITE
      (w.checkCompleted s.nCheck)
      ((readClock w (startKernel (readClock w (readBaselineAndInvokeReads w
        (readClock w s))))).emit (Event.invoke CoyoteOper.LOCAL_WRITE 0))
      ⟨k + 2, by
        have e : s.nCheck + (2 + (k + 2)) = s.nCheck + (4 + k) := by omega
        simpa [e, readBaselineAndInvokeReads, startKernel, readCounter, readClock, State.emit,
          Nat.add_assoc] using hk⟩
    exact ⟨fuel, readClock w t, by
      simp only [compute_mi, compute_mi_hal]
      simpa [readClock] using congrArg (Option.map (readClock w)) ht⟩
  | registration_step =>
    obtain ⟨fuel, t, ht⟩ := waitAbove_returns w CoyoteOper.LOCAL_WRITE
      (w.checkCompleted s.nCheck)
      ((startKernel (readBaselineAndInvokeReads w s)).emit
        (Event.invoke CoyoteOper.LOCAL_WRITE 0))
      ⟨k + 2, by
        have e : s.nCheck + (2 + (k + 2)) = s.nCheck + (4 + k) := by omega
        simpa [e, readBaselineAndInvokeReads, startKernel, readCounter, State.emit,
          Nat.add_assoc] using hk⟩
    exact ⟨fuel, t, ht⟩
  | mutual_information =>
    obtain ⟨fuel, t, ht⟩ := waitAbove_returns w CoyoteOper.LOCAL_WRITE
      (w.checkCompleted s.nCheck)
      (readCounter w CoyoteOper.LOCAL_WRITE ((startKernel (readCounter w CoyoteOper.LOCAL_READ
        (readBaselineAndInvokeReads w s))).emit (Event.invoke CoyoteOper.LOCAL_WRITE 0)))
      ⟨k, by
        simpa [readBaselineAndInvokeReads, startKernel, readCounter, State.emit,
          Nat.add_assoc] using hk⟩
    exact ⟨fuel, t, ht⟩
  | p2p_registration_step =>
    obtain ⟨fuel, t, ht⟩ := waitAbove_returns w CoyoteOper.LOCAL_WRITE
      (w.checkCompleted s.nCheck)
      (readClock w ((startKernel (readBaselineAndInvokeReads w s)).emit
        (Event.invoke CoyoteOper.LOCAL_WRITE 0)))
      ⟨k + 2, by
        have e : s.nCheck + (2 + (k + 2)) = s.nCheck + (4 + k) := by omega
        simpa [e, readBaselineAndInvokeReads, startKernel, readCounter, readClock, State.emit,
          Nat.add_assoc] using hk⟩
    exact ⟨fuel, readClock w t, by
      simp only [compute_mi, compute_mi_p2p_registration_step]
      simpa [readClock] using congrArg (Option.map (readClock w)) ht⟩
  | reg_prog_registration_step =>
    obtain ⟨fuel, t, ht⟩ := waitAbove_returns w CoyoteOper.LOCAL_WRITE
      (w.checkCompleted s.nCheck)
      ((TwoSided.deviceSynchronizeChecked (startKernel
        (readBaselineAndInvokeReads w s))).emit (Event.invoke CoyoteOper.LOCAL_WRITE 0))
      ⟨k + 2, by
        have e : s.nCheck + (2 + (k + 2)) = s.nCheck + (4 + k) := by omega
        simpa [e, readBaselineAndInvokeReads, startKernel, readCounter, State.emit,
          TwoSided.deviceSynchronizeChecked, Nat.add_assoc] using hk⟩
    exact ⟨fuel, readCounter w CoyoteOper.LOCAL_WRITE t, by
      simp only [compute_mi, compute_mi_reg_prog_registration_step]
      simpa [readCounter] using congrArg (Option.map (readCounter w CoyoteOper.LOCAL_WRITE)) ht⟩

end ImageRegistration

namespace Sweep

theorem mem_doublings (min_size max_size n : Nat) (h1 : 1 ≤ min_size) :
    n ∈ doublings min_size max_size ↔
      ∃ k, n = min_size * 2 ^ k ∧ min_size * 2 ^ k ≤ max_size := by
  unfold doublings
  by_cases hle : min_size ≤ max_size
  · have hpos : max_size / min_size ≠ 0 := by
      have := Nat.div_pos hle (by omega)
      omega
    rw [if_pos hle]
    simp only [List.mem_map, List.mem_range]
    constructor
    · rintro ⟨k, hk, rfl⟩
      refine ⟨k, rfl, ?_⟩
      have : 2 ^ k ≤ max_size / min_size := (Nat.pow_le_iff_le_log (by norm_num) hpos).2 (by omega)
      have := (Nat.le_div_iff_mul_le (by omega)).1 this
      rw [Nat.mul_comm]; exact this
    · rintro ⟨k, rfl, hk⟩
      refine ⟨k, ?_, rfl⟩
      have : 2 ^ k ≤ max_size / min_size :=
        (Nat.le_div_iff_mul_le (by omega)).2 (by rw [Nat.mul_comm]; exact hk)
      have := (Nat.pow_le_iff_le_log (by norm_num) hpos).1 this
      omega
  · rw [if_neg hle]
    simp only [List.not_mem_nil, false_iff]
    rintro ⟨k, _, hk⟩
    have : min_size * 1 ≤ min_size * 2 ^ k := Nat.mul_le_mul_left _ (Nat.one_le_two_pow)
    omega

theorem getElem_doublings (min_size max_size i : Nat)
    (hi : i < (doublings min_size max_size).length) :
    (doublings min_size max_size)[i] = min_size * 2 ^ i := by
  unfold doublings at hi ⊢
  by_cases hle : min_size ≤ max_size
  · simp [hle]
  · simp [hle] at hi

/-- C21. For `min_size >= 1` and `max_size < 2^31` the sweep loop of `main` ends, and the
sizes it visits are exactly the `min_size * 2^k` that do not exceed `max_size`: the `i`-th
visited size is `min_size * 2^i`, a size is visited if and only if it is such a product, the
visited sizes strictly increase (so none is visited twice), and none is visited when
`min_size > max_size`. -/
theorem sweep_visits_exactly_doublings (min_size max_size : Nat) (h1 : 1 ≤ min_size)
    (h2 : max_size < 2 ^ 31) :
    ∃ sizes, sweep max_size 32 min_size = some sizes ∧
      (∀ n, n ∈ sizes ↔ ∃ k, n = min_size * 2 ^ k ∧ min_size * 2 ^ k ≤ max_size) ∧
      (∀ i (hi : i < sizes.length), sizes[i] = min_size * 2 ^ i) ∧
      sizes.Pairwise (· < ·) ∧
      (max_size < min_size → sizes = []) := by
  refine ⟨doublings min_size max_size, sweep_of_small min_size max_size h1 h2,
    fun n => mem_doublings min_size max_size n h1,
    fun i hi => getElem_doublings min_size max_size i hi,
    doublings_strictly_increasing min_size max_size h1, fun h => ?_⟩
  unfold doublings
  rw [if_neg (by omega)]

/-- C21, witness. The sweep from 256 to 1024 visits 256, 512 and 1024. -/
theorem sweep_visits_exactly_doublings_witness :
    sweep 1024 32 256 = some [256, 512, 1024] ∧
    ∃ sizes, sweep 1024 32 256 = some sizes ∧
      (∀ n, n ∈ sizes ↔ ∃ k, n = 256 * 2 ^ k ∧ 256 * 2 ^ k ≤ 1024) ∧
      (∀ i (hi : i < sizes.length), sizes[i] = 256 * 2 ^ i) ∧
      sizes.Pairwise (· < ·) ∧
      (1024 < 256 → sizes = []) :=
  ⟨by decide, sweep_visits_exactly_doublings 256 1024 (by decide) (by decide)⟩

end Sweep

namespace Scatter

theorem selectGpu_ok (d : Device) (gpu : Nat) (s t : State)
    (h : selectGpu d gpu s = Except.ok t) :
    t.trace = s.trace ++ [Call.hipSetDevice gpu hipError_t.hipSuccess] ∧ t.device = gpu ∧
      t.nCheck = s.nCheck := by
  unfold selectGpu at h
  by_cases hs : d.hipSetDevice s.nSet = hipError_t.hipSuccess
  · simp only [hs, if_true] at h
    cases h
    simp
  · simp [hs] at h

theorem scatterStep_ok (d : Device) (s t : State) (i : Nat)
    (h : scatterStep d s i = Except.ok t) :
    t.trace = s.trace ++ scatterCalls i ∧ t.nCheck = s.nCheck := by
  unfold scatterStep at h
  cases hsel : selectGpu d (i % NUM_GPUS) s with
  | error e => simp [hsel] at h
  | ok u =>
    obtain ⟨htr, hdev, hck⟩ := selectGpu_ok d _ s u hsel
    simp only [hsel] at h
    by_cases hov : i * 8192 < 2 ^ 31
    · rw [if_pos hov] at h
      by_cases hs : d.hipMemcpyAsync u.nCopy = hipError_t.hipSuccess
      · simp only [hs, if_true] at h
        cases h
        simp [htr, hdev, hck, scatterCalls, Nat.mul_comm]
      · simp [hs] at h
    · rw [if_neg hov] at h
      cases h

theorem syncStep_ok (d : Device) (s t : State) (i : Nat)
    (h : syncStep d s i = Except.ok t) :
    t.trace = s.trace ++ syncCalls i ∧ t.nCheck = s.nCheck := by
  unfold syncStep at h
  cases hsel : selectGpu d i s with
  | error e => simp [hsel] at h
  | ok u =>
    obtain ⟨htr, hdev, hck⟩ := selectGpu_ok d _ s u hsel
    simp only [hsel] at h
    by_cases hs : d.hipDeviceSynchronize u.nSync = hipError_t.hipSuccess
    · simp only [hs, if_true] at h
      cases h
      simp [htr, hdev, hck, syncCalls]
    · simp [hs] at h

theorem foldlM_trace (step : State → Nat → Except Fault State) (calls : Nat → List Call)
    (hstep : ∀ s i t, step s i = Except.ok t → t.trace = s.trace ++ calls i) :
    ∀ (l : List Nat) (s t : State), l.foldlM step s = Except.ok t →
      t.trace = s.trace ++ l.flatMap calls := by
  intro l
  induction l with
  | nil =>
    intro s t h
    simp only [List.foldlM_nil] at h
    cases h
    simp
  | cons a l ih =>
    intro s t h
    rw [List.foldlM_cons] at h
    cases hst : step s a with
    | error e =>
      rw [hst] at h
      cases h
    | ok u =>
      rw [hst] at h
      have h1 := hstep s a u hst
      have h2 := ih u t h
      rw [h2, h1]
      simp

theorem invokeAll_ok (transfers : Nat) (s t : State)
    (h : invokeAll transfers s = Except.ok t) :
    t.trace = s.trace ++ (List.range transfers).map Call.invoke ∧ t.nCheck = s.nCheck := by
  unfold invokeAll at h
  by_cases hlt : transfers < 2 ^ 31
  · rw [if_pos hlt] at h
    cases h
    clear hlt
    induction transfers with
    | zero => simp
    | succ n ih => simp [List.range_succ, List.foldl_append, ih.1, ih.2]
  · rw [if_neg hlt] at h
    cases h

theorem waitAll_ok (d : Device) (transfers : Nat) :
    ∀ (fuel : Nat) (s t : State), waitAll d transfers fuel s = Except.ok t →
      ∃ k, k < fuel ∧ t.trace = s.trace ++ readings d s k ++ [Call.checkCompleted transfers] ∧
        d.checkCompleted (s.nCheck + k) = transfers ∧
        ∀ j, j < k → d.checkCompleted (s.nCheck + j) ≠ transfers := by
  intro fuel
  induction fuel with
  | zero =>
    intro s t h
    cases h
  | succ fuel ih =>
    intro s t h
    rw [waitAll] at h
    by_cases hr : d.checkCompleted s.nCheck = transfers
    · simp only [hr, ne_eq, not_true_eq_false, if_false] at h
      cases h
      exact ⟨0, by omega, by simp [readings], by simpa using hr, by intro j hj; omega⟩
    · simp only [ne_eq, hr, not_false_eq_true, if_true] at h
      obtain ⟨k, hk, htr, hend, hbefore⟩ := ih _ t h
      refine ⟨k + 1, by omega, ?_, ?_, ?_⟩
      · rw [htr]
        simp only [readings, List.range_succ_eq_map k, List.map_cons, List.map_map]
        simp [Function.comp_def, Nat.add_assoc, Nat.add_comm 1]
      · simpa [Nat.add_assoc, Nat.add_comm 1] using hend
      · intro j hj
        cases j with
        | zero => simpa using hr
        | succ j =>
          have := hbefore j (by omega)
          simpa [Nat.add_assoc, Nat.add_comm 1] using this

theorem copiedFrom_append (a b : List Call) (x : Nat) :
    copiedFrom (a ++ b) x = (copiedFrom a x || copiedFrom b x) := by
  simp [copiedFrom, List.any_append]

theorem copiedFrom_scatter (n x : Nat) :
    copiedFrom ((List.range n).flatMap scatterCalls) x = true ↔ x < 8192 * n := by
  induction n with
  | zero => simp [copiedFrom]
  | succ n ih =>
    rw [List.range_succ, List.flatMap_append, copiedFrom_append, Bool.or_eq_true, ih]
    simp only [List.flatMap_cons, List.flatMap_nil, List.append_nil, copiedFrom, scatterCalls,
      List.any_cons, List.any_nil, Bool.or_false, Bool.false_or, decide_eq_true_eq]
    omega

theorem copiedFrom_invokes (n x : Nat) :
    copiedFrom ((List.range n).map Call.invoke) x = false := by
  simp [copiedFrom]

theorem copiedFrom_readings (d : Device) (s : State) (k x : Nat) :
    copiedFrom (readings d s k) x = false := by
  simp [copiedFrom, readings]

theorem copiedFrom_sync (n x : Nat) :
    copiedFrom ((List.range n).flatMap syncCalls) x = false := by
  simp [copiedFrom, syncCalls]

theorem scatterCalls_length (n : Nat) :
    ((List.range n).flatMap scatterCalls).length = 2 * n := by
  induction n with
  | zero => simp
  | succ n ih =>
    rw [List.range_succ, List.flatMap_append, List.length_append, ih]
    simp [scatterCalls]
    omega

theorem foldlM_returns (step : State → Nat → Except Fault State) :
    ∀ (l : List Nat), (∀ s i, i ∈ l → ∃ t, step s i = Except.ok t) →
      ∀ s, ∃ t, l.foldlM step s = Except.ok t := by
  intro l
  induction l with
  | nil =>
    intro _ s
    exact ⟨s, rfl⟩
  | cons a l ih =>
    intro hstep s
    obtain ⟨u, hu⟩ := hstep s a (List.mem_cons_self _ _)
    obtain ⟨t, ht⟩ := ih (fun s i hi => hstep s i (List.mem_cons_of_mem _ hi)) u
    refine ⟨t, ?_⟩
    rw [List.foldlM_cons, hu]
    exact ht

theorem selectGpu_returns (d : Device) (hset : ∀ n, d.hipSetDevice n = hipError_t.hipSuccess)
    (gpu : Nat) (s : State) : ∃ t, selectGpu d gpu s = Except.ok t := by
  simp [selectGpu, hset]

theorem scatterStep_returns (d : Device)
    (hset : ∀ n, d.hipSetDevice n = hipError_t.hipSuccess)
    (hcopy : ∀ n, d.hipMemcpyAsync n = hipError_t.hipSuccess)
    (s : State) (i : Nat) (hi : i * 8192 < 2 ^ 31) : ∃ t, scatterStep d s i = Except.ok t := by
  obtain ⟨u, hu⟩ := selectGpu_returns d hset (i % NUM_GPUS) s
  have hi' : i * 8192 < 2147483648 := hi
  simp [scatterStep, hu, hi', hcopy]

theorem syncStep_returns (d : Device)
    (hset : ∀ n, d.hipSetDevice n = hipError_t.hipSuccess)
    (hsync : ∀ n, d.hipDeviceSynchronize n = hipError_t.hipSuccess)
    (s : State) (i : Nat) : ∃ t, syncStep d s i = Except.ok t := by
  obtain ⟨u, hu⟩ := selectGpu_returns d hset i s
  simp [syncStep, hu, hsync]

theorem waitAll_returns (d : Device) (transfers : Nat) :
    ∀ (k : Nat) (s : State), d.checkCompleted (s.nCheck + k) = transfers →
      ∃ t, waitAll d transfers (k + 1) s = Except.ok t := by
  intro k
  induction k with
  | zero =>
    intro s h
    have h0 : d.checkCompleted s.nCheck = transfers := by simpa using h
    simp [waitAll, h0]
  | succ k ih =>
    intro s h
    rw [waitAll]
    by_cases hr : d.checkCompleted s.nCheck = transfers
    · simp [hr]
    · simp only [ne_eq, hr, not_false_eq_true, if_true]
      exact ih { s with
          nCheck := s.nCheck + 1,
          trace := s.trace ++ [Call.checkCompleted (d.checkCompleted s.nCheck)] }
        (by simpa [Nat.add_assoc, Nat.add_comm 1] using h)

/-- With a device that answers every call with success and whose counter shows `transfers`
at some reading, `bench_fn` returns for every `transfers < 2^31` and `len < 2^31 + 8192`. -/
theorem bench_fn_returns (d : Device) (transfers len k : Nat) (s : State)
    (htransfers : transfers < 2 ^ 31) (hlen : len < 2 ^ 31 + 8192)
    (hset : ∀ n, d.hipSetDevice n = hipError_t.hipSuccess)
    (hcopy : ∀ n, d.hipMemcpyAsync n = hipError_t.hipSuccess)
    (hsync : ∀ n, d.hipDeviceSynchronize n = hipError_t.hipSuccess)
    (hk : d.checkCompleted (s.nCheck + k) = transfers) :
    ∃ t, bench_fn d transfers len (k + 1) s = Except.ok t := by
  unfold bench_fn
  cases hinv : invokeAll transfers s with
  | error e =>
    rw [invokeAll, if_pos htransfers] at hinv
    cases hinv
  | ok s1 =>
    have hck := (invokeAll_ok transfers s s1 hinv).2
    obtain ⟨s2, hs2⟩ := waitAll_returns d transfers k s1 (by rw [hck]; exact hk)
    obtain ⟨s3, hs3⟩ := foldlM_returns (scatterStep d) (List.range (len / 8192))
      (fun u i hi => scatterStep_returns d hset hcopy u i (by
        have hi := List.mem_range.1 hi
        have := Nat.div_mul_le_self len 8192
        omega)) s2
    obtain ⟨s4, hs4⟩ := foldlM_returns (syncStep d) (List.range NUM_GPUS)
      (fun u i _ => syncStep_returns d hset hsync u i) s3
    exact ⟨s4, by simp only [hs2, scatter, hs3, syncAll, hs4]⟩

/-- Whenever `bench_fn` of the scatter client returns, the calls it made are, in order:
`transfers` invokes; readings of the completion counter that differ from `transfers`, ended
by one reading equal to `transfers`; for every `i < len / 8192` the selection of GPU `i % 4`
followed by the copy of the 8192 bytes of `mem` from offset `8192 * i` to the start of
`dest_buffers[i % 4]`; and the selection and synchronisation of GPUs 0 to 3. -/
theorem bench_fn_shape (d : Device) (transfers len fuel : Nat)
    (s t : State) (h : bench_fn d transfers len fuel s = Except.ok t) :
    ∃ k, t.trace = s.trace ++ ((List.range transfers).map Call.invoke ++ readings d s k ++
          [Call.checkCompleted transfers] ++ (List.range (len / 8192)).flatMap scatterCalls ++
          (List.range NUM_GPUS).flatMap syncCalls) ∧
      (∀ j, j < k → d.checkCompleted (s.nCheck + j) ≠ transfers) ∧
      ((List.range (len / 8192)).flatMap scatterCalls).length = 2 * (len / 8192) ∧
      ∀ b, copiedFrom (t.trace.drop s.trace.length) b = true ↔ b < 8192 * (len / 8192) := by
  unfold bench_fn at h
  cases hinv : invokeAll transfers s with
  | error e => simp [hinv] at h
  | ok s1 =>
    simp only [hinv] at h
    cases hwait : waitAll d transfers fuel s1 with
    | error e => simp [hwait] at h
    | ok s2 =>
      simp only [hwait] at h
      cases hsc : scatter d len s2 with
      | error e => simp [hsc] at h
      | ok s3 =>
        simp only [hsc] at h
        obtain ⟨h1, hck⟩ := invokeAll_ok transfers s s1 hinv
        obtain ⟨k, _, h2, _, hbefore⟩ := waitAll_ok d transfers fuel s1 s2 hwait
        have h3 := foldlM_trace (scatterStep d) scatterCalls
          (fun u i v huv => (scatterStep_ok d u v i huv).1) _ s2 s3 hsc
        have h4 := foldlM_trace (syncStep d) syncCalls
          (fun u i v huv => (syncStep_ok d u v i huv).1) _ s3 t h
        have hr : readings d s1 k = readings d s k := by simp [readings, hck]
        have htr : t.trace = s.trace ++ ((List.range transfers).map Call.invoke ++
            readings d s k ++ [Call.checkCompleted transfers] ++
            (List.range (len / 8192)).flatMap scatterCalls ++
            (List.range NUM_GPUS).flatMap syncCalls) := by
          rw [h4, h3, h2, h1, hr]
          simp only [List.append_assoc]
        refine ⟨k, htr, fun j hj => by rw [← hck]; exact hbefore j hj, ?_, fun b => ?_⟩
        · exact scatterCalls_length (len / 8192)
        · have hone : copiedFrom [Call.checkCompleted transfers] b = false := by
            simp [copiedFrom]
          rw [htr, List.drop_left, copiedFrom_append, copiedFrom_append, copiedFrom_append,
            copiedFrom_append, copiedFrom_invokes, copiedFrom_readings, copiedFrom_sync, hone]
          simp only [Bool.false_or, Bool.or_false]
          exact copiedFrom_scatter (len / 8192) b

end Scatter

namespace P2PImageRegistration

/-- C23. For every invocation with `5 <= argc <= 10` the parsing reads `argv[argc]`, an
element at an index that is not below `argc`; the depth is always taken from `argv[5]`, never
from the default 246, so with `argc = 5` it has no defined value; and the first option that is
not supplied, at index `argc`, has no defined value instead of its default. With
`argc >= 11` every index read is below `argc`. -/
theorem parseArgs_reads_past_the_arguments (atoi : String → Int) (atof : String → ℚ)
    (argv : List String) (h5 : 5 ≤ argv.length) :
    ∃ o, parseArgs atoi atof argv = some o ∧
      o.depth = (arg argv 5).map atoi ∧ 5 ∈ o.reads ∧
      (argv.length = 5 → o.depth = none) ∧
      (argv.length ≤ 10 → argv.length ∈ o.reads) ∧
      (11 ≤ argv.length → ∀ i ∈ o.reads, i < argv.length) := by
  have hnot : ¬ argv.length < 5 := by omega
  unfold parseArgs
  simp only [hnot, if_false]
  refine ⟨_, rfl, ?_, ?_, ?_, ?_, ?_⟩
  · simp [h5]
  · simp [h5]
  · intro h
    simp [h5, arg, h]
  · intro h10
    have : argv.length = 5 ∨ argv.length = 6 ∨ argv.length = 7 ∨ argv.length = 8 ∨
        argv.length = 9 ∨ argv.length = 10 := by omega
    rcases this with h | h | h | h | h | h <;> simp [h]
  · intro h11 i hi
    have e5 : argv.length ≥ 5 := by omega
    have e6 : argv.length ≥ 6 := by omega
    have e7 : argv.length ≥ 7 := by omega
    have e8 : argv.length ≥ 8 := by omega
    have e9 : argv.length ≥ 9 := by omega
    have e10 : argv.length ≥ 10 := by omega
    simp only [e5, e6, e7, e8, e9, e10, if_true] at hi
    simp at hi
    omega

/-- C23, witness. With the four required arguments and a depth (`argc = 6`) the parsing reads
`argv[6]`. -/
theorem parseArgs_reads_past_the_arguments_witness :
    ∃ o, parseArgs decimal (fun _ => 1) ["prog", "0", "pet", "ct", "out", "100"] = some o ∧
      o.depth = (arg ["prog", "0", "pet", "ct", "out", "100"] 5).map decimal ∧ 5 ∈ o.reads ∧
      (["prog", "0", "pet", "ct", "out", "100"].length = 5 → o.depth = none) ∧
      (["prog", "0", "pet", "ct", "out", "100"].length ≤ 10 →
        ["prog", "0", "pet", "ct", "out", "100"].length ∈ o.reads) ∧
      (11 ≤ ["prog", "0", "pet", "ct", "out", "100"].length →
        ∀ i ∈ o.reads, i < ["prog", "0", "pet", "ct", "out", "100"].length) :=
  parseArgs_reads_past_the_arguments decimal (fun _ => 1)
    ["prog", "0", "pet", "ct", "out", "100"] (by decide)

/-- C23, counterexample. With exactly the four required arguments (`argc = 5`) the depth is
not 246: it is read from `argv[5]`, the null pointer that ends the argument vector, and index 5
is among the indices read; the sibling parsing, which tests `argc >= 11` before reading
`argv[10]`, gives its default 246 when the depth is not supplied. -/
theorem parseArgs_four_arguments_depth_not_default :
    (parseArgs decimal (fun _ => 1) ["prog", "0", "pet", "ct", "out"]).map
        (fun o => (o.depth, o.reads)) = some (none, [1, 2, 3, 4, 5]) ∧
      arg ["prog", "0", "pet", "ct", "out"] 5 = none ∧
      siblingDepth decimal
        ["prog", "0", "pet", "ct", "out", "1", "2", "3", "4", "5"] = some 246 := by
  refine ⟨?_, rfl, ?_⟩
  · simp [parseArgs, arg]
  · simp [siblingDepth]

end P2PImageRegistration

theorem PerfMetrics.after_fields (calls : List (ℚ × ℚ × ℚ)) :
    (PerfMetrics.after calls).latencies = calls.map (fun c => c.1) ∧
    (PerfMetrics.after calls).gpu_powers = calls.map (fun c => c.2.1) ∧
    (PerfMetrics.after calls).gpu_utils = calls.map (fun c => c.2.2) := by
  induction calls using List.reverseRecOn with
  | nil => simp [PerfMetrics.after, PerfMetrics.empty]
  | append_singleton l c ih =>
    obtain ⟨h1, h2, h3⟩ := ih
    simp only [PerfMetrics.after, PerfMetrics.add_new] at h1 h2 h3 ⊢
    simp only [List.foldl_append, List.foldl_cons, List.foldl_nil,
      List.map_append, List.map_cons, List.map_nil]
    exact ⟨by rw [h1], by rw [h2], by rw [h3]⟩

theorem PerfMetrics.vector_average_eq (vec : List ℚ) :
    PerfMetrics.vector_average vec = meanOrZero vec := by
  simp only [PerfMetrics.vector_average, meanOrZero, vector_sum_eq_sum, List.isEmpty_iff]

/-- C24. After any sequence of `add_new` calls on a new `PerfMetrics`, `get_all` of
"latency", "gpu_power" and "gpu_util" returns the first, second and third arguments of the
calls in call order, `get_average` of each kind returns their arithmetic mean (over the
rationals), and with no call every average is 0. -/
theorem get_all_in_call_order_get_average_mean (calls : List (ℚ × ℚ × ℚ)) :
    (PerfMetrics.after calls).get_all "latency" = Except.ok (calls.map fun c => c.1) ∧
    (PerfMetrics.after calls).get_all "gpu_power" = Except.ok (calls.map fun c => c.2.1) ∧
    (PerfMetrics.after calls).get_all "gpu_util" = Except.ok (calls.map fun c => c.2.2) ∧
    (PerfMetrics.after calls).get_average "latency" =
      Except.ok (meanOrZero (calls.map fun c => c.1)) ∧
    (PerfMetrics.after calls).get_average "gpu_power" =
      Except.ok (meanOrZero (calls.map fun c => c.2.1)) ∧
    (PerfMetrics.after calls).get_average "gpu_util" =
      Except.ok (meanOrZero (calls.map fun c => c.2.2)) ∧
    (PerfMetrics.after []).get_average "latency" = Except.ok 0 ∧
    (PerfMetrics.after []).get_average "gpu_power" = Except.ok 0 ∧
    (PerfMetrics.after []).get_average "gpu_util" = Except.ok 0 := by
  obtain ⟨h1, h2, h3⟩ := PerfMetrics.after_fields calls
  obtain ⟨e1, e2, e3⟩ := PerfMetrics.after_fields []
  have k1 : ("gpu_power" : String) ≠ "latency" := by decide
  have k2 : ("gpu_util" : String) ≠ "latency" := by decide
  have k3 : ("gpu_util" : String) ≠ "gpu_power" := by decide
  simp only [PerfMetrics.get_all, PerfMetrics.get_average, PerfMetrics.vector_average_eq,
    h1, h2, h3, e1, e2, e3, k1, k2, k3, if_true, if_false, meanOrZero, List.map_nil]
  simp

namespace TwoSided

theorem transferReadings_append (a b : List Event) :
    transferReadings (a ++ b) = transferReadings a ++ transferReadings b := by
  simp [transferReadings, List.filterMap_append]

theorem transferReadings_copies (seg : List Event)
    (h : ∀ e ∈ seg, ∃ i status, e = Event.hipMemcpyAsyncH2D i status) :
    transferReadings seg = [] := by
  induction seg with
  | nil => rfl
  | cons e seg ih =>
    obtain ⟨i, status, rfl⟩ := h _ (List.mem_cons_self _ _)
    have := ih (fun e he => h e (List.mem_cons_of_mem _ he))
    simpa [transferReadings] using this

theorem h2dBody_indexInv (w : World) (t0 : List Event) (s : State) (h : IndexInv t0 s) :
    IndexInv t0 (h2dBody w s) := by
  obtain ⟨seg, htr, hiff, hbelow⟩ := h
  obtain ⟨seg', htr', hidx, hcopies, _, hcc⟩ := h2dBody_spec w s
  refine ⟨seg ++ Event.checkCompleted CoyoteOper.LOCAL_TRANSFER (w.checkCompleted s.nCheck) ::
    seg', by rw [htr', htr]; simp, ?_, ?_⟩
  · intro i
    have hr : transferReadings seg' = [] :=
      transferReadings_copies seg' (fun e he => by
        obtain ⟨j, status, rfl, _⟩ := hcopies e he
        exact ⟨j, status, rfl⟩)
    have e1 : transferReadings (seg ++
        Event.checkCompleted CoyoteOper.LOCAL_TRANSFER (w.checkCompleted s.nCheck) :: seg') =
        transferReadings seg ++ [w.checkCompleted s.nCheck] := by
      rw [transferReadings_append]
      have : Event.checkCompleted CoyoteOper.LOCAL_TRANSFER (w.checkCompleted s.nCheck) :: seg'
          = [Event.checkCompleted CoyoteOper.LOCAL_TRANSFER (w.checkCompleted s.nCheck)] ++
            seg' := rfl
      rw [this, transferReadings_append, hr]
      simp [transferReadings]
    have e2 : h2dIndices (seg ++
        Event.checkCompleted CoyoteOper.LOCAL_TRANSFER (w.checkCompleted s.nCheck) :: seg') =
        h2dIndices seg ++
          List.range' s.completed_coyote (w.checkCompleted s.nCheck - s.completed_coyote) := by
      rw [h2dIndices_append]
      have : Event.checkCompleted CoyoteOper.LOCAL_TRANSFER (w.checkCompleted s.nCheck) :: seg'
          = [Event.checkCompleted CoyoteOper.LOCAL_TRANSFER (w.checkCompleted s.nCheck)] ++
            seg' := rfl
      rw [this, h2dIndices_append, hidx]
      simp [h2dIndices]
    rw [e1, e2]
    simp only [List.mem_append, List.mem_range', List.mem_singleton]
    constructor
    · rintro (hi | ⟨j, hj, rfl⟩)
      · obtain ⟨r, hr, hlt⟩ := (hiff i).1 hi
        exact ⟨r, Or.inl hr, hlt⟩
      · exact ⟨_, Or.inr rfl, by omega⟩
    · rintro ⟨r, hr | rfl, hlt⟩
      · exact Or.inl ((hiff i).2 ⟨r, hr, hlt⟩)
      · by_cases hold : i < s.completed_coyote
        · exact Or.inl (hbelow i hold)
        · exact Or.inr ⟨i - s.completed_coyote, by omega, by omega⟩
  · intro i hi
    rw [hcc] at hi
    rw [h2dIndices_append]
    have : Event.checkCompleted CoyoteOper.LOCAL_TRANSFER (w.checkCompleted s.nCheck) :: seg'
        = [Event.checkCompleted CoyoteOper.LOCAL_TRANSFER (w.checkCompleted s.nCheck)] ++
          seg' := rfl
    rw [this, h2dIndices_append, hidx]
    simp only [List.mem_append, List.mem_range']
    by_cases hold : i < s.completed_coyote
    · exact Or.inl (hbelow i hold)
    · exact Or.inr (Or.inr ⟨i - s.completed_coyote, by omega, by omega⟩)

theorem h2dIter_indexInv (w : World) (t0 : List Event) (n : Nat) :
    ∀ s, IndexInv t0 s → IndexInv t0 ((h2dBody w)^[n] s) := by
  induction n with
  | zero => intro s h; exact h
  | succ n ih =>
    intro s h
    rw [Function.iterate_succ_apply]
    exact ih _ (h2dBody_indexInv w t0 s h)

theorem stagedSecondPhase_indexInv (w : World) (transfers fuel : Nat) (s : State) :
    IndexInv s.trace (stagedSecondPhase w transfers fuel s) := by
  unfold stagedSecondPhase
  obtain ⟨n, _, hn⟩ := h2dLoop_eq_iterate w transfers fuel { s with completed_coyote := 0 }
  rw [hn]
  apply h2dIter_indexInv
  exact ⟨[], by simp, by simp [h2dIndices, transferReadings], by
    intro i hi
    simp at hi⟩

/-- C25. In the loop `while (completed_coyote < transfers)` of `bench_fn`, cut anywhere, a
stream index is used for a host-to-device copy if and only if it is below one of the
`checkCompleted(LOCAL_TRANSFER)` readings taken; hence every index used is below `transfers`,
the number of streams in `hip_streams_h2d`, if and only if every reading taken is at most
`transfers`. Nothing else bounds the index: with 2 transfers and a counter that reads 5 the
copies use the indices 0 to 4. -/
theorem h2d_stream_index_in_bounds_iff (w : World) (transfers fuel : Nat) (s : State) :
    (∀ i, i ∈ h2dIndices (eventsSince s (stagedSecondPhase w transfers fuel s)) ↔
      ∃ r ∈ transferReadings (eventsSince s (stagedSecondPhase w transfers fuel s)), i < r) ∧
    ((∀ i ∈ h2dIndices (eventsSince s (stagedSecondPhase w transfers fuel s)),
        i < transfers) ↔
      ∀ r ∈ transferReadings (eventsSince s (stagedSecondPhase w transfers fuel s)),
        r ≤ transfers) ∧
    h2dIndices (eventsSince State.init (stagedSecondPhase (stuckCounter 5) 2 1 State.init)) =
      [0, 1, 2, 3, 4] := by
  obtain ⟨seg, htr, hiff, _⟩ := stagedSecondPhase_indexInv w transfers fuel s
  rw [eventsSince_of_trace htr]
  refine ⟨hiff, ⟨fun h r hr => ?_, fun h i hi => ?_⟩, by decide⟩
  · by_contra hgt
    have := h transfers ((hiff transfers).2 ⟨r, hr, by omega⟩)
    omega
  · obtain ⟨r, hr, hlt⟩ := (hiff i).1 hi
    have := h r hr
    omega

end TwoSided

namespace OneSided

theorem ceil_div_64 (size : Nat) : ⌈(size : ℚ) / 64⌉₊ = (size + 63) / 64 := by
  apply le_antisymm
  · rw [Nat.ceil_le, div_le_iff₀ (by norm_num)]
    have h : size ≤ (size + 63) / 64 * 64 := by omega
    exact_mod_cast h
  · by_contra hlt
    have hle : (size : ℚ) / 64 ≤ (⌈(size : ℚ) / 64⌉₊ : ℚ) := Nat.le_ceil _
    rw [div_le_iff₀ (by norm_num)] at hle
    have hle' : size ≤ ⌈(size : ℚ) / 64⌉₊ * 64 := by exact_mod_cast hle
    omega

theorem beatsWritten_pollEvents (w : World) (oper : CoyoteOper) (s : State) (n : Nat) :
    beatsWritten (TwoSided.pollEvents w oper s n) = [] := by
  simp [beatsWritten, TwoSided.pollEvents, List.filterMap_map, Function.comp_def]

theorem beatsWritten_runEvents (w : World) (size mem ctid transfers : Nat)
    (oper : BenchmarkOperation) (s : State) (n : Nat) :
    beatsWritten (runEvents w size mem ctid transfers oper s n) = [n_beats transfers size] := by
  have h := beatsWritten_pollEvents w (polledOper oper) s n
  unfold beatsWritten at h ⊢
  simp only [runEvents, List.filterMap_append, h]
  simp [setupEvents]

theorem n_beats_no_wrap (transfers size : Nat) (hsize : size ≤ 2 ^ 32 - 64)
    (hprod : transfers * ⌈(size : ℚ) / 64⌉₊ < 2 ^ 32) :
    n_beats transfers size = transfers * ⌈(size : ℚ) / 64⌉₊ := by
  rw [ceil_div_64] at hprod ⊢
  unfold n_beats
  have h1 : (size + 64 - 1) % 2 ^ 32 = size + 63 := by
    rw [Nat.mod_eq_of_lt] <;> omega
  rw [h1, Nat.mod_eq_of_lt hprod]

/-- C26. In a `benchmark_run` that returns, `N_BEATS_REG` is written once, with
`(transfers * (((size + 63) mod 2^32) div 64)) mod 2^32`; for `size <= 2^32 - 64` and
`transfers * ceil(size / 64) < 2^32` that value is `transfers * ceil(size / 64)`. Outside
these bounds the 32-bit arithmetic shows: for `size = 2^32 - 1` and one transfer the value is
0, and for `size = 2^22` and `2^16` transfers it is 0. -/
theorem n_beats_register_value (w : World) (size mem ctid transfers : Nat)
    (oper : BenchmarkOperation) (fuel : Nat) (s : State) (r : State × ℚ)
    (h : benchmark_run w size mem ctid transfers oper fuel s = some r) :
    beatsWritten (TwoSided.eventsSince s r.1) =
      [(transfers * (((size + 63) % 2 ^ 32) / 64)) % 2 ^ 32] ∧
    (size ≤ 2 ^ 32 - 64 → transfers * ⌈(size : ℚ) / 64⌉₊ < 2 ^ 32 →
      beatsWritten (TwoSided.eventsSince s r.1) = [transfers * ⌈(size : ℚ) / 64⌉₊]) ∧
    n_beats 1 (2 ^ 32 - 1) = 0 ∧ n_beats (2 ^ 16) (2 ^ 22) = 0 := by
  obtain ⟨k, _, _, _, rfl⟩ := benchmark_run_some w size mem ctid transfers oper fuel s r h
  have hev : TwoSided.eventsSince s (runState w size mem ctid transfers oper s (k + 1)) =
      runEvents w size mem ctid transfers oper s (k + 1) :=
    TwoSided.eventsSince_of_trace rfl
  simp only [hev, beatsWritten_runEvents]
  refine ⟨rfl, fun hsize hprod => by rw [n_beats_no_wrap transfers size hsize hprod], ?_, ?_⟩
  · norm_num [n_beats]
  · norm_num [n_beats]

/-- C26, witness. One read of 100 bytes repeated 16 times writes `16 * 2 = 32` beats. -/
theorem n_beats_register_value_witness :
    ∃ r, benchmark_run (TwoSided.readyWorld 1 0) 100 0 0 16 BenchmarkOperation.START_RD 1
        State.init = some r ∧
      beatsWritten (TwoSided.eventsSince State.init r.1) = [32] :=
  ⟨_, rfl, (n_beats_register_value (TwoSided.readyWorld 1 0) 100 0 0 16
    BenchmarkOperation.START_RD 1 State.init _ rfl).1⟩

end OneSided

namespace ImageFiles

theorem foldlM_eq_foldl {α β : Type} (stepM : β → α → Except Stop β) (step : β → α → β) :
    ∀ (l : List α), (∀ v a t, a ∈ l → stepM v a = Except.ok t → t = step v a) →
      ∀ v t, l.foldlM stepM v = Except.ok t → t = l.foldl step v := by
  intro l
  induction l with
  | nil =>
    intro _ v t h
    simp only [List.foldlM_nil] at h
    cases h
    rfl
  | cons a l ih =>
    intro hstep v t h
    rw [List.foldlM_cons] at h
    cases hst : stepM v a with
    | error e =>
      rw [hst] at h
      cases h
    | ok u =>
      rw [hst] at h
      have hu := hstep v a u (List.mem_cons_self _ _) hst
      subst hu
      exact ih (fun v b t hb => hstep v b t (List.mem_cons_of_mem _ hb)) _ t h

theorem foldlM_total {α β : Type} (stepM : β → α → Except Stop β) :
    ∀ (l : List α), (∀ v a, a ∈ l → ∃ t, stepM v a = Except.ok t) →
      ∀ v, ∃ t, l.foldlM stepM v = Except.ok t := by
  intro l
  induction l with
  | nil =>
    intro _ v
    exact ⟨v, rfl⟩
  | cons a l ih =>
    intro hstep v
    obtain ⟨u, hu⟩ := hstep v a (List.mem_cons_self _ _)
    obtain ⟨t, ht⟩ := ih (fun v b hb => hstep v b (List.mem_cons_of_mem _ hb)) u
    exact ⟨t, by rw [List.foldlM_cons, hu]; exact ht⟩

theorem foldl_flatMap_eq {α β γ : Type} (f : α → List β) (step : γ → β → γ) :
    ∀ (l : List α) (v : γ),
      (l.flatMap f).foldl step v = l.foldl (fun v a => (f a).foldl step v) v := by
  intro l
  induction l with
  | nil => intro v; rfl
  | cons a l ih =>
    intro v
    rw [List.flatMap_cons, List.foldl_append, ih, List.foldl_cons]

theorem foldl_update_of_not_mem {α : Type} (g : α → Nat) (h : α → Nat) (x : Nat) :
    ∀ (l : List α) (v : Nat → Nat), (∀ a ∈ l, g a ≠ x) →
      (l.foldl (fun v a => Function.update v (g a) (h a)) v) x = v x := by
  intro l
  induction l with
  | nil => intro v _; rfl
  | cons a l ih =>
    intro v hne
    rw [List.foldl_cons, ih _ (fun b hb => hne b (List.mem_cons_of_mem _ hb))]
    exact Function.update_noteq (Ne.symm (hne a (List.mem_cons_self _ _))) _ _

theorem foldl_update_of_mem {α : Type} (g : α → Nat) (h : α → Nat) :
    ∀ (l : List α) (v : Nat → Nat), (∀ a ∈ l, ∀ b ∈ l, g a = g b → a = b) →
      ∀ a ∈ l, (l.foldl (fun v a => Function.update v (g a) (h a)) v) (g a) = h a := by
  intro l
  induction l with
  | nil =>
    intro v _ a ha
    cases ha
  | cons c l ih =>
    intro v hinj a ha
    rw [List.foldl_cons]
    by_cases hal : a ∈ l
    · exact ih _ (fun x hx y hy => hinj x (List.mem_cons_of_mem _ hx) y
        (List.mem_cons_of_mem _ hy)) a hal
    · have hac : a = c := by
        rcases List.mem_cons.1 ha with h1 | h1
        · exact h1
        · exact absurd h1 hal
      subst hac
      rw [foldl_update_of_not_mem g h (g a) l _ (fun b hb hgb => hal (by
        have := hinj b (List.mem_cons_of_mem _ hb) a (List.mem_cons_self _ _) hgb
        rw [← this]; exact hb))]
      exact Function.update_same _ _ _

theorem mem_pixels (size : Nat) (p : Nat × Nat) :
    p ∈ pixels size ↔ p.1 < size ∧ p.2 < size := by
  obtain ⟨i, j⟩ := p
  simp only [pixels, List.mem_flatMap, List.mem_range, List.mem_map, Prod.mk.injEq]
  constructor
  · rintro ⟨a, ha, b, hb, rfl, rfl⟩
    exact ⟨ha, hb⟩
  · rintro ⟨hi, hj⟩
    exact ⟨i, hi, j, hj, rfl, rfl⟩

theorem voxelIndex_eq (size depth i j k : Nat) :
    voxelIndex size depth i j k = pixelIndex size i j * depth + k := by
  simp only [voxelIndex, pixelIndex]
  ring

theorem pixelIndex_lt (size i j : Nat) (hi : i < size) (hj : j < size) :
    pixelIndex size i j < size * size := by
  unfold pixelIndex
  have : (i + 1) * size ≤ size * size := Nat.mul_le_mul_right _ hi
  have e : (i + 1) * size = i * size + size := by ring
  omega

theorem pixelIndex_inj (size i j i' j' : Nat) (hj : j < size) (hj' : j' < size)
    (h : pixelIndex size i j = pixelIndex size i' j') : i = i' ∧ j = j' := by
  unfold pixelIndex at h
  have hpos : 0 < size := by omega
  have h1 : (i * size + j) / size = i := by
    rw [Nat.add_comm, Nat.add_mul_div_right _ _ hpos, Nat.div_eq_of_lt hj]; omega
  have h2 : (i' * size + j') / size = i' := by
    rw [Nat.add_comm, Nat.add_mul_div_right _ _ hpos, Nat.div_eq_of_lt hj']; omega
  have hi : i = i' := by rw [← h1, ← h2, h]
  subst hi
  exact ⟨rfl, by omega⟩

theorem pixelIndex_surj (size p : Nat) (hp : p < size * size) :
    p / size < size ∧ p % size < size ∧ pixelIndex size (p / size) (p % size) = p := by
  have hpos : 0 < size := by
    rcases Nat.eq_zero_or_pos size with h | h
    · subst h; simp at hp
    · exact h
  refine ⟨Nat.div_lt_of_lt_mul hp, Nat.mod_lt _ hpos, ?_⟩
  unfold pixelIndex
  rw [Nat.mul_comm]
  exact Nat.div_add_mod p size

theorem nested_foldl_eq_pixels (size : Nat) (step : (Nat → Nat) → Nat × Nat → (Nat → Nat))
    (v : Nat → Nat) :
    (List.range size).foldl
        (fun v i => (List.range size).foldl (fun v j => step v (i, j)) v) v =
      (pixels size).foldl step v := by
  unfold pixels
  rw [foldl_flatMap_eq]
  congr 1
  funext v i
  rw [List.foldl_map]

theorem insertSlice_ok (size depth k : Nat) (data : List Nat) (volume t : Nat → Nat)
    (h : insertSlice size depth k data volume = Except.ok t) :
    t = (pixels size).foldl (fun v p => Function.update v (voxelIndex size depth p.1 p.2 k)
      (data.getD (pixelIndex size p.1 p.2) 0)) volume := by
  rw [← nested_foldl_eq_pixels size (fun v p => Function.update v
    (voxelIndex size depth p.1 p.2 k) (data.getD (pixelIndex size p.1 p.2) 0))]
  refine foldlM_eq_foldl _ _ _ (fun v i u _ hu => ?_) volume t h
  refine foldlM_eq_foldl _ _ _ (fun v j u _ hu => ?_) v u hu
  unfold insertPixel voxelIndexInt at hu
  split at hu
  · cases hu
  · rename_i idx hidx
    split at hidx
    · cases hidx
      cases hu
      rfl
    · cases hidx

theorem extractSlice_ok (size depth k : Nat) (volume slice t : Nat → Nat)
    (h : extractSlice size depth k volume slice = Except.ok t) :
    t = (pixels size).foldl (fun v p => Function.update v (pixelIndex size p.1 p.2)
      (volume (voxelIndex size depth p.1 p.2 k))) slice := by
  rw [← nested_foldl_eq_pixels size (fun v p => Function.update v
    (pixelIndex size p.1 p.2) (volume (voxelIndex size depth p.1 p.2 k)))]
  refine foldlM_eq_foldl _ _ _ (fun v i u _ hu => ?_) slice t h
  refine foldlM_eq_foldl _ _ _ (fun v j u _ hu => ?_) v u hu
  unfold extractPixel voxelIndexInt at hu
  split at hu
  · cases hu
  · rename_i idx hidx
    split at hidx
    · cases hidx
      cases hu
      rfl
    · cases hidx

theorem pixels_inj (size : Nat) (p q : Nat × Nat) (hp : p ∈ pixels size)
    (hq : q ∈ pixels size) (h : pixelIndex size p.1 p.2 = pixelIndex size q.1 q.2) :
    p = q := by
  obtain ⟨_, hp2⟩ := (mem_pixels size p).1 hp
  obtain ⟨_, hq2⟩ := (mem_pixels size q).1 hq
  obtain ⟨h1, h2⟩ := pixelIndex_inj size p.1 p.2 q.1 q.2 hp2 hq2 h
  exact Prod.ext h1 h2

theorem inserted_at (size depth k : Nat) (hk : k < depth) (data : List Nat)
    (volume : Nat → Nat) (x : Nat) :
    ((pixels size).foldl (fun v p => Function.update v (voxelIndex size depth p.1 p.2 k)
      (data.getD (pixelIndex size p.1 p.2) 0)) volume) x =
      if x % depth = k ∧ x / depth < size * size then data.getD (x / depth) 0
      else volume x := by
  have hpos : 0 < depth := by omega
  have hmod : ∀ q, (q * depth + k) % depth = k := by
    intro q
    rw [Nat.add_comm, Nat.add_mul_mod_self_right, Nat.mod_eq_of_lt hk]
  have hdiv : ∀ q, (q * depth + k) / depth = q := by
    intro q
    rw [Nat.add_comm, Nat.add_mul_div_right _ _ hpos, Nat.div_eq_of_lt hk]
    omega
  by_cases hx : x % depth = k ∧ x / depth < size * size
  · rw [if_pos hx]
    obtain ⟨h1, h2, h3⟩ := pixelIndex_surj size (x / depth) hx.2
    have hmem : (x / depth / size, x / depth % size) ∈ pixels size :=
      (mem_pixels size _).2 ⟨h1, h2⟩
    have hg : voxelIndex size depth (x / depth / size) (x / depth % size) k = x := by
      rw [voxelIndex_eq, h3, ← hx.1, Nat.mul_comm]
      exact Nat.div_add_mod x depth
    have := foldl_update_of_mem (fun p : Nat × Nat => voxelIndex size depth p.1 p.2 k)
      (fun p => data.getD (pixelIndex size p.1 p.2) 0) (pixels size) volume
      (fun a ha b hb hab => pixels_inj size a b ha hb (by
        simp only [voxelIndex_eq] at hab
        have := congrArg (fun n => n / depth) hab
        simpa [hdiv] using this)) _ hmem
    simp only [hg, h3] at this
    exact this
  · rw [if_neg hx]
    apply foldl_update_of_not_mem (fun p : Nat × Nat => voxelIndex size depth p.1 p.2 k)
    intro p hp hpx
    apply hx
    obtain ⟨hp1, hp2⟩ := (mem_pixels size p).1 hp
    simp only [voxelIndex_eq] at hpx
    rw [← hpx, hmod, hdiv]
    exact ⟨rfl, pixelIndex_lt size p.1 p.2 hp1 hp2⟩

theorem extracted_at (size depth k : Nat) (volume slice : Nat → Nat) (q : Nat) :
    ((pixels size).foldl (fun v p => Function.update v (pixelIndex size p.1 p.2)
      (volume (voxelIndex size depth p.1 p.2 k))) slice) q =
      if q < size * size then volume (q * depth + k) else slice q := by
  by_cases hq : q < size * size
  · rw [if_pos hq]
    obtain ⟨h1, h2, h3⟩ := pixelIndex_surj size q hq
    have hmem : (q / size, q % size) ∈ pixels size := (mem_pixels size _).2 ⟨h1, h2⟩
    have := foldl_update_of_mem (fun p : Nat × Nat => pixelIndex size p.1 p.2)
      (fun p => volume (voxelIndex size depth p.1 p.2 k)) (pixels size) slice
      (fun a ha b hb hab => pixels_inj size a b ha hb hab) _ hmem
    have e : voxelIndex size depth (q / size) (q % size) k = q * depth + k := by
      rw [voxelIndex_eq, h3]
    simp only [h3, e] at this
    exact this
  · rw [if_neg hq]
    apply foldl_update_of_not_mem (fun p : Nat × Nat => pixelIndex size p.1 p.2)
    intro p hp hpx
    apply hq
    obtain ⟨hp1, hp2⟩ := (mem_pixels size p).1 hp
    rw [← hpx]
    exact pixelIndex_lt size p.1 p.2 hp1 hp2

theorem foldlM_range_succ {β : Type} (stepM : β → Nat → Except Stop β) (K : Nat) (v t : β)
    (h : (List.range (K + 1)).foldlM stepM v = Except.ok t) :
    ∃ u, (List.range K).foldlM stepM v = Except.ok u ∧ stepM u K = Except.ok t := by
  rw [List.range_succ, List.foldlM_append] at h
  cases h1 : (List.range K).foldlM stepM v with
  | error e =>
    rw [h1] at h
    cases h
  | ok u =>
    rw [h1] at h
    refine ⟨u, rfl, ?_⟩
    cases h2 : stepM u K with
    | error e =>
      simp only [List.foldlM_cons, List.foldlM_nil, bind, Except.bind, h2] at h
      cases h
    | ok t2 =>
      simp only [List.foldlM_cons, List.foldlM_nil, bind, Except.bind, h2, pure,
        Except.pure] at h
      exact h

theorem saveLoop_ok (size depth : Nat) (volume slice0 : Nat → Nat) :
    ∀ (K : Nat) (st : (Nat → Nat) × List Image),
      (List.range K).foldlM (saveStep size depth volume) (slice0, []) = Except.ok st →
      st.2.length = K ∧ ∀ k, k < K → ∀ q, q < size * size →
        (fileData st.2 k).getD q 0 = volume (q * depth + k) := by
  intro K
  induction K with
  | zero =>
    intro st h
    simp only [List.range_zero, List.foldlM_nil] at h
    cases h
    exact ⟨rfl, fun k hk => absurd hk (Nat.not_lt_zero k)⟩
  | succ K ih =>
    intro st h
    obtain ⟨st1, hK, h⟩ := foldlM_range_succ _ K _ st h
    · obtain ⟨hlen, hfiles⟩ := ih st1 hK
      cases hs : extractSlice size depth K volume st1.1 with
      | error e =>
        simp only [saveStep, hs] at h
        cases h
      | ok slice =>
        simp only [saveStep, hs] at h
        cases h
        have hslice := extractSlice_ok size depth K volume st1.1 slice hs
        refine ⟨by simp [hlen], fun k hk q hq => ?_⟩
        by_cases hkK : k < K
        · have := hfiles k hkK q hq
          simpa [fileData, List.getElem?_append_left (hlen ▸ hkK)] using this
        · have hk' : k = K := by omega
          subst hk'
          have hget : (st1.2 ++ [writtenImage size slice])[k]? =
              some (writtenImage size slice) := by
            rw [List.getElem?_append_right (by omega)]
            simp [hlen]
          rw [fileData, hget]
          simp only [Option.map_some', Option.getD_some, writtenImage]
          rw [List.getD_eq_getElem?_getD, List.getElem?_map,
            List.getElem?_range hq]
          simp only [Option.map_some', Option.getD_some]
          rw [hslice, extracted_at, if_pos hq]

theorem readLoop_ok (size depth : Nat) (folder : List Image) (volume0 : Nat → Nat) :
    ∀ (K : Nat), K ≤ depth → ∀ (v : Nat → Nat),
      (List.range K).foldlM (readStep size depth folder) volume0 = Except.ok v →
      ∀ x, v x = if x % depth < K ∧ x / depth < size * size
        then (fileData folder (x % depth)).getD (x / depth) 0 else volume0 x := by
  intro K
  induction K with
  | zero =>
    intro _ v h x
    simp only [List.range_zero, List.foldlM_nil] at h
    cases h
    simp
  | succ K ih =>
    intro hK v h x
    obtain ⟨v1, h1, h⟩ := foldlM_range_succ _ K _ v h
    · have hv1 := ih (by omega) v1 h1 x
      unfold readStep at h
      cases hf : folder[K]? with
      | none =>
        simp only [hf] at h
        cases h
      | some img =>
        simp only [hf] at h
        split at h
        · cases h
        · have hv : v = _ := insertSlice_ok size depth K img.data v1 v h
          rw [hv, inserted_at size depth K (by omega), hv1]
          by_cases hxk : x % depth = K
          · by_cases hxd : x / depth < size * size
            · have hlt : x % depth < K + 1 := by omega
              simp [hxk, hxd, fileData, hf]
            · simp [hxd]
          · by_cases hlt : x % depth < K
            · have hlt' : x % depth < K + 1 := by omega
              simp [hxk, hlt, hlt']
            · have hlt' : ¬ x % depth < K + 1 := by omega
              simp [hxk, hlt, hlt']

theorem voxelIndex_lt (size depth i j k : Nat) (hi : i < size) (hj : j < size)
    (hk : k < depth) : voxelIndex size depth i j k < size * size * depth := by
  rw [voxelIndex_eq]
  have hp := pixelIndex_lt size i j hi hj
  have : (pixelIndex size i j + 1) * depth ≤ size * size * depth :=
    Nat.mul_le_mul_right _ hp
  have e : (pixelIndex size i j + 1) * depth = pixelIndex size i j * depth + depth := by ring
  omega

theorem voxelIndex_inj (size depth i j k i' j' k' : Nat) (hj : j < size) (hk : k < depth)
    (hj' : j' < size) (hk' : k' < depth)
    (h : voxelIndex size depth i j k = voxelIndex size depth i' j' k') :
    i = i' ∧ j = j' ∧ k = k' := by
  rw [voxelIndex_eq, voxelIndex_eq] at h
  have hpos : 0 < depth := by omega
  have hmod := congrArg (fun n => n % depth) h
  have hdiv := congrArg (fun n => n / depth) h
  simp only [Nat.add_comm _ k, Nat.add_comm _ k', Nat.add_mul_mod_self_right,
    Nat.mod_eq_of_lt hk, Nat.mod_eq_of_lt hk', Nat.add_mul_div_right _ _ hpos,
    Nat.div_eq_of_lt hk, Nat.div_eq_of_lt hk', Nat.zero_add] at hmod hdiv
  obtain ⟨h1, h2⟩ := pixelIndex_inj size i j i' j' hj hj' hdiv
  exact ⟨h1, h2, hmod⟩

theorem voxelIndex_surj (size depth x : Nat) (hx : x < size * size * depth) :
    ∃ i j k, i < size ∧ j < size ∧ k < depth ∧ voxelIndex size depth i j k = x := by
  have hpos : 0 < depth := by
    rcases Nat.eq_zero_or_pos depth with h | h
    · subst h; simp at hx
    · exact h
  have hp : x / depth < size * size := (Nat.div_lt_iff_lt_mul hpos).2 hx
  obtain ⟨h1, h2, h3⟩ := pixelIndex_surj size (x / depth) hp
  refine ⟨x / depth / size, x / depth % size, x % depth, h1, h2, Nat.mod_lt _ hpos, ?_⟩
  rw [voxelIndex_eq, h3, Nat.mul_comm]
  exact Nat.div_add_mod x depth

theorem save_ok (size depth : Nat) (volume slice0 : Nat → Nat) (folder : List Image)
    (h : save_volume_into_folder volume size depth slice0 = Except.ok folder) :
    folder.length = depth ∧ ∀ k, k < depth → ∀ q, q < size * size →
      (fileData folder k).getD q 0 = volume (q * depth + k) := by
  unfold save_volume_into_folder at h
  split at h
  · cases hs : (List.range depth).foldlM (saveStep size depth volume) (slice0, []) with
    | error e =>
      simp only [hs] at h
      cases h
    | ok st =>
      simp only [hs] at h
      cases h
      exact saveLoop_ok size depth volume slice0 depth st hs
  · cases h

theorem read_ok (size depth : Nat) (folder : List Image) (volume0 v : Nat → Nat)
    (hd : 1 ≤ depth) (h : read_volume_from_folder volume0 size depth folder = Except.ok v)
    (x : Nat) :
    v x = if x < size * size * depth then (fileData folder (x % depth)).getD (x / depth) 0
      else volume0 x := by
  unfold read_volume_from_folder at h
  split at h
  · rw [readLoop_ok size depth folder volume0 depth (le_refl _) v h x]
    have h1 : x % depth < depth := Nat.mod_lt _ (by omega)
    have h2 : x / depth < size * size ↔ x < size * size * depth :=
      Nat.div_lt_iff_lt_mul (by omega)
    simp only [h1, true_and, h2]
  · cases h

theorem extractSlice_total (size depth k : Nat) (volume slice : Nat → Nat) (hk : k < depth)
    (hsize : size * size * depth ≤ 2 ^ 31) :
    ∃ t, extractSlice size depth k volume slice = Except.ok t := by
  refine foldlM_total _ _ (fun v i hi => ?_) slice
  refine foldlM_total _ _ (fun u j hj => ?_) v
  have := voxelIndex_lt size depth i j k (List.mem_range.1 hi) (List.mem_range.1 hj) hk
  have hlt : voxelIndex size depth i j k < 2 ^ 31 := by omega
  simp only [extractPixel, voxelIndexInt, if_pos hlt]
  exact ⟨_, rfl⟩

theorem insertSlice_total (size depth k : Nat) (data : List Nat) (volume : Nat → Nat)
    (hk : k < depth) (hsize : size * size * depth ≤ 2 ^ 31) :
    ∃ t, insertSlice size depth k data volume = Except.ok t := by
  refine foldlM_total _ _ (fun v i hi => ?_) volume
  refine foldlM_total _ _ (fun u j hj => ?_) v
  have := voxelIndex_lt size depth i j k (List.mem_range.1 hi) (List.mem_range.1 hj) hk
  have hlt : voxelIndex size depth i j k < 2 ^ 31 := by omega
  simp only [insertPixel, voxelIndexInt, if_pos hlt]
  exact ⟨_, rfl⟩

theorem saveLoop_dims (size depth : Nat) (volume slice0 : Nat → Nat) :
    ∀ (K : Nat) (st : (Nat → Nat) × List Image),
      (List.range K).foldlM (saveStep size depth volume) (slice0, []) = Except.ok st →
      ∀ img ∈ st.2, img.w = size ∧ img.h = size ∧ img.n = 1 := by
  intro K
  induction K with
  | zero =>
    intro st h
    simp only [List.range_zero, List.foldlM_nil] at h
    cases h
    simp
  | succ K ih =>
    intro st h
    obtain ⟨st1, hK, h⟩ := foldlM_range_succ _ K _ st h
    cases hs : extractSlice size depth K volume st1.1 with
    | error e =>
      simp only [saveStep, hs] at h
      cases h
    | ok slice =>
      simp only [saveStep, hs] at h
      cases h
      intro img himg
      rcases List.mem_append.1 himg with h1 | h1
      · exact ih st1 hK img h1
      · rw [List.mem_singleton.1 h1]
        exact ⟨rfl, rfl, rfl⟩

/-- For a volume whose largest voxel index `size * size * depth - 1` is an `int`, saving the
slices returns, and reading them back returns. -/
theorem round_trip_returns (size depth : Nat) (hd : 1 ≤ depth)
    (hsize : size * size * depth ≤ 2 ^ 31) (volume slice volume0 : Nat → Nat) :
    ∃ folder volume1, save_volume_into_folder volume size depth slice = Except.ok folder ∧
      read_volume_from_folder volume0 size depth folder = Except.ok volume1 := by
  have hsq : size * size < 2 ^ 31 := by
    have h1 : size * size * 1 ≤ size * size * depth := Nat.mul_le_mul_left _ hd
    have h2 : size * size ≠ 2 ^ 31 := by
      intro h
      rcases Nat.lt_or_ge size 46341 with hlt | hge
      · have : size * size ≤ 46340 * 46340 := Nat.mul_le_mul (by omega) (by omega)
        omega
      · have : 46341 * 46341 ≤ size * size := Nat.mul_le_mul hge hge
        omega
    omega
  obtain ⟨st, hst⟩ := foldlM_total (saveStep size depth volume) (List.range depth)
    (fun v k hk => by
      obtain ⟨t, ht⟩ := extractSlice_total size depth k volume v.1 (List.mem_range.1 hk) hsize
      exact ⟨(t, v.2 ++ [writtenImage size t]), by simp only [saveStep, ht]⟩) (slice, [])
  have hsave : save_volume_into_folder volume size depth slice = Except.ok st.2 := by
    simp only [save_volume_into_folder, if_pos hsq, hst]
  have hlen := (saveLoop_ok size depth volume slice depth st hst).1
  have hdims := saveLoop_dims size depth volume slice depth st hst
  obtain ⟨v1, hv1⟩ := foldlM_total (readStep size depth st.2) (List.range depth)
    (fun v k hk => by
      have hk' : k < st.2.length := by rw [hlen]; exact List.mem_range.1 hk
      have hget : st.2[k]? = some st.2[k] := List.getElem?_eq_getElem hk'
      obtain ⟨d1, d2, d3⟩ := hdims st.2[k] (List.getElem_mem hk')
      obtain ⟨t, ht⟩ := insertSlice_total size depth k st.2[k].data v
        (List.mem_range.1 hk) hsize
      exact ⟨t, by simp only [readStep, hget, d1, d2, d3, ne_eq, not_true_eq_false,
        or_self, if_false, ht]⟩) volume0
  exact ⟨st.2, v1, hsave, by simp only [read_volume_from_folder, if_pos hsq, hv1]⟩

end ImageFiles

namespace SoftwareMI

theorem jointHistogram_ok (input_ref input_flt : Nat → Nat) (DIMENSION N : Nat)
    (j_h : Nat → Nat → ℚ) (h : jointHistogram input_ref input_flt DIMENSION N = Except.ok j_h) :
    j_h = (visited DIMENSION N).foldl
      (fun h x => bump h (byteAt input_ref x) (byteAt input_flt x)) (fun _ _ => 0) := by
  unfold visited
  rw [ImageFiles.foldl_flatMap_eq]
  refine ImageFiles.foldlM_eq_foldl _ _ _ (fun v k u _ hu => ?_) _ j_h h
  rw [ImageFiles.foldl_flatMap_eq]
  refine ImageFiles.foldlM_eq_foldl _ _ _ (fun v i u _ hu => ?_) v u hu
  rw [List.foldl_map]
  refine ImageFiles.foldlM_eq_foldl _ _ _ (fun v j u _ hu => ?_) v u hu
  unfold countVoxel ImageFiles.voxelIndexInt at hu
  split at hu
  · cases hu
  · rename_i idx hidx
    split at hidx
    · cases hidx
      cases hu
      rfl
    · cases hidx

theorem foldl_bump (input_ref input_flt : Nat → Nat) (a b : Nat) :
    ∀ (voxels : List Nat) (h0 : Nat → Nat → ℚ),
      (voxels.foldl (fun h x => bump h (byteAt input_ref x) (byteAt input_flt x)) h0) a b =
        h0 a b + (pairCount input_ref input_flt voxels a b : ℚ) := by
  intro voxels
  induction voxels with
  | nil => intro h0; simp [pairCount]
  | cons x l ih =>
    intro h0
    rw [List.foldl_cons, ih]
    by_cases hx : byteAt input_ref x = a ∧ byteAt input_flt x = b
    · have h1 : bump h0 (byteAt input_ref x) (byteAt input_flt x) a b = h0 a b + 1 := by
        simp [bump, hx.1, hx.2]
      have h2 : pairCount input_ref input_flt (x :: l) a b =
          pairCount input_ref input_flt l a b + 1 := by
        simp [pairCount, List.countP_cons, hx]
      rw [h1, h2]
      push_cast
      ring
    · have h1 : bump h0 (byteAt input_ref x) (byteAt input_flt x) a b = h0 a b := by
        have : ¬ (a = byteAt input_ref x ∧ b = byteAt input_flt x) := fun h => hx ⟨h.1.symm, h.2.symm⟩
        simp [bump, this]
      have h2 : pairCount input_ref input_flt (x :: l) a b =
          pairCount input_ref input_flt l a b := by
        simp [pairCount, List.countP_cons, hx]
      rw [h1, h2]

theorem length_flatMap_range {α : Type} (n m : Nat) (f : Nat → List α)
    (h : ∀ i, i < n → (f i).length = m) : ((List.range n).flatMap f).length = n * m := by
  induction n with
  | zero => simp
  | succ n ih =>
    rw [List.range_succ, List.flatMap_append, List.length_append,
      ih (fun i hi => h i (by omega))]
    simp [h n (by omega)]
    ring

theorem visited_length (DIMENSION N : Nat) :
    (visited DIMENSION N).length = DIMENSION * DIMENSION * N := by
  unfold visited
  rw [length_flatMap_range N (DIMENSION * DIMENSION) _ (fun k _ =>
    length_flatMap_range DIMENSION DIMENSION _ (fun i _ => by simp))]
  ring

theorem mem_visited (DIMENSION N x : Nat) (hx : x < DIMENSION * DIMENSION * N) :
    x ∈ visited DIMENSION N := by
  obtain ⟨i, j, k, hi, hj, hk, rfl⟩ := ImageFiles.voxelIndex_surj DIMENSION N x hx
  simp only [visited, List.mem_flatMap, List.mem_range, List.mem_map]
  exact ⟨k, hk, i, hi, j, hj, rfl⟩

theorem visited_perm (DIMENSION N : Nat) :
    (List.range (DIMENSION * DIMENSION * N)).Perm (visited DIMENSION N) := by
  apply List.Subperm.perm_of_length_le
  · exact List.subperm_of_subset (List.nodup_range _)
      (fun x hx => mem_visited DIMENSION N x (List.mem_range.1 hx))
  · rw [visited_length, List.length_range]

/-- After the histogram loops every bin holds the number of voxels below
`DIMENSION * DIMENSION * N` with its byte pair. -/
theorem jointHistogram_counts (input_ref input_flt : Nat → Nat) (DIMENSION N : Nat)
    (j_h : Nat → Nat → ℚ) (h : jointHistogram input_ref input_flt DIMENSION N = Except.ok j_h)
    (a b : Nat) :
    j_h a b =
      (pairCount input_ref input_flt (List.range (DIMENSION * DIMENSION * N)) a b : ℚ) := by
  rw [jointHistogram_ok input_ref input_flt DIMENSION N j_h h, foldl_bump]
  have := (visited_perm DIMENSION N).countP_eq
    (fun x => decide (byteAt input_ref x = a ∧ byteAt input_flt x = b))
  simp only [pairCount, this, zero_add]

theorem accumulate_eq_sum (bins : Nat) (f : Nat → ℚ) :
    accumulate bins f = ∑ j in Finset.range bins, f j := by
  unfold accumulate
  induction bins with
  | zero => simp
  | succ n ih => rw [List.range_succ, List.foldl_append, ih, Finset.sum_range_succ]; rfl

theorem pairCount_cons (input_ref input_flt : Nat → Nat) (x : Nat) (l : List Nat) (a b : Nat) :
    pairCount input_ref input_flt (x :: l) a b = pairCount input_ref input_flt l a b +
      (if byteAt input_ref x = a then (if byteAt input_flt x = b then 1 else 0) else 0) := by
  by_cases h1 : byteAt input_ref x = a
  · by_cases h2 : byteAt input_flt x = b
    · simp [pairCount, List.countP_cons, h1, h2]
    · simp [pairCount, List.countP_cons, h1, h2]
  · simp [pairCount, List.countP_cons, h1]

theorem sum_pairCount (input_ref input_flt : Nat → Nat) (bins : Nat) (hbins : 256 ≤ bins) :
    ∀ (voxels : List Nat),
      ∑ a in Finset.range bins, ∑ b in Finset.range bins,
        pairCount input_ref input_flt voxels a b = voxels.length := by
  intro voxels
  induction voxels with
  | nil => simp [pairCount]
  | cons x l ih =>
    simp only [pairCount_cons, Finset.sum_add_distrib, ih, List.length_cons]
    congr 1
    have h1 : byteAt input_ref x ∈ Finset.range bins := by
      have : byteAt input_ref x < 256 := Nat.mod_lt _ (by norm_num)
      exact Finset.mem_range.2 (by omega)
    have h2 : byteAt input_flt x ∈ Finset.range bins := by
      have : byteAt input_flt x < 256 := Nat.mod_lt _ (by norm_num)
      exact Finset.mem_range.2 (by omega)
    have inner : ∀ a, (∑ b in Finset.range bins,
        if byteAt input_ref x = a then (if byteAt input_flt x = b then 1 else 0) else 0) =
        if byteAt input_ref x = a then 1 else 0 := by
      intro a
      by_cases ha : byteAt input_ref x = a
      · simp only [ha, if_true]
        rw [Finset.sum_ite_eq, if_pos h2]
      · simp [ha]
    simp only [inner]
    rw [Finset.sum_ite_eq, if_pos h1]

theorem above_cutoffs (m norm : Nat) (hnorm : norm < 10 ^ 12) (h : (m : ℚ) / norm ≠ 0) :
    (m : ℚ) / norm > 1 / 10 ^ 12 ∧ (m : ℚ) / norm > 1 / 10 ^ 15 := by
  have hm : m ≠ 0 := by
    rintro rfl
    simp at h
  have hn : norm ≠ 0 := by
    rintro rfl
    simp at h
  have hm1 : (1 : ℚ) ≤ m := by exact_mod_cast Nat.one_le_iff_ne_zero.2 hm
  have hnpos : (0 : ℚ) < norm := by exact_mod_cast Nat.pos_of_ne_zero hn
  have hnlt : (norm : ℚ) < 10 ^ 12 := by exact_mod_cast hnorm
  have h1 : (1 : ℚ) / 10 ^ 12 < (m : ℚ) / norm := by
    rw [div_lt_div_iff₀ (by norm_num) hnpos]
    nlinarith
  refine ⟨h1, lt_trans ?_ h1⟩
  norm_num

theorem keep_iff_nonzero (m norm : Nat) (hnorm : norm < 10 ^ 12) :
    decide ((m : ℚ) / norm > 1 / 10 ^ 12) = nonzero ((m : ℚ) / norm) ∧
    decide ((m : ℚ) / norm > 1 / 10 ^ 15) = nonzero ((m : ℚ) / norm) := by
  unfold nonzero
  by_cases h : (m : ℚ) / norm = 0
  · rw [h]
    norm_num
  · obtain ⟨h1, h2⟩ := above_cutoffs m norm hnorm h
    rw [gt_iff_lt, one_div] at h1 h2
    simp [h, h1, h2]

theorem foldl_keep_congr (step : ℚ → ℚ → ℚ) (k1 k2 : ℚ → Bool) :
    ∀ (values : List ℚ) (H : ℚ), (∀ q ∈ values, k1 q = k2 q) →
      values.foldl (fun H p => if k1 p then step H p else H) H =
        values.foldl (fun H p => if k2 p then step H p else H) H := by
  intro values
  induction values with
  | nil => intro H _; rfl
  | cons q l ih =>
    intro H h
    rw [List.foldl_cons, List.foldl_cons, h q (List.mem_cons_self _ _)]
    exact ih _ (fun p hp => h p (List.mem_cons_of_mem _ hp))

theorem entropyMinus_congr (log2 : ℚ → ℚ) (k1 k2 : ℚ → Bool) (values : List ℚ)
    (h : ∀ q ∈ values, k1 q = k2 q) :
    entropyMinus log2 k1 values = entropyMinus log2 k2 values :=
  foldl_keep_congr (fun H p => H - p * log2 p) k1 k2 values 0 h

theorem entropyPlus_congr (log2 : ℚ → ℚ) (k1 k2 : ℚ → Bool) (values : List ℚ)
    (h : ∀ q ∈ values, k1 q = k2 q) :
    entropyPlus log2 k1 values = entropyPlus log2 k2 values := by
  unfold entropyPlus
  rw [foldl_keep_congr (fun e v => e + v * log2 v) k1 k2 values 0 h]

theorem mem_entries (bins : Nat) (f : Nat → Nat → ℚ) (q : ℚ) (h : q ∈ entries bins f) :
    ∃ i j, i < bins ∧ j < bins ∧ q = f i j := by
  simp only [entries, List.mem_flatMap, List.mem_range, List.mem_map] at h
  obtain ⟨i, hi, j, hj, rfl⟩ := h
  exact ⟨i, j, hi, hj, rfl⟩

theorem normalize_form (bins norm : Nat) (j_h : Nat → Nat → ℚ) (c : Nat → Nat → Nat)
    (hc : ∀ a b, j_h a b = (c a b : ℚ)) (a b : Nat) (ha : a < bins) (hb : b < bins) :
    normalize bins (norm : ℚ) j_h a b = ((c a b : Nat) : ℚ) / (norm : ℚ) := by
  simp [normalize, ha, hb, hc]

theorem row_form (bins norm : Nat) (j_h : Nat → Nat → ℚ) (c : Nat → Nat → Nat)
    (hc : ∀ a b, j_h a b = (c a b : ℚ)) (i : Nat) (hi : i < bins) :
    accumulate bins (fun j => normalize bins (norm : ℚ) j_h i j) =
      ((∑ j in Finset.range bins, c i j : Nat) : ℚ) / (norm : ℚ) := by
  rw [accumulate_eq_sum, Nat.cast_sum, Finset.sum_div]
  exact Finset.sum_congr rfl (fun j hj =>
    normalize_form bins norm j_h c hc i j hi (Finset.mem_range.1 hj))

theorem column_form (bins norm : Nat) (j_h : Nat → Nat → ℚ) (c : Nat → Nat → Nat)
    (hc : ∀ a b, j_h a b = (c a b : ℚ)) (i : Nat) (hi : i < bins) :
    accumulate bins (fun j => normalize bins (norm : ℚ) j_h j i) =
      ((∑ j in Finset.range bins, c j i : Nat) : ℚ) / (norm : ℚ) := by
  rw [accumulate_eq_sum, Nat.cast_sum, Finset.sum_div]
  exact Finset.sum_congr rfl (fun j hj =>
    normalize_form bins norm j_h c hc j i (Finset.mem_range.1 hj) hi)

theorem tests_agree (bins norm : Nat) (hnorm : norm < 10 ^ 12) (j_h : Nat → Nat → ℚ)
    (c : Nat → Nat → Nat) (hc : ∀ a b, j_h a b = (c a b : ℚ)) :
    (∀ q ∈ entries bins (fun i j => normalize bins (norm : ℚ) j_h i j),
      decide (q > 1 / 10 ^ 15) = nonzero q) ∧
    (∀ q ∈ entries bins (fun i j => normalize bins (norm : ℚ) j_h j i),
      decide (q > 1 / 10 ^ 15) = nonzero q) ∧
    (∀ q ∈ (List.range bins).map
        (fun i => accumulate bins fun j => normalize bins (norm : ℚ) j_h i j),
      decide (q > 1 / 10 ^ 15) = nonzero q ∧ decide (q > 1 / 10 ^ 12) = nonzero q) ∧
    (∀ q ∈ (List.range bins).map
        (fun i => accumulate bins fun j => normalize bins (norm : ℚ) j_h j i),
      decide (q > 1 / 10 ^ 15) = nonzero q ∧ decide (q > 1 / 10 ^ 12) = nonzero q) := by
  refine ⟨fun q hq => ?_, fun q hq => ?_, fun q hq => ?_, fun q hq => ?_⟩
  · obtain ⟨i, j, hi, hj, rfl⟩ := mem_entries bins _ q hq
    rw [normalize_form bins norm j_h c hc i j hi hj]
    exact (keep_iff_nonzero _ norm hnorm).2
  · obtain ⟨i, j, hi, hj, rfl⟩ := mem_entries bins _ q hq
    rw [normalize_form bins norm j_h c hc j i hj hi]
    exact (keep_iff_nonzero _ norm hnorm).2
  · obtain ⟨i, hi, rfl⟩ := List.mem_map.1 hq
    rw [row_form bins norm j_h c hc i (List.mem_range.1 hi)]
    exact ⟨(keep_iff_nonzero _ norm hnorm).2, (keep_iff_nonzero _ norm hnorm).1⟩
  · obtain ⟨i, hi, rfl⟩ := List.mem_map.1 hq
    rw [column_form bins norm j_h c hc i (List.mem_range.1 hi)]
    exact ⟨(keep_iff_nonzero _ norm hnorm).2, (keep_iff_nonzero _ norm hnorm).1⟩

/-- The cut-offs of `software_mi` in `mutual_information.cpp` skip the zero entries only. -/
theorem software_mi_eq_nonzero (log2 : ℚ → ℚ) (bins DIMENSION N : Nat)
    (input_ref input_flt : Nat → Nat) (hnorm : N * DIMENSION * DIMENSION < 10 ^ 12) :
    software_mi log2 bins DIMENSION N input_ref input_flt =
      software_mi_with nonzero nonzero log2 bins DIMENSION N input_ref input_flt := by
  unfold software_mi software_mi_with
  simp only [Nat.add_zero]
  cases h : jointHistogram input_ref input_flt DIMENSION N with
  | error e => rfl
  | ok j_h =>
    simp only
    have hcast : (N : ℚ) * DIMENSION * DIMENSION = ((N * DIMENSION * DIMENSION : Nat) : ℚ) := by
      push_cast
      ring
    rw [hcast]
    obtain ⟨t1, _, t3, t4⟩ := tests_agree bins (N * DIMENSION * DIMENSION) hnorm j_h _
      (jointHistogram_counts input_ref input_flt DIMENSION N j_h h)
    rw [entropyMinus_congr log2 _ nonzero _ t1,
      entropyMinus_congr log2 _ nonzero _ (fun q hq => (t3 q hq).1),
      entropyMinus_congr log2 _ nonzero _ (fun q hq => (t4 q hq).1)]

/-- The cut-offs of `software_mi` in `registration_step.cpp` skip the zero entries only. -/
theorem software_mi_registration_step_eq_nonzero (log2 : ℚ → ℚ) (bins DIMENSION N : Nat)
    (input_ref input_flt : Nat → Nat) (hnorm : N * DIMENSION * DIMENSION < 10 ^ 12) :
    software_mi_registration_step log2 bins DIMENSION N input_ref input_flt =
      software_mi_registration_step_with nonzero nonzero log2 bins DIMENSION N
        input_ref input_flt := by
  unfold software_mi_registration_step software_mi_registration_step_with
  dsimp only
  cases h : jointHistogram input_ref input_flt DIMENSION N with
  | error e => rfl
  | ok j_h =>
    dsimp only
    split
    · obtain ⟨_, t2, t3, t4⟩ := tests_agree bins (N * DIMENSION * DIMENSION) hnorm j_h _
        (jointHistogram_counts input_ref input_flt DIMENSION N j_h h)
      rw [entropyPlus_congr log2 _ nonzero _ t2,
        entropyPlus_congr log2 _ nonzero _ (fun q hq => (t3 q hq).2),
        entropyPlus_congr log2 _ nonzero _ (fun q hq => (t4 q hq).2)]
    · rfl

/-- The histogram loops return when the largest voxel index is an `int`. -/
theorem jointHistogram_returns (input_ref input_flt : Nat → Nat) (DIMENSION N : Nat)
    (hsize : DIMENSION * DIMENSION * N ≤ 2 ^ 31) :
    ∃ j_h, jointHistogram input_ref input_flt DIMENSION N = Except.ok j_h := by
  refine ImageFiles.foldlM_total _ _ (fun v k hk => ?_) _
  refine ImageFiles.foldlM_total _ _ (fun u i hi => ?_) v
  refine ImageFiles.foldlM_total _ _ (fun t j hj => ?_) u
  have := ImageFiles.voxelIndex_lt DIMENSION N i j k (List.mem_range.1 hi)
    (List.mem_range.1 hj) (List.mem_range.1 hk)
  have hlt : ImageFiles.voxelIndex DIMENSION N i j k < 2 ^ 31 := by omega
  simp only [countVoxel, ImageFiles.voxelIndexInt, if_pos hlt]
  exact ⟨_, rfl⟩

theorem histogram_total (input_ref input_flt : Nat → Nat) (bins DIMENSION N : Nat)
    (hbins : 256 ≤ bins) (j_h : Nat → Nat → ℚ)
    (h : jointHistogram input_ref input_flt DIMENSION N = Except.ok j_h) :
    accumulate bins (fun a => accumulate bins fun b => j_h a b) =
      (N : ℚ) * DIMENSION * DIMENSION := by
  rw [accumulate_eq_sum]
  simp only [accumulate_eq_sum, jointHistogram_counts input_ref input_flt DIMENSION N j_h h]
  have := sum_pairCount input_ref input_flt bins hbins (List.range (DIMENSION * DIMENSION * N))
  rw [List.length_range] at this
  have hc := congrArg (fun n : Nat => (n : ℚ)) this
  simp only [Nat.cast_sum] at hc
  rw [hc]
  push_cast
  ring

end SoftwareMI

namespace P2PImageRegistration

theorem execution_times_eq (runs : Nat) (measured : Nat → ℚ) (init : List ℚ) :
    (List.range runs).foldl (fun times i => times ++ [measured i]) init =
      init ++ (List.range runs).map measured := by
  induction runs with
  | zero => simp
  | succ n ih => simp [List.range_succ, List.foldl_append, ih]

/-- C29. For `runs >= 1` the divisor is not zero and `average_execution_time` is the sum of
the `runs` measured times divided by `runs`, their arithmetic mean; the vector it is computed
from consists of `runs` zeros followed by the `runs` measured times, `2 * runs` entries. -/
theorem average_execution_time_is_mean (runs : Nat) (measured : Nat → ℚ) (hruns : 1 ≤ runs) :
    (runs : ℚ) ≠ 0 ∧
    average_execution_time runs measured =
      ((List.range runs).map measured).sum / (runs : ℚ) ∧
    execution_times runs measured = List.replicate runs 0 ++ (List.range runs).map measured ∧
    (execution_times runs measured).length = 2 * runs := by
  have hne : (runs : ℚ) ≠ 0 := by
    have : (0 : ℚ) < runs := by exact_mod_cast hruns
    exact ne_of_gt this
  have hv : execution_times runs measured =
      List.replicate runs 0 ++ (List.range runs).map measured :=
    execution_times_eq runs measured _
  refine ⟨hne, ?_, hv, ?_⟩
  · rw [average_execution_time, hv, vector_sum_eq_sum, List.sum_append, List.sum_replicate]
    simp
  · rw [hv]
    simp
    omega

/-- C29, witness. Three runs that took 4, 5 and 9 seconds: the vector is
`[0, 0, 0, 4, 5, 9]` and the average is 6. -/
theorem average_execution_time_is_mean_witness :
    execution_times 3 (fun i => [4, 5, 9].getD i 0) = [0, 0, 0, 4, 5, 9] ∧
    ((3 : Nat) : ℚ) ≠ 0 ∧
    average_execution_time 3 (fun i => [4, 5, 9].getD i 0) =
      ((List.range 3).map (fun i => [4, 5, 9].getD i 0)).sum / ((3 : Nat) : ℚ) ∧
    execution_times 3 (fun i => [4, 5, 9].getD i 0) =
      List.replicate 3 0 ++ (List.range 3).map (fun i => [4, 5, 9].getD i 0) ∧
    (execution_times 3 (fun i => [4, 5, 9].getD i 0)).length = 2 * 3 :=
  ⟨by decide, average_execution_time_is_mean 3 (fun i => [4, 5, 9].getD i 0) (by decide)⟩

end P2PImageRegistration

namespace TwoSided

theorem bench_fn_unmonitored (w : World) (transfers : Nat) (mode : Bool) (fuel : Nat)
    (s t : State) (h : bench_fn w transfers mode false fuel s = some t) :
    t.perf_monitor = s.perf_monitor ∧ t.warm_up = s.warm_up ∧
    t.perf_metrics.gpu_powers =
      (if s.warm_up then s.perf_metrics.gpu_powers
        else s.perf_metrics.gpu_powers ++ [s.perf_monitor.avg_power]) ∧
    t.perf_metrics.gpu_utils =
      (if s.warm_up then s.perf_metrics.gpu_utils
        else s.perf_metrics.gpu_utils ++ [s.perf_monitor.avg_util]) := by
  unfold bench_fn at h
  simp only [Option.map_eq_some'] at h
  obtain ⟨v, hv, ht⟩ := h
  have key : v.perf_monitor = s.perf_monitor ∧ v.warm_up = s.warm_up ∧
      v.perf_metrics = s.perf_metrics := by
    cases mode with
    | false =>
      simp only [Bool.not_false, if_true] at hv
      obtain ⟨u, hr, hveq, _⟩ := stagedBranch_effect w transfers fuel _ _ hv
      refine ⟨?_, ?_, ?_⟩
      · rw [hveq]
        simp only [deviceSynchronize]
        rw [hr.perf_monitor]
        simp [benchBegin]
      · rw [hveq]
        simp only [deviceSynchronize]
        rw [hr.warm_up]
        simp [benchBegin]
      · rw [hveq]
        simp only [deviceSynchronize]
        rw [hr.perf_metrics]
        simp [benchBegin]
    | true =>
      simp only [Bool.not_true, Bool.false_eq_true, if_false] at hv
      obtain ⟨u, hr, hveq, _⟩ := p2pBranch_effect w transfers fuel _ _ hv
      refine ⟨?_, ?_, ?_⟩
      · rw [hveq]
        simp only [deviceSynchronizeChecked]
        rw [hr.perf_monitor]
        simp [benchBegin]
      · rw [hveq]
        simp only [deviceSynchronizeChecked]
        rw [hr.warm_up]
        simp [benchBegin]
      · rw [hveq]
        simp only [deviceSynchronizeChecked]
        rw [hr.perf_metrics]
        simp [benchBegin]
  obtain ⟨k1, k2, k3⟩ := key
  subst ht
  cases hw : s.warm_up <;>
    simp [benchEnd, k1, k2, k3, hw, PerfMetrics.add_new]

theorem prep_fn_perf_monitor (transfers : Nat) (g : Bool) (s : State) :
    (prep_fn transfers g s).perf_monitor = s.perf_monitor := by
  unfold prep_fn
  cases g <;> simp [State.emit, deviceSynchronizeChecked]

theorem iterations_unmonitored (w : World) (transfers : Nat) (mode : Bool) (fuel : Nat)
    (n : Nat) :
    ∀ (s t : State), iterations w transfers mode false fuel n s = some t →
      t.perf_monitor = s.perf_monitor ∧ t.warm_up = s.warm_up ∧
      t.perf_metrics.gpu_powers =
        (if s.warm_up then s.perf_metrics.gpu_powers
          else s.perf_metrics.gpu_powers ++ List.replicate n s.perf_monitor.avg_power) ∧
      t.perf_metrics.gpu_utils =
        (if s.warm_up then s.perf_metrics.gpu_utils
          else s.perf_metrics.gpu_utils ++ List.replicate n s.perf_monitor.avg_util) := by
  induction n with
  | zero =>
    intro s t h
    simp only [iterations, Option.some.injEq] at h
    subst h
    cases s.warm_up <;> simp
  | succ n ih =>
    intro s t h
    simp only [iterations, Option.bind_eq_some] at h
    obtain ⟨u, hu, ht⟩ := h
    obtain ⟨p1, p2, p3, p4⟩ := bench_fn_unmonitored w transfers mode fuel _ u hu
    obtain ⟨q1, q2, q3, q4, q5, _⟩ := prep_fn_spec transfers false s
    have q0 := prep_fn_perf_monitor transfers false s
    rw [q0, q2, q5] at p3 p4
    rw [q0] at p1
    rw [q2] at p2
    obtain ⟨r1, r2, r3, r4⟩ := ih u t ht
    refine ⟨r1.trans p1, r2.trans p2, ?_, ?_⟩
    · rw [r3, p2, p1, p3]
      cases s.warm_up <;> simp [List.replicate_succ]
    · rw [r4, p2, p1, p4]
      cases s.warm_up <;> simp [List.replicate_succ]

theorem run_bench_unmonitored (w : World) (size transfers n_runs : Nat) (mode : Bool)
    (fuel : Nat) (s0 t : State)
    (h : run_bench w size transfers n_runs mode false fuel s0 = some (Except.ok t)) :
    t.perf_metrics.gpu_powers = List.replicate n_runs s0.perf_monitor.avg_power ∧
    t.perf_metrics.gpu_utils = List.replicate n_runs s0.perf_monitor.avg_util := by
  unfold run_bench at h
  simp only [Option.bind_eq_some] at h
  obtain ⟨u, hu, v, hv, hend⟩ := h
  obtain ⟨a1, _, a3, a4⟩ := iterations_unmonitored w transfers mode fuel 50 _ u hu
  obtain ⟨b1, _, b3, b4⟩ := iterations_unmonitored w transfers mode fuel n_runs _ v hv
  simp only [if_true] at a3 a4
  simp only [Bool.false_eq_true, if_false, a3, a4, a1, List.nil_append] at b3 b4
  split at hend
  · simp at hend
  · simp only [Option.some.injEq, Except.ok.injEq] at hend
    subst hend
    exact ⟨by simpa [State.emit] using b3, by simpa [State.emit] using b4⟩

end TwoSided

namespace TwoSided

theorem bench_fn_monitored (w : World) (transfers : Nat) (mode : Bool) (fuel : Nat)
    (s t : State) (h : bench_fn w transfers mode true fuel s = some t) :
    t.perf_monitor = joinedMonitor w s.nStart ∧ t.nStart = s.nStart + 1 ∧
    t.warm_up = s.warm_up ∧
    t.perf_metrics.gpu_powers =
      (if s.warm_up then s.perf_metrics.gpu_powers
        else s.perf_metrics.gpu_powers ++ [(joinedMonitor w s.nStart).avg_power]) ∧
    t.perf_metrics.gpu_utils =
      (if s.warm_up then s.perf_metrics.gpu_utils
        else s.perf_metrics.gpu_utils ++ [(joinedMonitor w s.nStart).avg_util]) := by
  unfold bench_fn at h
  simp only [Option.map_eq_some'] at h
  obtain ⟨v, hv, ht⟩ := h
  have key : v.perf_monitor = { running := true, samples := [] } ∧ v.nStart = s.nStart ∧
      v.warm_up = s.warm_up ∧ v.perf_metrics = s.perf_metrics := by
    cases mode with
    | false =>
      simp only [Bool.not_false, if_true] at hv
      obtain ⟨u, hr, hveq, _⟩ := stagedBranch_effect w transfers fuel _ _ hv
      refine ⟨?_, ?_, ?_, ?_⟩
      · rw [hveq]
        simp only [deviceSynchronize]
        rw [hr.perf_monitor]
        simp [benchBegin, perf_monitor_start]
      · rw [hveq]
        simp only [deviceSynchronize]
        rw [hr.nStart]
        simp [benchBegin, perf_monitor_start]
      · rw [hveq]
        simp only [deviceSynchronize]
        rw [hr.warm_up]
        simp [benchBegin, perf_monitor_start]
      · rw [hveq]
        simp only [deviceSynchronize]
        rw [hr.perf_metrics]
        simp [benchBegin, perf_monitor_start]
    | true =>
      simp only [Bool.not_true, Bool.false_eq_true, if_false] at hv
      obtain ⟨u, hr, hveq, _⟩ := p2pBranch_effect w transfers fuel _ _ hv
      refine ⟨?_, ?_, ?_, ?_⟩
      · rw [hveq]
        simp only [deviceSynchronizeChecked]
        rw [hr.perf_monitor]
        simp [benchBegin, perf_monitor_start]
      · rw [hveq]
        simp only [deviceSynchronizeChecked]
        rw [hr.nStart]
        simp [benchBegin, perf_monitor_start]
      · rw [hveq]
        simp only [deviceSynchronizeChecked]
        rw [hr.warm_up]
        simp [benchBegin, perf_monitor_start]
      · rw [hveq]
        simp only [deviceSynchronizeChecked]
        rw [hr.perf_metrics]
        simp [benchBegin, perf_monitor_start]
  obtain ⟨k1, k2, k3, k4⟩ := key
  subst ht
  cases hw : s.warm_up <;>
    simp [benchEnd, perf_monitor_stop, k1, k2, k3, k4, hw, PerfMetrics.add_new, joinedMonitor]

theorem prep_fn_nStart (transfers : Nat) (g : Bool) (s : State) :
    (prep_fn transfers g s).nStart = s.nStart := by
  unfold prep_fn
  cases g <;> simp [State.emit, deviceSynchronizeChecked]

theorem iteration_monitored (w : World) (transfers : Nat) (mode : Bool) (fuel : Nat)
    (s t : State) (h : iteration w transfers mode true fuel s = some t) :
    t.perf_monitor = joinedMonitor w s.nStart ∧ t.nStart = s.nStart + 1 ∧
    t.warm_up = s.warm_up ∧
    t.perf_metrics.gpu_powers =
      (if s.warm_up then s.perf_metrics.gpu_powers
        else s.perf_metrics.gpu_powers ++ [(joinedMonitor w s.nStart).avg_power]) ∧
    t.perf_metrics.gpu_utils =
      (if s.warm_up then s.perf_metrics.gpu_utils
        else s.perf_metrics.gpu_utils ++ [(joinedMonitor w s.nStart).avg_util]) := by
  obtain ⟨p1, p2, p3, p4, p5⟩ := bench_fn_monitored w transfers mode fuel _ t h
  obtain ⟨_, q2, _, _, q5, _⟩ := prep_fn_spec transfers true s
  rw [prep_fn_nStart] at p1 p2 p4 p5
  rw [q2] at p3 p4 p5
  rw [q5] at p4 p5
  exact ⟨p1, p2, p3, p4, p5⟩

theorem iterations_prefix (w : World) (transfers : Nat) (mode g : Bool) (fuel : Nat) (n : Nat) :
    ∀ (s t : State), iterations w transfers mode g fuel n s = some t →
      ∀ k, k ≤ n → ∃ u, iterations w transfers mode g fuel k s = some u ∧
        iterations w transfers mode g fuel (n - k) u = some t := by
  induction n with
  | zero =>
    intro s t h k hk
    have : k = 0 := by omega
    subst this
    exact ⟨s, rfl, h⟩
  | succ n ih =>
    intro s t h k hk
    cases k with
    | zero => exact ⟨s, rfl, h⟩
    | succ k =>
      simp only [iterations, Option.bind_eq_some] at h
      obtain ⟨v, hv, ht⟩ := h
      obtain ⟨u, hu, hrest⟩ := ih v t ht k (by omega)
      refine ⟨u, ?_, ?_⟩
      · simp only [iterations, Option.bind_eq_some]
        exact ⟨v, hv, hu⟩
      · have : n + 1 - (k + 1) = n - k := by omega
        rw [this]
        exact hrest

theorem iterations_monitored (w : World) (transfers : Nat) (mode : Bool) (fuel : Nat)
    (n : Nat) :
    ∀ (s t : State), iterations w transfers mode true fuel (n + 1) s = some t →
      t.perf_monitor = joinedMonitor w (s.nStart + n) ∧ t.nStart = s.nStart + (n + 1) ∧
      t.warm_up = s.warm_up := by
  induction n with
  | zero =>
    intro s t h
    simp only [iterations, Option.bind_eq_some] at h
    obtain ⟨u, hu, ht⟩ := h
    simp only [Option.some.injEq] at ht
    subst ht
    obtain ⟨p1, p2, p3, _⟩ := iteration_monitored w transfers mode fuel s u hu
    exact ⟨p1, p2, p3⟩
  | succ n ih =>
    intro s t h
    rw [iterations] at h
    simp only [Option.bind_eq_some] at h
    obtain ⟨u, hu, ht⟩ := h
    obtain ⟨_, p2, p3, _⟩ := iteration_monitored w transfers mode fuel s u hu
    obtain ⟨r1, r2, r3⟩ := ih u t ht
    refine ⟨?_, ?_, ?_⟩
    · rw [r1, p2]
      congr 1
      omega
    · rw [r2, p2]
      omega
    · rw [r3, p3]

theorem iterations_powers (w : World) (transfers : Nat) (mode : Bool) (fuel : Nat) (n : Nat) :
    ∀ (s t : State), iterations w transfers mode true fuel n s = some t →
      t.nStart = s.nStart + n ∧ t.warm_up = s.warm_up ∧
      t.perf_metrics.gpu_powers =
        (if s.warm_up then s.perf_metrics.gpu_powers
          else s.perf_metrics.gpu_powers ++
            (List.range n).map fun j => (joinedMonitor w (s.nStart + j)).avg_power) ∧
      t.perf_metrics.gpu_utils =
        (if s.warm_up then s.perf_metrics.gpu_utils
          else s.perf_metrics.gpu_utils ++
            (List.range n).map fun j => (joinedMonitor w (s.nStart + j)).avg_util) := by
  induction n with
  | zero =>
    intro s t h
    simp only [iterations, Option.some.injEq] at h
    subst h
    cases s.warm_up <;> simp
  | succ n ih =>
    intro s t h
    simp only [iterations, Option.bind_eq_some] at h
    obtain ⟨u, hu, ht⟩ := h
    obtain ⟨_, p2, p3, p4, p5⟩ := iteration_monitored w transfers mode fuel s u hu
    obtain ⟨r1, r2, r3, r4⟩ := ih u t ht
    refine ⟨by rw [r1, p2]; omega, by rw [r2, p3], ?_, ?_⟩
    · rw [r3, p3, p4, p2]
      cases s.warm_up
      · simp [List.range_succ_eq_map, Function.comp_def, Nat.add_assoc, Nat.add_comm 1]
      · simp
    · rw [r4, p3, p5, p2]
      cases s.warm_up
      · simp [List.range_succ_eq_map, Function.comp_def, Nat.add_assoc, Nat.add_comm 1]
      · simp

theorem iterationEvents_calls (w : World) (g : Bool) (s : State) (body : List Event)
    (hbody : ∀ e ∈ body, isIssue e = true ∨ isPoll e = true) :
    IterationCalls g s.warm_up (iterationEvents w g s body) :=
  ⟨w.now s.nClock, w.now (s.nClock + 1), body, by
    simp [iterationEvents, benchEvents, beginEvents, endEvents, List.append_assoc], hbody⟩

theorem iterations_calls (w : World) (transfers : Nat) (mode g : Bool) (fuel : Nat) (n : Nat) :
    ∀ (s t : State), iterations w transfers mode g fuel n s = some t →
      ∃ segs : List (List Event), segs.length = n ∧ t.trace = s.trace ++ segs.flatten ∧
        ∀ seg ∈ segs, IterationCalls g s.warm_up seg := by
  induction n with
  | zero =>
    intro s t h
    simp only [iterations, Option.some.injEq] at h
    subst h
    exact ⟨[], rfl, by simp, by simp⟩
  | succ n ih =>
    intro s t h
    simp only [iterations, Option.bind_eq_some] at h
    obtain ⟨u, hu, ht⟩ := h
    obtain ⟨body, h1, h2, _, _, _, h6, _⟩ := iteration_effect w transfers mode g fuel s u hu
    obtain ⟨segs, k1, k2, k3⟩ := ih u t ht
    refine ⟨iterationEvents w g s body :: segs, by simp [k1], by rw [k2, h1]; simp, ?_⟩
    intro seg hseg
    rcases List.mem_cons.1 hseg with rfl | hseg
    · exact iterationEvents_calls w g s body h2
    · rw [← h6]
      exact k3 seg hseg

theorem run_bench_monitored (w : World) (size transfers n_runs : Nat) (mode : Bool)
    (fuel : Nat) (s0 t : State)
    (h : run_bench w size transfers n_runs mode true fuel s0 = some (Except.ok t)) :
    (∃ warm meas : List (List Event), warm.length = 50 ∧ meas.length = n_runs ∧
      eventsSince s0 t = [Event.hipMemcpy, Event.hipMemcpy] ++ warm.flatten ++
        meas.flatten ++ [Event.hipMemcpy] ∧
      (∀ seg ∈ warm, IterationCalls true true seg) ∧
      (∀ seg ∈ meas, IterationCalls true false seg)) ∧
    t.perf_monitor = joinedMonitor w (s0.nStart + 49 + n_runs) ∧
    t.perf_metrics.gpu_powers =
      (List.range n_runs).map (fun j => (joinedMonitor w (s0.nStart + 50 + j)).avg_power) ∧
    t.perf_metrics.gpu_utils =
      (List.range n_runs).map (fun j => (joinedMonitor w (s0.nStart + 50 + j)).avg_util) := by
  unfold run_bench at h
  simp only [Option.bind_eq_some] at h
  obtain ⟨s1, h1, s2, h2, h3⟩ := h
  obtain ⟨warm, a1, a2, a3⟩ := iterations_calls w transfers mode true fuel 50 _ _ h1
  obtain ⟨meas, b1, b2, b3⟩ := iterations_calls w transfers mode true fuel n_runs _ _ h2
  obtain ⟨m1, m2, _⟩ := iterations_monitored w transfers mode fuel 49 _ _ h1
  obtain ⟨c1, _, c3, c4⟩ := iterations_powers w transfers mode fuel 50 _ _ h1
  obtain ⟨d1, _, d3, d4⟩ := iterations_powers w transfers mode fuel n_runs _ _ h2
  have hmon : s2.perf_monitor = joinedMonitor w (s0.nStart + 49 + n_runs) := by
    cases n_runs with
    | zero =>
      simp only [iterations, Option.some.injEq] at h2
      rw [← h2]
      simpa using m1
    | succ n =>
      obtain ⟨e1, _, _⟩ := iterations_monitored w transfers mode fuel n _ _ h2
      rw [e1]
      simp only [m2]
      congr 1
      omega
  split at h3
  · simp at h3
  · simp only [Option.some.injEq, Except.ok.injEq] at h3
    subst h3
    simp only [if_true] at c3 c4
    simp only [Bool.false_eq_true, if_false, c3, c4, c1, List.nil_append] at d3 d4
    refine ⟨⟨warm, meas, a1, b1, ?_, a3, b3⟩, by simpa [State.emit] using hmon, ?_, ?_⟩
    · apply eventsSince_of_trace
      simp [State.emit, b2, a2]
    · simpa [State.emit] using d3
    · simpa [State.emit] using d4

/-- C20 (amended). With monitoring enabled, the calls of a `run_bench` that returns are
the two copies of the inputs, 50 warm-up iterations, `n_runs` measured iterations and the
copy of the results; every iteration, warm-up or measured, starts the sampler right before
it reads `begin_time` and stops it right after the barrier, before it reads `end_time`, so
the sampler is started and stopped `50 + n_runs` times; after the run, and after every
iteration of a sequence of iterations, the monitor is not running and holds the samples of
that iteration only. The warm-up flag decides only whether the metrics are stored. With
monitoring disabled the sampler is never started or stopped. -/
theorem sampler_started_in_every_iteration (w : World) (transfers : Nat) (mode : Bool)
    (fuel : Nat) :
    (∀ (size n_runs : Nat) (s0 t : State),
      run_bench w size transfers n_runs mode true fuel s0 = some (Except.ok t) →
      (∃ warm meas : List (List Event), warm.length = 50 ∧ meas.length = n_runs ∧
        eventsSince s0 t = [Event.hipMemcpy, Event.hipMemcpy] ++ warm.flatten ++
          meas.flatten ++ [Event.hipMemcpy] ∧
        (∀ seg ∈ warm, IterationCalls true true seg) ∧
        (∀ seg ∈ meas, IterationCalls true false seg)) ∧
      startCount (eventsSince s0 t) = 50 + n_runs ∧
      stopCount (eventsSince s0 t) = 50 + n_runs ∧
      t.perf_monitor.running = false) ∧
    (∀ (n : Nat) (s t : State), iterations w transfers mode true fuel n s = some t →
      startCount (eventsSince s t) = n ∧ stopCount (eventsSince s t) = n ∧
      ∀ k, k < n → ∃ u, iterations w transfers mode true fuel (k + 1) s = some u ∧
        u.perf_monitor.running = false ∧ u.perf_monitor.samples = w.sampled (s.nStart + k)) ∧
    (∀ (size n_runs : Nat) (s0 t : State),
      run_bench w size transfers n_runs mode false fuel s0 = some (Except.ok t) →
      startCount (eventsSince s0 t) = 0 ∧ stopCount (eventsSince s0 t) = 0) := by
  refine ⟨fun size n_runs s0 t h => ?_, fun n s t h => ?_, fun size n_runs s0 t h => ?_⟩
  · obtain ⟨hcalls, hmon, _, _⟩ := run_bench_monitored w size transfers n_runs mode fuel s0 t h
    obtain ⟨c1, c2⟩ := run_bench_startCount w size transfers n_runs mode true fuel s0 t h
    exact ⟨hcalls, by simpa using c1, by simpa using c2, by rw [hmon]; rfl⟩
  · obtain ⟨seg, k1, k2, k3⟩ := iterations_startCount w transfers mode true fuel n s t h
    rw [eventsSince_of_trace k1]
    refine ⟨by simpa using k2, by simpa using k3, fun k hk => ?_⟩
    obtain ⟨u, hu, _⟩ := iterations_prefix w transfers mode true fuel n s t h (k + 1) (by omega)
    obtain ⟨m1, _, _⟩ := iterations_monitored w transfers mode fuel k s u hu
    exact ⟨u, hu, by rw [m1]; rfl, by rw [m1]; rfl⟩
  · obtain ⟨c1, c2⟩ := run_bench_startCount w size transfers n_runs mode false fuel s0 t h
    exact ⟨by simpa using c1, by simpa using c2⟩

/-- C20, witness. A monitored run with one transfer and `n_runs = 2` returns; its monitor is
not running afterwards. -/
theorem sampler_started_in_every_iteration_witness :
    ∃ t, run_bench (readyWorld 1 (-511)) 4 1 2 true true 1 (startState 1) =
        some (Except.ok t) ∧
      (∃ warm meas : List (List Event), warm.length = 50 ∧ meas.length = 2 ∧
        eventsSince (startState 1) t = [Event.hipMemcpy, Event.hipMemcpy] ++ warm.flatten ++
          meas.flatten ++ [Event.hipMemcpy] ∧
        (∀ seg ∈ warm, IterationCalls true true seg) ∧
        (∀ seg ∈ meas, IterationCalls true false seg)) ∧
      t.perf_monitor.running = false := by
  obtain ⟨t, ht⟩ := TwoSided.run_bench_total (readyWorld 1 (-511)) 4 1 2 true true 1
    (startState 1) (TwoSided.readyWorld_live 1 (-511) true) (by decide)
  obtain ⟨h1, _, _, h4⟩ :=
    (sampler_started_in_every_iteration (readyWorld 1 (-511)) 1 true 1).1 4 2 _ t ht
  exact ⟨t, ht, h1, h4⟩

/-- C30. With `gpu_perf_monitoring` enabled, the calls of a `bench_fn` that returns are:
`perf_monitor.start()`, the reading of `begin_time`, the operations and polls of the branch,
the barrier, `perf_monitor.stop()`, the reading of `end_time` (and the storing of the metrics
outside warm-up); the latency stored is the difference of the two clock readings; and when
`end_time` is read `stop()` has joined the sampling thread: the monitor is not running and
holds the samples of the thread started in this call, whose averages are the power and the
utilization stored. With it disabled, a `run_bench` that returns, entered with a monitor that
holds no samples, has called neither `start()` nor `stop()` and has stored power 0 and
utilization 0 for each of its `n_runs` measured iterations. -/
theorem sampler_stop_inside_timed_interval (w : World) (transfers : Nat) (mode : Bool)
    (fuel : Nat) :
    (∀ (s t : State), bench_fn w transfers mode true fuel s = some t →
      (∃ body, eventsSince s t =
          [Event.perf_start, Event.now (w.now s.nClock)] ++ body ++
            [Event.hipDeviceSynchronize, Event.perf_stop, Event.now (w.now (s.nClock + 1))] ++
            (if s.warm_up then [] else [Event.add_new]) ∧
        (∀ e ∈ body, isIssue e = true ∨ isPoll e = true)) ∧
      t.perf_metrics.latencies =
        (if s.warm_up then s.perf_metrics.latencies
          else s.perf_metrics.latencies ++ [elapsedFrom w s]) ∧
      t.perf_monitor = { running := false, samples := w.sampled s.nStart } ∧
      t.perf_metrics.gpu_powers =
        (if s.warm_up then s.perf_metrics.gpu_powers
          else s.perf_metrics.gpu_powers ++ [(joinedMonitor w s.nStart).avg_power]) ∧
      t.perf_metrics.gpu_utils =
        (if s.warm_up then s.perf_metrics.gpu_utils
          else s.perf_metrics.gpu_utils ++ [(joinedMonitor w s.nStart).avg_util])) ∧
    (∀ (size n_runs : Nat) (s0 t : State), s0.perf_monitor.samples = [] →
      run_bench w size transfers n_runs mode false fuel s0 = some (Except.ok t) →
      startCount (eventsSince s0 t) = 0 ∧ stopCount (eventsSince s0 t) = 0 ∧
      t.perf_metrics.gpu_powers = List.replicate n_runs 0 ∧
      t.perf_metrics.gpu_utils = List.replicate n_runs 0) := by
  constructor
  · intro s t h
    obtain ⟨body, htr, hbody, _, _, _, _, _, _, _, hlat⟩ :=
      bench_fn_effect w transfers mode true fuel s t h
    obtain ⟨m1, _, _, m4, m5⟩ := bench_fn_monitored w transfers mode fuel s t h
    refine ⟨⟨body, ?_, hbody⟩, hlat, m1, m4, m5⟩
    rw [eventsSince_of_trace htr]
    simp [benchEvents, beginEvents, endEvents]
  · intro size n_runs s0 t hs h
    obtain ⟨c1, c2⟩ := run_bench_startCount w size transfers n_runs mode false fuel s0 t h
    obtain ⟨p1, p2⟩ := run_bench_unmonitored w size transfers n_runs mode fuel s0 t h
    have h1 : s0.perf_monitor.avg_power = 0 := by simp [PerfMonitor.avg_power, hs]
    have h2 : s0.perf_monitor.avg_util = 0 := by simp [PerfMonitor.avg_util, hs]
    rw [h1] at p1
    rw [h2] at p2
    exact ⟨by simpa using c1, by simpa using c2, p1, p2⟩

/-- C30, witness. A monitored staged `bench_fn` with two transfers returns with the monitor
stopped and joined; a staged benchmark of 3 measured runs without monitoring stores power 0
and utilization 0 three times. -/
theorem sampler_stop_inside_timed_interval_witness :
    (∃ t, bench_fn (readyWorld 2 0) 2 false true 1 (startState 2) = some t ∧
      (∃ body, eventsSince (startState 2) t =
        [Event.perf_start, Event.now ((readyWorld 2 0).now (startState 2).nClock)] ++ body ++
          [Event.hipDeviceSynchronize, Event.perf_stop,
            Event.now ((readyWorld 2 0).now ((startState 2).nClock + 1))] ++
          (if (startState 2).warm_up then [] else [Event.add_new])) ∧
      t.perf_monitor = { running := false, samples := (readyWorld 2 0).sampled 0 }) ∧
    (∃ t, run_bench (readyWorld 2 (-511)) 8 2 3 false false 1 (startState 2) =
        some (Except.ok t) ∧
      t.perf_metrics.gpu_powers = List.replicate 3 0 ∧
      t.perf_metrics.gpu_utils = List.replicate 3 0) := by
  obtain ⟨t1, ht1⟩ : ∃ t, bench_fn (readyWorld 2 0) 2 false true 1 (startState 2) = some t :=
    Option.isSome_iff_exists.1 (by decide)
  obtain ⟨t2, ht2⟩ := TwoSided.run_bench_total (readyWorld 2 (-511)) 8 2 3 false false 1
    (startState 2) (TwoSided.readyWorld_live 2 (-511) false) (by decide)
  obtain ⟨⟨body, hb, _⟩, _, hm, _⟩ :=
    (sampler_stop_inside_timed_interval (readyWorld 2 0) 2 false 1).1 _ t1 ht1
  obtain ⟨_, _, g1, g2⟩ :=
    (sampler_stop_inside_timed_interval (readyWorld 2 (-511)) 2 false 1).2 8 3 _ t2 rfl ht2
  exact ⟨⟨t1, ht1, ⟨body, hb⟩, hm⟩, ⟨t2, ht2, g1, g2⟩⟩

end TwoSided

namespace ImageRegistration

theorem waitAbove_never (w : World) (oper : CoyoteOper) (baseline : Nat) (s : State)
    (h : ∀ j, w.checkCompleted (s.nCheck + j) ≤ baseline) (fuel : Nat) :
    waitAbove w oper baseline fuel s = none :=
  waitAbove_spins w oper baseline fuel s (fun j _ => h j)

/-- While no reading of the counter from the third reading of the call on exceeds the
baseline, no `compute_mi` returns, whatever the cut. -/
theorem compute_mi_waits (v : Variant) (w : World) (s : State)
    (h : ∀ k, w.checkCompleted (s.nCheck + 2 + k) ≤ w.checkCompleted s.nCheck) (fuel : Nat) :
    compute_mi v w fuel s = none := by
  cases v with
  | hal =>
    simp only [compute_mi, compute_mi_hal]
    rw [waitAbove_never]
    · rfl
    · intro j
      simpa [readBaselineAndInvokeReads, startKernel, readCounter, readClock, State.emit,
        Nat.add_assoc] using h j
  | registration_step =>
    simp only [compute_mi, compute_mi_registration_step]
    rw [waitAbove_never]
    intro j
    simpa [readBaselineAndInvokeReads, startKernel, readCounter, State.emit,
      Nat.add_assoc] using h j
  | mutual_information =>
    simp only [compute_mi, compute_mi_mutual_information]
    rw [waitAbove_never]
    intro j
    have e : s.nCheck + 2 + (2 + j) = s.nCheck + (4 + j) := by omega
    have := h (2 + j)
    rw [e] at this
    simpa [readBaselineAndInvokeReads, startKernel, readCounter, State.emit,
      Nat.add_assoc] using this
  | p2p_registration_step =>
    simp only [compute_mi, compute_mi_p2p_registration_step]
    rw [waitAbove_never]
    · rfl
    · intro j
      simpa [readBaselineAndInvokeReads, startKernel, readCounter, readClock, State.emit,
        Nat.add_assoc] using h j
  | reg_prog_registration_step =>
    simp only [compute_mi, compute_mi_reg_prog_registration_step]
    rw [waitAbove_never]
    · rfl
    · intro j
      simpa [readBaselineAndInvokeReads, startKernel, readCounter, State.emit,
        TwoSided.deviceSynchronizeChecked, Nat.add_assoc] using h j

theorem compute_mi_shape (v : Variant) (w : World) (fuel : Nat)
    (s t : State) (h : compute_mi v w fuel s = some t) :
    MiShape (TwoSided.eventsSince s t) := by
  cases v with
  | hal => exact compute_mi_hal_shape w fuel s t h
  | registration_step => exact compute_mi_registration_step_shape w fuel s t h
  | mutual_information => exact compute_mi_mutual_information_shape w fuel s t h
  | p2p_registration_step => exact compute_mi_p2p_registration_step_shape w fuel s t h
  | reg_prog_registration_step => exact compute_mi_reg_prog_registration_step_shape w fuel s t h

/-- C19. For each of the five Coyote-mode `compute_mi`: once the counter, from the fifth
reading of the call on, exceeds the count read first, the function returns; whenever it
returns, its calls are calls that issue and poll nothing, the reading of the `LOCAL_WRITE`
counter kept as baseline, then calls whose issued operations are exactly the `LOCAL_READ`
invokes with `dest` 0, 1 and 2, the control-register write and the `LOCAL_WRITE` invoke in
that order, then `LOCAL_WRITE` readings that do not exceed the baseline, then a
`LOCAL_WRITE` reading strictly above the baseline, and after it nothing that issues an
operation; and while no reading after the first two exceeds the baseline it does not
return. -/
theorem compute_mi_baseline_before_operations (v : Variant) (w : World) (s : State) :
    ((∃ k, w.checkCompleted s.nCheck < w.checkCompleted (s.nCheck + 4 + k)) →
      ∃ fuel t, compute_mi v w fuel s = some t ∧ MiShape (TwoSided.eventsSince s t)) ∧
    (∀ fuel t, compute_mi v w fuel s = some t → MiShape (TwoSided.eventsSince s t)) ∧
    ((∀ k, w.checkCompleted (s.nCheck + 2 + k) ≤ w.checkCompleted s.nCheck) →
      ∀ fuel, compute_mi v w fuel s = none) := by
  refine ⟨fun hex => ?_, fun fuel t h => compute_mi_shape v w fuel s t h,
    fun h fuel => compute_mi_waits v w s h fuel⟩
  obtain ⟨fuel, t, ht⟩ := compute_mi_returns v w s hex
  exact ⟨fuel, t, ht, compute_mi_shape v w fuel s t ht⟩

/-- C19, witness. On a device whose counter goes up every third reading, each of the five
`compute_mi`, started with a stale count, returns, and its calls have the shape. -/
theorem compute_mi_baseline_before_operations_witness :
    (∃ t, compute_mi Variant.hal slowWorld 2 State.init = some t ∧
      MiShape (TwoSided.eventsSince State.init t)) ∧
    (∃ t, compute_mi Variant.registration_step slowWorld 2 State.init = some t ∧
      MiShape (TwoSided.eventsSince State.init t)) ∧
    (∃ t, compute_mi Variant.mutual_information slowWorld 2 State.init = some t ∧
      MiShape (TwoSided.eventsSince State.init t)) ∧
    (∃ t, compute_mi Variant.p2p_registration_step slowWorld 2 State.init = some t ∧
      MiShape (TwoSided.eventsSince State.init t)) ∧
    (∃ t, compute_mi Variant.reg_prog_registration_step slowWorld 2 State.init = some t ∧
      MiShape (TwoSided.eventsSince State.init t)) :=
  ⟨⟨_, rfl, (compute_mi_baseline_before_operations Variant.hal slowWorld State.init).2.1
      2 _ rfl⟩,
    ⟨_, rfl, (compute_mi_baseline_before_operations Variant.registration_step slowWorld
      State.init).2.1 2 _ rfl⟩,
    ⟨_, rfl, (compute_mi_baseline_before_operations Variant.mutual_information slowWorld
      State.init).2.1 2 _ rfl⟩,
    ⟨_, rfl, (compute_mi_baseline_before_operations Variant.p2p_registration_step slowWorld
      State.init).2.1 2 _ rfl⟩,
    ⟨_, rfl, (compute_mi_baseline_before_operations Variant.reg_prog_registration_step
      slowWorld State.init).2.1 2 _ rfl⟩⟩

end ImageRegistration

namespace Scatter

theorem scatter_overflows (d : Device)
    (hset : ∀ n, d.hipSetDevice n = hipError_t.hipSuccess)
    (hcopy : ∀ n, d.hipMemcpyAsync n = hipError_t.hipSuccess)
    (len : Nat) (hlen : 2 ^ 31 + 8192 ≤ len) (s : State) :
    scatter d len s = Except.error Fault.signed_overflow := by
  have hn : 2 ^ 18 + 1 ≤ len / 8192 := by
    rw [Nat.le_div_iff_mul_le (by norm_num)]
    omega
  obtain ⟨r, hr⟩ : ∃ r, len / 8192 = 2 ^ 18 + (r + 1) := ⟨len / 8192 - 2 ^ 18 - 1, by omega⟩
  unfold scatter
  rw [hr, List.range_add, List.foldlM_append]
  obtain ⟨u, hu⟩ := foldlM_returns (scatterStep d) (List.range (2 ^ 18))
    (fun v i hi => scatterStep_returns d hset hcopy v i (by
      have := List.mem_range.1 hi
      omega)) s
  have hstep : scatterStep d u (2 ^ 18 + 0) = Except.error Fault.signed_overflow := by
    obtain ⟨v, hv⟩ := selectGpu_returns d hset ((2 ^ 18 + 0) % NUM_GPUS) u
    simp only [scatterStep, hv]
    rw [if_neg (by norm_num)]
  rw [hu, List.range_succ_eq_map, List.map_cons]
  simp only [bind, Except.bind, List.foldlM_cons, hstep]

/-- With a device that answers every call with success and whose counter shows `transfers`
at some reading, `bench_fn` stops in the scatter loop, at the `int` product `i * 8192`, for
every `len >= 2^31 + 8192`. -/
theorem bench_fn_overflows (d : Device) (transfers len k : Nat) (s : State)
    (htransfers : transfers < 2 ^ 31) (hlen : 2 ^ 31 + 8192 ≤ len)
    (hset : ∀ n, d.hipSetDevice n = hipError_t.hipSuccess)
    (hcopy : ∀ n, d.hipMemcpyAsync n = hipError_t.hipSuccess)
    (hk : d.checkCompleted (s.nCheck + k) = transfers) :
    bench_fn d transfers len (k + 1) s = Except.error Fault.signed_overflow := by
  unfold bench_fn
  cases hinv : invokeAll transfers s with
  | error e =>
    rw [invokeAll, if_pos htransfers] at hinv
    cases hinv
  | ok s1 =>
    have hck := (invokeAll_ok transfers s s1 hinv).2
    obtain ⟨s2, hs2⟩ := waitAll_returns d transfers k s1 (by rw [hck]; exact hk)
    simp only [hs2, scatter_overflows d hset hcopy len hlen s2]

/-- C22 (amended). With `transfers < 2^31`, a device that answers every call with success
and a completion counter that shows `transfers` at some reading: for every
`len < 2^31 + 8192` the `bench_fn` of the scatter client returns, having invoked `transfers`
operations, waited for the reading equal to `transfers`, then for every `i < len / 8192`
selected GPU `i % 4` and copied the 8192 bytes of `mem` from offset `8192 * i` to the start
of `dest_buffers[i % 4]`, bytes from `8192 * (len / 8192)` on not being copied, and
synchronised the four GPUs; for `len >= 2^31 + 8192` it stops at the `int` product
`i * 8192`. Whatever the device, a `bench_fn` that returns has done the former. -/
theorem bench_fn_scatters_after_all_received (d : Device) (transfers len k : Nat) (s : State)
    (htransfers : transfers < 2 ^ 31)
    (hset : ∀ n, d.hipSetDevice n = hipError_t.hipSuccess)
    (hcopy : ∀ n, d.hipMemcpyAsync n = hipError_t.hipSuccess)
    (hsync : ∀ n, d.hipDeviceSynchronize n = hipError_t.hipSuccess)
    (hk : d.checkCompleted (s.nCheck + k) = transfers) :
    (len < 2 ^ 31 + 8192 →
      ∃ t, bench_fn d transfers len (k + 1) s = Except.ok t ∧ Scattered d transfers len s t) ∧
    (2 ^ 31 + 8192 ≤ len →
      bench_fn d transfers len (k + 1) s = Except.error Fault.signed_overflow) ∧
    (∀ (d' : Device) (fuel : Nat) (t : State),
      bench_fn d' transfers len fuel s = Except.ok t → Scattered d' transfers len s t) := by
  refine ⟨fun hlen => ?_, fun hlen =>
    bench_fn_overflows d transfers len k s htransfers hlen hset hcopy hk,
    fun d' fuel t h => bench_fn_shape d' transfers len fuel s t h⟩
  obtain ⟨t, ht⟩ := bench_fn_returns d transfers len k s htransfers hlen hset hcopy hsync hk
  exact ⟨t, ht, bench_fn_shape d transfers len (k + 1) s t ht⟩

/-- C22, witness. Two transfers of 20000 bytes: the counter shows 2 at the third reading,
two chunks of 8192 bytes go to GPUs 0 and 1, and the last 3616 bytes are not copied. -/
theorem bench_fn_scatters_after_all_received_witness :
    ∃ t, bench_fn countingDevice 2 20000 (2 + 1) State.init = Except.ok t ∧
      Scattered countingDevice 2 20000 State.init t :=
  (bench_fn_scatters_after_all_received countingDevice 2 20000 2 State.init (by decide)
    (fun _ => rfl) (fun _ => rfl) (fun _ => rfl) rfl).1 (by decide)

/-- C22, counterexample. Two transfers of `2^31 + 8192` bytes on a device that answers every
call with success: the scatter loop reaches `i = 2^18`, whose offset `i * 8192 = 2^31` is not
an `int`, and `bench_fn` does not return, so the copy of the last full chunk is not
issued. -/
theorem bench_fn_large_transfer_overflows :
    bench_fn countingDevice 2 (2 ^ 31 + 8192) 3 State.init =
        Except.error Fault.signed_overflow ∧
      (2 ^ 31 + 8192) / 8192 = 2 ^ 18 + 1 ∧ ¬ 2 ^ 18 * 8192 < 2 ^ 31 :=
  ⟨bench_fn_overflows countingDevice 2 (2 ^ 31 + 8192) 2 State.init (by decide) (le_refl _)
    (fun _ => rfl) (fun _ => rfl) rfl, by norm_num, by norm_num⟩

end Scatter

namespace ImageFiles

theorem foldlM_ok_mem {α β : Type} (stepM : β → α → Except Stop β) :
    ∀ (l : List α) (v t : β), l.foldlM stepM v = Except.ok t →
      ∀ a ∈ l, ∃ u u', stepM u a = Except.ok u' := by
  intro l
  induction l with
  | nil =>
    intro v t _ a ha
    cases ha
  | cons b l ih =>
    intro v t h a ha
    rw [List.foldlM_cons] at h
    cases hst : stepM v b with
    | error e =>
      rw [hst] at h
      cases h
    | ok u =>
      rw [hst] at h
      rcases List.mem_cons.1 ha with rfl | hal
      · exact ⟨v, u, hst⟩
      · exact ih u t h a hal

theorem voxelIndexInt_of_lt (size depth i j k : Nat)
    (h : voxelIndex size depth i j k < 2 ^ 31) :
    voxelIndexInt size depth i j k = Except.ok (voxelIndex size depth i j k) := by
  rw [voxelIndexInt, if_pos h]

theorem voxelIndexInt_ok (size depth i j k idx : Nat)
    (h : voxelIndexInt size depth i j k = Except.ok idx) :
    idx = voxelIndex size depth i j k ∧ voxelIndex size depth i j k < 2 ^ 31 := by
  unfold voxelIndexInt at h
  split at h
  · cases h
    exact ⟨rfl, by assumption⟩
  · cases h

/-- A `save_volume_into_folder` that returns has evaluated every voxel index within the
range of `int`. -/
theorem save_ok_in_range (size depth : Nat) (volume slice0 : Nat → Nat) (folder : List Image)
    (h : save_volume_into_folder volume size depth slice0 = Except.ok folder)
    (i j k : Nat) (hi : i < size) (hj : j < size) (hk : k < depth) :
    voxelIndex size depth i j k < 2 ^ 31 := by
  unfold save_volume_into_folder at h
  split at h
  · cases hs : (List.range depth).foldlM (saveStep size depth volume) (slice0, []) with
    | error e =>
      simp only [hs] at h
      cases h
    | ok st =>
      obtain ⟨u, u', hu⟩ := foldlM_ok_mem _ _ _ _ hs k (List.mem_range.2 hk)
      unfold saveStep at hu
      cases hx : extractSlice size depth k volume u.1 with
      | error e =>
        simp only [hx] at hu
        cases hu
      | ok sl =>
        obtain ⟨v, v', hv⟩ := foldlM_ok_mem _ _ _ _ hx i (List.mem_range.2 hi)
        obtain ⟨p, p', hp⟩ := foldlM_ok_mem _ _ _ _ hv j (List.mem_range.2 hj)
        unfold extractPixel at hp
        cases hidx : voxelIndexInt size depth i j k with
        | error e =>
          simp only [hidx] at hp
          cases hp
        | ok idx => exact (voxelIndexInt_ok size depth i j k idx hidx).2
  · cases h

theorem round_trip_ok (size depth : Nat) (hd : 1 ≤ depth)
    (volume slice volume0 volume1 : Nat → Nat) (folder : List Image)
    (hsave : save_volume_into_folder volume size depth slice = Except.ok folder)
    (hread : read_volume_from_folder volume0 size depth folder = Except.ok volume1) (x : Nat) :
    volume1 x = if x < size * size * depth then volume x else volume0 x := by
  rw [read_ok size depth folder volume0 volume1 hd hread x]
  by_cases hx : x < size * size * depth
  · rw [if_pos hx, if_pos hx]
    have hp : x / depth < size * size := (Nat.div_lt_iff_lt_mul (by omega)).2 hx
    rw [(save_ok size depth volume slice folder hsave).2 (x % depth)
      (Nat.mod_lt _ (by omega)) (x / depth) hp, Nat.mul_comm]
    rw [Nat.div_add_mod]
  · rw [if_neg hx, if_neg hx]

/-- C27 (amended). For `depth >= 1` and `size * size * depth <= 2^31`, the range in which
the `int` expression `i * size * depth + j * depth + k` is defined for every voxel: the
expression maps the triples with `i, j < size` and `k < depth` one-to-one onto the indices
below `size * size * depth`; `save_volume_into_folder` returns the `depth` slices of a
volume, `read_volume_from_folder` returns on them, and the memory read into then holds the
volume at every index below `size * size * depth` and is unchanged elsewhere. -/
theorem voxel_index_bijective_round_trip (size depth : Nat) (hd : 1 ≤ depth)
    (hsize : size * size * depth ≤ 2 ^ 31) :
    (∀ i j k, i < size → j < size → k < depth →
      voxelIndexInt size depth i j k = Except.ok (voxelIndex size depth i j k) ∧
      voxelIndex size depth i j k < size * size * depth) ∧
    (∀ i j k i' j' k', i < size → j < size → k < depth → i' < size → j' < size → k' < depth →
      voxelIndexInt size depth i j k = voxelIndexInt size depth i' j' k' →
      i = i' ∧ j = j' ∧ k = k') ∧
    (∀ x, x < size * size * depth →
      ∃ i j k, i < size ∧ j < size ∧ k < depth ∧
        voxelIndexInt size depth i j k = Except.ok x) ∧
    (∀ (volume slice volume0 : Nat → Nat),
      ∃ folder volume1, save_volume_into_folder volume size depth slice = Except.ok folder ∧
        folder.length = depth ∧
        read_volume_from_folder volume0 size depth folder = Except.ok volume1 ∧
        ∀ x, volume1 x = if x < size * size * depth then volume x else volume0 x) := by
  have hint : ∀ i j k, i < size → j < size → k < depth →
      voxelIndexInt size depth i j k = Except.ok (voxelIndex size depth i j k) := by
    intro i j k hi hj hk
    have := voxelIndex_lt size depth i j k hi hj hk
    exact voxelIndexInt_of_lt size depth i j k (by omega)
  refine ⟨fun i j k hi hj hk => ⟨hint i j k hi hj hk, voxelIndex_lt size depth i j k hi hj hk⟩,
    fun i j k i' j' k' hi hj hk hi' hj' hk' h => ?_, fun x hx => ?_,
    fun volume slice volume0 => ?_⟩
  · rw [hint i j k hi hj hk, hint i' j' k' hi' hj' hk'] at h
    exact voxelIndex_inj size depth i j k i' j' k' hj hk hj' hk' (Except.ok.inj h)
  · obtain ⟨i, j, k, hi, hj, hk, hidx⟩ := voxelIndex_surj size depth x hx
    exact ⟨i, j, k, hi, hj, hk, by rw [hint i j k hi hj hk, hidx]⟩
  · obtain ⟨folder, volume1, hsave, hread⟩ :=
      round_trip_returns size depth hd hsize volume slice volume0
    exact ⟨folder, volume1, hsave, (save_ok size depth volume slice folder hsave).1, hread,
      fun x => round_trip_ok size depth hd volume slice volume0 volume1 folder hsave hread x⟩

/-- C27, witness. A volume of two slices of 2 by 2 pixels, saved and read back into memory
that held zeros. -/
theorem voxel_index_bijective_round_trip_witness :
    save_volume_into_folder (fun x => x + 1) 2 2 (fun _ => 0) =
      Except.ok [⟨2, 2, 1, [1, 3, 5, 7]⟩, ⟨2, 2, 1, [2, 4, 6, 8]⟩] ∧
    ∃ folder volume1,
      save_volume_into_folder (fun x => x + 1) 2 2 (fun _ => 0) = Except.ok folder ∧
      folder.length = 2 ∧
      read_volume_from_folder (fun _ => 0) 2 2 folder = Except.ok volume1 ∧
      ∀ x, volume1 x = if x < 2 * 2 * 2 then x + 1 else 0 :=
  ⟨rfl, (voxel_index_bijective_round_trip 2 2 (by decide) (by decide)).2.2.2
    (fun x => x + 1) (fun _ => 0) (fun _ => 0)⟩

/-- C27, counterexample. A volume of 8193 slices of 512 by 512 pixels has
`2^31 + 2^18` voxels: the `int` index of its last voxel is not defined, and
`save_volume_into_folder` does not return on it. -/
theorem voxel_index_overflows_on_large_volume :
    voxelIndexInt 512 8193 511 511 8192 = Except.error Stop.int_overflow ∧
    512 * 512 * 8193 = 2 ^ 31 + 2 ^ 18 ∧
    ∀ (volume slice : Nat → Nat) (folder : List Image),
      save_volume_into_folder volume 512 8193 slice ≠ Except.ok folder := by
  refine ⟨rfl, by norm_num, fun volume slice folder h => ?_⟩
  have := save_ok_in_range 512 8193 volume slice folder h 511 511 8192 (by decide)
    (by decide) (by decide)
  revert this
  decide

end ImageFiles

namespace SoftwareMI

theorem foldl_minus_eq (log2 : ℚ → ℚ) :
    ∀ (values : List ℚ) (H : ℚ),
      values.foldl (fun H p => if nonzero p then H - p * log2 p else H) H =
        H - ((values.filter fun p => decide (p ≠ 0)).map fun p => p * log2 p).sum := by
  intro values
  induction values with
  | nil => intro H; simp
  | cons q l ih =>
    intro H
    rw [List.foldl_cons, ih]
    by_cases hq : q = 0
    · simp [nonzero, hq]
    · simp [nonzero, hq, List.filter_cons]
      ring

theorem foldl_plus_eq (log2 : ℚ → ℚ) :
    ∀ (values : List ℚ) (e : ℚ),
      values.foldl (fun e v => if nonzero v then e + v * log2 v else e) e =
        e + ((values.filter fun p => decide (p ≠ 0)).map fun p => p * log2 p).sum := by
  intro values
  induction values with
  | nil => intro e; simp
  | cons q l ih =>
    intro e
    rw [List.foldl_cons, ih]
    by_cases hq : q = 0
    · simp [nonzero, hq]
    · simp [nonzero, hq, List.filter_cons]
      ring

theorem entropyMinus_nonzero (log2 : ℚ → ℚ) (values : List ℚ) :
    entropyMinus log2 nonzero values = entropy log2 values := by
  unfold entropyMinus entropy
  rw [foldl_minus_eq]
  ring

theorem entropyPlus_nonzero (log2 : ℚ → ℚ) (values : List ℚ) :
    entropyPlus log2 nonzero values = entropy log2 values := by
  unfold entropyPlus entropy
  rw [foldl_plus_eq]
  ring

theorem entries_congr (bins : Nat) (f g : Nat → Nat → ℚ)
    (h : ∀ i j, i < bins → j < bins → f i j = g i j) : entries bins f = entries bins g := by
  unfold entries
  apply List.flatMap_congr
  intro i hi
  apply List.map_congr_left
  intro j hj
  exact h i j (List.mem_range.1 hi) (List.mem_range.1 hj)

theorem normalized_lists (bins norm : Nat) (j_h : Nat → Nat → ℚ) (c : Nat → Nat → Nat)
    (hc : ∀ a b, j_h a b = (c a b : ℚ)) :
    entries bins (fun i j => normalize bins (norm : ℚ) j_h i j) =
      jointProbabilities bins c norm ∧
    entries bins (fun i j => normalize bins (norm : ℚ) j_h j i) =
      jointProbabilitiesByColumn bins c norm ∧
    (List.range bins).map (fun i => accumulate bins fun j => normalize bins (norm : ℚ) j_h i j) =
      rowProbabilities bins c norm ∧
    (List.range bins).map (fun i => accumulate bins fun j => normalize bins (norm : ℚ) j_h j i) =
      columnProbabilities bins c norm := by
  refine ⟨?_, ?_, ?_, ?_⟩
  · exact entries_congr bins _ _ (fun i j hi hj => normalize_form bins norm j_h c hc i j hi hj)
  · exact entries_congr bins _ _ (fun i j hi hj => normalize_form bins norm j_h c hc j i hj hi)
  · exact List.map_congr_left (fun i hi => row_form bins norm j_h c hc i (List.mem_range.1 hi))
  · exact List.map_congr_left (fun i hi =>
      column_form bins norm j_h c hc i (List.mem_range.1 hi))

/-- What `software_mi` of `mutual_information.cpp` returns when its histogram loops return
and the number of voxels is below `10^12`: the entropy of the reference bytes plus the
entropy of the floating bytes minus the joint entropy. -/
theorem software_mi_value (log2 : ℚ → ℚ) (bins DIMENSION N : Nat)
    (input_ref input_flt : Nat → Nat) (j_h : Nat → Nat → ℚ)
    (h : jointHistogram input_ref input_flt DIMENSION N = Except.ok j_h)
    (hnorm : N * DIMENSION * DIMENSION < 10 ^ 12) :
    software_mi log2 bins DIMENSION N input_ref input_flt =
      Except.ok
        (entropy log2 (rowProbabilities bins
            (pairCount input_ref input_flt (List.range (DIMENSION * DIMENSION * N)))
            (N * DIMENSION * DIMENSION)) +
          entropy log2 (columnProbabilities bins
            (pairCount input_ref input_flt (List.range (DIMENSION * DIMENSION * N)))
            (N * DIMENSION * DIMENSION)) -
          entropy log2 (jointProbabilities bins
            (pairCount input_ref input_flt (List.range (DIMENSION * DIMENSION * N)))
            (N * DIMENSION * DIMENSION))) := by
  rw [software_mi_eq_nonzero log2 bins DIMENSION N input_ref input_flt hnorm]
  unfold software_mi_with
  simp only [Nat.add_zero, h]
  have hcast : (N : ℚ) * DIMENSION * DIMENSION = ((N * DIMENSION * DIMENSION : Nat) : ℚ) := by
    push_cast
    ring
  rw [hcast]
  obtain ⟨l1, _, l3, l4⟩ := normalized_lists bins (N * DIMENSION * DIMENSION) j_h _
    (jointHistogram_counts input_ref input_flt DIMENSION N j_h h)
  rw [l1, l3, l4, entropyMinus_nonzero, entropyMinus_nonzero, entropyMinus_nonzero]

/-- What `software_mi` of `registration_step.cpp` returns when its histogram loops return and
the number of voxels is an `int`. -/
theorem software_mi_registration_step_value (log2 : ℚ → ℚ) (bins DIMENSION N : Nat)
    (input_ref input_flt : Nat → Nat) (j_h : Nat → Nat → ℚ)
    (h : jointHistogram input_ref input_flt DIMENSION N = Except.ok j_h)
    (hint : N * DIMENSION * DIMENSION < 2 ^ 31) :
    software_mi_registration_step log2 bins DIMENSION N input_ref input_flt =
      Except.ok
        (entropy log2 (rowProbabilities bins
            (pairCount input_ref input_flt (List.range (DIMENSION * DIMENSION * N)))
            (N * DIMENSION * DIMENSION)) +
          entropy log2 (columnProbabilities bins
            (pairCount input_ref input_flt (List.range (DIMENSION * DIMENSION * N)))
            (N * DIMENSION * DIMENSION)) -
          entropy log2 (jointProbabilitiesByColumn bins
            (pairCount input_ref input_flt (List.range (DIMENSION * DIMENSION * N)))
            (N * DIMENSION * DIMENSION))) := by
  rw [software_mi_registration_step_eq_nonzero log2 bins DIMENSION N input_ref input_flt
    (by omega)]
  unfold software_mi_registration_step_with
  dsimp only
  rw [h]
  dsimp only
  rw [if_pos hint]
  obtain ⟨_, l2, l3, l4⟩ := normalized_lists bins (N * DIMENSION * DIMENSION) j_h _
    (jointHistogram_counts input_ref input_flt DIMENSION N j_h h)
  rw [l2, l3, l4, entropyPlus_nonzero, entropyPlus_nonzero, entropyPlus_nonzero]

/-- A histogram loop that returns has evaluated every voxel index within the range of
`int`. -/
theorem jointHistogram_ok_in_range (input_ref input_flt : Nat → Nat) (DIMENSION N : Nat)
    (j_h : Nat → Nat → ℚ) (h : jointHistogram input_ref input_flt DIMENSION N = Except.ok j_h)
    (i j k : Nat) (hi : i < DIMENSION) (hj : j < DIMENSION) (hk : k < N) :
    ImageFiles.voxelIndex DIMENSION N i j k < 2 ^ 31 := by
  obtain ⟨u, u', hu⟩ := ImageFiles.foldlM_ok_mem _ _ _ _ h k (List.mem_range.2 hk)
  obtain ⟨v, v', hv⟩ := ImageFiles.foldlM_ok_mem _ _ _ _ hu i (List.mem_range.2 hi)
  obtain ⟨p, p', hp⟩ := ImageFiles.foldlM_ok_mem _ _ _ _ hv j (List.mem_range.2 hj)
  unfold countVoxel at hp
  cases hidx : ImageFiles.voxelIndexInt DIMENSION N i j k with
  | error e =>
    simp only [hidx] at hp
    cases hp
  | ok idx => exact (ImageFiles.voxelIndexInt_ok DIMENSION N i j k idx hidx).2

theorem software_mi_of_no_histogram (log2 : ℚ → ℚ) (bins DIMENSION N : Nat)
    (input_ref input_flt : Nat → Nat)
    (h : ∀ j_h, jointHistogram input_ref input_flt DIMENSION N ≠ Except.ok j_h) (r : ℚ) :
    software_mi log2 bins DIMENSION N input_ref input_flt ≠ Except.ok r ∧
    software_mi_registration_step log2 bins DIMENSION N input_ref input_flt ≠ Except.ok r := by
  constructor
  · unfold software_mi software_mi_with
    simp only [Nat.add_zero]
    cases hj : jointHistogram input_ref input_flt DIMENSION N with
    | error e =>
      intro hc
      cases hc
    | ok j_h => exact absurd hj (h j_h)
  · unfold software_mi_registration_step software_mi_registration_step_with
    dsimp only
    cases hj : jointHistogram input_ref input_flt DIMENSION N with
    | error e =>
      intro hc
      cases hc
    | ok j_h => exact absurd hj (h j_h)

/-- C28 (amended). For `n_couples >= 1`, `DIMENSION >= 1`, at least 256 bins and
`DIMENSION^2 * n_couples <= 2^31`, the range in which the `int` voxel index is defined: the
divisor `n_couples * DIMENSION^2` is not zero and is below `10^12`; the histogram loops of
`software_mi` return, every bin holds the number of voxels with its byte pair, each voxel
counted once, and the bins sum to `n_couples * DIMENSION^2`; every joint probability, row sum
and column sum that is not zero is above `1e-12` and `1e-15`; and `software_mi` returns the
entropy of the reference bytes plus the entropy of the floating bytes minus the joint
entropy, each entropy taken over the probabilities that are not zero (in
`registration_step.cpp` when the divisor, an `int`, is below `2^31`). -/
theorem software_mi_counts_once_cutoffs_skip_zero (log2 : ℚ → ℚ) (bins DIMENSION N : Nat)
    (input_ref input_flt : Nat → Nat) (hN : 1 ≤ N) (hD : 1 ≤ DIMENSION) (hbins : 256 ≤ bins)
    (hsize : DIMENSION * DIMENSION * N ≤ 2 ^ 31) :
    (N : ℚ) * DIMENSION * DIMENSION ≠ 0 ∧ N * DIMENSION * DIMENSION < 10 ^ 12 ∧
    (∃ j_h, jointHistogram input_ref input_flt DIMENSION N = Except.ok j_h ∧
      (∀ a b, j_h a b =
        (pairCount input_ref input_flt (List.range (DIMENSION * DIMENSION * N)) a b : ℚ)) ∧
      accumulate bins (fun a => accumulate bins fun b => j_h a b) =
        (N : ℚ) * DIMENSION * DIMENSION ∧
      (∀ a b, a < bins → b < bins →
        normalize bins ((N : ℚ) * DIMENSION * DIMENSION) j_h a b ≠ 0 →
        normalize bins ((N : ℚ) * DIMENSION * DIMENSION) j_h a b > 1 / 10 ^ 12 ∧
        normalize bins ((N : ℚ) * DIMENSION * DIMENSION) j_h a b > 1 / 10 ^ 15) ∧
      (∀ a, a < bins →
        accumulate bins (fun b =>
          normalize bins ((N : ℚ) * DIMENSION * DIMENSION) j_h a b) ≠ 0 →
        accumulate bins (fun b =>
          normalize bins ((N : ℚ) * DIMENSION * DIMENSION) j_h a b) > 1 / 10 ^ 12 ∧
        accumulate bins (fun b =>
          normalize bins ((N : ℚ) * DIMENSION * DIMENSION) j_h a b) > 1 / 10 ^ 15) ∧
      (∀ b, b < bins →
        accumulate bins (fun a =>
          normalize bins ((N : ℚ) * DIMENSION * DIMENSION) j_h a b) ≠ 0 →
        accumulate bins (fun a =>
          normalize bins ((N : ℚ) * DIMENSION * DIMENSION) j_h a b) > 1 / 10 ^ 12 ∧
        accumulate bins (fun a =>
          normalize bins ((N : ℚ) * DIMENSION * DIMENSION) j_h a b) > 1 / 10 ^ 15)) ∧
    software_mi log2 bins DIMENSION N input_ref input_flt =
      Except.ok
        (entropy log2 (rowProbabilities bins
            (pairCount input_ref input_flt (List.range (DIMENSION * DIMENSION * N)))
            (N * DIMENSION * DIMENSION)) +
          entropy log2 (columnProbabilities bins
            (pairCount input_ref input_flt (List.range (DIMENSION * DIMENSION * N)))
            (N * DIMENSION * DIMENSION)) -
          entropy log2 (jointProbabilities bins
            (pairCount input_ref input_flt (List.range (DIMENSION * DIMENSION * N)))
            (N * DIMENSION * DIMENSION))) ∧
    (N * DIMENSION * DIMENSION < 2 ^ 31 →
      software_mi_registration_step log2 bins DIMENSION N input_ref input_flt =
        Except.ok
          (entropy log2 (rowProbabilities bins
              (pairCount input_ref input_flt (List.range (DIMENSION * DIMENSION * N)))
              (N * DIMENSION * DIMENSION)) +
            entropy log2 (columnProbabilities bins
              (pairCount input_ref input_flt (List.range (DIMENSION * DIMENSION * N)))
              (N * DIMENSION * DIMENSION)) -
            entropy log2 (jointProbabilitiesByColumn bins
              (pairCount input_ref input_flt (List.range (DIMENSION * DIMENSION * N)))
              (N * DIMENSION * DIMENSION)))) := by
  obtain ⟨j_h, h⟩ := jointHistogram_returns input_ref input_flt DIMENSION N hsize
  have hcount := jointHistogram_counts input_ref input_flt DIMENSION N j_h h
  have hcast : (N : ℚ) * DIMENSION * DIMENSION = ((N * DIMENSION * DIMENSION : Nat) : ℚ) := by
    push_cast
    ring
  have hnorm : N * DIMENSION * DIMENSION < 10 ^ 12 := by
    have e : N * DIMENSION * DIMENSION = DIMENSION * DIMENSION * N := by ring
    rw [e]
    have : (2 : Nat) ^ 31 < 10 ^ 12 := by norm_num
    omega
  refine ⟨?_, hnorm, ⟨j_h, h, hcount,
    histogram_total input_ref input_flt bins DIMENSION N hbins j_h h,
    fun a b ha hb => ?_, fun a ha => ?_, fun b hb => ?_⟩,
    software_mi_value log2 bins DIMENSION N input_ref input_flt j_h h hnorm,
    fun hint => software_mi_registration_step_value log2 bins DIMENSION N input_ref input_flt
      j_h h hint⟩
  · have h1 : (0 : ℚ) < N := by exact_mod_cast hN
    have h2 : (0 : ℚ) < DIMENSION := by exact_mod_cast hD
    positivity
  · rw [hcast, normalize_form bins _ j_h _ hcount a b ha hb]
    exact above_cutoffs _ _ hnorm
  · rw [hcast, row_form bins _ j_h _ hcount a ha]
    exact above_cutoffs _ _ hnorm
  · rw [hcast, column_form bins _ j_h _ hcount b hb]
    exact above_cutoffs _ _ hnorm

/-- C28, witness. One couple of 2 by 2 images, every reference byte 7 and every floating byte
9: bin (7, 9) holds 4, the 256 by 256 bins sum to `1 * 2 * 2`, and `software_mi` returns the
combination of the three entropies. -/
theorem software_mi_counts_once_cutoffs_skip_zero_witness :
    (∃ j_h, jointHistogram (fun _ => 7) (fun _ => 9) 2 1 = Except.ok j_h ∧ j_h 7 9 = 4 ∧
      accumulate 256 (fun a => accumulate 256 fun b => j_h a b) =
        ((1 : Nat) : ℚ) * ((2 : Nat) : ℚ) * ((2 : Nat) : ℚ)) ∧
    software_mi (fun _ => 1) 256 2 1 (fun _ => 7) (fun _ => 9) =
      Except.ok
        (entropy (fun _ => 1) (rowProbabilities 256
            (pairCount (fun _ => 7) (fun _ => 9) (List.range (2 * 2 * 1))) (1 * 2 * 2)) +
          entropy (fun _ => 1) (columnProbabilities 256
            (pairCount (fun _ => 7) (fun _ => 9) (List.range (2 * 2 * 1))) (1 * 2 * 2)) -
          entropy (fun _ => 1) (jointProbabilities 256
            (pairCount (fun _ => 7) (fun _ => 9) (List.range (2 * 2 * 1))) (1 * 2 * 2))) := by
  obtain ⟨_, _, ⟨j_h, h1, h2, h3, _⟩, h4, _⟩ :=
    software_mi_counts_once_cutoffs_skip_zero (fun _ => 1) 256 2 1 (fun _ => 7) (fun _ => 9)
      (by decide) (by decide) (by decide) (by decide)
  refine ⟨⟨j_h, h1, ?_, h3⟩, h4⟩
  rw [h2]
  have : pairCount (fun _ => 7) (fun _ => 9) (List.range (2 * 2 * 1)) 7 9 = 4 := by decide
  rw [this]
  norm_num

/-- C28, counterexample. With `DIMENSION = 512` and `n_couples = 8193` the number of voxels,
`2^31 + 2^18`, is below `10^12`, but the `int` index of the last voxel is not defined: the
histogram loops do not return, and neither `software_mi` returns a value. -/
theorem software_mi_overflows_below_cutoff_bound :
    8193 * 512 * 512 < 10 ^ 12 ∧ 8193 * 512 * 512 = 2 ^ 31 + 2 ^ 18 ∧
    ImageFiles.voxelIndexInt 512 8193 511 511 8192 =
      Except.error ImageFiles.Stop.int_overflow ∧
    (∀ (input_ref input_flt : Nat → Nat) (j_h : Nat → Nat → ℚ),
      jointHistogram input_ref input_flt 512 8193 ≠ Except.ok j_h) ∧
    (∀ (log2 : ℚ → ℚ) (bins : Nat) (input_ref input_flt : Nat → Nat) (r : ℚ),
      software_mi log2 bins 512 8193 input_ref input_flt ≠ Except.ok r ∧
      software_mi_registration_step log2 bins 512 8193 input_ref input_flt ≠ Except.ok r) := by
  have hno : ∀ (input_ref input_flt : Nat → Nat) (j_h : Nat → Nat → ℚ),
      jointHistogram input_ref input_flt 512 8193 ≠ Except.ok j_h := by
    intro input_ref input_flt j_h h
    have := jointHistogram_ok_in_range input_ref input_flt 512 8193 j_h h 511 511 8192
      (by decide) (by decide) (by decide)
    revert this
    decide
  exact ⟨by norm_num, by norm_num, rfl, hno, fun log2 bins input_ref input_flt r =>
    software_mi_of_no_histogram log2 bins 512 8193 input_ref input_flt
      (hno input_ref input_flt) r⟩

end SoftwareMI

end Ropeerto
